import Mathlib

/-!
Memory-manager simulator (`simulador_memoria.c`): shallow embedding.

The C program keeps one global `MemorySystem` and mutates it in place.  Here
every C function becomes a pure function that takes the state and returns the
new state (together with the C return value, when there is one).

Modelling conventions:

* C `int` values are `Int`.  The page arithmetic and the space check of
  `create_process` are done in 32-bit two's complement (`wrap32`), so that
  large sizes behave as on the machine.  Statistics counters are small
  integers that are only ever incremented; they are kept unbounded.
* C arrays are lists; `getI` and `setI` read and write at an `int` index.
  A `for (i = 0; i < n; i++)` loop ranges over `indices n`.
* `time(NULL)` is an input: every operation takes the clock reading `now`
  (one reading per operation).
* `printf` output is not part of the state and is left out.
-/

namespace MemSim

/-! ## Constants and configuration -/

def MAX_PROCESSES : Int := 50
def MAX_LOG_ENTRIES : Int := 1000

/-- The four sizing globals `RAM_SIZE`, `SWAP_SIZE`, `PAGE_SIZE`, `TLB_SIZE`. -/
structure Config where
  RAM_SIZE : Int
  SWAP_SIZE : Int
  PAGE_SIZE : Int
  TLB_SIZE : Int
deriving DecidableEq, Repr

/-- The defaults of the source: 2048 KB RAM, 4096 KB Swap, 256 KB pages, 4 TLB entries. -/
def defaultConfig : Config := ⟨2048, 4096, 256, 4⟩

/-- 32-bit two's complement wrap-around of a C `int` result. -/
def wrap32 (x : Int) : Int := (x + 2147483648) % 4294967296 - 2147483648

/-- `NUM_RAM_FRAMES = RAM_SIZE / PAGE_SIZE` (C division truncates). -/
def NUM_RAM_FRAMES (cfg : Config) : Int := Int.tdiv cfg.RAM_SIZE cfg.PAGE_SIZE

/-- `NUM_SWAP_FRAMES = SWAP_SIZE / PAGE_SIZE`. -/
def NUM_SWAP_FRAMES (cfg : Config) : Int := Int.tdiv cfg.SWAP_SIZE cfg.PAGE_SIZE

/-! ## Data structures -/

inductive PageState where
  | PAGE_FREE
  | PAGE_IN_RAM
  | PAGE_IN_SWAP
  | PAGE_NOT_PRESENT
deriving DecidableEq, Repr

inductive ProcessState where
  | PROC_ACTIVE
  | PROC_SUSPENDED
  | PROC_SWAPPED
  | PROC_TERMINATED
deriving DecidableEq, Repr

structure PageTableEntry where
  page_number : Int
  frame_number : Int
  state : PageState
  valid : Bool
  modified : Bool
  swap_position : Int
  last_access : Int
  load_time : Int
deriving DecidableEq, Repr

structure PCB where
  pid : Int
  name : String
  size : Int
  num_pages : Int
  state : ProcessState
  page_table : List PageTableEntry
  creation_time : Int
  page_faults : Int
deriving DecidableEq, Repr

structure TLBEntry where
  pid : Int
  page_number : Int
  frame_number : Int
  valid : Bool
  last_access : Int
deriving DecidableEq, Repr

structure Frame where
  pid : Int
  page_number : Int
  occupied : Bool
  load_time : Int
deriving DecidableEq, Repr

structure FIFOQueue where
  queue : List Int
  front : Int
  rear : Int
  size : Int
  capacity : Int
deriving DecidableEq, Repr

structure LogEntry where
  timestamp : Int
  message : String
deriving DecidableEq, Repr

structure MemorySystem where
  ram_frames : List Frame
  swap_frames : List Frame
  processes : List (Option PCB)
  num_processes : Int
  tlb : List TLBEntry
  fifo_queue : FIFOQueue
  logs : List LogEntry
  log_count : Int
  total_page_faults : Int
  total_swaps : Int
  total_tlb_hits : Int
  total_tlb_misses : Int
  total_memory_accesses : Int
  start_time : Int
deriving DecidableEq, Repr

/-! ## Array access at a C `int` index -/

/-- Read `l[i]`; `d` stands for the content of memory outside the array. -/
def getI {α : Type} (l : List α) (i : Int) (d : α) : α :=
  if 0 ≤ i then l.getD i.toNat d else d

/-- Write `l[i] = x`; a write outside the array leaves the array as it is. -/
def setI {α : Type} (l : List α) (i : Int) (x : α) : List α :=
  if 0 ≤ i then l.set i.toNat x else l

/-- The values taken by `i` in `for (int i = 0; i < n; i++)`. -/
def indices (n : Int) : List Int := (List.range n.toNat).map Int.ofNat

/-- A frame as `init_system` leaves it. -/
def emptyFrame : Frame := ⟨-1, -1, false, 0⟩

/-- A TLB slot as `init_tlb` leaves it. -/
def emptyTLBEntry : TLBEntry := ⟨-1, -1, -1, false, 0⟩

/-- Stand-in for a page-table entry read outside the table. -/
def emptyPageEntry : PageTableEntry :=
  ⟨-1, -1, PageState.PAGE_FREE, false, false, -1, 0, 0⟩

def ramAt (s : MemorySystem) (f : Int) : Frame := getI s.ram_frames f emptyFrame
def swapAt (s : MemorySystem) (f : Int) : Frame := getI s.swap_frames f emptyFrame
def tlbAt (s : MemorySystem) (i : Int) : TLBEntry := getI s.tlb i emptyTLBEntry
def procAt (s : MemorySystem) (i : Int) : Option PCB := getI s.processes i none
def pageAt (p : PCB) (i : Int) : PageTableEntry := getI p.page_table i emptyPageEntry

/-! ## FIFO queue -/

def create_fifo_queue (capacity : Int) : FIFOQueue :=
  { queue := List.replicate capacity.toNat 0, front := 0, rear := -1, size := 0,
    capacity := capacity }

def enqueue_fifo (q : FIFOQueue) (frame_index : Int) : FIFOQueue :=
  if q.size ≥ q.capacity then q
  else
    let rear := Int.tmod (q.rear + 1) q.capacity
    { q with rear := rear, queue := setI q.queue rear frame_index, size := q.size + 1 }

def dequeue_fifo (q : FIFOQueue) : Int × FIFOQueue :=
  if q.size = 0 then (-1, q)
  else
    let frame_index := getI q.queue q.front 0
    (frame_index, { q with front := Int.tmod (q.front + 1) q.capacity, size := q.size - 1 })

def is_fifo_empty (q : FIFOQueue) : Bool := decide (q.size = 0)

/-! ## Log -/

/-- The log array holds `log_count` written entries; `logs` lists them in order.
`strncpy` keeps at most 255 characters of the message. -/
def add_log (s : MemorySystem) (now : Int) (message : String) : MemorySystem :=
  if s.log_count ≥ MAX_LOG_ENTRIES then s
  else { s with logs := s.logs ++ [⟨now, message.take 255⟩], log_count := s.log_count + 1 }

/-! ## TLB -/

def init_tlb (cfg : Config) : List TLBEntry :=
  List.replicate cfg.TLB_SIZE.toNat emptyTLBEntry

/-- Index of the first valid TLB slot holding `(pid, page_number)`. -/
def tlb_find (cfg : Config) (s : MemorySystem) (pid page_number : Int) : Option Int :=
  (indices cfg.TLB_SIZE).find? (fun i =>
    (tlbAt s i).valid && decide ((tlbAt s i).pid = pid) &&
      decide ((tlbAt s i).page_number = page_number))

def tlb_lookup (cfg : Config) (s : MemorySystem) (pid page_number now : Int) :
    Int × MemorySystem :=
  match tlb_find cfg s pid page_number with
  | some i =>
    ((tlbAt s i).frame_number,
      { s with tlb := setI s.tlb i { tlbAt s i with last_access := now },
               total_tlb_hits := s.total_tlb_hits + 1 })
  | none => (-1, { s with total_tlb_misses := s.total_tlb_misses + 1 })

/-- The scan of `tlb_update`: stops at the first invalid slot, otherwise tracks
the slot with the strictly smallest `last_access` seen so far. -/
def tlb_victim_scan (tlb : List TLBEntry) : List Int → Int → Int → Int
  | [], victim_index, _ => victim_index
  | i :: rest, victim_index, oldest_time =>
    if !(getI tlb i emptyTLBEntry).valid then i
    else if (getI tlb i emptyTLBEntry).last_access < oldest_time then
      tlb_victim_scan tlb rest i (getI tlb i emptyTLBEntry).last_access
    else tlb_victim_scan tlb rest victim_index oldest_time

/-- The slot `tlb_update` replaces. The source starts from `tlb[0].last_access`
(l.291-292) whatever `TLB_SIZE` is. -/
def tlb_victim (cfg : Config) (s : MemorySystem) : Int :=
  tlb_victim_scan s.tlb (indices cfg.TLB_SIZE) 0 (tlbAt s 0).last_access

/-- The store of `tlb_update` (l.306-310). The source reads `tlb[0]` and stores at
`tlb[victim_index]` unconditionally; with `TLB_SIZE ≤ 0` that is an access outside the
allocated block, undefined in C, which the write through `setI` does not describe. The
definition describes the code for `1 ≤ TLB_SIZE`. -/
def tlb_update (cfg : Config) (s : MemorySystem) (pid page_number frame_number now : Int) :
    MemorySystem :=
  { s with tlb := setI s.tlb (tlb_victim cfg s) ⟨pid, page_number, frame_number, true, now⟩ }

def tlb_invalidate (cfg : Config) (s : MemorySystem) (pid : Int) : MemorySystem :=
  { s with tlb := (indices cfg.TLB_SIZE).foldl (fun tlb i =>
      if (getI tlb i emptyTLBEntry).valid && decide ((getI tlb i emptyTLBEntry).pid = pid) then
        setI tlb i { getI tlb i emptyTLBEntry with valid := false }
      else tlb) s.tlb }

/-! ## Initialisation -/

def init_system (cfg : Config) (now : Int) : MemorySystem :=
  add_log
    { ram_frames := List.replicate (NUM_RAM_FRAMES cfg).toNat emptyFrame
      swap_frames := List.replicate (NUM_SWAP_FRAMES cfg).toNat emptyFrame
      processes := List.replicate MAX_PROCESSES.toNat none
      num_processes := 0
      tlb := init_tlb cfg
      fifo_queue := create_fifo_queue (NUM_RAM_FRAMES cfg)
      logs := []
      log_count := 0
      total_page_faults := 0
      total_swaps := 0
      total_tlb_hits := 0
      total_tlb_misses := 0
      total_memory_accesses := 0
      start_time := now }
    now "Sistema de memoria inicializado correctamente"

/-! ## Lookups -/

/-- The slot of the first live process with the given pid (the loop of `find_process`). -/
def find_process_slot (s : MemorySystem) (pid : Int) : Option Int :=
  (indices MAX_PROCESSES).find? (fun i =>
    match procAt s i with
    | some p => decide (p.pid = pid)
    | none => false)

def find_process (s : MemorySystem) (pid : Int) : Option PCB :=
  match find_process_slot s pid with
  | some i => procAt s i
  | none => none

def find_free_ram_frame (cfg : Config) (s : MemorySystem) : Int :=
  ((indices (NUM_RAM_FRAMES cfg)).find? (fun i => !(ramAt s i).occupied)).getD (-1)

def find_free_swap_frame (cfg : Config) (s : MemorySystem) : Int :=
  ((indices (NUM_SWAP_FRAMES cfg)).find? (fun i => !(swapAt s i).occupied)).getD (-1)

def select_victim_page_fifo (s : MemorySystem) : Int × MemorySystem :=
  if is_fifo_empty s.fifo_queue then (-1, s)
  else ((dequeue_fifo s.fifo_queue).1, { s with fifo_queue := (dequeue_fifo s.fifo_queue).2 })

/-- A write through the pointer `process` obtained from the directory slot `slot`. -/
def modify_process (s : MemorySystem) (slot : Int) (f : PCB → PCB) : MemorySystem :=
  match procAt s slot with
  | some p => { s with processes := setI s.processes slot (some (f p)) }
  | none => s

/-- The write `p->page_table[i] = e`. -/
def set_page (p : PCB) (i : Int) (e : PageTableEntry) : PCB :=
  { p with page_table := setI p.page_table i e }

/-- A frame after `pid = -1; page_number = -1; occupied = false` (its `load_time` stays). -/
def released_frame (fr : Frame) : Frame :=
  { fr with pid := -1, page_number := -1, occupied := false }

/-- A page entry after the four writes of `swap_out_page`. -/
def swapped_out_entry (e : PageTableEntry) (swap_frame : Int) : PageTableEntry :=
  { e with state := PageState.PAGE_IN_SWAP, frame_number := -1,
           swap_position := swap_frame, valid := false }

/-- A page entry after the five writes of `swap_in_page`. -/
def swapped_in_entry (e : PageTableEntry) (ram_frame now : Int) : PageTableEntry :=
  { e with state := PageState.PAGE_IN_RAM, frame_number := ram_frame,
           swap_position := -1, valid := true, load_time := now }

/-- The increment `process->page_faults++`. -/
def count_fault (p : PCB) : PCB :=
  { p with page_faults := p.page_faults + 1 }

/-! ## Swap out / swap in -/

def swap_out_page (cfg : Config) (s : MemorySystem) (frame_index now : Int) :
    Bool × MemorySystem :=
  if frame_index < 0 ∨ frame_index ≥ NUM_RAM_FRAMES cfg then (false, s)
  else if !(ramAt s frame_index).occupied then (false, s)
  else
    match find_process_slot s (ramAt s frame_index).pid with
    | none => (false, s)
    | some slot =>
      let ram_frame := ramAt s frame_index
      let page_number := ram_frame.page_number
      let swap_frame := find_free_swap_frame cfg s
      if swap_frame = -1 then
        (false, add_log s now
          ("ERROR: No hay espacio en Swap para el Proceso " ++ toString ram_frame.pid ++
            ", Página " ++ toString page_number))
      else
        let s1 := { s with
          swap_frames := setI s.swap_frames swap_frame ⟨ram_frame.pid, page_number, true, now⟩ }
        let s2 := modify_process s1 slot (fun p =>
          set_page p page_number (swapped_out_entry (pageAt p page_number) swap_frame))
        let s3 := { s2 with
          ram_frames := setI s2.ram_frames frame_index (released_frame ram_frame) }
        let s4 := tlb_invalidate cfg s3 ram_frame.pid
        let s5 := { s4 with total_swaps := s4.total_swaps + 1 }
        (true, add_log s5 now
          ("SWAP OUT: Proceso " ++ toString ram_frame.pid ++ ", Página " ++
            toString page_number ++ " movida de RAM[" ++ toString frame_index ++
            "] a Swap[" ++ toString swap_frame ++ "]"))

/-- The part of `swap_in_page` after a RAM frame `ram_frame` has been obtained. -/
def swap_in_finish (cfg : Config) (s : MemorySystem)
    (slot pid page_number swap_position ram_frame now : Int) : MemorySystem :=
  let s1 := { s with ram_frames := setI s.ram_frames ram_frame ⟨pid, page_number, true, now⟩ }
  let s2 := modify_process s1 slot (fun p =>
    set_page p page_number (swapped_in_entry (pageAt p page_number) ram_frame now))
  let s3 := { s2 with
    swap_frames := setI s2.swap_frames swap_position (released_frame (swapAt s2 swap_position)) }
  let s4 := tlb_update cfg s3 pid page_number ram_frame now
  let s5 := { s4 with fifo_queue := enqueue_fifo s4.fifo_queue ram_frame }
  let s6 := { s5 with total_swaps := s5.total_swaps + 1 }
  let s7 := modify_process s6 slot count_fault
  let s8 := { s7 with total_page_faults := s7.total_page_faults + 1 }
  add_log s8 now
    ("SWAP IN: Proceso " ++ toString pid ++ ", Página " ++ toString page_number ++
      " movida de Swap[" ++ toString swap_position ++ "] a RAM[" ++ toString ram_frame ++ "]")

def swap_in_page (cfg : Config) (s : MemorySystem) (pid page_number now : Int) :
    Bool × MemorySystem :=
  match find_process_slot s pid with
  | none => (false, s)
  | some slot =>
    match procAt s slot with
    | none => (false, s)
    | some process =>
      if page_number < 0 ∨ page_number ≥ process.num_pages then (false, s)
      else if (pageAt process page_number).state ≠ PageState.PAGE_IN_SWAP then (false, s)
      else
        let swap_position := (pageAt process page_number).swap_position
        if swap_position < 0 ∨ swap_position ≥ NUM_SWAP_FRAMES cfg then (false, s)
        else
          let ram_frame := find_free_ram_frame cfg s
          if ram_frame = -1 then
            let victim_frame := (select_victim_page_fifo s).1
            let sv := (select_victim_page_fifo s).2
            if victim_frame = -1 then
              (false, add_log sv now
                ("ERROR: No se pudo encontrar página víctima para Proceso " ++ toString pid))
            else if !(swap_out_page cfg sv victim_frame now).1 then
              (false, (swap_out_page cfg sv victim_frame now).2)
            else
              (true, swap_in_finish cfg (swap_out_page cfg sv victim_frame now).2
                slot pid page_number swap_position victim_frame now)
          else
            (true, swap_in_finish cfg s slot pid page_number swap_position ram_frame now)

/-! ## Direct allocation in RAM -/

/-- The routine `allocate_page_in_ram`: the lowest free RAM frame, or else the frame of a
victim taken from the queue and swapped out; the frame is given to `(pid, page_number)` and
enqueued. -/
def allocate_page_in_ram (cfg : Config) (s : MemorySystem) (pid page_number now : Int) :
    Int × MemorySystem :=
  let frame_index := find_free_ram_frame cfg s
  if frame_index = -1 then
    let victim_frame := (select_victim_page_fifo s).1
    let sv := (select_victim_page_fifo s).2
    if victim_frame = -1 then (-1, sv)
    else if !(swap_out_page cfg sv victim_frame now).1 then
      (-1, (swap_out_page cfg sv victim_frame now).2)
    else
      let s1 := (swap_out_page cfg sv victim_frame now).2
      let s2 := { s1 with
        ram_frames := setI s1.ram_frames victim_frame ⟨pid, page_number, true, now⟩ }
      (victim_frame, { s2 with fifo_queue := enqueue_fifo s2.fifo_queue victim_frame })
  else
    let s2 := { s with
      ram_frames := setI s.ram_frames frame_index ⟨pid, page_number, true, now⟩ }
    (frame_index, { s2 with fifo_queue := enqueue_fifo s2.fifo_queue frame_index })

/-! ## Process creation -/

/-- The occupied-space count of `create_process`, accumulated in `int`. -/
def used_space (cfg : Config) (s : MemorySystem) : Int :=
  (indices (NUM_SWAP_FRAMES cfg)).foldl
    (fun u i => if (swapAt s i).occupied then wrap32 (u + cfg.PAGE_SIZE) else u)
    ((indices (NUM_RAM_FRAMES cfg)).foldl
      (fun u i => if (ramAt s i).occupied then wrap32 (u + cfg.PAGE_SIZE) else u) 0)

/-- The lowest empty directory slot, or `-1`. -/
def find_free_slot (s : MemorySystem) : Int :=
  ((indices MAX_PROCESSES).find? (fun i => (procAt s i).isNone)).getD (-1)

/-- A frame after the rollback writes `occupied = false; pid = -1`. -/
def rolled_back_frame (fr : Frame) : Frame :=
  { fr with occupied := false, pid := -1 }

/-- One step of the rollback loop of `create_process` for an already placed page. -/
def rollback_page (s : MemorySystem) (e : PageTableEntry) : MemorySystem :=
  if e.state = PageState.PAGE_IN_RAM then
    { s with
      ram_frames := setI s.ram_frames e.frame_number (rolled_back_frame (ramAt s e.frame_number)) }
  else if e.state = PageState.PAGE_IN_SWAP then
    { s with
      swap_frames := setI s.swap_frames e.swap_position (rolled_back_frame (swapAt s e.swap_position)) }
  else s

/-- The rollback loop: `page_table` holds the entries `0 .. i-1` written so far. -/
def rollback_pages (s : MemorySystem) (page_table : List PageTableEntry) : MemorySystem :=
  page_table.foldl rollback_page s

/-- Result of the placement loop of `create_process`. -/
structure Placement where
  ok : Bool
  sys : MemorySystem
  page_table : List PageTableEntry
  pages_in_ram : Int
deriving DecidableEq, Repr

/-- The placement loop `for (i = 0; i < num_pages; i++)` of `create_process`.
The first argument counts the iterations still to run, `i` is the loop variable,
`page_table` holds the entries written so far (the table is filled in order). -/
def place_pages (cfg : Config) (pid now : Int) :
    Nat → Int → MemorySystem → List PageTableEntry → Int → Placement
  | 0, _, s, page_table, pages_in_ram => ⟨true, s, page_table, pages_in_ram⟩
  | todo + 1, i, s, page_table, pages_in_ram =>
    if find_free_ram_frame cfg s ≠ -1 then
      let frame := find_free_ram_frame cfg s
      let s1 := { s with ram_frames := setI s.ram_frames frame ⟨pid, i, true, now⟩ }
      let s2 := { s1 with fifo_queue := enqueue_fifo s1.fifo_queue frame }
      let s3 := tlb_update cfg s2 pid i frame now
      place_pages cfg pid now todo (i + 1) s3
        (page_table ++ [⟨i, frame, PageState.PAGE_IN_RAM, true, false, -1, now, now⟩])
        (pages_in_ram + 1)
    else if find_free_swap_frame cfg s = -1 then
      ⟨false, rollback_pages s page_table, page_table, pages_in_ram⟩
    else
      let swap_frame := find_free_swap_frame cfg s
      let s1 := { s with swap_frames := setI s.swap_frames swap_frame ⟨pid, i, true, now⟩ }
      place_pages cfg pid now todo (i + 1) s1
        (page_table ++ [⟨i, -1, PageState.PAGE_IN_SWAP, false, false, swap_frame, 0, now⟩])
        pages_in_ram

/-- The page count `(size_kb + PAGE_SIZE - 1) / PAGE_SIZE` in `int` arithmetic. -/
def num_pages_of (cfg : Config) (size_kb : Int) : Int :=
  Int.tdiv (wrap32 (wrap32 (size_kb + cfg.PAGE_SIZE) - 1)) cfg.PAGE_SIZE

/-- The space check of `create_process`: true when the request is refused. -/
def space_check_fails (cfg : Config) (s : MemorySystem) (num_pages : Int) : Bool :=
  decide (wrap32 (used_space cfg s + wrap32 (num_pages * cfg.PAGE_SIZE)) >
    wrap32 (wrap32 (NUM_RAM_FRAMES cfg + NUM_SWAP_FRAMES cfg) * cfg.PAGE_SIZE))

def create_process (cfg : Config) (s : MemorySystem) (name : String) (size_kb now : Int) :
    Int × MemorySystem :=
  if s.num_processes ≥ MAX_PROCESSES then (-1, s)
  else if size_kb ≤ 0 then (-1, s)
  else
    let num_pages := num_pages_of cfg size_kb
    if space_check_fails cfg s num_pages then (-1, s)
    else
      let slot := find_free_slot s
      if slot = -1 then (-1, s)
      else
        let pid := slot + 1
        let r := place_pages cfg pid now num_pages.toNat 0 s [] 0
        if !r.ok then (-1, r.sys)
        else
          let process : PCB :=
            { pid := pid, name := name.take 31, size := size_kb, num_pages := num_pages,
              state :=
                if r.pages_in_ram = 0 ∨ (r.pages_in_ram > 0 ∧ r.pages_in_ram < num_pages)
                then ProcessState.PROC_SWAPPED else ProcessState.PROC_ACTIVE,
              page_table := r.page_table, creation_time := now, page_faults := 0 }
          let s1 := { r.sys with
            processes := setI r.sys.processes slot (some process),
            num_processes := r.sys.num_processes + 1 }
          (pid, add_log s1 now
            ("Proceso creado: PID=" ++ toString pid ++ ", Nombre=\x27" ++ name.take 31 ++
              "\x27, Tamaño=" ++ toString size_kb ++ " KB, Páginas=" ++ toString num_pages ++
              " (RAM:" ++ toString r.pages_in_ram ++ ", Swap:" ++
              toString (num_pages - r.pages_in_ram) ++ ")"))

/-! ## Process termination -/

/-- One step of the release loop of `terminate_process`. -/
def release_page (s : MemorySystem) (e : PageTableEntry) : MemorySystem :=
  if e.state = PageState.PAGE_IN_RAM then
    { s with
      ram_frames := setI s.ram_frames e.frame_number (released_frame (ramAt s e.frame_number)) }
  else if e.state = PageState.PAGE_IN_SWAP then
    { s with
      swap_frames := setI s.swap_frames e.swap_position (released_frame (swapAt s e.swap_position)) }
  else s

def terminate_process (cfg : Config) (s : MemorySystem) (pid now : Int) :
    Bool × MemorySystem :=
  match find_process s pid with
  | none => (false, s)
  | some process =>
    let s1 := ((indices process.num_pages).map (fun i => pageAt process i)).foldl release_page s
    let s2 := tlb_invalidate cfg s1 pid
    let s3 := add_log s2 now
      ("Proceso terminado: PID=" ++ toString process.pid ++ ", Nombre=\x27" ++ process.name ++
        "\x27, Page Faults=" ++ toString process.page_faults)
    match find_process_slot s3 pid with
    | some i =>
      (true, { s3 with processes := setI s3.processes i none,
                       num_processes := s3.num_processes - 1 })
    | none => (true, s3)

/-! ## Simulated page access (menu option 7) -/

/-- Which branch of menu option 7 was taken, with the frame it reports. -/
inductive AccessOutcome where
  | no_processes
  | process_not_found
  | invalid_page
  | tlb_hit (frame : Int)
  | page_in_ram (frame : Int)
  | page_fault_resolved (frame : Int)
  | swap_in_failed
  | page_not_present
deriving DecidableEq, Repr

def simulate_access (cfg : Config) (s : MemorySystem) (pid page now : Int) :
    AccessOutcome × MemorySystem :=
  if s.num_processes = 0 then (AccessOutcome.no_processes, s)
  else
    match find_process s pid with
    | none => (AccessOutcome.process_not_found, s)
    | some process =>
      if page < 0 ∨ page ≥ process.num_pages then (AccessOutcome.invalid_page, s)
      else
        let s1 := { s with total_memory_accesses := s.total_memory_accesses + 1 }
        let frame := (tlb_lookup cfg s1 pid page now).1
        let s2 := (tlb_lookup cfg s1 pid page now).2
        if frame ≠ -1 then
          (AccessOutcome.tlb_hit frame, add_log s2 now
            ("Acceso a memoria: Proceso " ++ toString pid ++ ", Página " ++ toString page ++
              " - TLB HIT (Marco " ++ toString frame ++ ")"))
        else
          let entry := pageAt process page
          if entry.state = PageState.PAGE_IN_RAM then
            (AccessOutcome.page_in_ram entry.frame_number,
              add_log (tlb_update cfg s2 pid page entry.frame_number now) now
                ("Acceso a memoria: Proceso " ++ toString pid ++ ", Página " ++
                  toString page ++ " - En RAM (Marco " ++ toString entry.frame_number ++ ")"))
          else if entry.state = PageState.PAGE_IN_SWAP then
            if (swap_in_page cfg s2 pid page now).1 then
              (AccessOutcome.page_fault_resolved
                  (match find_process (swap_in_page cfg s2 pid page now).2 pid with
                   | some p => (pageAt p page).frame_number
                   | none => -1),
                (swap_in_page cfg s2 pid page now).2)
            else (AccessOutcome.swap_in_failed, (swap_in_page cfg s2 pid page now).2)
          else (AccessOutcome.page_not_present, s2)

/-! ## Runs of the simulator -/

/-- The three state-changing menu operations, each with its clock reading. -/
inductive Op where
  | create (name : String) (size_kb : Int) (now : Int)
  | terminate (pid : Int) (now : Int)
  | access (pid : Int) (page : Int) (now : Int)
deriving DecidableEq, Repr

def step (cfg : Config) (s : MemorySystem) : Op → MemorySystem
  | Op.create name size_kb now => (create_process cfg s name size_kb now).2
  | Op.terminate pid now => (terminate_process cfg s pid now).2
  | Op.access pid page now => (simulate_access cfg s pid page now).2

/-- The state after running the operations in order. -/
def run (cfg : Config) (s : MemorySystem) (ops : List Op) : MemorySystem :=
  ops.foldl (step cfg) s

/-! ## Definitions used by the statements and proofs -/

/-- Every process sits in the directory slot `pid - 1`. -/
def PidSlot (procs : Int → Option PCB) : Prop :=
  ∀ i p, procs i = some p → p.pid = i + 1

/-- Ownership between one pool of `n` frames and the page entries in state `st`, whose
location field is `loc`: each occupied frame is pointed at by the page entry of its owner,
and each page entry in state `st` points at an occupied frame that names it as owner. -/
structure PoolOwn (n : Int) (pool : Int → Frame) (procs : Int → Option PCB)
    (st : PageState) (loc : PageTableEntry → Int) : Prop where
  owner : ∀ f, 0 ≤ f → f < n → (pool f).occupied = true →
    ∃ i p, procs i = some p ∧ p.pid = (pool f).pid ∧ 0 ≤ (pool f).page_number ∧
      (pool f).page_number < (p.page_table.length : Int) ∧
      (pageAt p (pool f).page_number).state = st ∧
      loc (pageAt p (pool f).page_number) = f
  page : ∀ i p j, procs i = some p → 0 ≤ j → j < (p.page_table.length : Int) →
    (pageAt p j).state = st →
      0 ≤ loc (pageAt p j) ∧ loc (pageAt p j) < n ∧
      (pool (loc (pageAt p j))).occupied = true ∧
      (pool (loc (pageAt p j))).pid = p.pid ∧
      (pool (loc (pageAt p j))).page_number = j

/-- The ring buffer stays inside its array. -/
def FifoOK (cfg : Config) (q : FIFOQueue) : Prop :=
  q.capacity = NUM_RAM_FRAMES cfg ∧ q.queue.length = q.capacity.toNat ∧
  0 ≤ q.size ∧ (q.size ≤ q.capacity ∨ q.size = 0) ∧
  -1 ≤ q.rear ∧ (q.rear < q.capacity ∨ q.rear = -1)

/-- The invariant kept by every operation: array sizes, pid = slot + 1, page tables of
`num_pages` entries, every page in RAM or in Swap, and ownership in both pools. -/
structure Inv (cfg : Config) (s : MemorySystem) : Prop where
  ram_len : s.ram_frames.length = (NUM_RAM_FRAMES cfg).toNat
  swap_len : s.swap_frames.length = (NUM_SWAP_FRAMES cfg).toNat
  proc_len : s.processes.length = MAX_PROCESSES.toNat
  tlb_len : s.tlb.length = cfg.TLB_SIZE.toNat
  fifo_ok : FifoOK cfg s.fifo_queue
  pid_slot : PidSlot (procAt s)
  table_len : ∀ i p, procAt s i = some p → p.page_table.length = p.num_pages.toNat
  page_state : ∀ i p j, procAt s i = some p → 0 ≤ j → j < (p.page_table.length : Int) →
    (pageAt p j).state = PageState.PAGE_IN_RAM ∨ (pageAt p j).state = PageState.PAGE_IN_SWAP
  ram_own : PoolOwn (NUM_RAM_FRAMES cfg) (ramAt s) (procAt s)
    PageState.PAGE_IN_RAM PageTableEntry.frame_number
  swap_own : PoolOwn (NUM_SWAP_FRAMES cfg) (swapAt s) (procAt s)
    PageState.PAGE_IN_SWAP PageTableEntry.swap_position

/-- The loop body of `tlb_invalidate`. -/
def invalidate_step (pid : Int) (tlb : List TLBEntry) (i : Int) : List TLBEntry :=
  if (getI tlb i emptyTLBEntry).valid && decide ((getI tlb i emptyTLBEntry).pid = pid) then
    setI tlb i { getI tlb i emptyTLBEntry with valid := false }
  else tlb

/-- Common form of the loop bodies of the release loops of `terminate_process` and of the
rollback of `create_process`; `g` is what is written into the frame. -/
def free_step (g : Frame → Frame) (s : MemorySystem) (e : PageTableEntry) : MemorySystem :=
  if e.state = PageState.PAGE_IN_RAM then
    { s with ram_frames := setI s.ram_frames e.frame_number (g (ramAt s e.frame_number)) }
  else if e.state = PageState.PAGE_IN_SWAP then
    { s with swap_frames := setI s.swap_frames e.swap_position (g (swapAt s e.swap_position)) }
  else s

/-- The process record under construction: the entries placed so far. -/
def vproc (pid : Int) (pt : List PageTableEntry) : PCB :=
  ⟨pid, "", 0, (pt.length : Int), ProcessState.PROC_ACTIVE, pt, 0, 0⟩

/-- The state with the process under construction entered in its directory slot. -/
def vstate (s : MemorySystem) (slot pid : Int) (pt : List PageTableEntry) : MemorySystem :=
  { s with processes := setI s.processes slot (some (vproc pid pt)) }

/-- The state after the RAM branch of one placement iteration. -/
def place_ram_state (cfg : Config) (s : MemorySystem) (pid i now : Int) : MemorySystem :=
  tlb_update cfg
    { s with
      ram_frames := setI s.ram_frames (find_free_ram_frame cfg s) ⟨pid, i, true, now⟩,
      fifo_queue := enqueue_fifo s.fifo_queue (find_free_ram_frame cfg s) }
    pid i (find_free_ram_frame cfg s) now

/-- The state after the Swap branch of one placement iteration. -/
def place_swap_state (cfg : Config) (s : MemorySystem) (pid i now : Int) : MemorySystem :=
  { s with
    swap_frames := setI s.swap_frames (find_free_swap_frame cfg s) ⟨pid, i, true, now⟩ }

/-- The page entry written by the RAM branch. -/
def ram_entry (cfg : Config) (s : MemorySystem) (i now : Int) : PageTableEntry :=
  ⟨i, find_free_ram_frame cfg s, PageState.PAGE_IN_RAM, true, false, -1, now, now⟩

/-- The page entry written by the Swap branch. -/
def swap_entry (cfg : Config) (s : MemorySystem) (i now : Int) : PageTableEntry :=
  ⟨i, -1, PageState.PAGE_IN_SWAP, false, false, find_free_swap_frame cfg s, 0, now⟩

/-- Single ownership of frames and slots, as a property of one state. -/
structure SingleOwnership (cfg : Config) (s : MemorySystem) : Prop where
  /-- an occupied RAM frame belongs to a live process whose page entry points back at it -/
  ram_frame : ∀ f, (ramAt s f).occupied = true →
    (0 ≤ f ∧ f < NUM_RAM_FRAMES cfg) ∧
    ∃ p, find_process s (ramAt s f).pid = some p ∧
      (0 ≤ (ramAt s f).page_number ∧ (ramAt s f).page_number < p.num_pages) ∧
      (pageAt p (ramAt s f).page_number).state = PageState.PAGE_IN_RAM ∧
      (pageAt p (ramAt s f).page_number).frame_number = f
  /-- an occupied Swap slot belongs to a live process whose page entry points back at it -/
  swap_slot : ∀ f, (swapAt s f).occupied = true →
    (0 ≤ f ∧ f < NUM_SWAP_FRAMES cfg) ∧
    ∃ p, find_process s (swapAt s f).pid = some p ∧
      (0 ≤ (swapAt s f).page_number ∧ (swapAt s f).page_number < p.num_pages) ∧
      (pageAt p (swapAt s f).page_number).state = PageState.PAGE_IN_SWAP ∧
      (pageAt p (swapAt s f).page_number).swap_position = f
  /-- a page entry in RAM points at an occupied frame owned by exactly that page -/
  page_in_ram : ∀ pid p j, find_process s pid = some p → 0 ≤ j → j < p.num_pages →
    (pageAt p j).state = PageState.PAGE_IN_RAM →
    (0 ≤ (pageAt p j).frame_number ∧ (pageAt p j).frame_number < NUM_RAM_FRAMES cfg) ∧
    (ramAt s (pageAt p j).frame_number).occupied = true ∧
    (ramAt s (pageAt p j).frame_number).pid = pid ∧
    (ramAt s (pageAt p j).frame_number).page_number = j
  /-- a page entry in Swap points at an occupied slot owned by exactly that page -/
  page_in_swap : ∀ pid p j, find_process s pid = some p → 0 ≤ j → j < p.num_pages →
    (pageAt p j).state = PageState.PAGE_IN_SWAP →
    (0 ≤ (pageAt p j).swap_position ∧ (pageAt p j).swap_position < NUM_SWAP_FRAMES cfg) ∧
    (swapAt s (pageAt p j).swap_position).occupied = true ∧
    (swapAt s (pageAt p j).swap_position).pid = pid ∧
    (swapAt s (pageAt p j).swap_position).page_number = j
  /-- no RAM frame is referenced by two page entries -/
  ram_unshared : ∀ pid1 p1 j1 pid2 p2 j2,
    find_process s pid1 = some p1 → 0 ≤ j1 → j1 < p1.num_pages →
    find_process s pid2 = some p2 → 0 ≤ j2 → j2 < p2.num_pages →
    (pageAt p1 j1).state = PageState.PAGE_IN_RAM →
    (pageAt p2 j2).state = PageState.PAGE_IN_RAM →
    (pageAt p1 j1).frame_number = (pageAt p2 j2).frame_number → pid1 = pid2 ∧ j1 = j2
  /-- no Swap slot is referenced by two page entries -/
  swap_unshared : ∀ pid1 p1 j1 pid2 p2 j2,
    find_process s pid1 = some p1 → 0 ≤ j1 → j1 < p1.num_pages →
    find_process s pid2 = some p2 → 0 ≤ j2 → j2 < p2.num_pages →
    (pageAt p1 j1).state = PageState.PAGE_IN_SWAP →
    (pageAt p2 j2).state = PageState.PAGE_IN_SWAP →
    (pageAt p1 j1).swap_position = (pageAt p2 j2).swap_position → pid1 = pid2 ∧ j1 = j2

/-- The size that makes the space check of `create_process` wrap around: with one page
in use, `256 + 8388607 * 256` exceeds the largest `int`. -/
def overflow_size : Int := 2147483392

/-- The state after a 256 KB process and a request of `overflow_size` KB. -/
def rollback_state : MemorySystem :=
  run defaultConfig (init_system defaultConfig 100)
    [Op.create "A" 256 101, Op.create "B" overflow_size 102]

/-- The state after `create_process(A, 2048)` in state `s` at clock reading `t1`. -/
def scenario_A (s : MemorySystem) (t1 : Int) : Int × MemorySystem :=
  create_process defaultConfig s "A" 2048 t1

/-- The state after the following `create_process(B, 256)` at clock reading `t2`. -/
def scenario_B (s : MemorySystem) (t1 t2 : Int) : Int × MemorySystem :=
  create_process defaultConfig (scenario_A s t1).2 "B" 256 t2

/-- The state after the following simulated access of `(B, 0)` at clock reading `t3`. -/
def scenario_access (s : MemorySystem) (t1 t2 t3 : Int) : AccessOutcome × MemorySystem :=
  simulate_access defaultConfig (scenario_B s t1 t2).2 2 0 t3

/-- State, frame, slot and valid bit of every page of a process. -/
def page_summary (p : PCB) : List (PageState × Int × Int × Bool) :=
  p.page_table.map (fun e => (e.state, e.frame_number, e.swap_position, e.valid))

/-- What the scenario of C3 does, from a state `s`, at clock readings `t1`, `t2`, `t3`. -/
structure EvictionScenario (s : MemorySystem) (t1 t2 t3 : Int) : Prop where
  /-- `create_process(A, 2048)` returns pid 1 -/
  pid_A : (scenario_A s t1).1 = 1
  /-- A is `PROC_ACTIVE` -/
  state_A : (find_process (scenario_A s t1).2 1).map PCB.state = some ProcessState.PROC_ACTIVE
  /-- the 8 pages of A are in RAM frames 0..7 -/
  pages_A : (find_process (scenario_A s t1).2 1).map page_summary =
    some [(PageState.PAGE_IN_RAM, 0, -1, true), (PageState.PAGE_IN_RAM, 1, -1, true),
      (PageState.PAGE_IN_RAM, 2, -1, true), (PageState.PAGE_IN_RAM, 3, -1, true),
      (PageState.PAGE_IN_RAM, 4, -1, true), (PageState.PAGE_IN_RAM, 5, -1, true),
      (PageState.PAGE_IN_RAM, 6, -1, true), (PageState.PAGE_IN_RAM, 7, -1, true)]
  /-- `create_process(B, 256)` returns pid 2 -/
  pid_B : (scenario_B s t1 t2).1 = 2
  /-- B is `PROC_SWAPPED` -/
  state_B : (find_process (scenario_B s t1 t2).2 2).map PCB.state =
    some ProcessState.PROC_SWAPPED
  /-- the single page of B is in Swap (slot 0) -/
  pages_B : (find_process (scenario_B s t1 t2).2 2).map page_summary =
    some [(PageState.PAGE_IN_SWAP, -1, 0, false)]
  /-- the access of `(B, 0)` misses the TLB -/
  tlb_miss : tlb_find defaultConfig (scenario_B s t1 t2).2 2 0 = none
  /-- no RAM frame is free, so the swap-in has to evict -/
  ram_full : find_free_ram_frame defaultConfig (scenario_B s t1 t2).2 = -1
  /-- the FIFO head is RAM frame 0 -/
  victim : (select_victim_page_fifo (scenario_B s t1 t2).2).1 = 0
  /-- RAM frame 0 holds page 0 of A -/
  victim_owner : ((ramAt (scenario_B s t1 t2).2 0).occupied, (ramAt (scenario_B s t1 t2).2 0).pid,
    (ramAt (scenario_B s t1 t2).2 0).page_number) = (true, 1, 0)
  /-- the access takes the page-fault path and resolves it into frame 0 -/
  outcome : (scenario_access s t1 t2 t3).1 = AccessOutcome.page_fault_resolved 0
  /-- one page fault has been counted -/
  faults : (scenario_access s t1 t2 t3).2.total_page_faults = 1
  /-- page 0 of B ends `PAGE_IN_RAM`, valid, in frame 0 -/
  end_B : (find_process (scenario_access s t1 t2 t3).2 2).map page_summary =
    some [(PageState.PAGE_IN_RAM, 0, -1, true)]
  /-- the pages of A end with page 0 `PAGE_IN_SWAP`, not valid, the others as before -/
  end_A : (find_process (scenario_access s t1 t2 t3).2 1).map page_summary =
    some [(PageState.PAGE_IN_SWAP, -1, 1, false), (PageState.PAGE_IN_RAM, 1, -1, true),
      (PageState.PAGE_IN_RAM, 2, -1, true), (PageState.PAGE_IN_RAM, 3, -1, true),
      (PageState.PAGE_IN_RAM, 4, -1, true), (PageState.PAGE_IN_RAM, 5, -1, true),
      (PageState.PAGE_IN_RAM, 6, -1, true), (PageState.PAGE_IN_RAM, 7, -1, true)]
  /-- RAM frame 0 ends owned by page 0 of B -/
  end_frame : ((ramAt (scenario_access s t1 t2 t3).2 0).occupied,
    (ramAt (scenario_access s t1 t2 t3).2 0).pid,
    (ramAt (scenario_access s t1 t2 t3).2 0).page_number) = (true, 2, 0)

/-- While pages are being placed, every frame and slot occupied at the start is as it
was, the directory is as it was, and the entries written so far point at places that
were free at the start. -/
structure Untouched (s0 s : MemorySystem) (pt : List PageTableEntry) : Prop where
  ram : ∀ f, (ramAt s0 f).occupied = true → ramAt s f = ramAt s0 f
  swap : ∀ f, (swapAt s0 f).occupied = true → swapAt s f = swapAt s0 f
  procs : s.processes = s0.processes
  ram_new : ∀ e ∈ pt, e.state = PageState.PAGE_IN_RAM →
    (ramAt s0 e.frame_number).occupied = false
  swap_new : ∀ e ∈ pt, e.state = PageState.PAGE_IN_SWAP →
    (swapAt s0 e.swap_position).occupied = false

/-- The free RAM frames, in ascending index order. -/
def free_ram_frames (cfg : Config) (s : MemorySystem) : List Int :=
  (indices (NUM_RAM_FRAMES cfg)).filter (fun i => !(ramAt s i).occupied)

/-- The free Swap slots, in ascending index order. -/
def free_swap_slots (cfg : Config) (s : MemorySystem) : List Int :=
  (indices (NUM_SWAP_FRAMES cfg)).filter (fun i => !(swapAt s i).occupied)

/-- The number of page entries of a table that are in RAM. -/
def pages_in_ram_count (pt : List PageTableEntry) : Nat :=
  (pt.filter (fun e => decide (e.state = PageState.PAGE_IN_RAM))).length

/-- The entries written by the placement loop after the first `pt.length` ones: page
`j` of them is in RAM in the `j`-th free RAM frame while free RAM frames remain, and in
Swap in the next free Swap slot afterwards. -/
structure Placed (fr fs : List Int) (rest : List PageTableEntry) : Prop where
  in_ram : ∀ j : Nat, j < rest.length → j < fr.length →
    (rest.getD j emptyPageEntry).state = PageState.PAGE_IN_RAM ∧
    (rest.getD j emptyPageEntry).frame_number = fr.getD j (-1) ∧
    (rest.getD j emptyPageEntry).valid = true
  in_swap : ∀ j : Nat, j < rest.length → fr.length ≤ j →
    (rest.getD j emptyPageEntry).state = PageState.PAGE_IN_SWAP ∧
    j - fr.length < fs.length ∧
    (rest.getD j emptyPageEntry).swap_position = fs.getD (j - fr.length) (-1) ∧
    (rest.getD j emptyPageEntry).valid = false
  count : pages_in_ram_count rest = min rest.length fr.length

/-- RAM-first placement of a new process `p` created in state `s`, giving state `s1`:
with `k` free RAM frames and `n` pages, pages `0 .. min n k - 1` are in RAM in the free
RAM frames in ascending order and the other pages are in Swap in the free Swap slots in
ascending order. -/
structure RamFirstPlacement (cfg : Config) (s s1 : MemorySystem) (p : PCB) : Prop where
  /-- the process has `num_pages` page entries (none when `num_pages` is not positive) -/
  pages : p.page_table.length = p.num_pages.toNat
  /-- page `j < k` is in RAM, in the `j`-th free RAM frame -/
  in_ram : ∀ j : Nat, j < p.page_table.length → j < (free_ram_frames cfg s).length →
    (pageAt p (j : Int)).state = PageState.PAGE_IN_RAM ∧
    (pageAt p (j : Int)).frame_number = (free_ram_frames cfg s).getD j (-1) ∧
    (pageAt p (j : Int)).valid = true
  /-- page `j ≥ k` is in Swap, in the `(j - k)`-th free Swap slot -/
  in_swap : ∀ j : Nat, j < p.page_table.length → (free_ram_frames cfg s).length ≤ j →
    (pageAt p (j : Int)).state = PageState.PAGE_IN_SWAP ∧
    j - (free_ram_frames cfg s).length < (free_swap_slots cfg s).length ∧
    (pageAt p (j : Int)).swap_position =
      (free_swap_slots cfg s).getD (j - (free_ram_frames cfg s).length) (-1) ∧
    (pageAt p (j : Int)).valid = false
  /-- exactly `min n k` pages are in RAM -/
  count : pages_in_ram_count p.page_table =
    min p.page_table.length (free_ram_frames cfg s).length
  /-- the free RAM frames left are the old ones without the first `n` -/
  ram_left : free_ram_frames cfg s1 = (free_ram_frames cfg s).drop p.page_table.length

/-- The number of page entries of a table that are in Swap. -/
def pages_in_swap_count (pt : List PageTableEntry) : Nat :=
  (pt.filter (fun e => decide (e.state = PageState.PAGE_IN_SWAP))).length

/-- What holds after a successful `swap_in_page(pid, pg)` that took `s` to `s1`.  `p` is
the process before the call, `p1` after it, and `r = (pageAt p1 pg).frame_number`. -/
structure SwapInPost (cfg : Config) (s : MemorySystem) (pid pg : Int) (s1 : MemorySystem)
    (p p1 : PCB) : Prop where
  /-- the process and its page, in Swap before the call -/
  before : find_process s pid = some p ∧ (0 ≤ pg ∧ pg < p.num_pages) ∧
    (pageAt p pg).state = PageState.PAGE_IN_SWAP
  /-- the page entry afterwards -/
  page_entry : find_process s1 pid = some p1 ∧
    (pageAt p1 pg).state = PageState.PAGE_IN_RAM ∧ (pageAt p1 pg).valid = true ∧
    (pageAt p1 pg).swap_position = -1
  /-- the RAM frame `r` is occupied and owned by the page -/
  frame_owned : (0 ≤ (pageAt p1 pg).frame_number ∧
      (pageAt p1 pg).frame_number < NUM_RAM_FRAMES cfg) ∧
    (ramAt s1 (pageAt p1 pg).frame_number).occupied = true ∧
    (ramAt s1 (pageAt p1 pg).frame_number).pid = pid ∧
    (ramAt s1 (pageAt p1 pg).frame_number).page_number = pg
  /-- the Swap slot the page occupied before is free -/
  slot_free : (swapAt s1 (pageAt p pg).swap_position).occupied = false
  /-- a TLB of at least one slot holds a valid entry mapping the page to `r` -/
  tlb_entry : 1 ≤ cfg.TLB_SIZE → ∃ i, (0 ≤ i ∧ i < cfg.TLB_SIZE) ∧
    (tlbAt s1 i).valid = true ∧ (tlbAt s1 i).pid = pid ∧ (tlbAt s1 i).page_number = pg ∧
    (tlbAt s1 i).frame_number = (pageAt p1 pg).frame_number
  /-- `r` sits at the rear of the queue when the queue was not full at the call, or a
  victim was evicted -/
  enqueued : (s.fifo_queue.size < s.fifo_queue.capacity ∨ find_free_ram_frame cfg s = -1) →
    getI s1.fifo_queue.queue s1.fifo_queue.rear 0 = (pageAt p1 pg).frame_number
  /-- both fault counters went up by one -/
  faults : p1.page_faults = p.page_faults + 1 ∧
    s1.total_page_faults = s.total_page_faults + 1

/-- A fills the eight RAM frames (and the queue), B is placed in Swap, then A is
terminated, which frees RAM but not the queue. -/
def after_terminate_state : MemorySystem :=
  run defaultConfig (init_system defaultConfig 100)
    [Op.create "A" 2048 101, Op.create "B" 256 102, Op.terminate 1 103]

/-- The frames waiting in the queue, oldest first: the `size` cells of the ring from
`front` on. -/
def queue_list (q : FIFOQueue) : List Int :=
  (List.range q.size.toNat).map
    (fun (k : Nat) => getI q.queue ((q.front + (k : Int)) % q.capacity) 0)

/-- Well-formedness of the ring buffer. -/
structure RingOK (q : FIFOQueue) : Prop where
  len : q.queue.length = q.capacity.toNat
  size_nonneg : 0 ≤ q.size
  size_le : q.size ≤ q.capacity ∨ q.size = 0
  front_nonneg : 0 ≤ q.front
  front_lt : q.front < q.capacity ∨ q.capacity ≤ 0
  rear : Int.tmod (q.rear + 1) q.capacity = (q.front + q.size) % q.capacity
  rear_ge : -1 ≤ q.rear

/-- The RAM frames of the pages of a table that are in RAM, in page order. -/
def ram_frames_of (pt : List PageTableEntry) : List Int :=
  (pt.filter (fun e => decide (e.state = PageState.PAGE_IN_RAM))).map
    PageTableEntry.frame_number

/-- How the queue relates to RAM. `R` lists the frames filled and waiting in the queue,
oldest first; `S` lists stale queue cells left by a rolled-back creation, which name the
lowest free frames; `L` lists frames that were dequeued as victims and could not be
swapped out (then RAM and Swap are both full). -/
structure FairAt (cfg : Config) (s : MemorySystem) (L R S : List Int) : Prop where
  ring : RingOK s.fifo_queue
  cap : s.fifo_queue.capacity = NUM_RAM_FRAMES cfg
  ram_len : s.ram_frames.length = (NUM_RAM_FRAMES cfg).toNat
  queue : queue_list s.fifo_queue = R ++ S
  stale : S <+: free_ram_frames cfg s
  full : S ≠ [] → s.fifo_queue.size = s.fifo_queue.capacity
  count : L.length + R.length + (free_ram_frames cfg s).length = (NUM_RAM_FRAMES cfg).toNat
  frozen : L ≠ [] → find_free_ram_frame cfg s = -1 ∧ find_free_swap_frame cfg s = -1
  range : ∀ x ∈ R, 0 ≤ x ∧ x < NUM_RAM_FRAMES cfg

/-- What happens to RAM frames during a run: a frame is filled, or is evicted. -/
inductive Event where
  | fill (frame : Int)
  | evict (frame : Int)
deriving DecidableEq, Repr

/-- The RAM-frame assignments of a `create_process` call, in the order they happen: the
frames that the placement loop (l.704-710) assigns to pages of the new process, in page
order. A call that returns at one of the four checks before the loop assigns nothing. A
call that the rollback (l.733-747) undoes has made the assignments of the pages placed
before the failure, and these are counted. -/
def create_events (cfg : Config) (s : MemorySystem) (size_kb now : Int) : List Event :=
  if s.num_processes ≥ MAX_PROCESSES then []
  else if size_kb ≤ 0 then []
  else if space_check_fails cfg s (num_pages_of cfg size_kb) then []
  else if find_free_slot s = -1 then []
  else
    (ram_frames_of (place_pages cfg (find_free_slot s + 1) now
      (num_pages_of cfg size_kb).toNat 0 s [] 0).page_table).map Event.fill

/-- The events of a simulated access: when the page fault is resolved, the eviction of
the victim that `swap_in_page` took from the queue (if no RAM frame was free), then the
assignment of the frame the page was loaded into. -/
def access_events (cfg : Config) (s : MemorySystem) (pid page now : Int) : List Event :=
  match (simulate_access cfg s pid page now).1 with
  | AccessOutcome.page_fault_resolved frame =>
    (if find_free_ram_frame cfg s = -1 then [Event.evict (select_victim_page_fifo s).1]
      else []) ++ [Event.fill frame]
  | _ => []

def step_events (cfg : Config) (s : MemorySystem) : Op → List Event
  | Op.create _ size_kb now => create_events cfg s size_kb now
  | Op.terminate _ _ => []
  | Op.access pid page now => access_events cfg s pid page now

/-- The events of a run, in the order they happen. -/
def run_events (cfg : Config) : MemorySystem → List Op → List Event
  | _, [] => []
  | s, op :: ops => step_events cfg s op ++ run_events cfg (step cfg s op) ops

/-- The frames filled, in order. -/
def fills : List Event → List Int
  | [] => []
  | Event.fill f :: es => f :: fills es
  | Event.evict _ :: es => fills es

/-- The frames evicted, in order. -/
def evictions : List Event → List Int
  | [] => []
  | Event.fill _ :: es => evictions es
  | Event.evict f :: es => f :: evictions es

/-- A run without terminations. -/
def no_termination : List Op → Bool
  | [] => true
  | Op.terminate _ _ :: _ => false
  | _ :: ops => no_termination ops

/-- The operation is a `create_process` call that assigns RAM frames and returns -1: the
call gives the frames up in its rollback. -/
def rolled_back (cfg : Config) (s : MemorySystem) : Op → Bool
  | Op.create name size_kb now =>
    decide ((create_process cfg s name size_kb now).1 = -1) &&
      decide (create_events cfg s size_kb now ≠ [])
  | _ => false

/-- A run in which no creation gives up RAM frames in a rollback. -/
def no_rollback (cfg : Config) : MemorySystem → List Op → Bool
  | _, [] => true
  | s, op :: ops => !rolled_back cfg s op && no_rollback cfg (step cfg s op) ops

/-- The queue invariant of a run: the frames filled so far are the frames evicted so far,
then the victims lost, then the frames waiting in the queue. -/
def Fair (cfg : Config) (s : MemorySystem) (F E : List Int) : Prop :=
  ∃ L R S, F = E ++ L ++ R ∧ FairAt cfg s L R S

/-- The frame a resolved page fault reports: the frame of the page afterwards. -/
def loaded_frame (s : MemorySystem) (pid page : Int) : Int :=
  match find_process s pid with
  | some p => (pageAt p page).frame_number
  | none => -1

/-- A run without terminations in which a creation is rolled back: seven pages of A
(frames 0 to 6), a request of `overflow_size` KB that passes the space check by
wrap-around, is assigned frame 7 and is rolled back, one page of C (frame 7 again), one
page of D (in Swap), then nine accesses that each evict. -/
def rollback_run : List Op :=
  [Op.create "A" 1792 101, Op.create "B" overflow_size 102, Op.create "C" 256 103,
   Op.create "D" 256 104,
   Op.access 3 0 105, Op.access 1 0 106, Op.access 1 1 107, Op.access 1 2 108,
   Op.access 1 3 109, Op.access 1 4 110, Op.access 1 5 111, Op.access 1 6 112,
   Op.access 2 0 113]

/-- A run without terminations and without rollback: eight pages of A fill RAM, one page
of B goes to Swap, and two accesses each evict. -/
def eviction_run : List Op :=
  [Op.create "A" 2048 101, Op.create "B" 256 102, Op.access 2 0 103, Op.access 1 0 104]

/-- What holds after a successful `swap_out_page(f)` that took `s` to `s1`; the owner of the
frame before the call is `((ramAt s f).pid, (ramAt s f).page_number)` and the slot used is
`find_free_swap_frame cfg s`. -/
structure SwapOutPost (cfg : Config) (s : MemorySystem) (f : Int) (s1 : MemorySystem) :
    Prop where
  /-- the frame was occupied, inside RAM -/
  owned_before : (0 ≤ f ∧ f < NUM_RAM_FRAMES cfg) ∧ (ramAt s f).occupied = true
  /-- the slot used is the lowest-index free Swap slot before the call -/
  lowest_free : (0 ≤ find_free_swap_frame cfg s ∧
      find_free_swap_frame cfg s < NUM_SWAP_FRAMES cfg) ∧
    (swapAt s (find_free_swap_frame cfg s)).occupied = false ∧
    ∀ j, 0 ≤ j → j < find_free_swap_frame cfg s → (swapAt s j).occupied = true
  /-- afterwards that slot is occupied and owned by the page -/
  slot_owned : (swapAt s1 (find_free_swap_frame cfg s)).occupied = true ∧
    (swapAt s1 (find_free_swap_frame cfg s)).pid = (ramAt s f).pid ∧
    (swapAt s1 (find_free_swap_frame cfg s)).page_number = (ramAt s f).page_number
  /-- the page entry of the owner is in Swap at that slot, with no frame and not valid -/
  page_entry : ∃ p1, find_process s1 (ramAt s f).pid = some p1 ∧
    (0 ≤ (ramAt s f).page_number ∧ (ramAt s f).page_number < p1.num_pages) ∧
    (pageAt p1 (ramAt s f).page_number).state = PageState.PAGE_IN_SWAP ∧
    (pageAt p1 (ramAt s f).page_number).swap_position = find_free_swap_frame cfg s ∧
    (pageAt p1 (ramAt s f).page_number).frame_number = -1 ∧
    (pageAt p1 (ramAt s f).page_number).valid = false
  /-- the RAM frame is free with its owner cleared -/
  frame_free : (ramAt s1 f).occupied = false ∧ (ramAt s1 f).pid = -1 ∧
    (ramAt s1 f).page_number = -1
  /-- no valid TLB entry has the pid of the owner -/
  tlb_clean : ∀ i, ¬ ((tlbAt s1 i).valid = true ∧ (tlbAt s1 i).pid = (ramAt s f).pid)
  /-- the swap counter went up by one -/
  swaps : s1.total_swaps = s.total_swaps + 1

/-- The state with RAM and Swap both full: A takes the 8 RAM frames, B the 16 Swap slots. -/
def full_state : MemorySystem :=
  run defaultConfig (init_system defaultConfig 100)
    [Op.create "A" 2048 101, Op.create "B" 4096 102]

/-- A request that `swap_in_page` must reject: `pid` is not a live process, or the page is
outside `[0, num_pages)`, or the page entry is not `PAGE_IN_SWAP`. -/
def inconsistent_request (s : MemorySystem) (pid page : Int) : Bool :=
  match find_process s pid with
  | none => true
  | some p =>
    decide (page < 0 ∨ page ≥ p.num_pages ∨ (pageAt p page).state ≠ PageState.PAGE_IN_SWAP)

/-- The round trip of the page that owned RAM frame `f` in `s`: `s1` is the state after
the swap-out of `f`, `s2` the state after the swap-in of the page. -/
structure RoundTrip (cfg : Config) (s : MemorySystem) (f : Int) (s1 s2 : MemorySystem) :
    Prop where
  /-- a RAM frame is free at the swap-in, which therefore takes no victim -/
  free_frame : find_free_ram_frame cfg s1 ≠ -1
  /-- that frame is the lowest-index free RAM frame -/
  lowest : (0 ≤ find_free_ram_frame cfg s1 ∧ find_free_ram_frame cfg s1 < NUM_RAM_FRAMES cfg) ∧
    (ramAt s1 (find_free_ram_frame cfg s1)).occupied = false ∧
    ∀ j, 0 ≤ j → j < find_free_ram_frame cfg s1 → (ramAt s1 j).occupied = true
  /-- nothing is evicted: every RAM frame occupied before the swap-in is unchanged, and
  the queue loses no element -/
  kept : (∀ g, (ramAt s1 g).occupied = true → ramAt s2 g = ramAt s1 g) ∧
    s2.fifo_queue = enqueue_fifo s1.fifo_queue (find_free_ram_frame cfg s1)
  /-- the page is again in RAM, valid, in that frame -/
  page : ∃ p2, find_process s2 (ramAt s f).pid = some p2 ∧
    (pageAt p2 (ramAt s f).page_number).state = PageState.PAGE_IN_RAM ∧
    (pageAt p2 (ramAt s f).page_number).valid = true ∧
    (pageAt p2 (ramAt s f).page_number).frame_number = find_free_ram_frame cfg s1
  /-- the frame is owned by the page -/
  frame_owned : (ramAt s2 (find_free_ram_frame cfg s1)).occupied = true ∧
    (ramAt s2 (find_free_ram_frame cfg s1)).pid = (ramAt s f).pid ∧
    (ramAt s2 (find_free_ram_frame cfg s1)).page_number = (ramAt s f).page_number
  /-- the occupied Swap slots are the same as before the swap-out -/
  swap_same : ∀ x, (swapAt s2 x).occupied = (swapAt s x).occupied

/-- What holds after `terminate_process(pid)` took `s` to `s1`, where `p` was the live
process with that pid. -/
structure TerminatePost (cfg : Config) (s : MemorySystem) (pid : Int) (p : PCB)
    (s1 : MemorySystem) : Prop where
  /-- no RAM frame is owned by `pid` -/
  ram_not_owned : ∀ f, (ramAt s1 f).occupied = true → (ramAt s1 f).pid ≠ pid
  /-- no Swap slot is owned by `pid` -/
  swap_not_owned : ∀ f, (swapAt s1 f).occupied = true → (swapAt s1 f).pid ≠ pid
  /-- each RAM frame that held a page of the process is free -/
  ram_released : ∀ j, 0 ≤ j → j < p.num_pages →
    (pageAt p j).state = PageState.PAGE_IN_RAM →
    (ramAt s1 (pageAt p j).frame_number).occupied = false
  /-- each Swap slot that held a page of the process is free -/
  swap_released : ∀ j, 0 ≤ j → j < p.num_pages →
    (pageAt p j).state = PageState.PAGE_IN_SWAP →
    (swapAt s1 (pageAt p j).swap_position).occupied = false
  /-- no valid TLB entry has `pid` -/
  tlb_clean : ∀ i, ¬ ((tlbAt s1 i).valid = true ∧ (tlbAt s1 i).pid = pid)
  /-- the process is gone -/
  gone : find_process s1 pid = none
  /-- one process less -/
  count : s1.num_processes = s.num_processes - 1
  /-- the records (hence the page tables) of the other processes are unchanged -/
  others : ∀ i q, procAt s i = some q → q.pid ≠ pid → procAt s1 i = some q
  /-- the RAM frames not owned by `pid` are unchanged -/
  other_ram : ∀ f, ¬ ((ramAt s f).occupied = true ∧ (ramAt s f).pid = pid) →
    ramAt s1 f = ramAt s f
  /-- the Swap slots not owned by `pid` are unchanged -/
  other_swap : ∀ f, ¬ ((swapAt s f).occupied = true ∧ (swapAt s f).pid = pid) →
    swapAt s1 f = swapAt s f

/-- A TLB of capacity 4 filled by four distinct entries, last used at times 5, 3, 3, 7. -/
def full_tlb_state : MemorySystem :=
  { init_system defaultConfig 0 with
    tlb := [⟨1, 0, 0, true, 5⟩, ⟨1, 1, 1, true, 3⟩, ⟨2, 0, 2, true, 3⟩, ⟨2, 1, 3, true, 7⟩] }

/-- The log array is in bounds: `log_count` entries are written and there are at most
`MAX_LOG_ENTRIES` of them. -/
def LogOK (s : MemorySystem) : Prop :=
  s.log_count = (s.logs.length : Int) ∧ s.log_count ≤ MAX_LOG_ENTRIES

/-- The number of non-null directory slots. -/
def live_count (s : MemorySystem) : Nat :=
  ((indices MAX_PROCESSES).filter (fun i => (procAt s i).isSome)).length

/-- Well-formedness of the page entry `e` at index `i` of a page table. -/
def entry_ok (cfg : Config) (e : PageTableEntry) (i : Int) : Prop :=
  (e.valid = true ↔ e.state = PageState.PAGE_IN_RAM) ∧
  (e.state = PageState.PAGE_IN_RAM →
    0 ≤ e.frame_number ∧ e.frame_number < NUM_RAM_FRAMES cfg) ∧
  (e.state ≠ PageState.PAGE_IN_RAM → e.frame_number = -1) ∧
  (e.state = PageState.PAGE_IN_SWAP →
    0 ≤ e.swap_position ∧ e.swap_position < NUM_SWAP_FRAMES cfg) ∧
  (e.state ≠ PageState.PAGE_IN_SWAP → e.swap_position = -1) ∧
  e.page_number = i

/-- The directory invariant: `num_processes` counts the non-null slots, and every page
entry of every live process is well formed. -/
structure DirInv (cfg : Config) (s : MemorySystem) : Prop where
  count : s.num_processes = (live_count s : Int)
  entries : ∀ slot p i, procAt s slot = some p → 0 ≤ i → i < p.num_pages →
    entry_ok cfg (pageAt p i) i

/-- The slot content `b` holds no new translation with respect to the earlier content `a`:
if `b` is valid, `a` was valid with the same pid, page and frame. -/
def tlb_kept (a b : TLBEntry) : Prop :=
  b.valid = true →
    a.valid = true ∧ a.pid = b.pid ∧ a.page_number = b.page_number ∧
      a.frame_number = b.frame_number

/-- Every valid TLB entry names a RAM frame. -/
def TlbOK (cfg : Config) (s : MemorySystem) : Prop :=
  ∀ j, (tlbAt s j).valid = true →
    0 ≤ (tlbAt s j).frame_number ∧ (tlbAt s j).frame_number < NUM_RAM_FRAMES cfg

/-- What a TLB hit on slot `i` leaves behind, `s` before and `s1` after the access. -/
structure TlbHit (s : MemorySystem) (i now : Int) (out : AccessOutcome) (s1 : MemorySystem) :
    Prop where
  /-- the access reports the frame of the entry -/
  frame : out = AccessOutcome.tlb_hit (tlbAt s i).frame_number
  /-- one more access, one more hit, no more miss -/
  counters : s1.total_memory_accesses = s.total_memory_accesses + 1 ∧
    s1.total_tlb_hits = s.total_tlb_hits + 1 ∧ s1.total_tlb_misses = s.total_tlb_misses
  /-- the entry has its `last_access` refreshed and no other field changed -/
  refreshed : tlbAt s1 i = { tlbAt s i with last_access := now }
  /-- the other TLB slots are unchanged -/
  others : ∀ j, j ≠ i → tlbAt s1 j = tlbAt s j
  /-- page tables, frames, slots and the queue are unchanged -/
  memory : s1.processes = s.processes ∧ s1.ram_frames = s.ram_frames ∧
    s1.swap_frames = s.swap_frames ∧ s1.fifo_queue = s.fifo_queue ∧
    s1.num_processes = s.num_processes
  /-- the fault and swap counters are unchanged -/
  faults : s1.total_page_faults = s.total_page_faults ∧ s1.total_swaps = s.total_swaps

/-- What a page-table hit leaves behind, `s` before and `s1` after the access of page
`page` of process `pid`, whose entry names RAM frame `r`. -/
structure PageTableHit (cfg : Config) (s : MemorySystem) (pid page r now : Int)
    (out : AccessOutcome) (s1 : MemorySystem) : Prop where
  /-- the access reports the frame of the page entry -/
  frame : out = AccessOutcome.page_in_ram r
  /-- one more access, one more miss, no more hit -/
  counters : s1.total_memory_accesses = s.total_memory_accesses + 1 ∧
    s1.total_tlb_misses = s.total_tlb_misses + 1 ∧ s1.total_tlb_hits = s.total_tlb_hits
  /-- the slot chosen by the replacement rule holds the valid entry `(pid, page, r)` -/
  installed : (0 ≤ tlb_victim cfg s ∧ tlb_victim cfg s < cfg.TLB_SIZE) ∧
    tlbAt s1 (tlb_victim cfg s) = ⟨pid, page, r, true, now⟩
  /-- the other TLB slots are unchanged -/
  others : ∀ j, j ≠ tlb_victim cfg s → tlbAt s1 j = tlbAt s j
  /-- page tables (with their fault counters), frames, slots and the queue are unchanged -/
  memory : s1.processes = s.processes ∧ s1.ram_frames = s.ram_frames ∧
    s1.swap_frames = s.swap_frames ∧ s1.fifo_queue = s.fifo_queue ∧
    s1.num_processes = s.num_processes
  /-- the fault and swap counters are unchanged -/
  faults : s1.total_page_faults = s.total_page_faults ∧ s1.total_swaps = s.total_swaps

/-- The number of occupied RAM frames. -/
def occupied_ram_frames (cfg : Config) (s : MemorySystem) : Nat :=
  ((indices (NUM_RAM_FRAMES cfg)).filter (fun i => (ramAt s i).occupied)).length

/-- The number of occupied Swap slots. -/
def occupied_swap_slots (cfg : Config) (s : MemorySystem) : Nat :=
  ((indices (NUM_SWAP_FRAMES cfg)).filter (fun i => (swapAt s i).occupied)).length

/-- A configuration whose RAM and Swap sizes are not multiples of the page size. -/
def uneven_config : Config := ⟨384, 384, 256, 4⟩

/-- What `allocate_page_in_ram(pid, page)` does in state `s`, returning `r` and leaving
state `s1`. -/
structure DirectAllocation (cfg : Config) (s : MemorySystem) (pid page now r : Int)
    (s1 : MemorySystem) : Prop where
  /-- with a free RAM frame: the lowest-index free frame is returned, now occupied by
  `(pid, page)`, and nothing else changes in RAM, Swap, the page tables or the TLB -/
  free_case : find_free_ram_frame cfg s ≠ -1 →
    r = find_free_ram_frame cfg s ∧
    ((0 ≤ r ∧ r < NUM_RAM_FRAMES cfg) ∧ (ramAt s r).occupied = false ∧
      ∀ j, 0 ≤ j → j < r → (ramAt s j).occupied = true) ∧
    ramAt s1 r = ⟨pid, page, true, now⟩ ∧ (∀ j, j ≠ r → ramAt s1 j = ramAt s j) ∧
    s1.swap_frames = s.swap_frames ∧ s1.processes = s.processes ∧ s1.tlb = s.tlb
  /-- with no free RAM frame and result -1: no victim could be taken from the queue, or
  the victim could not be swapped out; RAM, Swap, page tables and TLB are unchanged -/
  full_failure : find_free_ram_frame cfg s = -1 → r = -1 →
    ((select_victim_page_fifo s).1 = -1 ∨
      (swap_out_page cfg (select_victim_page_fifo s).2 (select_victim_page_fifo s).1 now).1 =
        false) ∧
    s1.ram_frames = s.ram_frames ∧ s1.swap_frames = s.swap_frames ∧
    s1.processes = s.processes ∧ s1.tlb = s.tlb
  /-- with no free RAM frame and a result other than -1: the result is the frame at the
  head of the queue, its page has been swapped out, and it is now occupied by
  `(pid, page)` -/
  full_success : find_free_ram_frame cfg s = -1 → r ≠ -1 →
    s.fifo_queue.size ≠ 0 ∧ r = (dequeue_fifo s.fifo_queue).1 ∧
    (ramAt s r).occupied = true ∧
    (swap_out_page cfg (select_victim_page_fifo s).2 r now).1 = true ∧
    ramAt s1 r = ⟨pid, page, true, now⟩

/-- A and B fill the eight RAM frames (A frames 0-3 at time 101, B frames 4-7 at time
102), A terminates, and C (nine pages) takes frames 0-3 at time 104 and five Swap
slots. -/
def stale_queue_state : MemorySystem :=
  run defaultConfig (init_system defaultConfig 100)
    [Op.create "A" 1024 101, Op.create "B" 1024 102, Op.terminate 1 103,
      Op.create "C" 2304 104]

/-- A process of 24 pages fills the eight RAM frames and the sixteen Swap slots. -/
def all_full_state : MemorySystem :=
  run defaultConfig (init_system defaultConfig 100) [Op.create "A" 6144 101]

/-- The operation is not a creation whose size makes the `int` arithmetic of
`create_process` overflow: for a creation,
`size_kb + PAGE_SIZE - 1 + RAM_SIZE + SWAP_SIZE ≤ INT_MAX`. -/
def exact_size (cfg : Config) : Op → Bool
  | Op.create _ size_kb _ =>
    decide (size_kb + cfg.PAGE_SIZE - 1 + cfg.RAM_SIZE + cfg.SWAP_SIZE ≤ 2147483647)
  | _ => true

/-- The default sizes with a TLB of sixteen entries. -/
def wide_tlb_config : Config := ⟨2048, 4096, 256, 16⟩

/-- A 256 KB process; a request whose page count overflows and is rolled back, leaving its
TLB entries valid; the first process ends; a 512 KB process takes pid 1 and frames 0 and 1;
a 256 KB process takes pid 2 and frame 2. -/
def stale_tlb_state : MemorySystem :=
  run wide_tlb_config (init_system wide_tlb_config 100)
    [Op.create "A" 256 101, Op.create "B" overflow_size 102, Op.terminate 1 103,
      Op.create "D" 512 104, Op.create "C" 256 105]

/-- The five statistics counters of a state: page faults, swaps, TLB hits, TLB misses and
memory accesses. -/
def counters (s : MemorySystem) : Int × Int × Int × Int × Int :=
  (s.total_page_faults, s.total_swaps, s.total_tlb_hits, s.total_tlb_misses,
    s.total_memory_accesses)

/-- The relations between the counters: every counted access was a TLB hit or a TLB miss,
and every page fault cost one or two swaps. -/
structure CountOK (s : MemorySystem) : Prop where
  accesses : s.total_tlb_hits + s.total_tlb_misses = s.total_memory_accesses
  faults_le : s.total_page_faults ≤ s.total_swaps
  swaps_le : s.total_swaps ≤ 2 * s.total_page_faults

/-- No two distinct valid TLB slots hold the same `(pid, page_number)` pair. -/
def NoDuplicateTranslations (cfg : Config) (s : MemorySystem) : Prop :=
  ∀ i j : Int, 0 ≤ i → i < j → j < cfg.TLB_SIZE →
    (tlbAt s i).valid = true → (tlbAt s j).valid = true →
    ¬ ((tlbAt s i).pid = (tlbAt s j).pid ∧ (tlbAt s i).page_number = (tlbAt s j).page_number)

/-- The state after a 256 KB process, a request whose page count overflows and is rolled
back, and a second 256 KB process, which gets the pid of the rolled-back request. -/
def reused_pid_state : MemorySystem :=
  run defaultConfig (init_system defaultConfig 100)
    [Op.create "A" 256 101, Op.create "B" overflow_size 102, Op.create "C" 256 103]

/-- One call on the victim queue. -/
inductive QueueOp where
  | enqueue (frame_index : Int)
  | dequeue
  deriving DecidableEq, Repr

/-- The calls applied to the ring buffer of the source, from left to right; the first
component collects what the `dequeue_fifo` calls returned, in call order. -/
def run_queue (q : FIFOQueue) : List QueueOp → List Int × FIFOQueue
  | [] => ([], q)
  | QueueOp.enqueue x :: ops => run_queue (enqueue_fifo q x) ops
  | QueueOp.dequeue :: ops =>
    ((dequeue_fifo q).1 :: (run_queue (dequeue_fifo q).2 ops).1,
      (run_queue (dequeue_fifo q).2 ops).2)

/-- The bounded list of the specification: an enqueue appends at the tail while fewer than
`c` values are held and is ignored otherwise. -/
def list_enqueue (c : Int) (l : List Int) (x : Int) : List Int :=
  if (l.length : Int) < c then l ++ [x] else l

/-- The bounded list of the specification: a dequeue returns and removes the head, and
returns `-1` on the empty list. -/
def list_dequeue (l : List Int) : Int × List Int :=
  match l with
  | [] => (-1, [])
  | h :: t => (h, t)

/-- The calls applied to the bounded list of the specification. -/
def run_list (c : Int) (l : List Int) : List QueueOp → List Int × List Int
  | [] => ([], l)
  | QueueOp.enqueue x :: ops => run_list c (list_enqueue c l x) ops
  | QueueOp.dequeue :: ops =>
    ((list_dequeue l).1 :: (run_list c (list_dequeue l).2 ops).1,
      (run_list c (list_dequeue l).2 ops).2)

/-- What the list view of a queue state has to satisfy. -/
structure BoundedFifo (c : Int) (q : FIFOQueue) : Prop where
  ring : RingOK q
  capacity : q.capacity = c
  length : ((queue_list q).length : Int) = q.size
  size_le : q.size ≤ c
  front_nonneg : 0 ≤ q.front
  front_lt : q.front < c

end MemSim

namespace ProcSim

open MemSim (getI setI indices wrap32)

/-!
## Process-manager simulator (`simulador_procesos.c`)

The process manager is embedded the same way as the memory
manager: the C program keeps one global `System` (and the global `last_preempted_pid`, kept
here as a field of the state) and every C function becomes a function from the state to the
new state, with the C return value when there is one. The process table and the semaphore
table are arrays of fixed length read and written at an `int` index; globals start
zero-filled. Arithmetic on values typed by the user (resources, remaining time, quantum,
semaphore value) wraps at 32 bits; counters that grow by one per operation are unbounded.
Messages, the shared buffer and `printf` output have no effect on the scheduler and are
left out.
-/

def MAX_PROCESSES : Int := 50

def MAX_CPU : Int := 1

def MAX_MEMORY_BLOCKS : Int := 4

def MEMORY_BLOCK_SIZE : Int := 1024

def MAX_SEMAPHORES : Int := 10

def MAX_LOG_ENTRIES : Int := 1000

inductive ProcessState where
  | READY
  | RUNNING
  | WAITING
  | TERMINATED
deriving DecidableEq, Repr

inductive TerminationCause where
  | NORMAL
  | ERROR_TERMINATION
  | DEADLOCK
  | USER_TERMINATION
deriving DecidableEq, Repr

inductive SchedulingAlgorithm where
  | FCFS
  | ROUND_ROBIN
deriving DecidableEq, Repr

structure Resources where
  cpu : Int
  memory_blocks : Int
deriving DecidableEq, Repr

structure PCB where
  pid : Int
  state : ProcessState
  priority : Int
  allocated : Resources
  needed : Resources
  burst_time : Int
  remaining_time : Int
  arrival_time : Int
  completion_time : Int
  waiting_time : Int
  turnaround_time : Int
  quantum_remaining : Int
  termination_cause : TerminationCause
deriving DecidableEq, Repr

structure Semaphore where
  id : Int
  value : Int
  waiting_pids : List Int
  waiting_count : Int
deriving DecidableEq, Repr

structure LogEntry where
  time : Int
  pid : Int
  event : String
deriving DecidableEq, Repr

/-- The global `sys` together with the global `last_preempted_pid`. -/
structure System where
  processes : List PCB
  process_count : Int
  next_pid : Int
  available : Resources
  total : Resources
  semaphores : List Semaphore
  semaphore_count : Int
  algorithm : SchedulingAlgorithm
  quantum : Int
  current_time : Int
  running_pid : Int
  logs : List LogEntry
  log_count : Int
  total_processes_completed : Int
  total_waiting_time : Int
  total_turnaround_time : Int
  cpu_busy_time : Int
  last_preempted_pid : Int
deriving DecidableEq, Repr

/-- A zero-filled cell of the process table. -/
def zeroPCB : PCB :=
  ⟨0, ProcessState.READY, 0, ⟨0, 0⟩, ⟨0, 0⟩, 0, 0, 0, 0, 0, 0, 0, TerminationCause.NORMAL⟩

/-- A zero-filled cell of the semaphore table. -/
def zeroSemaphore : Semaphore := ⟨0, 0, List.replicate MAX_PROCESSES.toNat 0, 0⟩

/-- The cell `sys.processes[i]`. -/
def procAt (s : System) (i : Int) : PCB := getI s.processes i zeroPCB

/-- The cell `sys.semaphores[i]`. -/
def semAt (s : System) (i : Int) : Semaphore := getI s.semaphores i zeroSemaphore

/-- Assignment to fields of `sys.processes[idx]`. -/
def modify_process (s : System) (idx : Int) (f : PCB → PCB) : System :=
  { s with processes := setI s.processes idx (f (procAt s idx)) }

/-- Assignment to fields of `sys.semaphores[sem_id]`. -/
def modify_semaphore (s : System) (sem_id : Int) (f : Semaphore → Semaphore) : System :=
  { s with semaphores := setI s.semaphores sem_id (f (semAt s sem_id)) }

def add_log (s : System) (pid : Int) (event : String) : System :=
  if s.log_count < MAX_LOG_ENTRIES then
    { s with logs := s.logs ++ [⟨s.current_time, pid, event.take 255⟩],
             log_count := s.log_count + 1 }
  else s

def init_system : System :=
  add_log
    { processes := List.replicate MAX_PROCESSES.toNat zeroPCB
      process_count := 0
      next_pid := 1
      available := ⟨MAX_CPU, MAX_MEMORY_BLOCKS⟩
      total := ⟨MAX_CPU, MAX_MEMORY_BLOCKS⟩
      semaphores := List.replicate MAX_SEMAPHORES.toNat zeroSemaphore
      semaphore_count := 0
      algorithm := SchedulingAlgorithm.FCFS
      quantum := 2
      current_time := 0
      running_pid := -1
      logs := []
      log_count := 0
      total_processes_completed := 0
      total_waiting_time := 0
      total_turnaround_time := 0
      cpu_busy_time := 0
      last_preempted_pid := -1 }
    (-1) "Sistema inicializado"

/-- The menu shown once after `init_system`: `choice` and, for Round Robin, `quantum` are
what the user types. -/
def select_algorithm (s : System) (choice quantum : Int) : System :=
  if choice = 1 then
    add_log { s with algorithm := SchedulingAlgorithm.FCFS } (-1) "Algoritmo FCFS seleccionado"
  else if choice = 2 then
    add_log { s with algorithm := SchedulingAlgorithm.ROUND_ROBIN, quantum := quantum } (-1)
      ("Algoritmo Round Robin seleccionado (Quantum: " ++ toString quantum ++ ")")
  else { s with algorithm := SchedulingAlgorithm.FCFS }

def create_process (s : System) (burst_time priority memory_blocks : Int) : Int × System :=
  if s.process_count ≥ MAX_PROCESSES then (-1, s)
  else if memory_blocks > MAX_MEMORY_BLOCKS then (-1, s)
  else
    let idx := s.process_count
    let pid := s.next_pid
    let s1 := { s with next_pid := s.next_pid + 1 }
    let s2 := modify_process s1 idx (fun p =>
      { p with pid := pid, state := ProcessState.READY, priority := priority,
               allocated := ⟨0, 0⟩, needed := ⟨1, memory_blocks⟩,
               burst_time := burst_time, remaining_time := burst_time,
               arrival_time := s.current_time, completion_time := 0, waiting_time := 0,
               turnaround_time := 0, quantum_remaining := s.quantum })
    let s3 := { s2 with process_count := s2.process_count + 1 }
    (pid, add_log s3 pid
      ("Proceso PID " ++ toString pid ++ " creado (Burst: " ++ toString burst_time ++
        ", Prioridad: " ++ toString priority ++ ", Memoria: " ++ toString memory_blocks ++
        " bloques = " ++ toString (wrap32 (memory_blocks * MEMORY_BLOCK_SIZE)) ++ "MB)"))

def find_process_by_pid (s : System) (pid : Int) : Int :=
  match (indices s.process_count).find? (fun i => decide ((procAt s i).pid = pid)) with
  | some i => i
  | none => -1

def check_deadlock_prevention (s : System) (req : Resources) : Bool :=
  if req.cpu > s.available.cpu ∨ req.memory_blocks > s.available.memory_blocks then false
  else true

def request_resources (s : System) (pid : Int) (req : Resources) : Bool × System :=
  let idx := find_process_by_pid s pid
  if idx = -1 then (false, s)
  else if !check_deadlock_prevention s req then
    (false,
      modify_process
        (add_log s pid
          ("Solicitud de recursos denegada para PID " ++ toString pid ++
            " (prevencion deadlock)"))
        idx (fun p => { p with state := ProcessState.WAITING }))
  else if req.cpu ≤ s.available.cpu ∧ req.memory_blocks ≤ s.available.memory_blocks then
    let s1 := { s with available :=
      ⟨wrap32 (s.available.cpu - req.cpu),
        wrap32 (s.available.memory_blocks - req.memory_blocks)⟩ }
    let s2 := modify_process s1 idx (fun p =>
      { p with allocated :=
          ⟨wrap32 (p.allocated.cpu + req.cpu),
            wrap32 (p.allocated.memory_blocks + req.memory_blocks)⟩ })
    (true, add_log s2 pid
      ("Recursos asignados a PID " ++ toString pid ++ " (CPU: " ++ toString req.cpu ++
        ", Memoria: " ++ toString req.memory_blocks ++ " bloques = " ++
        toString (wrap32 (req.memory_blocks * MEMORY_BLOCK_SIZE)) ++ "MB)"))
  else
    (false,
      add_log (modify_process s idx (fun p => { p with state := ProcessState.WAITING })) pid
        ("PID " ++ toString pid ++ " en espera de recursos"))

def release_resources (s : System) (pid : Int) : System :=
  let idx := find_process_by_pid s pid
  if idx = -1 then s
  else
    let p := procAt s idx
    let s1 := { s with available :=
      ⟨wrap32 (s.available.cpu + p.allocated.cpu),
        wrap32 (s.available.memory_blocks + p.allocated.memory_blocks)⟩ }
    let s2 := add_log s1 pid
      ("Recursos liberados de PID " ++ toString pid ++ " (CPU: " ++ toString p.allocated.cpu ++
        ", Memoria: " ++ toString p.allocated.memory_blocks ++ " bloques = " ++
        toString (wrap32 (p.allocated.memory_blocks * MEMORY_BLOCK_SIZE)) ++ "MB)")
    modify_process s2 idx (fun q => { q with allocated := ⟨0, 0⟩ })

def suspend_process (s : System) (pid : Int) : System :=
  let idx := find_process_by_pid s pid
  if idx = -1 then s
  else if (procAt s idx).state = ProcessState.TERMINATED then s
  else
    let s1 := if (procAt s idx).state = ProcessState.RUNNING then { s with running_pid := -1 }
      else s
    add_log (modify_process s1 idx (fun p => { p with state := ProcessState.WAITING })) pid
      ("Proceso PID " ++ toString pid ++ " suspendido")

def resume_process (s : System) (pid : Int) : System :=
  let idx := find_process_by_pid s pid
  if idx = -1 then s
  else if (procAt s idx).state ≠ ProcessState.WAITING then s
  else
    add_log (modify_process s idx (fun p => { p with state := ProcessState.READY })) pid
      ("Proceso PID " ++ toString pid ++ " reanudado")

/-- The text printed for a termination cause. -/
def cause_str : TerminationCause → String
  | TerminationCause.NORMAL => "Normal"
  | TerminationCause.ERROR_TERMINATION => "Error"
  | TerminationCause.DEADLOCK => "Deadlock"
  | TerminationCause.USER_TERMINATION => "Usuario"

def terminate_process (s : System) (pid : Int) (cause : TerminationCause) : System :=
  let idx := find_process_by_pid s pid
  if idx = -1 then s
  else if (procAt s idx).state = ProcessState.TERMINATED then s
  else
    let s1 := if (procAt s idx).state = ProcessState.RUNNING then { s with running_pid := -1 }
      else s
    let s2 := release_resources s1 pid
    let s3 := modify_process s2 idx (fun p =>
      { p with state := ProcessState.TERMINATED, termination_cause := cause,
               completion_time := s2.current_time,
               turnaround_time := wrap32 (s2.current_time - p.arrival_time) })
    let p := procAt s3 idx
    let s4 := { s3 with
      total_processes_completed := s3.total_processes_completed + 1,
      total_waiting_time := wrap32 (s3.total_waiting_time + p.waiting_time),
      total_turnaround_time := wrap32 (s3.total_turnaround_time + p.turnaround_time) }
    add_log s4 pid
      ("Proceso PID " ++ toString pid ++ " terminado (Causa: " ++ cause_str cause ++
        ", Turnaround: " ++ toString p.turnaround_time ++ ", Espera: " ++
        toString p.waiting_time ++ ")")

/-- The loop of the `FCFS` case of `select_next_process`: the value of `selected_idx` after
the cells of `l` have been visited, starting from `sel`. -/
def fcfs_scan (s : System) (l : List Int) (sel : Int) : Int :=
  l.foldl (fun sel i =>
    if (procAt s i).state = ProcessState.READY then
      if sel = -1 ∨ (procAt s i).arrival_time < (procAt s sel).arrival_time then i else sel
    else sel) sel

/-- The first loop of the `ROUND_ROBIN` case of `select_next_process`. -/
def rr_scan (s : System) (l : List Int) (sel : Int) : Int :=
  l.foldl (fun sel i =>
    if (procAt s i).state = ProcessState.READY then
      if (procAt s i).pid = s.last_preempted_pid ∧ s.last_preempted_pid ≠ -1 then sel
      else if sel = -1 then i
      else if (procAt s i).pid < (procAt s sel).pid then i
      else sel
    else sel) sel

/-- The second loop of the `ROUND_ROBIN` case: the preempted process itself, when it is the
only one that is ready. -/
def rr_fallback (s : System) (sel : Int) : Int :=
  if sel = -1 ∧ s.last_preempted_pid ≠ -1 then
    match (indices s.process_count).find? (fun i =>
      decide ((procAt s i).state = ProcessState.READY) &&
        decide ((procAt s i).pid = s.last_preempted_pid)) with
    | some i => i
    | none => sel
  else sel

/-- The value of `selected_idx` after the `switch` of `select_next_process`. -/
def selected_index (s : System) : Int :=
  match s.algorithm with
  | SchedulingAlgorithm.FCFS => fcfs_scan s (indices s.process_count) (-1)
  | SchedulingAlgorithm.ROUND_ROBIN => rr_fallback s (rr_scan s (indices s.process_count) (-1))

/-- The assignments `p->state = RUNNING; sys.running_pid = p->pid;` with their log line. -/
def set_running (s : System) (idx pid : Int) : System :=
  add_log
    { modify_process s idx (fun p => { p with state := ProcessState.RUNNING }) with
      running_pid := pid }
    pid ("Proceso PID " ++ toString pid ++ " ahora en ejecucion")

/-- The statement `last_preempted_pid = -1;` that ends the `ROUND_ROBIN` case. -/
def clear_preempted (s : System) : System :=
  match s.algorithm with
  | SchedulingAlgorithm.FCFS => s
  | SchedulingAlgorithm.ROUND_ROBIN => { s with last_preempted_pid := -1 }

def select_next_process (s : System) : System :=
  let selected_idx := selected_index s
  let s0 := clear_preempted s
  if selected_idx ≠ -1 then
    let p := procAt s0 selected_idx
    if p.allocated.cpu = 0 then
      if (request_resources s0 p.pid p.needed).1 then
        set_running (request_resources s0 p.pid p.needed).2 selected_idx p.pid
      else (request_resources s0 p.pid p.needed).2
    else set_running s0 selected_idx p.pid
  else s0

/-- The time unit charged to the running process in `execute_step`: one unit less of
remaining time, one more of busy CPU, one unit less of quantum under Round Robin, and the
log line. -/
def tick_process (s : System) (idx : Int) : System :=
  let s1 := modify_process s idx (fun p =>
    { p with remaining_time := wrap32 (p.remaining_time - 1) })
  let s2 := { s1 with cpu_busy_time := s1.cpu_busy_time + 1 }
  let s3 := if s2.algorithm = SchedulingAlgorithm.ROUND_ROBIN then
      modify_process s2 idx (fun p =>
        { p with quantum_remaining := wrap32 (p.quantum_remaining - 1) })
    else s2
  add_log s3 (procAt s3 idx).pid
    ("PID " ++ toString (procAt s3 idx).pid ++ " ejecutando (Tiempo restante: " ++
      toString (procAt s3 idx).remaining_time ++ ")")

/-- The branch of `execute_step` taken when the quantum of the running process is used up:
the process gives its resources back and returns to `READY`. -/
def preempt_process (s : System) (idx pid : Int) : System :=
  let s5 := { s with last_preempted_pid := pid }
  let s6 := release_resources s5 pid
  let s7 := modify_process s6 idx (fun q => { q with state := ProcessState.READY })
  let s8 := { s7 with running_pid := -1 }
  let s9 := modify_process s8 idx (fun q => { q with quantum_remaining := s8.quantum })
  add_log s9 pid ("PID " ++ toString pid ++ ": quantum agotado, vuelve a READY")

/-- The part of `execute_step` that runs the process in the CPU for one time unit. -/
def run_current (s : System) : System :=
  if s.running_pid ≠ -1 then
    let idx := find_process_by_pid s s.running_pid
    if idx ≠ -1 then
      if (procAt s idx).state = ProcessState.RUNNING then
        let s4 := tick_process s idx
        let p := procAt s4 idx
        if s4.algorithm = SchedulingAlgorithm.ROUND_ROBIN ∧ p.quantum_remaining ≤ 0 ∧
            p.remaining_time > 0 then
          preempt_process s4 idx p.pid
        else if p.remaining_time ≤ 0 then
          { terminate_process s4 p.pid TerminationCause.NORMAL with running_pid := -1 }
        else s4
      else s
    else s
  else s

/-- The loop of `execute_step` that charges one time unit of waiting to every process that
is ready or waiting. -/
def age_waiting (s : System) : System :=
  (indices s.process_count).foldl (fun t i =>
    if (procAt t i).state = ProcessState.READY ∨ (procAt t i).state = ProcessState.WAITING then
      modify_process t i (fun p => { p with waiting_time := p.waiting_time + 1 })
    else t) s

def execute_step (s : System) : System :=
  let s1 := { s with current_time := s.current_time + 1 }
  let s2 := run_current s1
  let s3 := age_waiting s2
  if s3.running_pid = -1 then select_next_process s3 else s3

def create_semaphore (s : System) (initial_value : Int) : Int × System :=
  if s.semaphore_count ≥ MAX_SEMAPHORES then (-1, s)
  else
    let id := s.semaphore_count
    let s1 := modify_semaphore s id (fun m =>
      { m with id := id, value := initial_value, waiting_count := 0 })
    let s2 := { s1 with semaphore_count := s1.semaphore_count + 1 }
    (id, add_log s2 (-1)
      ("Semaforo " ++ toString id ++ " creado con valor inicial " ++ toString initial_value))

def wait_semaphore (s : System) (sem_id pid : Int) : System :=
  if sem_id < 0 ∨ sem_id ≥ s.semaphore_count then s
  else
    let s1 := modify_semaphore s sem_id (fun m => { m with value := wrap32 (m.value - 1) })
    let s2 := add_log s1 pid
      ("PID " ++ toString pid ++ " ejecuta wait en semaforo " ++ toString sem_id ++
        " (valor: " ++ toString (semAt s1 sem_id).value ++ ")")
    if (semAt s2 sem_id).value < 0 then
      let idx := find_process_by_pid s2 pid
      if idx ≠ -1 then
        let s3 := modify_process s2 idx (fun p => { p with state := ProcessState.WAITING })
        let s4 := modify_semaphore s3 sem_id (fun m =>
          { m with waiting_pids := setI m.waiting_pids m.waiting_count pid,
                   waiting_count := m.waiting_count + 1 })
        add_log s4 pid
          ("PID " ++ toString pid ++ " bloqueado esperando semaforo " ++ toString sem_id)
      else s2
    else s2

/-- The loop of `signal_semaphore` that moves the waiting pids one place towards the
front. -/
def shift_waiting (m : Semaphore) : List Int :=
  (indices (m.waiting_count - 1)).foldl (fun l i => setI l i (getI l (i + 1) 0))
    m.waiting_pids

def signal_semaphore (s : System) (sem_id : Int) : System :=
  if sem_id < 0 ∨ sem_id ≥ s.semaphore_count then s
  else
    let s1 := modify_semaphore s sem_id (fun m => { m with value := wrap32 (m.value + 1) })
    let s2 := add_log s1 (-1)
      ("Signal ejecutado en semaforo " ++ toString sem_id ++ " (valor: " ++
        toString (semAt s1 sem_id).value ++ ")")
    if (semAt s2 sem_id).value ≤ 0 ∧ (semAt s2 sem_id).waiting_count > 0 then
      let pid := getI (semAt s2 sem_id).waiting_pids 0 0
      let s3 := modify_semaphore s2 sem_id (fun m =>
        { m with waiting_pids := shift_waiting m, waiting_count := m.waiting_count - 1 })
      let idx := find_process_by_pid s3 pid
      if idx ≠ -1 then
        add_log (modify_process s3 idx (fun p => { p with state := ProcessState.READY })) pid
          ("PID " ++ toString pid ++ " desbloqueado del semaforo " ++ toString sem_id)
      else s3
    else s2

/-- The menu operations that change the scheduler state, with what the user types. -/
inductive Op where
  | create (burst_time priority memory_blocks : Int)
  | execute
  | suspend (pid : Int)
  | resume (pid : Int)
  | terminate (pid : Int)
  | new_semaphore (initial_value : Int)
  | wait (sem_id pid : Int)
  | signal (sem_id : Int)
deriving DecidableEq, Repr

/-- One pass of the menu loop of `main`. -/
def step (s : System) : Op → System
  | Op.create burst_time priority memory_blocks =>
    (create_process s burst_time priority memory_blocks).2
  | Op.execute => execute_step s
  | Op.suspend pid => suspend_process s pid
  | Op.resume pid => resume_process s pid
  | Op.terminate pid => terminate_process s pid TerminationCause.USER_TERMINATION
  | Op.new_semaphore initial_value => (create_semaphore s initial_value).2
  | Op.wait sem_id pid => wait_semaphore s sem_id pid
  | Op.signal sem_id => signal_semaphore s sem_id

/-- The state after running the operations in order. -/
def run (s : System) (ops : List Op) : System :=
  ops.foldl step s

/-- The state in which the menu loop of `main` starts: `init_system` followed by
`select_algorithm`. -/
def start (choice quantum : Int) : System :=
  select_algorithm init_system choice quantum

/-- Two processes created at time 0 under FCFS, none of them started yet. -/
def fcfs_example : System :=
  run (start 1 0) [Op.create 5 1 1, Op.create 3 1 2]

/-- The second state has the same table layout as the first: the same number of processes,
the same pids in the same cells, the same next pid, semaphore count and algorithm. -/
structure Keeps (s s1 : System) : Prop where
  count : s1.process_count = s.process_count
  next : s1.next_pid = s.next_pid
  len : s1.processes.length = s.processes.length
  pids : ∀ j, (procAt s1 j).pid = (procAt s j).pid
  sems : s1.semaphore_count = s.semaphore_count
  alg : s1.algorithm = s.algorithm

/-- Same layout, same process states and same `running_pid`. -/
structure Same (s s1 : System) : Prop where
  keeps : Keeps s s1
  states : ∀ j, (procAt s1 j).state = (procAt s j).state
  running : s1.running_pid = s.running_pid

/-- The process in cell `idx` is taken out of the CPU, if it had it: afterwards it is not
`RUNNING`, the other cells have the state they had, and `running_pid` is `-1` if the
process was `RUNNING` and unchanged otherwise. -/
structure Stops (s s1 : System) (idx : Int) : Prop where
  keeps : Keeps s s1
  halted : (procAt s1 idx).state ≠ ProcessState.RUNNING
  others : ∀ j, j ≠ idx → (procAt s1 j).state = (procAt s j).state
  running : s1.running_pid =
    if (procAt s idx).state = ProcessState.RUNNING then -1 else s.running_pid

/-- The process in cell `idx` is given the CPU. -/
structure Starts (s s1 : System) (idx : Int) : Prop where
  keeps : Keeps s s1
  started : (procAt s1 idx).state = ProcessState.RUNNING
  others : ∀ j, j ≠ idx → (procAt s1 j).state = (procAt s j).state
  running : s1.running_pid = (procAt s idx).pid

/-- The invariant of the scheduler: the table has `process_count ≤ 50` processes with the
pids `1 .. process_count` in cell order, a `RUNNING` process is the one named by
`running_pid`, and a `running_pid` other than `-1` names a `RUNNING` process. -/
structure SchedOK (s : System) : Prop where
  count_nonneg : 0 ≤ s.process_count
  count_le : s.process_count ≤ MAX_PROCESSES
  len : (s.processes.length : Int) = MAX_PROCESSES
  pids : ∀ i, 0 ≤ i → i < s.process_count → (procAt s i).pid = i + 1
  next : s.next_pid = s.process_count + 1
  running : ∀ i, 0 ≤ i → i < s.process_count →
    (procAt s i).state = ProcessState.RUNNING → s.running_pid = (procAt s i).pid
  owner : s.running_pid ≠ -1 → ∃ i, 0 ≤ i ∧ i < s.process_count ∧
    (procAt s i).pid = s.running_pid ∧ (procAt s i).state = ProcessState.RUNNING

/-- At most one process in the table is `RUNNING`; `running_pid` is `-1` when none is and
the pid of the running process otherwise. -/
def SingleRunning (s : System) : Prop :=
  (∀ i j, 0 ≤ i → i < s.process_count → 0 ≤ j → j < s.process_count →
    (procAt s i).state = ProcessState.RUNNING → (procAt s j).state = ProcessState.RUNNING →
    i = j) ∧
  ((∀ i, 0 ≤ i → i < s.process_count → (procAt s i).state ≠ ProcessState.RUNNING) →
    s.running_pid = -1) ∧
  (∀ i, 0 ≤ i → i < s.process_count → (procAt s i).state = ProcessState.RUNNING →
    s.running_pid = (procAt s i).pid)

/-- Same layout and same process states; `running_pid` may differ. -/
structure Quiet (s s1 : System) : Prop where
  keeps : Keeps s s1
  states : ∀ j, (procAt s1 j).state = (procAt s j).state

/-- The process in cell `idx` ends in a state other than `RUNNING` and the other cells keep
their state; nothing is said about `running_pid`. -/
structure Halts (s s1 : System) (idx : Int) : Prop where
  keeps : Keeps s s1
  halted : (procAt s1 idx).state ≠ ProcessState.RUNNING
  others : ∀ j, j ≠ idx → (procAt s1 j).state = (procAt s j).state

/-- What one operation does to the table, as far as the invariant is concerned. -/
def Effect (s s1 : System) : Prop :=
  Same s s1 ∨
  (∃ idx, 0 ≤ idx ∧ idx < s.process_count ∧ Stops s s1 idx) ∨
  (∃ idx, 0 ≤ idx ∧ idx < s.process_count ∧ s.running_pid = -1 ∧ Starts s s1 idx) ∨
  (s.running_pid = -1 ∧ Keeps s s1 ∧
    (∀ j, (procAt s1 j).state = (procAt s j).state ∨
      (procAt s1 j).state = ProcessState.WAITING) ∧
    s1.running_pid = s.running_pid)

/-- The sum of `allocated.cpu` over the processes in the table. -/
def allocated_cpu (s : System) : Int :=
  ((indices s.process_count).map (fun i => (procAt s i).allocated.cpu)).sum

/-- The sum of `allocated.memory_blocks` over the processes in the table. -/
def allocated_memory (s : System) : Int :=
  ((indices s.process_count).map (fun i => (procAt s i).allocated.memory_blocks)).sum

/-- What is available and what is allocated add up to the total, and what is available
lies between zero and the total. -/
def ResourcesConserved (s : System) : Prop :=
  s.available.cpu + allocated_cpu s = s.total.cpu ∧
  s.available.memory_blocks + allocated_memory s = s.total.memory_blocks ∧
  0 ≤ s.available.cpu ∧ s.available.cpu ≤ s.total.cpu ∧
  0 ≤ s.available.memory_blocks ∧ s.available.memory_blocks ≤ s.total.memory_blocks

/-- The second state has the same table layout and the same resource bookkeeping as the
first. -/
structure ResFrame (s s1 : System) : Prop where
  count : s1.process_count = s.process_count
  next : s1.next_pid = s.next_pid
  len : s1.processes.length = s.processes.length
  pids : ∀ j, (procAt s1 j).pid = (procAt s j).pid
  alloc : ∀ j, (procAt s1 j).allocated = (procAt s j).allocated
  need : ∀ j, (procAt s1 j).needed = (procAt s j).needed
  avail : s1.available = s.available
  total : s1.total = s.total

/-- The invariant of the resource bookkeeping: the table is laid out as in `SchedOK`, every
process needs one CPU and between 0 and `MAX_MEMORY_BLOCKS` memory blocks and holds either
nothing or exactly what it needs, and what is available is not negative and adds up with
what is allocated to the totals. -/
structure ResOK (s : System) : Prop where
  count_nonneg : 0 ≤ s.process_count
  count_le : s.process_count ≤ MAX_PROCESSES
  len : (s.processes.length : Int) = MAX_PROCESSES
  pids : ∀ i, 0 ≤ i → i < s.process_count → (procAt s i).pid = i + 1
  next : s.next_pid = s.process_count + 1
  total_cpu : s.total.cpu = MAX_CPU
  total_mem : s.total.memory_blocks = MAX_MEMORY_BLOCKS
  needed_ok : ∀ i, 0 ≤ i → i < s.process_count →
    (procAt s i).needed.cpu = 1 ∧ 0 ≤ (procAt s i).needed.memory_blocks ∧
      (procAt s i).needed.memory_blocks ≤ MAX_MEMORY_BLOCKS
  alloc_ok : ∀ i, 0 ≤ i → i < s.process_count →
    (procAt s i).allocated = ⟨0, 0⟩ ∨ (procAt s i).allocated = (procAt s i).needed
  avail_cpu : 0 ≤ s.available.cpu
  avail_mem : 0 ≤ s.available.memory_blocks
  cpu_sum : s.available.cpu + allocated_cpu s = s.total.cpu
  mem_sum : s.available.memory_blocks + allocated_memory s = s.total.memory_blocks

/-- A process created with `-3` memory blocks, then one step of the scheduler, which starts
it. -/
def negative_request_state : System :=
  run (start 1 0) [Op.create 5 1 (-3), Op.execute]

/-- The operations of the single-running-process property: `create_process`,
`execute_step`, `suspend_process`, `resume_process`, `terminate_process`,
`wait_semaphore` and `signal_semaphore`, that is every operation of the menu loop except
`create_semaphore`. -/
def listed : Op → Bool
  | Op.new_semaphore _ => false
  | _ => true

/-- A run of listed operations: a process is created and started, does a wait on a
semaphore that does not exist, is suspended and resumed, a second process is created, and
the scheduler steps twice. -/
def listed_run : List Op :=
  [Op.create 5 1 1, Op.execute, Op.wait 0 1, Op.suspend 1, Op.resume 1, Op.create 3 2 1,
   Op.signal 0, Op.execute, Op.execute]

/-- A process is created and started; a semaphore with value 0 is created and the running
process does a wait on it. -/
def blocked_running_state : System :=
  run (start 1 0) [Op.create 5 1 1, Op.execute, Op.new_semaphore 0, Op.wait 0 1]

/-- A semaphore with value 0 is created and a wait is done on it with pid 99, while the
process table is empty. -/
def unknown_waiter_state : System :=
  run (start 1 0) [Op.new_semaphore 0, Op.wait 0 99]

/-- A process and a semaphore with value 0 are created; the process does 50 waits on it. -/
def full_waiting_list_state : System :=
  run (start 1 0) ([Op.create 5 1 1, Op.new_semaphore 0] ++ List.replicate 50 (Op.wait 0 1))

end ProcSim

namespace MemSim

/-! ## Theorems -/

/-! ## Basic facts about indexed access -/

theorem length_setI {α : Type} (l : List α) (i : Int) (x : α) :
    (setI l i x).length = l.length := by
  unfold setI; split <;> simp

theorem getI_setI {α : Type} (l : List α) (i j : Int) (x d : α) :
    getI (setI l i x) j d =
      if i = j ∧ 0 ≤ i ∧ i < (l.length : Int) then x else getI l j d := by
  unfold getI setI
  by_cases hi : 0 ≤ i
  · by_cases hj : 0 ≤ j
    · simp only [hi, hj, if_true, List.getD_eq_getElem?_getD, List.getElem?_set]
      by_cases hij : i = j
      · subst hij
        by_cases hlt : i < (l.length : Int)
        · have : i.toNat < l.length := by omega
          simp [this, hlt]
        · have h1 : ¬ i.toNat < l.length := by omega
          have h2 : l.length ≤ i.toNat := by omega
          simp [h1, hlt, List.getElem?_eq_none h2]
      · have : i.toNat ≠ j.toNat := by omega
        simp [this, hij]
    · have hij : i ≠ j := by omega
      simp [hi, hj, hij]
  · simp [hi]

theorem getI_setI_self {α : Type} (l : List α) (i : Int) (x d : α)
    (h0 : 0 ≤ i) (h1 : i < (l.length : Int)) : getI (setI l i x) i d = x := by
  rw [getI_setI]; simp [h0, h1]

theorem getI_setI_ne {α : Type} (l : List α) (i j : Int) (x d : α) (h : i ≠ j) :
    getI (setI l i x) j d = getI l j d := by
  rw [getI_setI]; simp [h]

theorem getI_out {α : Type} (l : List α) (i : Int) (d : α)
    (h : i < 0 ∨ (l.length : Int) ≤ i) : getI l i d = d := by
  unfold getI
  by_cases hi : 0 ≤ i
  · have h2 : l.length ≤ i.toNat := by omega
    simp [hi, List.getD_eq_getElem?_getD, List.getElem?_eq_none h2]
  · simp [hi]

theorem getI_ne_default {α : Type} (l : List α) (i : Int) (d : α)
    (h : getI l i d ≠ d) : 0 ≤ i ∧ i < (l.length : Int) := by
  by_contra hc
  apply h
  apply getI_out
  omega

theorem setI_out {α : Type} (l : List α) (i : Int) (x : α)
    (h : i < 0 ∨ (l.length : Int) ≤ i) : setI l i x = l := by
  unfold setI
  by_cases hi : 0 ≤ i
  · have h2 : l.length ≤ i.toNat := by omega
    simp [hi, List.set_eq_of_length_le h2]
  · simp [hi]

theorem mem_indices (n i : Int) : i ∈ indices n ↔ 0 ≤ i ∧ i < n := by
  unfold indices
  simp only [List.mem_map, List.mem_range]
  constructor
  · rintro ⟨a, ha, rfl⟩
    constructor
    · exact Int.ofNat_nonneg a
    · have : (a : Int) < n.toNat := by exact_mod_cast ha
      have h2 : (Int.ofNat a) = (a : Int) := rfl
      omega
  · rintro ⟨h0, h1⟩
    refine ⟨i.toNat, by omega, ?_⟩
    show ((i.toNat : Nat) : Int) = i
    omega

/-- The first index below `n` satisfying `p`, as found by a `for` loop with early exit. -/
theorem indices_find_some (n : Int) (p : Int → Bool) (i : Int)
    (h : (indices n).find? p = some i) :
    0 ≤ i ∧ i < n ∧ p i = true ∧ ∀ j, 0 ≤ j → j < i → p j = false := by
  unfold indices at h
  have key : ∀ m : Nat, ((List.range m).map Int.ofNat).find? p = some i →
      0 ≤ i ∧ i < (m : Int) ∧ p i = true ∧ ∀ j, 0 ≤ j → j < i → p j = false := by
    intro m
    induction m with
    | zero => intro h; simp at h
    | succ k ih =>
      intro h
      rw [List.range_succ, List.map_append, List.find?_append] at h
      cases hf : ((List.range k).map Int.ofNat).find? p with
      | some a =>
        rw [hf] at h
        simp at h
        subst h
        obtain ⟨a0, a1, a2, a3⟩ := ih hf
        exact ⟨a0, by push_cast; omega, a2, a3⟩
      | none =>
        rw [hf] at h
        simp at h
        obtain ⟨hp, hk⟩ := h
        subst hk
        refine ⟨by simp, by push_cast; simp, hp, ?_⟩
        intro j hj0 hjk
        rw [List.find?_eq_none] at hf
        have hmem : j ∈ (List.range k).map Int.ofNat := by
          simp only [List.mem_map, List.mem_range]
          refine ⟨j.toNat, ?_, ?_⟩
          · have : j < (k : Int) := hjk
            omega
          · show ((j.toNat : Nat) : Int) = j
            omega
        have := hf j hmem
        simpa using this
  obtain ⟨a0, a1, a2, a3⟩ := key n.toNat h
  exact ⟨a0, by omega, a2, a3⟩

theorem indices_find_none (n : Int) (p : Int → Bool)
    (h : (indices n).find? p = none) : ∀ j, 0 ≤ j → j < n → p j = false := by
  intro j h0 h1
  rw [List.find?_eq_none] at h
  have := h j ((mem_indices n j).2 ⟨h0, h1⟩)
  simpa using this

theorem indices_find_exists (n : Int) (p : Int → Bool) (j : Int)
    (h0 : 0 ≤ j) (h1 : j < n) (hp : p j = true) :
    ∃ i, (indices n).find? p = some i := by
  cases hf : (indices n).find? p with
  | some i => exact ⟨i, rfl⟩
  | none =>
    have := indices_find_none n p hf j h0 h1
    rw [hp] at this
    cases this

/-! ## The log and failed swap-outs -/

/-- The log never touches frames, page tables, TLB, queue or statistics. -/
theorem add_log_frame (s : MemorySystem) (now : Int) (m : String) :
    (add_log s now m).ram_frames = s.ram_frames ∧
    (add_log s now m).swap_frames = s.swap_frames ∧
    (add_log s now m).processes = s.processes ∧
    (add_log s now m).num_processes = s.num_processes ∧
    (add_log s now m).tlb = s.tlb ∧
    (add_log s now m).fifo_queue = s.fifo_queue ∧
    (add_log s now m).total_page_faults = s.total_page_faults ∧
    (add_log s now m).total_swaps = s.total_swaps ∧
    (add_log s now m).total_tlb_hits = s.total_tlb_hits ∧
    (add_log s now m).total_tlb_misses = s.total_tlb_misses ∧
    (add_log s now m).total_memory_accesses = s.total_memory_accesses := by
  unfold add_log
  split <;> simp

theorem swap_out_failure_unchanged (cfg : Config) (s : MemorySystem) (f now : Int)
    (h : (swap_out_page cfg s f now).1 = false) :
    (swap_out_page cfg s f now).2.ram_frames = s.ram_frames ∧
    (swap_out_page cfg s f now).2.swap_frames = s.swap_frames ∧
    (swap_out_page cfg s f now).2.processes = s.processes ∧
    (swap_out_page cfg s f now).2.num_processes = s.num_processes ∧
    (swap_out_page cfg s f now).2.tlb = s.tlb ∧
    (swap_out_page cfg s f now).2.fifo_queue = s.fifo_queue ∧
    (swap_out_page cfg s f now).2.total_page_faults = s.total_page_faults ∧
    (swap_out_page cfg s f now).2.total_swaps = s.total_swaps ∧
    (swap_out_page cfg s f now).2.total_tlb_hits = s.total_tlb_hits ∧
    (swap_out_page cfg s f now).2.total_tlb_misses = s.total_tlb_misses ∧
    (swap_out_page cfg s f now).2.total_memory_accesses = s.total_memory_accesses := by
  unfold swap_out_page at h ⊢
  by_cases h1 : f < 0 ∨ f ≥ NUM_RAM_FRAMES cfg
  · simp [h1]
  · by_cases h2 : (!(ramAt s f).occupied) = true
    · simp [h1, h2]
    · cases h3 : find_process_slot s (ramAt s f).pid with
      | none => simp [h1, h2, h3]
      | some slot =>
        by_cases h4 : find_free_swap_frame cfg s = -1
        · simp only [h1, h2, h3, h4, if_true, if_false]
          exact add_log_frame s now _
        · simp [h1, h2, h3, h4] at h

/-- Why `swap_out_page` fails. -/
theorem swap_out_failure_cause {cfg : Config} {s : MemorySystem} {f now : Int}
    (h : (swap_out_page cfg s f now).1 = false) :
    (f < 0 ∨ f ≥ NUM_RAM_FRAMES cfg) ∨ (ramAt s f).occupied = false ∨
      find_process_slot s (ramAt s f).pid = none ∨ find_free_swap_frame cfg s = -1 := by
  by_cases h1 : f < 0 ∨ f ≥ NUM_RAM_FRAMES cfg
  · exact Or.inl h1
  · by_cases h2 : (ramAt s f).occupied = false
    · exact Or.inr (Or.inl h2)
    · cases h3 : find_process_slot s (ramAt s f).pid with
      | none => exact Or.inr (Or.inr (Or.inl rfl))
      | some slot =>
        by_cases h4 : find_free_swap_frame cfg s = -1
        · exact Or.inr (Or.inr (Or.inr h4))
        · exfalso
          unfold swap_out_page at h
          simp [h1, h2, h3, h4] at h

/-! ## Ownership between a frame pool and the page tables -/

theorem PidSlot.update {procs : Int → Option PCB} (h : PidSlot procs) {slot : Int} {p p1 : PCB}
    (hp : procs slot = some p) (hpid : p1.pid = p.pid) :
    PidSlot (Function.update procs slot (some p1)) := by
  intro i q hq
  by_cases hi : i = slot
  · subst hi
    simp at hq
    subst hq
    rw [hpid]; exact h _ _ hp
  · simp [Function.update, hi] at hq
    exact h _ _ hq

theorem PidSlot.remove {procs : Int → Option PCB} (h : PidSlot procs) (slot : Int) :
    PidSlot (Function.update procs slot none) := by
  intro i q hq
  by_cases hi : i = slot
  · subst hi; simp at hq
  · simp [Function.update, hi] at hq
    exact h _ _ hq

/-- A free frame `f` is given to page `pg` of the process in `slot`. -/
theorem PoolOwn.join {n : Int} {pool : Int → Frame} {procs : Int → Option PCB}
    {st : PageState} {loc : PageTableEntry → Int}
    (h : PoolOwn n pool procs st loc)
    {slot pg f : Int} {p p1 : PCB} {fr1 : Frame}
    (hp : procs slot = some p) (hpid : p1.pid = p.pid)
    (hsame : ∀ j, 0 ≤ j → j < (p.page_table.length : Int) → j ≠ pg → pageAt p1 j = pageAt p j)
    (hlen : ∀ j, 0 ≤ j → j < (p1.page_table.length : Int) →
      j < (p.page_table.length : Int) ∨ j = pg)
    (hlen2 : ∀ j, 0 ≤ j → j < (p.page_table.length : Int) → j < (p1.page_table.length : Int))
    (hf0 : 0 ≤ f) (hf1 : f < n) (hfree : (pool f).occupied = false)
    (hold : ¬ (0 ≤ pg ∧ pg < (p.page_table.length : Int) ∧ (pageAt p pg).state = st))
    (hpg0 : 0 ≤ pg) (hpg1 : pg < (p1.page_table.length : Int))
    (hst : (pageAt p1 pg).state = st) (hloc : loc (pageAt p1 pg) = f)
    (hocc : fr1.occupied = true) (hfpid : fr1.pid = p.pid) (hfpg : fr1.page_number = pg) :
    PoolOwn n (Function.update pool f fr1) (Function.update procs slot (some p1)) st loc := by
  constructor
  · intro f2 h0 h1 hoc
    by_cases hff : f2 = f
    · subst hff
      simp only [Function.update_same] at hoc ⊢
      refine ⟨slot, p1, by simp, by rw [hpid, hfpid], ?_, ?_, ?_, ?_⟩
      · rw [hfpg]; exact hpg0
      · rw [hfpg]; exact hpg1
      · rw [hfpg]; exact hst
      · rw [hfpg]; exact hloc
    · simp only [Function.update_noteq hff] at hoc ⊢
      obtain ⟨i, q, hq, hqpid, hj0, hj1, hjst, hjloc⟩ := h.owner f2 h0 h1 hoc
      by_cases hi : i = slot
      · subst hi
        rw [hp] at hq
        cases hq
        have hne : (pool f2).page_number ≠ pg := by
          intro hc
          apply hold
          rw [← hc]
          exact ⟨hj0, hj1, hjst⟩
        refine ⟨i, p1, by simp, by rw [hpid]; exact hqpid, hj0, hlen2 _ hj0 hj1, ?_, ?_⟩
        · rw [hsame _ hj0 hj1 hne]; exact hjst
        · rw [hsame _ hj0 hj1 hne]; exact hjloc
      · exact ⟨i, q, by simp [Function.update, hi, hq], hqpid, hj0, hj1, hjst, hjloc⟩
  · intro i q j hq hj0 hj1 hjst
    by_cases hi : i = slot
    · subst hi
      simp at hq
      subst hq
      by_cases hjp : j = pg
      · subst hjp
        rw [hloc]
        simp only [Function.update_same]
        exact ⟨hf0, hf1, hocc, by rw [hfpid, hpid], hfpg⟩
      · have hjl : j < (p.page_table.length : Int) := by
          rcases hlen j hj0 hj1 with h1 | h1
          · exact h1
          · exact absurd h1 hjp
        rw [hsame j hj0 hjl hjp] at hjst ⊢
        obtain ⟨a, b, c, d, e⟩ := h.page i p j hp hj0 hjl hjst
        have hne : (pageAt p j).frame_number = (pageAt p j).frame_number := rfl
        have hlf : loc (pageAt p j) ≠ f := by
          intro hc
          rw [hc, hfree] at c
          cases c
        rw [Function.update_noteq hlf]
        exact ⟨a, b, c, by rw [d, hpid], e⟩
    · simp [Function.update, hi] at hq
      obtain ⟨a, b, c, d, e⟩ := h.page i q j hq hj0 hj1 hjst
      have hlf : loc (pageAt q j) ≠ f := by
        intro hc
        rw [hc, hfree] at c
        cases c
      rw [Function.update_noteq hlf]
      exact ⟨a, b, c, d, e⟩

/-- The frame `f` of page `pg` of the process in `slot` is given up. -/
theorem PoolOwn.leave {n : Int} {pool : Int → Frame} {procs : Int → Option PCB}
    {st : PageState} {loc : PageTableEntry → Int}
    (h : PoolOwn n pool procs st loc) (hps : PidSlot procs)
    {slot pg f : Int} {p p1 : PCB} {fr1 : Frame}
    (hp : procs slot = some p) (hpid : p1.pid = p.pid)
    (hsame : ∀ j, 0 ≤ j → j < (p.page_table.length : Int) → j ≠ pg → pageAt p1 j = pageAt p j)
    (hlen : ∀ j, 0 ≤ j → j < (p1.page_table.length : Int) →
      j < (p.page_table.length : Int) ∨ j = pg)
    (hlen2 : ∀ j, 0 ≤ j → j < (p.page_table.length : Int) → j < (p1.page_table.length : Int))
    (hpg0 : 0 ≤ pg) (hpg1 : pg < (p.page_table.length : Int))
    (hst : (pageAt p pg).state = st) (hloc : loc (pageAt p pg) = f)
    (hnew : (pageAt p1 pg).state ≠ st)
    (hfr : fr1.occupied = false) :
    PoolOwn n (Function.update pool f fr1) (Function.update procs slot (some p1)) st loc := by
  obtain ⟨_, _, hfo, hfp, hfn⟩ := h.page slot p pg hp hpg0 hpg1 hst
  rw [hloc] at hfo hfp hfn
  constructor
  · intro f2 h0 h1 hoc
    by_cases hff : f2 = f
    · subst hff
      simp only [Function.update_same] at hoc
      rw [hfr] at hoc
      cases hoc
    · simp only [Function.update_noteq hff] at hoc ⊢
      obtain ⟨i, q, hq, hqpid, hj0, hj1, hjst, hjloc⟩ := h.owner f2 h0 h1 hoc
      by_cases hi : i = slot
      · subst hi
        rw [hp] at hq
        cases hq
        have hne : (pool f2).page_number ≠ pg := by
          intro hc
          rw [hc, hloc] at hjloc
          exact hff hjloc.symm
        refine ⟨i, p1, by simp, by rw [hpid]; exact hqpid, hj0, hlen2 _ hj0 hj1, ?_, ?_⟩
        · rw [hsame _ hj0 hj1 hne]; exact hjst
        · rw [hsame _ hj0 hj1 hne]; exact hjloc
      · exact ⟨i, q, by simp [Function.update, hi, hq], hqpid, hj0, hj1, hjst, hjloc⟩
  · intro i q j hq hj0 hj1 hjst
    by_cases hi : i = slot
    · subst hi
      simp at hq
      subst hq
      have hjp : j ≠ pg := by
        intro hc
        subst hc
        exact hnew hjst
      have hjl : j < (p.page_table.length : Int) := by
        rcases hlen j hj0 hj1 with h1 | h1
        · exact h1
        · exact absurd h1 hjp
      rw [hsame j hj0 hjl hjp] at hjst ⊢
      obtain ⟨a, b, c, d, e⟩ := h.page i p j hp hj0 hjl hjst
      have hlf : loc (pageAt p j) ≠ f := by
        intro hc
        rw [hc, hfn] at e
        exact hjp e.symm
      rw [Function.update_noteq hlf]
      exact ⟨a, b, c, by rw [d, hpid], e⟩
    · simp [Function.update, hi] at hq
      obtain ⟨a, b, c, d, e⟩ := h.page i q j hq hj0 hj1 hjst
      have hlf : loc (pageAt q j) ≠ f := by
        intro hc
        rw [hc, hfp] at d
        have h1 := hps _ _ hq
        have h2 := hps _ _ hp
        apply hi
        omega
      rw [Function.update_noteq hlf]
      exact ⟨a, b, c, d, e⟩

/-- The pool is untouched and page `pg` of the process in `slot` is not in this pool
before or after. -/
theorem PoolOwn.neutral {n : Int} {pool : Int → Frame} {procs : Int → Option PCB}
    {st : PageState} {loc : PageTableEntry → Int}
    (h : PoolOwn n pool procs st loc)
    {slot pg : Int} {p p1 : PCB}
    (hp : procs slot = some p) (hpid : p1.pid = p.pid)
    (hsame : ∀ j, 0 ≤ j → j < (p.page_table.length : Int) → j ≠ pg → pageAt p1 j = pageAt p j)
    (hlen : ∀ j, 0 ≤ j → j < (p1.page_table.length : Int) →
      j < (p.page_table.length : Int) ∨ j = pg)
    (hlen2 : ∀ j, 0 ≤ j → j < (p.page_table.length : Int) → j < (p1.page_table.length : Int))
    (hold : ¬ (0 ≤ pg ∧ pg < (p.page_table.length : Int) ∧ (pageAt p pg).state = st))
    (hnew : (pageAt p1 pg).state ≠ st) :
    PoolOwn n pool (Function.update procs slot (some p1)) st loc := by
  constructor
  · intro f2 h0 h1 hoc
    obtain ⟨i, q, hq, hqpid, hj0, hj1, hjst, hjloc⟩ := h.owner f2 h0 h1 hoc
    by_cases hi : i = slot
    · subst hi
      rw [hp] at hq
      cases hq
      have hne : (pool f2).page_number ≠ pg := by
        intro hc
        apply hold
        rw [← hc]
        exact ⟨hj0, hj1, hjst⟩
      refine ⟨i, p1, by simp, by rw [hpid]; exact hqpid, hj0, hlen2 _ hj0 hj1, ?_, ?_⟩
      · rw [hsame _ hj0 hj1 hne]; exact hjst
      · rw [hsame _ hj0 hj1 hne]; exact hjloc
    · exact ⟨i, q, by simp [Function.update, hi, hq], hqpid, hj0, hj1, hjst, hjloc⟩
  · intro i q j hq hj0 hj1 hjst
    by_cases hi : i = slot
    · subst hi
      simp at hq
      subst hq
      have hjp : j ≠ pg := by
        intro hc
        subst hc
        exact hnew hjst
      have hjl : j < (p.page_table.length : Int) := by
        rcases hlen j hj0 hj1 with h1 | h1
        · exact h1
        · exact absurd h1 hjp
      rw [hsame j hj0 hjl hjp] at hjst ⊢
      obtain ⟨a, b, c, d, e⟩ := h.page i p j hp hj0 hjl hjst
      exact ⟨a, b, c, by rw [d, hpid], e⟩
    · simp [Function.update, hi] at hq
      exact h.page i q j hq hj0 hj1 hjst

/-- All frames of the process in `slot` are given up and the process leaves the directory. -/
theorem PoolOwn.release {n : Int} {pool pool1 : Int → Frame} {procs : Int → Option PCB}
    {st : PageState} {loc : PageTableEntry → Int}
    (h : PoolOwn n pool procs st loc) (hps : PidSlot procs)
    {slot : Int} {p : PCB} (hp : procs slot = some p)
    (hfreed : ∀ f, 0 ≤ f → f < n → (pool f).occupied = true → (pool f).pid = p.pid →
      (pool1 f).occupied = false)
    (hkeep : ∀ f, 0 ≤ f → f < n → ¬ ((pool f).occupied = true ∧ (pool f).pid = p.pid) →
      pool1 f = pool f) :
    PoolOwn n pool1 (Function.update procs slot none) st loc := by
  constructor
  · intro f2 h0 h1 hoc
    by_cases hc : (pool f2).occupied = true ∧ (pool f2).pid = p.pid
    · rw [hfreed f2 h0 h1 hc.1 hc.2] at hoc
      cases hoc
    · rw [hkeep f2 h0 h1 hc] at hoc ⊢
      obtain ⟨i, q, hq, hqpid, hj0, hj1, hjst, hjloc⟩ := h.owner f2 h0 h1 hoc
      have hi : i ≠ slot := by
        intro hi
        subst hi
        rw [hp] at hq
        cases hq
        exact hc ⟨hoc, hqpid.symm⟩
      exact ⟨i, q, by simp [Function.update, hi, hq], hqpid, hj0, hj1, hjst, hjloc⟩
  · intro i q j hq hj0 hj1 hjst
    by_cases hi : i = slot
    · subst hi; simp at hq
    · simp [Function.update, hi] at hq
      obtain ⟨a, b, c, d, e⟩ := h.page i q j hq hj0 hj1 hjst
      have hc : ¬ ((pool (loc (pageAt q j))).occupied = true ∧
          (pool (loc (pageAt q j))).pid = p.pid) := by
        rintro ⟨_, h2⟩
        rw [d] at h2
        have h3 := hps _ _ hq
        have h4 := hps _ _ hp
        apply hi
        omega
      rw [hkeep _ a b hc]
      exact ⟨a, b, c, d, e⟩

/-! ## The state invariant -/

theorem ramAt_congr {s s1 : MemorySystem} (h : s1.ram_frames = s.ram_frames) :
    ramAt s1 = ramAt s := by
  funext f; unfold ramAt; rw [h]

theorem swapAt_congr {s s1 : MemorySystem} (h : s1.swap_frames = s.swap_frames) :
    swapAt s1 = swapAt s := by
  funext f; unfold swapAt; rw [h]

theorem procAt_congr {s s1 : MemorySystem} (h : s1.processes = s.processes) :
    procAt s1 = procAt s := by
  funext f; unfold procAt; rw [h]

/-- The invariant only looks at the frames, the directory, the TLB size and the queue. -/
theorem Inv.of_eq {cfg : Config} {s s1 : MemorySystem} (h : Inv cfg s)
    (h1 : s1.ram_frames = s.ram_frames) (h2 : s1.swap_frames = s.swap_frames)
    (h3 : s1.processes = s.processes) (h4 : s1.tlb.length = s.tlb.length)
    (h5 : FifoOK cfg s1.fifo_queue) : Inv cfg s1 := by
  have r := ramAt_congr h1
  have w := swapAt_congr h2
  have q := procAt_congr h3
  exact
    { ram_len := by rw [h1]; exact h.ram_len
      swap_len := by rw [h2]; exact h.swap_len
      proc_len := by rw [h3]; exact h.proc_len
      tlb_len := by rw [h4]; exact h.tlb_len
      fifo_ok := h5
      pid_slot := by rw [q]; exact h.pid_slot
      table_len := by rw [q]; exact h.table_len
      page_state := by rw [q]; exact h.page_state
      ram_own := by rw [q, r]; exact h.ram_own
      swap_own := by rw [q, w]; exact h.swap_own }

theorem ramAt_set (s : MemorySystem) (f : Int) (x : Frame) (h0 : 0 ≤ f)
    (h1 : f < (s.ram_frames.length : Int)) :
    (fun j => getI (setI s.ram_frames f x) j emptyFrame) = Function.update (ramAt s) f x := by
  funext j
  rw [getI_setI]
  by_cases hj : j = f
  · subst hj; simp [h0, h1]
  · have : ¬ f = j := fun h => hj h.symm
    simp [Function.update, hj, this, ramAt]

theorem swapAt_set (s : MemorySystem) (f : Int) (x : Frame) (h0 : 0 ≤ f)
    (h1 : f < (s.swap_frames.length : Int)) :
    (fun j => getI (setI s.swap_frames f x) j emptyFrame) = Function.update (swapAt s) f x := by
  funext j
  rw [getI_setI]
  by_cases hj : j = f
  · subst hj; simp [h0, h1]
  · have : ¬ f = j := fun h => hj h.symm
    simp [Function.update, hj, this, swapAt]

theorem procAt_set (s : MemorySystem) (i : Int) (x : Option PCB) (h0 : 0 ≤ i)
    (h1 : i < (s.processes.length : Int)) :
    (fun j => getI (setI s.processes i x) j none) = Function.update (procAt s) i x := by
  funext j
  rw [getI_setI]
  by_cases hj : j = i
  · subst hj; simp [h0, h1]
  · have : ¬ i = j := fun h => hj h.symm
    simp [Function.update, hj, this, procAt]

theorem procAt_range {s : MemorySystem} {i : Int} {p : PCB} (h : procAt s i = some p) :
    0 ≤ i ∧ i < (s.processes.length : Int) := by
  apply getI_ne_default s.processes i none
  unfold procAt at h
  rw [h]; simp

/-- What `find_process_slot` returns. -/
theorem find_process_slot_some {s : MemorySystem} {pid slot : Int}
    (h : find_process_slot s pid = some slot) :
    ∃ p, procAt s slot = some p ∧ p.pid = pid := by
  unfold find_process_slot at h
  obtain ⟨_, _, h3, _⟩ := indices_find_some _ _ _ h
  cases hp : procAt s slot with
  | none => simp [hp] at h3
  | some p =>
    refine ⟨p, rfl, ?_⟩
    simpa [hp] using h3

theorem find_process_slot_none {s : MemorySystem} {pid : Int}
    (h : find_process_slot s pid = none) (hlen : s.processes.length = MAX_PROCESSES.toNat) :
    ∀ i p, procAt s i = some p → p.pid ≠ pid := by
  intro i p hp hpid
  have hr := procAt_range hp
  unfold find_process_slot at h
  have := indices_find_none _ _ h i hr.1 (by
    rw [hlen] at hr
    have : MAX_PROCESSES = 50 := rfl
    omega)
  simp [hp, hpid] at this

theorem find_process_slot_of_live {s : MemorySystem} (hps : PidSlot (procAt s))
    (hlen : s.processes.length = MAX_PROCESSES.toNat) {i : Int} {p : PCB}
    (hp : procAt s i = some p) : find_process_slot s p.pid = some i := by
  cases hf : find_process_slot s p.pid with
  | none => exact absurd rfl (find_process_slot_none hf hlen i p hp)
  | some k =>
    obtain ⟨q, hq, hqpid⟩ := find_process_slot_some hf
    have h1 := hps _ _ hq
    have h2 := hps _ _ hp
    have : k = i := by omega
    rw [this]

theorem find_free_ram_frame_spec (cfg : Config) (s : MemorySystem)
    (h : find_free_ram_frame cfg s ≠ -1) :
    0 ≤ find_free_ram_frame cfg s ∧ find_free_ram_frame cfg s < NUM_RAM_FRAMES cfg ∧
    (ramAt s (find_free_ram_frame cfg s)).occupied = false ∧
    ∀ j, 0 ≤ j → j < find_free_ram_frame cfg s → (ramAt s j).occupied = true := by
  unfold find_free_ram_frame at h ⊢
  cases hf : (indices (NUM_RAM_FRAMES cfg)).find? (fun i => !(ramAt s i).occupied) with
  | none => simp [hf] at h
  | some i =>
    obtain ⟨a, b, c, d⟩ := indices_find_some _ _ _ hf
    simp only [Option.getD_some]
    refine ⟨a, b, by simpa using c, ?_⟩
    intro j h0 h1
    simpa using d j h0 h1

theorem find_free_ram_frame_none (cfg : Config) (s : MemorySystem)
    (h : find_free_ram_frame cfg s = -1) :
    ∀ j, 0 ≤ j → j < NUM_RAM_FRAMES cfg → (ramAt s j).occupied = true := by
  unfold find_free_ram_frame at h
  cases hf : (indices (NUM_RAM_FRAMES cfg)).find? (fun i => !(ramAt s i).occupied) with
  | none =>
    intro j h0 h1
    simpa using indices_find_none _ _ hf j h0 h1
  | some i =>
    obtain ⟨a, _, _, _⟩ := indices_find_some _ _ _ hf
    simp [hf] at h
    omega

theorem find_free_swap_frame_spec (cfg : Config) (s : MemorySystem)
    (h : find_free_swap_frame cfg s ≠ -1) :
    0 ≤ find_free_swap_frame cfg s ∧ find_free_swap_frame cfg s < NUM_SWAP_FRAMES cfg ∧
    (swapAt s (find_free_swap_frame cfg s)).occupied = false ∧
    ∀ j, 0 ≤ j → j < find_free_swap_frame cfg s → (swapAt s j).occupied = true := by
  unfold find_free_swap_frame at h ⊢
  cases hf : (indices (NUM_SWAP_FRAMES cfg)).find? (fun i => !(swapAt s i).occupied) with
  | none => simp [hf] at h
  | some i =>
    obtain ⟨a, b, c, d⟩ := indices_find_some _ _ _ hf
    simp only [Option.getD_some]
    refine ⟨a, b, by simpa using c, ?_⟩
    intro j h0 h1
    simpa using d j h0 h1

theorem find_free_swap_frame_none (cfg : Config) (s : MemorySystem)
    (h : find_free_swap_frame cfg s = -1) :
    ∀ j, 0 ≤ j → j < NUM_SWAP_FRAMES cfg → (swapAt s j).occupied = true := by
  unfold find_free_swap_frame at h
  cases hf : (indices (NUM_SWAP_FRAMES cfg)).find? (fun i => !(swapAt s i).occupied) with
  | none =>
    intro j h0 h1
    simpa using indices_find_none _ _ hf j h0 h1
  | some i =>
    obtain ⟨a, _, _, _⟩ := indices_find_some _ _ _ hf
    simp [hf] at h
    omega

/-! ## TLB and queue facts -/

theorem tlb_update_tlb_length (cfg : Config) (s : MemorySystem) (pid pg f now : Int) :
    (tlb_update cfg s pid pg f now).tlb.length = s.tlb.length := by
  simp [tlb_update, length_setI]

theorem tlb_invalidate_eq (cfg : Config) (s : MemorySystem) (pid : Int) :
    (tlb_invalidate cfg s pid).tlb = (indices cfg.TLB_SIZE).foldl (invalidate_step pid) s.tlb := rfl

theorem invalidate_fold_length (pid : Int) (l : List Int) (tlb : List TLBEntry) :
    (l.foldl (invalidate_step pid) tlb).length = tlb.length := by
  induction l generalizing tlb with
  | nil => rfl
  | cons a l ih =>
    rw [List.foldl_cons, ih]
    unfold invalidate_step
    split
    · exact length_setI _ _ _
    · rfl

theorem tlb_invalidate_tlb_length (cfg : Config) (s : MemorySystem) (pid : Int) :
    (tlb_invalidate cfg s pid).tlb.length = s.tlb.length := by
  rw [tlb_invalidate_eq]; exact invalidate_fold_length _ _ _

theorem invalidate_step_get (pid : Int) (tlb : List TLBEntry) (a i : Int) :
    getI (invalidate_step pid tlb a) i emptyTLBEntry =
      if i = a ∧ (getI tlb i emptyTLBEntry).valid = true ∧ (getI tlb i emptyTLBEntry).pid = pid
      then { getI tlb i emptyTLBEntry with valid := false } else getI tlb i emptyTLBEntry := by
  unfold invalidate_step
  by_cases hc : (getI tlb a emptyTLBEntry).valid = true ∧ (getI tlb a emptyTLBEntry).pid = pid
  · have hr : 0 ≤ a ∧ a < (tlb.length : Int) := by
      apply getI_ne_default tlb a emptyTLBEntry
      intro h
      rw [h] at hc
      simp [emptyTLBEntry] at hc
    simp only [hc.1, hc.2, decide_True, Bool.and_self, if_true]
    rw [getI_setI]
    by_cases hia : i = a
    · subst hia
      simp [hr.1, hr.2, hc.1, hc.2]
    · have : ¬ a = i := fun h => hia h.symm
      simp [hia, this]
  · have : ((getI tlb a emptyTLBEntry).valid && decide ((getI tlb a emptyTLBEntry).pid = pid))
        = false := by
      by_cases hv : (getI tlb a emptyTLBEntry).valid = true
      · have : (getI tlb a emptyTLBEntry).pid ≠ pid := fun h => hc ⟨hv, h⟩
        simp [this]
      · simp [hv]
    simp only [this]
    by_cases hia : i = a
    · subst hia
      simp [hc]
    · simp [hia]

theorem invalidate_fold_get (pid : Int) (l : List Int) (tlb : List TLBEntry) (i : Int) :
    getI (l.foldl (invalidate_step pid) tlb) i emptyTLBEntry =
      if i ∈ l ∧ (getI tlb i emptyTLBEntry).valid = true ∧ (getI tlb i emptyTLBEntry).pid = pid
      then { getI tlb i emptyTLBEntry with valid := false } else getI tlb i emptyTLBEntry := by
  induction l generalizing tlb with
  | nil => simp
  | cons a l ih =>
    rw [List.foldl_cons, ih, invalidate_step_get]
    by_cases hia : i = a
    · subst hia
      by_cases hc : (getI tlb i emptyTLBEntry).valid = true ∧ (getI tlb i emptyTLBEntry).pid = pid
      · simp [hc.1, hc.2]
      · simp [hc]
    · simp [hia]

/-- After `tlb_invalidate`, a slot is what it was, except that the valid slots of `pid`
inside the TLB have lost their valid bit. -/
theorem tlb_invalidate_get (cfg : Config) (s : MemorySystem) (pid i : Int) :
    tlbAt (tlb_invalidate cfg s pid) i =
      if (0 ≤ i ∧ i < cfg.TLB_SIZE) ∧ (tlbAt s i).valid = true ∧ (tlbAt s i).pid = pid
      then { tlbAt s i with valid := false } else tlbAt s i := by
  unfold tlbAt
  rw [tlb_invalidate_eq, invalidate_fold_get]
  simp only [mem_indices]

theorem tlb_invalidate_no_pid (cfg : Config) (s : MemorySystem) (pid i : Int)
    (h0 : 0 ≤ i) (h1 : i < cfg.TLB_SIZE) :
    ¬ ((tlbAt (tlb_invalidate cfg s pid) i).valid = true ∧
        (tlbAt (tlb_invalidate cfg s pid) i).pid = pid) := by
  rw [tlb_invalidate_get]
  by_cases hc : (tlbAt s i).valid = true ∧ (tlbAt s i).pid = pid
  · simp [h0, h1, hc.1, hc.2]
  · rw [if_neg (fun h => hc h.2)]
    exact hc

theorem tlb_victim_scan_range (tlb : List TLBEntry) (n : Int) (l : List Int)
    (hl : ∀ i ∈ l, 0 ≤ i ∧ i < n) (v o : Int) (hv : 0 ≤ v ∧ v < n) :
    0 ≤ tlb_victim_scan tlb l v o ∧ tlb_victim_scan tlb l v o < n := by
  induction l generalizing v o with
  | nil => simpa [tlb_victim_scan] using hv
  | cons a l ih =>
    have ha := hl a (List.mem_cons_self _ _)
    have hl2 : ∀ i ∈ l, 0 ≤ i ∧ i < n := fun i hi => hl i (List.mem_cons_of_mem _ hi)
    unfold tlb_victim_scan
    split
    · exact ha
    · split
      · exact ih hl2 _ _ ha
      · exact ih hl2 _ _ hv

theorem tlb_victim_range (cfg : Config) (s : MemorySystem) (h : 1 ≤ cfg.TLB_SIZE) :
    0 ≤ tlb_victim cfg s ∧ tlb_victim cfg s < cfg.TLB_SIZE := by
  unfold tlb_victim
  apply tlb_victim_scan_range
  · intro i hi
    exact (mem_indices _ _).1 hi
  · omega

theorem enqueue_fifo_ok (cfg : Config) (q : FIFOQueue) (x : Int) (h : FifoOK cfg q) :
    FifoOK cfg (enqueue_fifo q x) := by
  obtain ⟨h1, h2, h3, h4, h5, h6⟩ := h
  unfold enqueue_fifo
  by_cases hc : q.size ≥ q.capacity
  · simp only [hc, if_true]
    exact ⟨h1, h2, h3, h4, h5, h6⟩
  · simp only [hc, if_false]
    have hcap : 0 < q.capacity := by omega
    have hr0 : 0 ≤ q.rear + 1 := by omega
    have hm0 : 0 ≤ Int.tmod (q.rear + 1) q.capacity := Int.tmod_nonneg _ hr0
    have hm1 : Int.tmod (q.rear + 1) q.capacity < q.capacity := Int.tmod_lt_of_pos _ hcap
    refine ⟨h1, ?_, ?_, ?_, ?_, ?_⟩
    · show (setI q.queue _ x).length = q.capacity.toNat
      rw [length_setI]; exact h2
    · show 0 ≤ q.size + 1
      omega
    · left; show q.size + 1 ≤ q.capacity
      omega
    · show -1 ≤ Int.tmod (q.rear + 1) q.capacity
      omega
    · left; exact hm1

theorem dequeue_fifo_ok (cfg : Config) (q : FIFOQueue) (h : FifoOK cfg q) :
    FifoOK cfg (dequeue_fifo q).2 := by
  obtain ⟨h1, h2, h3, h4, h5, h6⟩ := h
  unfold dequeue_fifo
  by_cases hc : q.size = 0
  · simp only [hc, if_true]
    exact ⟨h1, h2, by omega, by omega, h5, h6⟩
  · simp only [hc, if_false]
    refine ⟨h1, h2, ?_, ?_, h5, h6⟩
    · show 0 ≤ q.size - 1
      omega
    · left; show q.size - 1 ≤ q.capacity
      omega

theorem select_victim_frame (s : MemorySystem) :
    (select_victim_page_fifo s).2.ram_frames = s.ram_frames ∧
    (select_victim_page_fifo s).2.swap_frames = s.swap_frames ∧
    (select_victim_page_fifo s).2.processes = s.processes ∧
    (select_victim_page_fifo s).2.tlb = s.tlb ∧
    (select_victim_page_fifo s).2.num_processes = s.num_processes ∧
    (select_victim_page_fifo s).2.total_page_faults = s.total_page_faults ∧
    (select_victim_page_fifo s).2.total_swaps = s.total_swaps := by
  unfold select_victim_page_fifo
  split <;> simp

theorem select_victim_fifo_ok (cfg : Config) (s : MemorySystem) (h : FifoOK cfg s.fifo_queue) :
    FifoOK cfg (select_victim_page_fifo s).2.fifo_queue := by
  unfold select_victim_page_fifo
  split
  · exact h
  · exact dequeue_fifo_ok cfg _ h

theorem Inv.select_victim {cfg : Config} {s : MemorySystem} (h : Inv cfg s) :
    Inv cfg (select_victim_page_fifo s).2 := by
  obtain ⟨a, b, c, d, _⟩ := select_victim_frame s
  exact h.of_eq a b c (by rw [d]) (select_victim_fifo_ok cfg s h.fifo_ok)

theorem Inv.add_log {cfg : Config} {s : MemorySystem} (h : Inv cfg s) (now : Int) (m : String) :
    Inv cfg (MemSim.add_log s now m) := by
  obtain ⟨a, b, c, _, d, e, _⟩ := add_log_frame s now m
  exact h.of_eq a b c (by rw [d]) (by rw [e]; exact h.fifo_ok)

/-! ## `swap_out_page` -/

/-- Everything a successful `swap_out_page` does, field by field. -/
theorem swap_out_page_success {cfg : Config} {s : MemorySystem} {f now : Int}
    (h : (swap_out_page cfg s f now).1 = true) :
    ∃ slot p, 0 ≤ f ∧ f < NUM_RAM_FRAMES cfg ∧ (ramAt s f).occupied = true ∧
      find_process_slot s (ramAt s f).pid = some slot ∧
      procAt s slot = some p ∧ p.pid = (ramAt s f).pid ∧
      find_free_swap_frame cfg s ≠ -1 ∧
      (swap_out_page cfg s f now).2.ram_frames =
        setI s.ram_frames f (released_frame (ramAt s f)) ∧
      (swap_out_page cfg s f now).2.swap_frames =
        setI s.swap_frames (find_free_swap_frame cfg s)
          ⟨(ramAt s f).pid, (ramAt s f).page_number, true, now⟩ ∧
      (swap_out_page cfg s f now).2.processes =
        setI s.processes slot (some (set_page p (ramAt s f).page_number
          (swapped_out_entry (pageAt p (ramAt s f).page_number)
            (find_free_swap_frame cfg s)))) ∧
      (swap_out_page cfg s f now).2.tlb = (tlb_invalidate cfg s (ramAt s f).pid).tlb ∧
      (swap_out_page cfg s f now).2.fifo_queue = s.fifo_queue ∧
      (swap_out_page cfg s f now).2.num_processes = s.num_processes ∧
      (swap_out_page cfg s f now).2.total_swaps = s.total_swaps + 1 ∧
      (swap_out_page cfg s f now).2.total_page_faults = s.total_page_faults ∧
      (swap_out_page cfg s f now).2.total_tlb_hits = s.total_tlb_hits ∧
      (swap_out_page cfg s f now).2.total_tlb_misses = s.total_tlb_misses ∧
      (swap_out_page cfg s f now).2.total_memory_accesses = s.total_memory_accesses := by
  unfold swap_out_page at h
  by_cases h1 : f < 0 ∨ f ≥ NUM_RAM_FRAMES cfg
  · simp [h1] at h
  · by_cases h2 : (!(ramAt s f).occupied) = true
    · simp [h1, h2] at h
    · cases h3 : find_process_slot s (ramAt s f).pid with
      | none => simp [h1, h2, h3] at h
      | some slot =>
        by_cases h4 : find_free_swap_frame cfg s = -1
        · simp [h1, h2, h3, h4] at h
        · obtain ⟨p, hp, hpid⟩ := find_process_slot_some h3
          refine ⟨slot, p, by omega, by omega, by simpa using h2, rfl, hp, hpid, h4, ?_⟩
          unfold swap_out_page
          have hp1 : ∀ x, procAt { s with swap_frames := x } slot = some p := fun _ => hp
          rw [if_neg h1, if_neg h2]
          simp only [h3]
          rw [if_neg h4]
          simp only [modify_process, hp1]
          refine ⟨?_, ?_, ?_, ?_, ?_, ?_, ?_, ?_, ?_, ?_, ?_⟩
          · exact (add_log_frame _ _ _).1.trans rfl
          · exact (add_log_frame _ _ _).2.1.trans rfl
          · exact (add_log_frame _ _ _).2.2.1.trans rfl
          · exact (add_log_frame _ _ _).2.2.2.2.1.trans rfl
          · exact (add_log_frame _ _ _).2.2.2.2.2.1.trans rfl
          · exact (add_log_frame _ _ _).2.2.2.1.trans rfl
          · exact (add_log_frame _ _ _).2.2.2.2.2.2.2.1.trans rfl
          · exact (add_log_frame _ _ _).2.2.2.2.2.2.1.trans rfl
          · exact (add_log_frame _ _ _).2.2.2.2.2.2.2.2.1.trans rfl
          · exact (add_log_frame _ _ _).2.2.2.2.2.2.2.2.2.1.trans rfl
          · exact (add_log_frame _ _ _).2.2.2.2.2.2.2.2.2.2.trans rfl

theorem pageAt_set_page (p : PCB) (pg j : Int) (e : PageTableEntry) :
    pageAt (set_page p pg e) j =
      if pg = j ∧ 0 ≤ pg ∧ pg < (p.page_table.length : Int) then e else pageAt p j := by
  unfold pageAt set_page
  exact getI_setI _ _ _ _ _

theorem pageAt_set_page_self (p : PCB) (pg : Int) (e : PageTableEntry)
    (h0 : 0 ≤ pg) (h1 : pg < (p.page_table.length : Int)) :
    pageAt (set_page p pg e) pg = e := by
  rw [pageAt_set_page]; simp [h0, h1]

theorem pageAt_set_page_ne (p : PCB) (pg j : Int) (e : PageTableEntry) (h : j ≠ pg) :
    pageAt (set_page p pg e) j = pageAt p j := by
  rw [pageAt_set_page]
  have : ¬ pg = j := fun h2 => h h2.symm
  simp [this]

theorem set_page_length (p : PCB) (pg : Int) (e : PageTableEntry) :
    (set_page p pg e).page_table.length = p.page_table.length := by
  unfold set_page; exact length_setI _ _ _

/-- Rebuilding the invariant after one process record has been rewritten in place. -/
theorem Inv.rebuild {cfg : Config} {s s1 : MemorySystem} (h : Inv cfg s)
    {slot : Int} {p p1 : PCB}
    (hp : procAt s slot = some p)
    (hproc : s1.processes = setI s.processes slot (some p1))
    (hrl : s1.ram_frames.length = s.ram_frames.length)
    (hsl : s1.swap_frames.length = s.swap_frames.length)
    (htl : s1.tlb.length = s.tlb.length)
    (hq : FifoOK cfg s1.fifo_queue)
    (hpid : p1.pid = p.pid)
    (hnum : p1.page_table.length = p1.num_pages.toNat)
    (hstate : ∀ j, 0 ≤ j → j < (p1.page_table.length : Int) →
      (pageAt p1 j).state = PageState.PAGE_IN_RAM ∨ (pageAt p1 j).state = PageState.PAGE_IN_SWAP)
    (hram : PoolOwn (NUM_RAM_FRAMES cfg) (ramAt s1) (Function.update (procAt s) slot (some p1))
      PageState.PAGE_IN_RAM PageTableEntry.frame_number)
    (hswap : PoolOwn (NUM_SWAP_FRAMES cfg) (swapAt s1) (Function.update (procAt s) slot (some p1))
      PageState.PAGE_IN_SWAP PageTableEntry.swap_position) :
    Inv cfg s1 := by
  have hr := procAt_range hp
  have hview : procAt s1 = Function.update (procAt s) slot (some p1) := by
    have := procAt_set s slot (some p1) hr.1 hr.2
    unfold procAt at this ⊢
    rw [hproc]; exact this
  exact
    { ram_len := by rw [hrl]; exact h.ram_len
      swap_len := by rw [hsl]; exact h.swap_len
      proc_len := by rw [hproc, length_setI]; exact h.proc_len
      tlb_len := by rw [htl]; exact h.tlb_len
      fifo_ok := hq
      pid_slot := by rw [hview]; exact h.pid_slot.update hp hpid
      table_len := by
        intro i q hq2
        rw [hview] at hq2
        by_cases hi : i = slot
        · subst hi
          simp at hq2
          subst hq2
          exact hnum
        · simp [Function.update, hi] at hq2
          exact h.table_len i q hq2
      page_state := by
        intro i q j hq2 hj0 hj1
        rw [hview] at hq2
        by_cases hi : i = slot
        · subst hi
          simp at hq2
          subst hq2
          exact hstate j hj0 hj1
        · simp [Function.update, hi] at hq2
          exact h.page_state i q j hq2 hj0 hj1
      ram_own := by rw [hview]; exact hram
      swap_own := by rw [hview]; exact hswap }

/-- From the owner recorded in an occupied RAM frame to the process found by its pid. -/
theorem Inv.ram_frame_page {cfg : Config} {s : MemorySystem} (h : Inv cfg s)
    {f slot : Int} {p : PCB} (h0 : 0 ≤ f) (h1 : f < NUM_RAM_FRAMES cfg)
    (hocc : (ramAt s f).occupied = true)
    (hp : procAt s slot = some p) (hpid : p.pid = (ramAt s f).pid) :
    0 ≤ (ramAt s f).page_number ∧ (ramAt s f).page_number < (p.page_table.length : Int) ∧
    (pageAt p (ramAt s f).page_number).state = PageState.PAGE_IN_RAM ∧
    (pageAt p (ramAt s f).page_number).frame_number = f := by
  obtain ⟨i, q, hq, hqpid, a, b, c, d⟩ := h.ram_own.owner f h0 h1 hocc
  have e1 := h.pid_slot _ _ hq
  have e2 := h.pid_slot _ _ hp
  have : i = slot := by omega
  subst this
  rw [hp] at hq
  cases hq
  exact ⟨a, b, c, d⟩

theorem Inv.swap_out {cfg : Config} {s : MemorySystem} (h : Inv cfg s) (f now : Int) :
    Inv cfg (swap_out_page cfg s f now).2 := by
  cases hres : (swap_out_page cfg s f now).1 with
  | false =>
    obtain ⟨a, b, c, _, d, e, _⟩ := swap_out_failure_unchanged cfg s f now hres
    exact h.of_eq a b c (by rw [d]) (by rw [e]; exact h.fifo_ok)
  | true =>
    obtain ⟨slot, p, h0, h1, hocc, _, hp, hpid, hsf, hram, hswap, hproc, htlb, hfifo, _⟩ :=
      swap_out_page_success hres
    obtain ⟨pg0, pg1, pgst, pgloc⟩ := h.ram_frame_page h0 h1 hocc hp hpid
    obtain ⟨sf0, sf1, sffree, _⟩ := find_free_swap_frame_spec cfg s hsf
    have hfl : f < (s.ram_frames.length : Int) := by
      have := h.ram_len
      omega
    have hsl : find_free_swap_frame cfg s < (s.swap_frames.length : Int) := by
      have := h.swap_len
      omega
    have vram : ramAt (swap_out_page cfg s f now).2 =
        Function.update (ramAt s) f (released_frame (ramAt s f)) := by
      have := ramAt_set s f (released_frame (ramAt s f)) h0 hfl
      unfold ramAt at this ⊢
      rw [hram]; exact this
    have vswap : swapAt (swap_out_page cfg s f now).2 =
        Function.update (swapAt s) (find_free_swap_frame cfg s)
          ⟨(ramAt s f).pid, (ramAt s f).page_number, true, now⟩ := by
      have := swapAt_set s (find_free_swap_frame cfg s)
        ⟨(ramAt s f).pid, (ramAt s f).page_number, true, now⟩ sf0 hsl
      unfold swapAt at this ⊢
      rw [hswap]; exact this
    have hsame : ∀ j, 0 ≤ j → j < (p.page_table.length : Int) → j ≠ (ramAt s f).page_number →
        pageAt (set_page p (ramAt s f).page_number
          (swapped_out_entry (pageAt p (ramAt s f).page_number)
            (find_free_swap_frame cfg s))) j = pageAt p j :=
      fun j _ _ hj => pageAt_set_page_ne _ _ _ _ hj
    have hself := pageAt_set_page_self p (ramAt s f).page_number
      (swapped_out_entry (pageAt p (ramAt s f).page_number) (find_free_swap_frame cfg s))
      pg0 pg1
    have hpid1 : (set_page p (ramAt s f).page_number
        (swapped_out_entry (pageAt p (ramAt s f).page_number)
          (find_free_swap_frame cfg s))).pid = p.pid := rfl
    apply h.rebuild hp hproc
    · rw [hram, length_setI]
    · rw [hswap, length_setI]
    · rw [htlb, tlb_invalidate_tlb_length]
    · rw [hfifo]; exact h.fifo_ok
    · rfl
    · rw [set_page_length]; exact h.table_len _ _ hp
    · intro j hj0 hj1
      rw [set_page_length] at hj1
      by_cases hj : j = (ramAt s f).page_number
      · rw [hj, hself]; right; rfl
      · rw [hsame j hj0 hj1 hj]
        exact h.page_state _ _ _ hp hj0 hj1
    · rw [vram]
      apply h.ram_own.leave h.pid_slot hp hpid1 hsame
      · intro j hj0 hj1
        rw [set_page_length] at hj1
        exact Or.inl hj1
      · intro j _ hj1
        rw [set_page_length]; exact hj1
      · exact pg0
      · exact pg1
      · exact pgst
      · exact pgloc
      · rw [hself]; simp [swapped_out_entry]
      · rfl
    · rw [vswap]
      apply h.swap_own.join hp hpid1 hsame
      · intro j hj0 hj1
        rw [set_page_length] at hj1
        exact Or.inl hj1
      · intro j _ hj1
        rw [set_page_length]; exact hj1
      · exact sf0
      · exact sf1
      · exact sffree
      · rintro ⟨_, _, hc⟩
        rw [pgst] at hc
        cases hc
      · exact pg0
      · rw [set_page_length]; exact pg1
      · rw [hself]; rfl
      · rw [hself]; rfl
      · rfl
      · exact hpid.symm
      · rfl

/-! ## `swap_in_page` -/

theorem setI_setI {α : Type} (l : List α) (i : Int) (x y : α) :
    setI (setI l i x) i y = setI l i y := by
  unfold setI
  split <;> simp

theorem procAt_setI_self (s : MemorySystem) (slot : Int) (x : Option PCB)
    (h0 : 0 ≤ slot) (h1 : slot < (s.processes.length : Int)) :
    getI (setI s.processes slot x) slot none = x :=
  getI_setI_self _ _ _ _ h0 h1

/-- Everything the tail of `swap_in_page` does, field by field. -/
theorem swap_in_finish_shape (cfg : Config) (s : MemorySystem)
    (slot pid pg sp r now : Int) (p : PCB) (hp : procAt s slot = some p) :
    (swap_in_finish cfg s slot pid pg sp r now).ram_frames =
      setI s.ram_frames r ⟨pid, pg, true, now⟩ ∧
    (swap_in_finish cfg s slot pid pg sp r now).swap_frames =
      setI s.swap_frames sp (released_frame (swapAt s sp)) ∧
    (swap_in_finish cfg s slot pid pg sp r now).processes =
      setI s.processes slot
        (some (count_fault (set_page p pg (swapped_in_entry (pageAt p pg) r now)))) ∧
    (swap_in_finish cfg s slot pid pg sp r now).tlb = (tlb_update cfg s pid pg r now).tlb ∧
    (swap_in_finish cfg s slot pid pg sp r now).fifo_queue = enqueue_fifo s.fifo_queue r ∧
    (swap_in_finish cfg s slot pid pg sp r now).num_processes = s.num_processes ∧
    (swap_in_finish cfg s slot pid pg sp r now).total_swaps = s.total_swaps + 1 ∧
    (swap_in_finish cfg s slot pid pg sp r now).total_page_faults = s.total_page_faults + 1 ∧
    (swap_in_finish cfg s slot pid pg sp r now).total_tlb_hits = s.total_tlb_hits ∧
    (swap_in_finish cfg s slot pid pg sp r now).total_tlb_misses = s.total_tlb_misses ∧
    (swap_in_finish cfg s slot pid pg sp r now).total_memory_accesses =
      s.total_memory_accesses := by
  have hr := procAt_range hp
  have hp1 : ∀ x, procAt { s with ram_frames := x } slot = some p := fun _ => hp
  have hp2 : ∀ (t : MemorySystem) (x : Option PCB), t.processes = setI s.processes slot x →
      procAt t slot = x := by
    intro t x ht
    unfold procAt
    rw [ht]
    exact procAt_setI_self s slot x hr.1 hr.2
  unfold swap_in_finish
  simp only [modify_process, hp1]
  rw [hp2 _ (some (set_page p pg (swapped_in_entry (pageAt p pg) r now))) rfl]
  simp only [tlb_update, setI_setI]
  refine ⟨?_, ?_, ?_, ?_, ?_, ?_, ?_, ?_, ?_, ?_, ?_⟩
  · exact (add_log_frame _ _ _).1.trans rfl
  · exact (add_log_frame _ _ _).2.1.trans rfl
  · exact (add_log_frame _ _ _).2.2.1.trans rfl
  · exact (add_log_frame _ _ _).2.2.2.2.1.trans rfl
  · exact (add_log_frame _ _ _).2.2.2.2.2.1.trans rfl
  · exact (add_log_frame _ _ _).2.2.2.1.trans rfl
  · exact (add_log_frame _ _ _).2.2.2.2.2.2.2.1.trans rfl
  · exact (add_log_frame _ _ _).2.2.2.2.2.2.1.trans rfl
  · exact (add_log_frame _ _ _).2.2.2.2.2.2.2.2.1.trans rfl
  · exact (add_log_frame _ _ _).2.2.2.2.2.2.2.2.2.1.trans rfl
  · exact (add_log_frame _ _ _).2.2.2.2.2.2.2.2.2.2.trans rfl

theorem pageAt_count_fault (p : PCB) (j : Int) : pageAt (count_fault p) j = pageAt p j := rfl

theorem Inv.swap_in_finish {cfg : Config} {s : MemorySystem} (h : Inv cfg s)
    {slot pid pg r : Int} (now : Int) {p : PCB}
    (hp : procAt s slot = some p) (hpid : p.pid = pid)
    (pg0 : 0 ≤ pg) (pg1 : pg < (p.page_table.length : Int))
    (pgst : (pageAt p pg).state = PageState.PAGE_IN_SWAP)
    (r0 : 0 ≤ r) (r1 : r < NUM_RAM_FRAMES cfg) (rfree : (ramAt s r).occupied = false) :
    Inv cfg (MemSim.swap_in_finish cfg s slot pid pg (pageAt p pg).swap_position r now) := by
  obtain ⟨hram, hswap, hproc, htlb, hfifo, _⟩ :=
    swap_in_finish_shape cfg s slot pid pg (pageAt p pg).swap_position r now p hp
  obtain ⟨sp0, sp1, _, _, _⟩ := h.swap_own.page slot p pg hp pg0 pg1 pgst
  have hrl : r < (s.ram_frames.length : Int) := by
    have := h.ram_len
    omega
  have hsl : (pageAt p pg).swap_position < (s.swap_frames.length : Int) := by
    have := h.swap_len
    have : (pageAt p pg).swap_position < NUM_SWAP_FRAMES cfg := sp1
    omega
  have vram : ramAt (MemSim.swap_in_finish cfg s slot pid pg (pageAt p pg).swap_position r now) =
      Function.update (ramAt s) r ⟨pid, pg, true, now⟩ := by
    have := ramAt_set s r ⟨pid, pg, true, now⟩ r0 hrl
    unfold ramAt at this ⊢
    rw [hram]; exact this
  have vswap : swapAt (MemSim.swap_in_finish cfg s slot pid pg (pageAt p pg).swap_position r now) =
      Function.update (swapAt s) (pageAt p pg).swap_position
        (released_frame (swapAt s (pageAt p pg).swap_position)) := by
    have := swapAt_set s (pageAt p pg).swap_position
      (released_frame (swapAt s (pageAt p pg).swap_position)) sp0 hsl
    unfold swapAt at this ⊢
    rw [hswap]; exact this
  have hsame : ∀ j, 0 ≤ j → j < (p.page_table.length : Int) → j ≠ pg →
      pageAt (count_fault (set_page p pg (swapped_in_entry (pageAt p pg) r now))) j =
        pageAt p j :=
    fun j _ _ hj => by rw [pageAt_count_fault]; exact pageAt_set_page_ne _ _ _ _ hj
  have hself : pageAt (count_fault (set_page p pg (swapped_in_entry (pageAt p pg) r now))) pg =
      swapped_in_entry (pageAt p pg) r now := by
    rw [pageAt_count_fault]; exact pageAt_set_page_self p pg _ pg0 pg1
  have hlenp : (count_fault (set_page p pg (swapped_in_entry (pageAt p pg) r now))).page_table.length
      = p.page_table.length := set_page_length _ _ _
  have hpid1 : (count_fault (set_page p pg (swapped_in_entry (pageAt p pg) r now))).pid = p.pid :=
    rfl
  apply h.rebuild hp hproc
  · rw [hram, length_setI]
  · rw [hswap, length_setI]
  · rw [htlb, tlb_update_tlb_length]
  · rw [hfifo]; exact enqueue_fifo_ok cfg _ _ h.fifo_ok
  · rfl
  · rw [hlenp]; exact h.table_len _ _ hp
  · intro j hj0 hj1
    rw [hlenp] at hj1
    by_cases hj : j = pg
    · rw [hj, hself]; left; rfl
    · rw [hsame j hj0 hj1 hj]
      exact h.page_state _ _ _ hp hj0 hj1
  · rw [vram]
    apply h.ram_own.join hp hpid1 hsame
    · intro j hj0 hj1
      rw [hlenp] at hj1
      exact Or.inl hj1
    · intro j _ hj1
      rw [hlenp]; exact hj1
    · exact r0
    · exact r1
    · exact rfree
    · rintro ⟨_, _, hc⟩
      rw [pgst] at hc
      cases hc
    · exact pg0
    · rw [hlenp]; exact pg1
    · rw [hself]; rfl
    · rw [hself]; rfl
    · rfl
    · exact hpid.symm
    · rfl
  · rw [vswap]
    apply h.swap_own.leave h.pid_slot hp hpid1 hsame
    · intro j hj0 hj1
      rw [hlenp] at hj1
      exact Or.inl hj1
    · intro j _ hj1
      rw [hlenp]; exact hj1
    · exact pg0
    · exact pg1
    · exact pgst
    · rfl
    · rw [hself]; simp [swapped_in_entry]
    · rfl

/-- A successful `swap_out_page` leaves every page that is in Swap as it is. -/
theorem swap_out_page_keeps_swapped {cfg : Config} {s : MemorySystem} (h : Inv cfg s)
    {f now : Int} (hres : (swap_out_page cfg s f now).1 = true)
    {slot pg : Int} {p : PCB} (hp : procAt s slot = some p)
    (_pg0 : 0 ≤ pg) (_pg1 : pg < (p.page_table.length : Int))
    (pgst : (pageAt p pg).state = PageState.PAGE_IN_SWAP) :
    ∃ p1, procAt (swap_out_page cfg s f now).2 slot = some p1 ∧ p1.pid = p.pid ∧
      p1.page_table.length = p.page_table.length ∧ pageAt p1 pg = pageAt p pg ∧
      p1.page_faults = p.page_faults ∧ p1.num_pages = p.num_pages := by
  obtain ⟨slot2, p2, h0, h1, hocc, _, hp2, hpid2, hsf, hram, hswap, hproc, _⟩ :=
    swap_out_page_success hres
  obtain ⟨q0, q1, qst, _⟩ := h.ram_frame_page h0 h1 hocc hp2 hpid2
  have hr2 := procAt_range hp2
  by_cases hs : slot = slot2
  · subst hs
    rw [hp] at hp2
    cases hp2
    refine ⟨set_page p (ramAt s f).page_number
      (swapped_out_entry (pageAt p (ramAt s f).page_number) (find_free_swap_frame cfg s)),
      ?_, rfl, set_page_length _ _ _, ?_, rfl, rfl⟩
    · unfold procAt
      rw [hproc]
      exact getI_setI_self _ _ _ _ hr2.1 hr2.2
    · apply pageAt_set_page_ne
      intro hc
      rw [hc, qst] at pgst
      cases pgst
  · refine ⟨p, ?_, rfl, rfl, rfl, rfl, rfl⟩
    unfold procAt
    rw [hproc, getI_setI_ne _ _ _ _ _ (fun hc => hs hc.symm)]
    exact hp

theorem swap_out_page_frees_frame {cfg : Config} {s : MemorySystem} (h : Inv cfg s)
    {f now : Int} (hres : (swap_out_page cfg s f now).1 = true) :
    0 ≤ f ∧ f < NUM_RAM_FRAMES cfg ∧ ramAt (swap_out_page cfg s f now).2 f =
      released_frame (ramAt s f) := by
  obtain ⟨slot2, p2, h0, h1, hocc, _, hp2, hpid2, hsf, hram, _⟩ := swap_out_page_success hres
  refine ⟨h0, h1, ?_⟩
  unfold ramAt
  rw [hram]
  apply getI_setI_self _ _ _ _ h0
  have := h.ram_len
  omega

/-- The state in which the tail of `swap_in_page` runs: the state itself when a RAM frame
is free, otherwise the state after the victim has been dequeued and swapped out. -/
theorem swap_in_page_success {cfg : Config} {s : MemorySystem} (h : Inv cfg s)
    {pid pg now : Int} (hres : (swap_in_page cfg s pid pg now).1 = true) :
    ∃ slot p sm pm r,
      find_process_slot s pid = some slot ∧ procAt s slot = some p ∧ p.pid = pid ∧
      0 ≤ pg ∧ pg < p.num_pages ∧ pg < (p.page_table.length : Int) ∧
      (pageAt p pg).state = PageState.PAGE_IN_SWAP ∧
      Inv cfg sm ∧ procAt sm slot = some pm ∧ pm.pid = pid ∧
      pm.page_table.length = p.page_table.length ∧ pageAt pm pg = pageAt p pg ∧
      pm.page_faults = p.page_faults ∧
      0 ≤ r ∧ r < NUM_RAM_FRAMES cfg ∧ (ramAt sm r).occupied = false ∧
      sm.total_page_faults = s.total_page_faults ∧
      ((find_free_ram_frame cfg s ≠ -1 ∧ sm = s ∧ r = find_free_ram_frame cfg s) ∨
        (find_free_ram_frame cfg s = -1 ∧ s.fifo_queue.size ≠ 0 ∧
          r = (dequeue_fifo s.fifo_queue).1 ∧
          sm = (swap_out_page cfg (select_victim_page_fifo s).2 r now).2 ∧
          (swap_out_page cfg (select_victim_page_fifo s).2 r now).1 = true ∧
          sm.fifo_queue = (dequeue_fifo s.fifo_queue).2)) ∧
      (swap_in_page cfg s pid pg now).2 =
        swap_in_finish cfg sm slot pid pg (pageAt p pg).swap_position r now := by
  have hres0 := hres
  unfold swap_in_page at hres
  cases hslot : find_process_slot s pid with
  | none => simp [hslot] at hres
  | some slot =>
    obtain ⟨p, hp, hpid⟩ := find_process_slot_some hslot
    simp only [hslot, hp] at hres
    by_cases c1 : pg < 0 ∨ pg ≥ p.num_pages
    · simp [c1] at hres
    · rw [if_neg c1] at hres
      by_cases c2 : (pageAt p pg).state ≠ PageState.PAGE_IN_SWAP
      · simp [c2] at hres
      · rw [if_neg c2] at hres
        have pgst : (pageAt p pg).state = PageState.PAGE_IN_SWAP := by
          by_contra hc; exact c2 hc
        by_cases c3 : (pageAt p pg).swap_position < 0 ∨
            (pageAt p pg).swap_position ≥ NUM_SWAP_FRAMES cfg
        · simp [c3] at hres
        · simp only [c3, if_false] at hres
          have pg0 : 0 ≤ pg := by omega
          have pgn : pg < p.num_pages := by omega
          have pg1 : pg < (p.page_table.length : Int) := by
            have := h.table_len _ _ hp
            omega
          by_cases c4 : find_free_ram_frame cfg s = -1
          · simp only [c4, if_true] at hres
            by_cases c5 : (select_victim_page_fifo s).1 = -1
            · simp [c5] at hres
            · simp only [c5, if_false] at hres
              by_cases c6 : (swap_out_page cfg (select_victim_page_fifo s).2
                  (select_victim_page_fifo s).1 now).1 = true
              · have hsv := h.select_victim
                have hpv : procAt (select_victim_page_fifo s).2 slot = some p := by
                  unfold procAt
                  rw [(select_victim_frame s).2.2.1]
                  exact hp
                obtain ⟨pm, hpm, hpmpid, hpmlen, hpmpg, hpmpf, _⟩ :=
                  swap_out_page_keeps_swapped hsv c6 hpv pg0 pg1 pgst
                obtain ⟨r0, r1, rfr⟩ := swap_out_page_frees_frame hsv c6
                obtain ⟨_, _, _, _, _, _, _, _, _, _, _, _, _, hq, _, _, hpf, _⟩ :=
                  swap_out_page_success c6
                have hne : s.fifo_queue.size ≠ 0 := by
                  intro hc
                  apply c5
                  simp [select_victim_page_fifo, is_fifo_empty, hc]
                have hv1 : (select_victim_page_fifo s).1 = (dequeue_fifo s.fifo_queue).1 := by
                  simp [select_victim_page_fifo, is_fifo_empty, hne]
                have hv2 : (select_victim_page_fifo s).2.fifo_queue =
                    (dequeue_fifo s.fifo_queue).2 := by
                  simp [select_victim_page_fifo, is_fifo_empty, hne]
                refine ⟨slot, p, (swap_out_page cfg (select_victim_page_fifo s).2
                    (select_victim_page_fifo s).1 now).2, pm, (select_victim_page_fifo s).1,
                  rfl, hp, hpid, pg0, pgn, pg1, pgst,
                  hsv.swap_out _ now, hpm, by rw [hpmpid, hpid], hpmlen, hpmpg, hpmpf,
                  r0, r1, by rw [rfr]; rfl, ?_, ?_, ?_⟩
                · rw [hpf]; exact (select_victim_frame s).2.2.2.2.2.1
                · right
                  exact ⟨c4, hne, hv1, rfl, c6, by rw [hq, hv2]⟩
                · unfold swap_in_page
                  simp only [hslot, hp]
                  rw [if_neg c1, if_neg c2, if_neg c3, if_pos c4, if_neg c5]
                  simp only [c6, Bool.not_true]
                  rfl
              · simp [c6] at hres
          · obtain ⟨r0, r1, rfree, _⟩ := find_free_ram_frame_spec cfg s c4
            refine ⟨slot, p, s, p, find_free_ram_frame cfg s, rfl, hp, hpid, pg0, pgn, pg1,
              pgst, h, hp, hpid, rfl, rfl,
              rfl, r0, r1, rfree, rfl, Or.inl ⟨c4, rfl, rfl⟩, ?_⟩
            unfold swap_in_page
            simp only [hslot, hp]
            rw [if_neg c1, if_neg c2, if_neg c3, if_neg c4]

theorem Inv.swap_in {cfg : Config} {s : MemorySystem} (h : Inv cfg s) (pid pg now : Int) :
    Inv cfg (swap_in_page cfg s pid pg now).2 := by
  cases hres : (swap_in_page cfg s pid pg now).1 with
  | true =>
    obtain ⟨slot, p, sm, pm, r, _, _, _, pg0, _, pg1, pgst, hsm, hpm, hpmpid, hlen, hpg, _,
      r0, r1, rfree, _, _, heq⟩ := swap_in_page_success h hres
    rw [heq, ← hpg]
    apply hsm.swap_in_finish now hpm hpmpid pg0
    · rw [hlen]; exact pg1
    · rw [hpg]; exact pgst
    · exact r0
    · exact r1
    · exact rfree
  | false =>
    unfold swap_in_page at hres ⊢
    cases hslot : find_process_slot s pid with
    | none => simpa [hslot] using h
    | some slot =>
      obtain ⟨p, hp, hpid⟩ := find_process_slot_some hslot
      simp only [hslot, hp] at hres ⊢
      by_cases c1 : pg < 0 ∨ pg ≥ p.num_pages
      · simpa [c1] using h
      · rw [if_neg c1] at hres ⊢
        by_cases c2 : (pageAt p pg).state ≠ PageState.PAGE_IN_SWAP
        · simpa [c2] using h
        · rw [if_neg c2] at hres ⊢
          by_cases c3 : (pageAt p pg).swap_position < 0 ∨
              (pageAt p pg).swap_position ≥ NUM_SWAP_FRAMES cfg
          · simpa [c3] using h
          · simp only [c3, if_false] at hres ⊢
            by_cases c4 : find_free_ram_frame cfg s = -1
            · simp only [c4, if_true] at hres ⊢
              by_cases c5 : (select_victim_page_fifo s).1 = -1
              · simp only [c5, if_true]
                exact h.select_victim.add_log _ _
              · simp only [c5, if_false] at hres ⊢
                by_cases c6 : (swap_out_page cfg (select_victim_page_fifo s).2
                    (select_victim_page_fifo s).1 now).1 = true
                · simp [c6] at hres
                · have : (swap_out_page cfg (select_victim_page_fifo s).2
                    (select_victim_page_fifo s).1 now).1 = false := by
                    simpa using c6
                  simp only [this, Bool.not_false, if_true]
                  exact h.select_victim.swap_out _ _
            · simp [c4] at hres

/-! ## Releasing the frames of a page table -/

theorem release_page_eq : release_page = free_step released_frame := rfl

theorem rollback_page_eq : rollback_page = free_step rolled_back_frame := rfl

theorem free_step_frame (g : Frame → Frame) (s : MemorySystem) (e : PageTableEntry) :
    (free_step g s e).processes = s.processes ∧ (free_step g s e).tlb = s.tlb ∧
    (free_step g s e).fifo_queue = s.fifo_queue ∧
    (free_step g s e).num_processes = s.num_processes ∧
    (free_step g s e).ram_frames.length = s.ram_frames.length ∧
    (free_step g s e).swap_frames.length = s.swap_frames.length ∧
    (free_step g s e).logs = s.logs ∧ (free_step g s e).log_count = s.log_count ∧
    (free_step g s e).total_page_faults = s.total_page_faults ∧
    (free_step g s e).total_swaps = s.total_swaps ∧
    (free_step g s e).total_tlb_hits = s.total_tlb_hits ∧
    (free_step g s e).total_tlb_misses = s.total_tlb_misses ∧
    (free_step g s e).total_memory_accesses = s.total_memory_accesses := by
  unfold free_step
  split
  · simp [length_setI]
  · split <;> simp [length_setI]

theorem free_fold_frame (g : Frame → Frame) (es : List PageTableEntry) (s : MemorySystem) :
    (es.foldl (free_step g) s).processes = s.processes ∧
    (es.foldl (free_step g) s).tlb = s.tlb ∧
    (es.foldl (free_step g) s).fifo_queue = s.fifo_queue ∧
    (es.foldl (free_step g) s).num_processes = s.num_processes ∧
    (es.foldl (free_step g) s).ram_frames.length = s.ram_frames.length ∧
    (es.foldl (free_step g) s).swap_frames.length = s.swap_frames.length ∧
    (es.foldl (free_step g) s).logs = s.logs ∧ (es.foldl (free_step g) s).log_count = s.log_count ∧
    (es.foldl (free_step g) s).total_page_faults = s.total_page_faults ∧
    (es.foldl (free_step g) s).total_swaps = s.total_swaps ∧
    (es.foldl (free_step g) s).total_tlb_hits = s.total_tlb_hits ∧
    (es.foldl (free_step g) s).total_tlb_misses = s.total_tlb_misses ∧
    (es.foldl (free_step g) s).total_memory_accesses = s.total_memory_accesses := by
  induction es generalizing s with
  | nil => simp
  | cons e es ih =>
    rw [List.foldl_cons]
    obtain ⟨a1, a2, a3, a4, a5, a6, a7, a8, a9, a10, a11, a12, a13⟩ := ih (free_step g s e)
    obtain ⟨b1, b2, b3, b4, b5, b6, b7, b8, b9, b10, b11, b12, b13⟩ := free_step_frame g s e
    exact ⟨a1.trans b1, a2.trans b2, a3.trans b3, a4.trans b4, a5.trans b5, a6.trans b6,
      a7.trans b7, a8.trans b8, a9.trans b9, a10.trans b10, a11.trans b11, a12.trans b12,
      a13.trans b13⟩

/-- One release step on the RAM side: a frame is as before, or it is the frame of the
entry and is now free. -/
theorem free_step_ram (g : Frame → Frame) (hg : ∀ x, (g x).occupied = false)
    (s : MemorySystem) (e : PageTableEntry) (f : Int) :
    ramAt (free_step g s e) f = ramAt s f ∨
      (e.state = PageState.PAGE_IN_RAM ∧ e.frame_number = f ∧
        (ramAt (free_step g s e) f).occupied = false) := by
  unfold free_step
  by_cases h1 : e.state = PageState.PAGE_IN_RAM
  · simp only [h1, if_true]
    unfold ramAt
    simp only [getI_setI]
    by_cases h2 : e.frame_number = f ∧ 0 ≤ e.frame_number ∧
        e.frame_number < (s.ram_frames.length : Int)
    · right
      rw [if_pos h2]
      exact ⟨trivial, h2.1, hg _⟩
    · left
      rw [if_neg h2]
  · left
    simp only [h1, if_false]
    split <;> rfl

theorem free_step_ram_hit (g : Frame → Frame) (hg : ∀ x, (g x).occupied = false)
    (s : MemorySystem) (e : PageTableEntry) (h1 : e.state = PageState.PAGE_IN_RAM)
    (h2 : 0 ≤ e.frame_number) (h3 : e.frame_number < (s.ram_frames.length : Int)) :
    (ramAt (free_step g s e) e.frame_number).occupied = false := by
  unfold free_step
  simp only [h1, if_true]
  unfold ramAt
  rw [getI_setI_self _ _ _ _ h2 h3]
  exact hg _

theorem free_step_swap (g : Frame → Frame) (hg : ∀ x, (g x).occupied = false)
    (s : MemorySystem) (e : PageTableEntry) (f : Int) :
    swapAt (free_step g s e) f = swapAt s f ∨
      (e.state = PageState.PAGE_IN_SWAP ∧ e.swap_position = f ∧
        (swapAt (free_step g s e) f).occupied = false) := by
  unfold free_step
  by_cases h1 : e.state = PageState.PAGE_IN_RAM
  · left
    simp only [h1, if_true]
    rfl
  · simp only [h1, if_false]
    by_cases h0 : e.state = PageState.PAGE_IN_SWAP
    · simp only [h0, if_true]
      unfold swapAt
      simp only [getI_setI]
      by_cases h2 : e.swap_position = f ∧ 0 ≤ e.swap_position ∧
          e.swap_position < (s.swap_frames.length : Int)
      · right
        rw [if_pos h2]
        exact ⟨trivial, h2.1, hg _⟩
      · left
        rw [if_neg h2]
    · left
      simp only [h0, if_false]

theorem free_step_swap_hit (g : Frame → Frame) (hg : ∀ x, (g x).occupied = false)
    (s : MemorySystem) (e : PageTableEntry) (h1 : e.state = PageState.PAGE_IN_SWAP)
    (h2 : 0 ≤ e.swap_position) (h3 : e.swap_position < (s.swap_frames.length : Int)) :
    (swapAt (free_step g s e) e.swap_position).occupied = false := by
  unfold free_step
  have : ¬ e.state = PageState.PAGE_IN_RAM := by rw [h1]; decide
  rw [if_neg this, if_pos h1]
  unfold swapAt
  rw [getI_setI_self _ _ _ _ h2 h3]
  exact hg _

/-- The release loop on the RAM side. -/
theorem free_fold_ram (g : Frame → Frame) (hg : ∀ x, (g x).occupied = false)
    (es : List PageTableEntry) (s : MemorySystem) :
    (∀ f, ramAt (es.foldl (free_step g) s) f = ramAt s f ∨
      ((∃ e ∈ es, e.state = PageState.PAGE_IN_RAM ∧ e.frame_number = f) ∧
        (ramAt (es.foldl (free_step g) s) f).occupied = false)) ∧
    (∀ e ∈ es, e.state = PageState.PAGE_IN_RAM → 0 ≤ e.frame_number →
      e.frame_number < (s.ram_frames.length : Int) →
      (ramAt (es.foldl (free_step g) s) e.frame_number).occupied = false) := by
  induction es generalizing s with
  | nil => simp
  | cons e es ih =>
    rw [List.foldl_cons]
    obtain ⟨ih1, ih2⟩ := ih (free_step g s e)
    have hlen := (free_step_frame g s e).2.2.2.2.1
    constructor
    · intro f
      rcases ih1 f with h1 | ⟨⟨e2, he2, h2, h3⟩, h4⟩
      · rcases free_step_ram g hg s e f with h5 | ⟨h5, h6, h7⟩
        · left; rw [h1, h5]
        · right
          exact ⟨⟨e, List.mem_cons_self _ _, h5, h6⟩, by rw [h1]; exact h7⟩
      · right
        exact ⟨⟨e2, List.mem_cons_of_mem _ he2, h2, h3⟩, h4⟩
    · intro e2 he2 h1 h2 h3
      rcases List.mem_cons.1 he2 with h4 | h4
      · subst h4
        rcases ih1 e2.frame_number with h5 | ⟨_, h5⟩
        · rw [h5]; exact free_step_ram_hit g hg s e2 h1 h2 h3
        · exact h5
      · exact ih2 e2 h4 h1 h2 (by rw [hlen]; exact h3)

/-- The release loop on the Swap side. -/
theorem free_fold_swap (g : Frame → Frame) (hg : ∀ x, (g x).occupied = false)
    (es : List PageTableEntry) (s : MemorySystem) :
    (∀ f, swapAt (es.foldl (free_step g) s) f = swapAt s f ∨
      ((∃ e ∈ es, e.state = PageState.PAGE_IN_SWAP ∧ e.swap_position = f) ∧
        (swapAt (es.foldl (free_step g) s) f).occupied = false)) ∧
    (∀ e ∈ es, e.state = PageState.PAGE_IN_SWAP → 0 ≤ e.swap_position →
      e.swap_position < (s.swap_frames.length : Int) →
      (swapAt (es.foldl (free_step g) s) e.swap_position).occupied = false) := by
  induction es generalizing s with
  | nil => simp
  | cons e es ih =>
    rw [List.foldl_cons]
    obtain ⟨ih1, ih2⟩ := ih (free_step g s e)
    have hlen := (free_step_frame g s e).2.2.2.2.2.1
    constructor
    · intro f
      rcases ih1 f with h1 | ⟨⟨e2, he2, h2, h3⟩, h4⟩
      · rcases free_step_swap g hg s e f with h5 | ⟨h5, h6, h7⟩
        · left; rw [h1, h5]
        · right
          exact ⟨⟨e, List.mem_cons_self _ _, h5, h6⟩, by rw [h1]; exact h7⟩
      · right
        exact ⟨⟨e2, List.mem_cons_of_mem _ he2, h2, h3⟩, h4⟩
    · intro e2 he2 h1 h2 h3
      rcases List.mem_cons.1 he2 with h4 | h4
      · subst h4
        rcases ih1 e2.swap_position with h5 | ⟨_, h5⟩
        · rw [h5]; exact free_step_swap_hit g hg s e2 h1 h2 h3
        · exact h5
      · exact ih2 e2 h4 h1 h2 (by rw [hlen]; exact h3)

theorem getI_mem {α : Type} (l : List α) (i : Int) (d : α) (h0 : 0 ≤ i)
    (h1 : i < (l.length : Int)) : getI l i d ∈ l := by
  unfold getI
  have h2 : i.toNat < l.length := by omega
  simp only [h0, if_true, List.getD_eq_getElem?_getD, List.getElem?_eq_getElem h2,
    Option.getD_some]
  exact List.getElem_mem _

theorem mem_getI {α : Type} (l : List α) (x : α) (d : α) (h : x ∈ l) :
    ∃ i, 0 ≤ i ∧ i < (l.length : Int) ∧ getI l i d = x := by
  obtain ⟨n, hn, hx⟩ := List.getElem_of_mem h
  refine ⟨(n : Int), by omega, by omega, ?_⟩
  unfold getI
  simp [List.getD_eq_getElem?_getD, List.getElem?_eq_getElem hn, hx]

/-- Reading the entries `0 .. num_pages-1` of a table of `num_pages` entries gives the table. -/
theorem indices_map_getI {α : Type} (l : List α) (n : Int) (d : α)
    (h : l.length = n.toNat) : (indices n).map (fun i => getI l i d) = l := by
  unfold indices
  rw [← h]
  apply List.ext_getElem
  · simp
  · intro k h1 h2
    simp [getI, List.getD_eq_getElem?_getD, List.getElem?_eq_getElem h2]

/-! ## `terminate_process` -/

/-- After the release loop over the page table of the process in `slot`, exactly the RAM
frames of that process have been freed. -/
theorem Inv.frees_ram {cfg : Config} {s s1 : MemorySystem} (h : Inv cfg s)
    {slot : Int} {p : PCB} (hp : procAt s slot = some p)
    (g : Frame → Frame) (hg : ∀ x, (g x).occupied = false)
    (hs1 : s1.ram_frames = s.ram_frames) :
    (∀ f, 0 ≤ f → f < NUM_RAM_FRAMES cfg → (ramAt s f).occupied = true →
      (ramAt s f).pid = p.pid →
      (ramAt (p.page_table.foldl (free_step g) s1) f).occupied = false) ∧
    (∀ f, 0 ≤ f → f < NUM_RAM_FRAMES cfg →
      ¬ ((ramAt s f).occupied = true ∧ (ramAt s f).pid = p.pid) →
      ramAt (p.page_table.foldl (free_step g) s1) f = ramAt s f) := by
  obtain ⟨k1, k2⟩ := MemSim.free_fold_ram g hg p.page_table s1
  have hv : ramAt s1 = ramAt s := ramAt_congr hs1
  constructor
  · intro f f0 f1 hocc hpid
    obtain ⟨q0, q1, qst, qloc⟩ := h.ram_frame_page f0 f1 hocc hp hpid.symm
    have hmem := getI_mem p.page_table (ramAt s f).page_number emptyPageEntry q0 q1
    have := k2 _ hmem qst (by
      show 0 ≤ (pageAt p (ramAt s f).page_number).frame_number
      rw [qloc]; exact f0) (by
      show (pageAt p (ramAt s f).page_number).frame_number < _
      rw [qloc, hs1]
      have := h.ram_len
      omega)
    have e : (getI p.page_table (ramAt s f).page_number emptyPageEntry).frame_number = f := qloc
    rw [e] at this
    exact this
  · intro f f0 f1 hno
    rcases k1 f with h1 | ⟨⟨e, he, est, eloc⟩, _⟩
    · rw [h1, hv]
    · exfalso
      obtain ⟨j, j0, j1, hj⟩ := mem_getI p.page_table e emptyPageEntry he
      have hst : (pageAt p j).state = PageState.PAGE_IN_RAM := by
        unfold pageAt; rw [hj]; exact est
      obtain ⟨_, _, c, d, _⟩ := h.ram_own.page slot p j hp j0 j1 hst
      have hl : (pageAt p j).frame_number = f := by
        unfold pageAt; rw [hj]; exact eloc
      rw [hl] at c d
      exact hno ⟨c, d⟩

theorem Inv.frees_swap {cfg : Config} {s s1 : MemorySystem} (h : Inv cfg s)
    {slot : Int} {p : PCB} (hp : procAt s slot = some p)
    (g : Frame → Frame) (hg : ∀ x, (g x).occupied = false)
    (hs1 : s1.swap_frames = s.swap_frames) :
    (∀ f, 0 ≤ f → f < NUM_SWAP_FRAMES cfg → (swapAt s f).occupied = true →
      (swapAt s f).pid = p.pid →
      (swapAt (p.page_table.foldl (free_step g) s1) f).occupied = false) ∧
    (∀ f, 0 ≤ f → f < NUM_SWAP_FRAMES cfg →
      ¬ ((swapAt s f).occupied = true ∧ (swapAt s f).pid = p.pid) →
      swapAt (p.page_table.foldl (free_step g) s1) f = swapAt s f) := by
  obtain ⟨k1, k2⟩ := MemSim.free_fold_swap g hg p.page_table s1
  have hv : swapAt s1 = swapAt s := swapAt_congr hs1
  constructor
  · intro f f0 f1 hocc hpid
    obtain ⟨i, q, hq, hqpid, q0, q1, qst, qloc⟩ := h.swap_own.owner f f0 f1 hocc
    have e1 := h.pid_slot _ _ hq
    have e2 := h.pid_slot _ _ hp
    have hi : i = slot := by omega
    subst hi
    rw [hp] at hq
    cases hq
    have hmem := getI_mem p.page_table (swapAt s f).page_number emptyPageEntry q0 q1
    have := k2 _ hmem qst (by
      show 0 ≤ (pageAt p (swapAt s f).page_number).swap_position
      rw [qloc]; exact f0) (by
      show (pageAt p (swapAt s f).page_number).swap_position < _
      rw [qloc, hs1]
      have := h.swap_len
      omega)
    have e : (getI p.page_table (swapAt s f).page_number emptyPageEntry).swap_position = f :=
      qloc
    rw [e] at this
    exact this
  · intro f f0 f1 hno
    rcases k1 f with h1 | ⟨⟨e, he, est, eloc⟩, _⟩
    · rw [h1, hv]
    · exfalso
      obtain ⟨j, j0, j1, hj⟩ := mem_getI p.page_table e emptyPageEntry he
      have hst : (pageAt p j).state = PageState.PAGE_IN_SWAP := by
        unfold pageAt; rw [hj]; exact est
      obtain ⟨_, _, c, d, _⟩ := h.swap_own.page slot p j hp j0 j1 hst
      have hl : (pageAt p j).swap_position = f := by
        unfold pageAt; rw [hj]; exact eloc
      rw [hl] at c d
      exact hno ⟨c, d⟩

/-- Rebuilding the invariant after a process has left the directory and its frames
have been freed. -/
theorem Inv.remove_proc {cfg : Config} {s s1 : MemorySystem} (h : Inv cfg s)
    {slot : Int} {p : PCB} (hp : procAt s slot = some p)
    (hview : procAt s1 = Function.update (procAt s) slot none)
    (hpl : s1.processes.length = s.processes.length)
    (hrl : s1.ram_frames.length = s.ram_frames.length)
    (hsl : s1.swap_frames.length = s.swap_frames.length)
    (htl : s1.tlb.length = s.tlb.length)
    (hq : FifoOK cfg s1.fifo_queue)
    (r1 : ∀ f, 0 ≤ f → f < NUM_RAM_FRAMES cfg → (ramAt s f).occupied = true →
      (ramAt s f).pid = p.pid → (ramAt s1 f).occupied = false)
    (r2 : ∀ f, 0 ≤ f → f < NUM_RAM_FRAMES cfg →
      ¬ ((ramAt s f).occupied = true ∧ (ramAt s f).pid = p.pid) → ramAt s1 f = ramAt s f)
    (w1 : ∀ f, 0 ≤ f → f < NUM_SWAP_FRAMES cfg → (swapAt s f).occupied = true →
      (swapAt s f).pid = p.pid → (swapAt s1 f).occupied = false)
    (w2 : ∀ f, 0 ≤ f → f < NUM_SWAP_FRAMES cfg →
      ¬ ((swapAt s f).occupied = true ∧ (swapAt s f).pid = p.pid) → swapAt s1 f = swapAt s f) :
    Inv cfg s1 :=
  { ram_len := by rw [hrl]; exact h.ram_len
    swap_len := by rw [hsl]; exact h.swap_len
    proc_len := by rw [hpl]; exact h.proc_len
    tlb_len := by rw [htl]; exact h.tlb_len
    fifo_ok := hq
    pid_slot := by rw [hview]; exact h.pid_slot.remove slot
    table_len := by
      intro i q hq2
      rw [hview] at hq2
      by_cases hi : i = slot
      · subst hi; simp at hq2
      · simp [Function.update, hi] at hq2
        exact h.table_len i q hq2
    page_state := by
      intro i q j hq2 hj0 hj1
      rw [hview] at hq2
      by_cases hi : i = slot
      · subst hi; simp at hq2
      · simp [Function.update, hi] at hq2
        exact h.page_state i q j hq2 hj0 hj1
    ram_own := by rw [hview]; exact h.ram_own.release h.pid_slot hp r1 r2
    swap_own := by rw [hview]; exact h.swap_own.release h.pid_slot hp w1 w2 }

theorem find_process_slot_congr {s s1 : MemorySystem} (h : s1.processes = s.processes)
    (pid : Int) : find_process_slot s1 pid = find_process_slot s pid := by
  unfold find_process_slot
  rw [procAt_congr h]

theorem tlb_invalidate_frame (cfg : Config) (s : MemorySystem) (pid : Int) :
    (tlb_invalidate cfg s pid).ram_frames = s.ram_frames ∧
    (tlb_invalidate cfg s pid).swap_frames = s.swap_frames ∧
    (tlb_invalidate cfg s pid).processes = s.processes ∧
    (tlb_invalidate cfg s pid).fifo_queue = s.fifo_queue ∧
    (tlb_invalidate cfg s pid).num_processes = s.num_processes :=
  ⟨rfl, rfl, rfl, rfl, rfl⟩

/-- What `terminate_process` does when the process exists. -/
theorem terminate_process_shape {cfg : Config} {s : MemorySystem} (h : Inv cfg s)
    {pid slot : Int} {p : PCB} (now : Int)
    (hslot : find_process_slot s pid = some slot) (hp : procAt s slot = some p) :
    (terminate_process cfg s pid now).1 = true ∧
    (terminate_process cfg s pid now).2.ram_frames =
      (p.page_table.foldl (free_step released_frame) s).ram_frames ∧
    (terminate_process cfg s pid now).2.swap_frames =
      (p.page_table.foldl (free_step released_frame) s).swap_frames ∧
    (terminate_process cfg s pid now).2.processes = setI s.processes slot none ∧
    (terminate_process cfg s pid now).2.tlb = (tlb_invalidate cfg s pid).tlb ∧
    (terminate_process cfg s pid now).2.fifo_queue = s.fifo_queue ∧
    (terminate_process cfg s pid now).2.num_processes = s.num_processes - 1 := by
  have hfp : find_process s pid = some p := by
    unfold find_process; rw [hslot]; exact hp
  have hent : (indices p.num_pages).map (fun i => pageAt p i) = p.page_table :=
    indices_map_getI _ _ _ (h.table_len _ _ hp)
  obtain ⟨a1, a2, a3, a4, _⟩ := free_fold_frame released_frame p.page_table s
  have hslot3 : ∀ m, find_process_slot
      (add_log (tlb_invalidate cfg (p.page_table.foldl (free_step released_frame) s) pid) now m)
      pid = some slot := by
    intro m
    rw [find_process_slot_congr _ pid]
    · exact hslot
    · rw [(add_log_frame _ _ _).2.2.1]
      exact a1
  unfold terminate_process
  simp only [hfp, hent, release_page_eq, hslot3]
  refine ⟨trivial, ?_, ?_, ?_, ?_, ?_, ?_⟩
  · exact (add_log_frame _ _ _).1.trans rfl
  · exact (add_log_frame _ _ _).2.1.trans rfl
  · show setI (add_log _ _ _).processes slot none = _
    rw [(add_log_frame _ _ _).2.2.1]
    show setI (p.page_table.foldl (free_step released_frame) s).processes slot none = _
    rw [a1]
  · show (add_log _ _ _).tlb = _
    rw [(add_log_frame _ _ _).2.2.2.2.1]
    show (tlb_invalidate cfg (p.page_table.foldl (free_step released_frame) s) pid).tlb = _
    rw [tlb_invalidate_eq, tlb_invalidate_eq, a2]
  · show (add_log _ _ _).fifo_queue = _
    rw [(add_log_frame _ _ _).2.2.2.2.2.1]
    exact a3
  · show (add_log _ _ _).num_processes - 1 = _
    rw [(add_log_frame _ _ _).2.2.2.1]
    show (p.page_table.foldl (free_step released_frame) s).num_processes - 1 = _
    rw [a4]

theorem released_frame_free (x : Frame) : (released_frame x).occupied = false := rfl

theorem rolled_back_frame_free (x : Frame) : (rolled_back_frame x).occupied = false := rfl

theorem Inv.terminate {cfg : Config} {s : MemorySystem} (h : Inv cfg s) (pid now : Int) :
    Inv cfg (terminate_process cfg s pid now).2 := by
  cases hslot : find_process_slot s pid with
  | none =>
    have : find_process s pid = none := by
      unfold find_process; rw [hslot]
    unfold terminate_process
    simp only [this]
    exact h
  | some slot =>
    obtain ⟨p, hp, hpid⟩ := find_process_slot_some hslot
    obtain ⟨_, hram, hswap, hproc, htlb, hfifo, _⟩ := terminate_process_shape h now hslot hp
    obtain ⟨_, _, _, _, b5, b6, _⟩ := free_fold_frame released_frame p.page_table s
    obtain ⟨r1, r2⟩ := h.frees_ram hp released_frame released_frame_free rfl
    obtain ⟨w1, w2⟩ := h.frees_swap hp released_frame released_frame_free rfl
    have hr := procAt_range hp
    have vr : ramAt (terminate_process cfg s pid now).2 =
        ramAt (p.page_table.foldl (free_step released_frame) s) := ramAt_congr hram
    have vw : swapAt (terminate_process cfg s pid now).2 =
        swapAt (p.page_table.foldl (free_step released_frame) s) := swapAt_congr hswap
    apply h.remove_proc hp
    · have := procAt_set s slot none hr.1 hr.2
      unfold procAt at this ⊢
      rw [hproc]; exact this
    · rw [hproc, length_setI]
    · rw [hram, b5]
    · rw [hswap, b6]
    · rw [htlb, tlb_invalidate_tlb_length]
    · rw [hfifo]; exact h.fifo_ok
    · rw [vr]; exact r1
    · rw [vr]; exact r2
    · rw [vw]; exact w1
    · rw [vw]; exact w2

/-! ## `create_process` -/

theorem PoolOwn.add_empty {n : Int} {pool : Int → Frame} {procs : Int → Option PCB}
    {st : PageState} {loc : PageTableEntry → Int}
    (h : PoolOwn n pool procs st loc) {slot : Int} {p0 : PCB}
    (hnone : procs slot = none) (hpt : p0.page_table = []) :
    PoolOwn n pool (Function.update procs slot (some p0)) st loc := by
  constructor
  · intro f h0 h1 hoc
    obtain ⟨i, q, hq, r⟩ := h.owner f h0 h1 hoc
    have hi : i ≠ slot := by
      intro hc; subst hc; rw [hnone] at hq; cases hq
    exact ⟨i, q, by simp [Function.update, hi, hq], r⟩
  · intro i q j hq hj0 hj1 hjst
    by_cases hi : i = slot
    · subst hi
      simp at hq
      subst hq
      rw [hpt] at hj1
      simp at hj1
      omega
    · simp [Function.update, hi] at hq
      exact h.page i q j hq hj0 hj1 hjst

theorem vstate_procAt (s : MemorySystem) (slot pid : Int) (pt : List PageTableEntry)
    (h0 : 0 ≤ slot) (h1 : slot < (s.processes.length : Int)) :
    procAt (vstate s slot pid pt) = Function.update (procAt s) slot (some (vproc pid pt)) :=
  procAt_set s slot _ h0 h1

theorem Inv.add_empty_proc {cfg : Config} {s : MemorySystem} (h : Inv cfg s) {slot : Int}
    (h0 : 0 ≤ slot) (h1 : slot < (s.processes.length : Int)) (hnone : procAt s slot = none) :
    Inv cfg (vstate s slot (slot + 1) []) := by
  have hview := vstate_procAt s slot (slot + 1) [] h0 h1
  exact
    { ram_len := h.ram_len
      swap_len := h.swap_len
      proc_len := by
        show (setI s.processes slot _).length = _
        rw [length_setI]; exact h.proc_len
      tlb_len := h.tlb_len
      fifo_ok := h.fifo_ok
      pid_slot := by
        rw [hview]
        intro i q hq
        by_cases hi : i = slot
        · subst hi
          simp at hq
          subst hq
          rfl
        · simp [Function.update, hi] at hq
          exact h.pid_slot i q hq
      table_len := by
        rw [hview]
        intro i q hq
        by_cases hi : i = slot
        · subst hi
          simp at hq
          subst hq
          rfl
        · simp [Function.update, hi] at hq
          exact h.table_len i q hq
      page_state := by
        rw [hview]
        intro i q j hq hj0 hj1
        by_cases hi : i = slot
        · subst hi
          simp at hq
          subst hq
          simp [vproc] at hj1
          omega
        · simp [Function.update, hi] at hq
          exact h.page_state i q j hq hj0 hj1
      ram_own := by
        rw [hview]
        exact h.ram_own.add_empty hnone rfl
      swap_own := by
        rw [hview]
        exact h.swap_own.add_empty hnone rfl }

theorem getI_append_single {α : Type} (l : List α) (e d : α) (j : Int) :
    getI (l ++ [e]) j d = if j = (l.length : Int) then e else getI l j d := by
  unfold getI
  by_cases hj : 0 ≤ j
  · simp only [hj, if_true, List.getD_eq_getElem?_getD]
    by_cases h1 : j.toNat < l.length
    · have : j ≠ (l.length : Int) := by omega
      simp [List.getElem?_append_left h1, this]
    · by_cases h2 : j = (l.length : Int)
      · have : j.toNat = l.length := by omega
        simp [h2]
      · have h3 : l.length < j.toNat := by omega
        have h4 : (l ++ [e]).length ≤ j.toNat := by simp; omega
        have h5 : l.length ≤ j.toNat := by omega
        simp [h2, List.getElem?_eq_none h4, List.getElem?_eq_none h5]
  · have : j ≠ (l.length : Int) := by omega
    simp [hj, this]

theorem pageAt_vproc_append (pid : Int) (pt : List PageTableEntry) (e : PageTableEntry)
    (j : Int) :
    pageAt (vproc pid (pt ++ [e])) j =
      if j = (pt.length : Int) then e else pageAt (vproc pid pt) j :=
  getI_append_single pt e emptyPageEntry j

/-! ## The placement loop -/

theorem place_pages_succ (cfg : Config) (pid now : Int) (todo : Nat) (i : Int)
    (s : MemorySystem) (pt : List PageTableEntry) (k : Int) :
    place_pages cfg pid now (todo + 1) i s pt k =
      if find_free_ram_frame cfg s ≠ -1 then
        place_pages cfg pid now todo (i + 1) (place_ram_state cfg s pid i now)
          (pt ++ [ram_entry cfg s i now]) (k + 1)
      else if find_free_swap_frame cfg s = -1 then
        ⟨false, rollback_pages s pt, pt, k⟩
      else
        place_pages cfg pid now todo (i + 1) (place_swap_state cfg s pid i now)
          (pt ++ [swap_entry cfg s i now]) k := rfl

theorem Inv.place_ram {cfg : Config} {s : MemorySystem} {slot : Int}
    {pt : List PageTableEntry} (now : Int)
    (h : Inv cfg (vstate s slot (slot + 1) pt))
    (h0 : 0 ≤ slot) (h1 : slot < (s.processes.length : Int))
    (hfree : find_free_ram_frame cfg s ≠ -1) :
    Inv cfg (vstate (place_ram_state cfg s (slot + 1) (pt.length : Int) now) slot (slot + 1)
      (pt ++ [ram_entry cfg s (pt.length : Int) now])) := by
  obtain ⟨r0, r1, rfree, _⟩ := find_free_ram_frame_spec cfg s hfree
  have hp : procAt (vstate s slot (slot + 1) pt) slot = some (vproc (slot + 1) pt) := by
    rw [vstate_procAt s slot _ pt h0 h1]; simp
  have hrl : find_free_ram_frame cfg s < (s.ram_frames.length : Int) := by
    have : (vstate s slot (slot + 1) pt).ram_frames.length = _ := h.ram_len
    have e : (vstate s slot (slot + 1) pt).ram_frames = s.ram_frames := rfl
    rw [e] at this
    omega
  have hpid1 : (vproc (slot + 1) (pt ++ [ram_entry cfg s (pt.length : Int) now])).pid =
      (vproc (slot + 1) pt).pid := rfl
  have hsame : ∀ j, 0 ≤ j → j < ((vproc (slot + 1) pt).page_table.length : Int) →
      j ≠ (pt.length : Int) →
      pageAt (vproc (slot + 1) (pt ++ [ram_entry cfg s (pt.length : Int) now])) j =
        pageAt (vproc (slot + 1) pt) j := by
    intro j _ _ hj
    rw [pageAt_vproc_append]; simp [hj]
  have hself : pageAt (vproc (slot + 1) (pt ++ [ram_entry cfg s (pt.length : Int) now]))
      (pt.length : Int) = ram_entry cfg s (pt.length : Int) now := by
    rw [pageAt_vproc_append]; simp
  have hlen1 : ((vproc (slot + 1) (pt ++ [ram_entry cfg s (pt.length : Int) now])).page_table.length
      : Int) = (pt.length : Int) + 1 := by
    simp [vproc]
  have hlen0 : ((vproc (slot + 1) pt).page_table.length : Int) = (pt.length : Int) := rfl
  apply h.rebuild hp
  · show setI (place_ram_state cfg s (slot + 1) (pt.length : Int) now).processes slot _ =
      setI (setI s.processes slot _) slot _
    rw [setI_setI]; rfl
  · show (setI s.ram_frames _ _).length = s.ram_frames.length
    exact length_setI _ _ _
  · rfl
  · show (tlb_update cfg _ _ _ _ _).tlb.length = s.tlb.length
    rw [tlb_update_tlb_length]
  · exact enqueue_fifo_ok cfg _ _ h.fifo_ok
  · exact hpid1
  · simp [vproc]
  · intro j hj0 hj1
    by_cases hj : j = (pt.length : Int)
    · rw [hj, hself]; left; rfl
    · rw [hsame j hj0 (by rw [hlen1] at hj1; rw [hlen0]; omega) hj]
      exact h.page_state _ _ _ hp hj0 (by rw [hlen1] at hj1; rw [hlen0]; omega)
  · have vram : ramAt (vstate (place_ram_state cfg s (slot + 1) (pt.length : Int) now) slot
        (slot + 1) (pt ++ [ram_entry cfg s (pt.length : Int) now])) =
        Function.update (ramAt (vstate s slot (slot + 1) pt)) (find_free_ram_frame cfg s)
          ⟨slot + 1, (pt.length : Int), true, now⟩ :=
      ramAt_set s _ _ r0 hrl
    rw [vram]
    apply h.ram_own.join hp hpid1 hsame
    · intro j hj0 hj1
      rw [hlen1] at hj1; rw [hlen0]; omega
    · intro j _ hj1
      rw [hlen1]; rw [hlen0] at hj1; omega
    · exact r0
    · exact r1
    · exact rfree
    · rintro ⟨_, hc, _⟩
      rw [hlen0] at hc; omega
    · omega
    · rw [hlen1]; omega
    · rw [hself]; rfl
    · rw [hself]; rfl
    · rfl
    · rfl
    · rfl
  · have vswap : swapAt (vstate (place_ram_state cfg s (slot + 1) (pt.length : Int) now) slot
        (slot + 1) (pt ++ [ram_entry cfg s (pt.length : Int) now])) =
        swapAt (vstate s slot (slot + 1) pt) := rfl
    rw [vswap]
    apply h.swap_own.neutral hp hpid1 hsame
    · intro j hj0 hj1
      rw [hlen1] at hj1; rw [hlen0]; omega
    · intro j _ hj1
      rw [hlen1]; rw [hlen0] at hj1; omega
    · rintro ⟨_, hc, _⟩
      rw [hlen0] at hc; omega
    · rw [hself]; simp [ram_entry]

theorem Inv.place_swap {cfg : Config} {s : MemorySystem} {slot : Int}
    {pt : List PageTableEntry} (now : Int)
    (h : Inv cfg (vstate s slot (slot + 1) pt))
    (h0 : 0 ≤ slot) (h1 : slot < (s.processes.length : Int))
    (hfree : find_free_swap_frame cfg s ≠ -1) :
    Inv cfg (vstate (place_swap_state cfg s (slot + 1) (pt.length : Int) now) slot (slot + 1)
      (pt ++ [swap_entry cfg s (pt.length : Int) now])) := by
  obtain ⟨r0, r1, rfree, _⟩ := find_free_swap_frame_spec cfg s hfree
  have hp : procAt (vstate s slot (slot + 1) pt) slot = some (vproc (slot + 1) pt) := by
    rw [vstate_procAt s slot _ pt h0 h1]; simp
  have hrl : find_free_swap_frame cfg s < (s.swap_frames.length : Int) := by
    have : (vstate s slot (slot + 1) pt).swap_frames.length = _ := h.swap_len
    have e : (vstate s slot (slot + 1) pt).swap_frames = s.swap_frames := rfl
    rw [e] at this
    omega
  have hpid1 : (vproc (slot + 1) (pt ++ [swap_entry cfg s (pt.length : Int) now])).pid =
      (vproc (slot + 1) pt).pid := rfl
  have hsame : ∀ j, 0 ≤ j → j < ((vproc (slot + 1) pt).page_table.length : Int) →
      j ≠ (pt.length : Int) →
      pageAt (vproc (slot + 1) (pt ++ [swap_entry cfg s (pt.length : Int) now])) j =
        pageAt (vproc (slot + 1) pt) j := by
    intro j _ _ hj
    rw [pageAt_vproc_append]; simp [hj]
  have hself : pageAt (vproc (slot + 1) (pt ++ [swap_entry cfg s (pt.length : Int) now]))
      (pt.length : Int) = swap_entry cfg s (pt.length : Int) now := by
    rw [pageAt_vproc_append]; simp
  have hlen1 : ((vproc (slot + 1) (pt ++ [swap_entry cfg s (pt.length : Int) now])).page_table.length
      : Int) = (pt.length : Int) + 1 := by
    simp [vproc]
  have hlen0 : ((vproc (slot + 1) pt).page_table.length : Int) = (pt.length : Int) := rfl
  apply h.rebuild hp
  · show setI (place_swap_state cfg s (slot + 1) (pt.length : Int) now).processes slot _ =
      setI (setI s.processes slot _) slot _
    rw [setI_setI]; rfl
  · rfl
  · show (setI s.swap_frames _ _).length = s.swap_frames.length
    exact length_setI _ _ _
  · rfl
  · exact h.fifo_ok
  · exact hpid1
  · simp [vproc]
  · intro j hj0 hj1
    by_cases hj : j = (pt.length : Int)
    · rw [hj, hself]; right; rfl
    · rw [hsame j hj0 (by rw [hlen1] at hj1; rw [hlen0]; omega) hj]
      exact h.page_state _ _ _ hp hj0 (by rw [hlen1] at hj1; rw [hlen0]; omega)
  · have vram : ramAt (vstate (place_swap_state cfg s (slot + 1) (pt.length : Int) now) slot
        (slot + 1) (pt ++ [swap_entry cfg s (pt.length : Int) now])) =
        ramAt (vstate s slot (slot + 1) pt) := rfl
    rw [vram]
    apply h.ram_own.neutral hp hpid1 hsame
    · intro j hj0 hj1
      rw [hlen1] at hj1; rw [hlen0]; omega
    · intro j _ hj1
      rw [hlen1]; rw [hlen0] at hj1; omega
    · rintro ⟨_, hc, _⟩
      rw [hlen0] at hc; omega
    · rw [hself]; simp [swap_entry]
  · have vswap : swapAt (vstate (place_swap_state cfg s (slot + 1) (pt.length : Int) now) slot
        (slot + 1) (pt ++ [swap_entry cfg s (pt.length : Int) now])) =
        Function.update (swapAt (vstate s slot (slot + 1) pt)) (find_free_swap_frame cfg s)
          ⟨slot + 1, (pt.length : Int), true, now⟩ :=
      swapAt_set s _ _ r0 hrl
    rw [vswap]
    apply h.swap_own.join hp hpid1 hsame
    · intro j hj0 hj1
      rw [hlen1] at hj1; rw [hlen0]; omega
    · intro j _ hj1
      rw [hlen1]; rw [hlen0] at hj1; omega
    · exact r0
    · exact r1
    · exact rfree
    · rintro ⟨_, hc, _⟩
      rw [hlen0] at hc; omega
    · omega
    · rw [hlen1]; omega
    · rw [hself]; rfl
    · rw [hself]; rfl
    · rfl
    · rfl
    · rfl

theorem rollback_pages_eq (s : MemorySystem) (pt : List PageTableEntry) :
    rollback_pages s pt = pt.foldl (free_step rolled_back_frame) s := rfl

/-- Rolling back the pages placed so far gives back a state without the process. -/
theorem Inv.rollback {cfg : Config} {s : MemorySystem} {slot : Int}
    {pt : List PageTableEntry}
    (h : Inv cfg (vstate s slot (slot + 1) pt))
    (h0 : 0 ≤ slot) (h1 : slot < (s.processes.length : Int))
    (hnone : procAt s slot = none) :
    Inv cfg (rollback_pages s pt) := by
  have hp : procAt (vstate s slot (slot + 1) pt) slot = some (vproc (slot + 1) pt) := by
    rw [vstate_procAt s slot _ pt h0 h1]; simp
  obtain ⟨b1, b2, b3, _, b5, b6, _⟩ := free_fold_frame rolled_back_frame pt s
  have e1 : (vstate s slot (slot + 1) pt).ram_frames = s.ram_frames := rfl
  have e2 : (vstate s slot (slot + 1) pt).swap_frames = s.swap_frames := rfl
  obtain ⟨r1, r2⟩ := h.frees_ram hp rolled_back_frame rolled_back_frame_free e1.symm
  obtain ⟨w1, w2⟩ := h.frees_swap hp rolled_back_frame rolled_back_frame_free e2.symm
  rw [rollback_pages_eq]
  apply h.remove_proc hp
  · rw [vstate_procAt s slot _ pt h0 h1, procAt_congr b1]
    funext j
    by_cases hj : j = slot
    · subst hj; simp [hnone]
    · simp [Function.update, hj]
  · rw [b1]
    show s.processes.length = (setI s.processes slot _).length
    rw [length_setI]
  · rw [b5]; rfl
  · rw [b6]; rfl
  · rw [b2]; rfl
  · rw [b3]; exact h.fifo_ok
  · exact r1
  · exact r2
  · exact w1
  · exact w2

theorem place_ram_state_processes (cfg : Config) (s : MemorySystem) (pid i now : Int) :
    (place_ram_state cfg s pid i now).processes = s.processes := rfl

theorem place_swap_state_processes (cfg : Config) (s : MemorySystem) (pid i now : Int) :
    (place_swap_state cfg s pid i now).processes = s.processes := rfl

/-- The placement loop keeps the invariant, with the process under construction in its
slot while the loop succeeds and without it after a rollback. -/
theorem place_pages_inv (cfg : Config) (slot now : Int) (todo : Nat) :
    ∀ (s : MemorySystem) (pt : List PageTableEntry) (k : Int),
      Inv cfg (vstate s slot (slot + 1) pt) → 0 ≤ slot → slot < (s.processes.length : Int) →
      procAt s slot = none →
      (place_pages cfg (slot + 1) now todo (pt.length : Int) s pt k).sys.processes =
        s.processes ∧
      ((place_pages cfg (slot + 1) now todo (pt.length : Int) s pt k).ok = true →
        Inv cfg (vstate (place_pages cfg (slot + 1) now todo (pt.length : Int) s pt k).sys slot
          (slot + 1) (place_pages cfg (slot + 1) now todo (pt.length : Int) s pt k).page_table) ∧
        (place_pages cfg (slot + 1) now todo (pt.length : Int) s pt k).page_table.length =
          pt.length + todo) ∧
      ((place_pages cfg (slot + 1) now todo (pt.length : Int) s pt k).ok = false →
        Inv cfg (place_pages cfg (slot + 1) now todo (pt.length : Int) s pt k).sys) := by
  induction todo with
  | zero =>
    intro s pt k h _ _ _
    refine ⟨rfl, fun _ => ⟨h, rfl⟩, ?_⟩
    intro hc
    simp [place_pages] at hc
  | succ n ih =>
    intro s pt k h h0 h1 hnone
    rw [place_pages_succ]
    by_cases c1 : find_free_ram_frame cfg s ≠ -1
    · rw [if_pos c1]
      have hinv := h.place_ram now h0 h1 c1
      have hlen : ((pt ++ [ram_entry cfg s (pt.length : Int) now]).length : Int) =
          (pt.length : Int) + 1 := by simp
      rw [← hlen]
      obtain ⟨a, b, c⟩ := ih (place_ram_state cfg s (slot + 1) (pt.length : Int) now)
        (pt ++ [ram_entry cfg s (pt.length : Int) now]) (k + 1) hinv h0 h1 hnone
      refine ⟨a, ?_, c⟩
      intro hok
      obtain ⟨b1, b2⟩ := b hok
      refine ⟨b1, ?_⟩
      rw [b2]; simp; omega
    · rw [if_neg c1]
      by_cases c2 : find_free_swap_frame cfg s = -1
      · rw [if_pos c2]
        refine ⟨?_, ?_, ?_⟩
        · exact (free_fold_frame rolled_back_frame pt s).1
        · intro hc; cases hc
        · intro _
          exact h.rollback h0 h1 hnone
      · rw [if_neg c2]
        have hinv := h.place_swap now h0 h1 c2
        have hlen : ((pt ++ [swap_entry cfg s (pt.length : Int) now]).length : Int) =
            (pt.length : Int) + 1 := by simp
        rw [← hlen]
        obtain ⟨a, b, c⟩ := ih (place_swap_state cfg s (slot + 1) (pt.length : Int) now)
          (pt ++ [swap_entry cfg s (pt.length : Int) now]) k hinv h0 h1 hnone
        refine ⟨a, ?_, c⟩
        intro hok
        obtain ⟨b1, b2⟩ := b hok
        refine ⟨b1, ?_⟩
        rw [b2]; simp; omega

theorem find_free_slot_spec (s : MemorySystem) (h : find_free_slot s ≠ -1) :
    0 ≤ find_free_slot s ∧ find_free_slot s < MAX_PROCESSES ∧
    procAt s (find_free_slot s) = none ∧
    ∀ j, 0 ≤ j → j < find_free_slot s → procAt s j ≠ none := by
  unfold find_free_slot at h ⊢
  cases hf : (indices MAX_PROCESSES).find? (fun i => (procAt s i).isNone) with
  | none => simp [hf] at h
  | some i =>
    obtain ⟨a, b, c, d⟩ := indices_find_some _ _ _ hf
    simp only [Option.getD_some]
    refine ⟨a, b, by simpa using c, ?_⟩
    intro j j0 j1
    have := d j j0 j1
    intro hc
    rw [hc] at this
    simp at this

/-- Entering the finished process record in the directory. -/
theorem Inv.install {cfg : Config} {s s1 : MemorySystem} {slot : Int}
    {pt : List PageTableEntry} (h : Inv cfg (vstate s slot (slot + 1) pt))
    (h0 : 0 ≤ slot) (h1 : slot < (s.processes.length : Int))
    (proc : PCB) (hpid : proc.pid = slot + 1) (hpt : proc.page_table = pt)
    (hnum : pt.length = proc.num_pages.toNat)
    (hproc : s1.processes = setI s.processes slot (some proc))
    (hram : s1.ram_frames = s.ram_frames) (hswap : s1.swap_frames = s.swap_frames)
    (htlb : s1.tlb = s.tlb) (hfifo : s1.fifo_queue = s.fifo_queue) :
    Inv cfg s1 := by
  have hp : procAt (vstate s slot (slot + 1) pt) slot = some (vproc (slot + 1) pt) := by
    rw [vstate_procAt s slot _ pt h0 h1]; simp
  have hpa : ∀ j, pageAt proc j = pageAt (vproc (slot + 1) pt) j := by
    intro j; unfold pageAt; rw [hpt]; rfl
  have hlen : proc.page_table.length = (vproc (slot + 1) pt).page_table.length := by
    rw [hpt]; rfl
  have hout : ∀ st, (pageAt proc ((vproc (slot + 1) pt).page_table.length : Int)).state = st →
      st = PageState.PAGE_FREE := by
    intro st hst
    rw [hpa] at hst
    unfold pageAt at hst
    rw [getI_out _ _ _ (Or.inr (le_refl _))] at hst
    rw [← hst]; rfl
  apply h.rebuild hp
  · show s1.processes = setI (setI s.processes slot _) slot _
    rw [setI_setI]; exact hproc
  · rw [hram]; rfl
  · rw [hswap]; rfl
  · rw [htlb]; rfl
  · rw [hfifo]; exact h.fifo_ok
  · exact hpid
  · rw [hpt]; exact hnum
  · intro j j0 j1
    rw [hpa]
    rw [hlen] at j1
    exact h.page_state _ _ j hp j0 j1
  · rw [ramAt_congr hram]
    apply h.ram_own.neutral hp hpid (fun j _ _ _ => hpa j)
    · intro j _ hj; left; rw [← hlen]; exact hj
    · intro j _ hj; rw [hlen]; exact hj
    · rintro ⟨_, hc, _⟩
      exact absurd hc (lt_irrefl _)
    · intro hc
      have := hout _ hc
      cases this
  · rw [swapAt_congr hswap]
    apply h.swap_own.neutral hp hpid (fun j _ _ _ => hpa j)
    · intro j _ hj; left; rw [← hlen]; exact hj
    · intro j _ hj; rw [hlen]; exact hj
    · rintro ⟨_, hc, _⟩
      exact absurd hc (lt_irrefl _)
    · intro hc
      have := hout _ hc
      cases this

theorem Inv.create {cfg : Config} {s : MemorySystem} (h : Inv cfg s) (name : String)
    (size_kb now : Int) : Inv cfg (create_process cfg s name size_kb now).2 := by
  unfold create_process
  by_cases c1 : s.num_processes ≥ MAX_PROCESSES
  · rw [if_pos c1]; exact h
  · rw [if_neg c1]
    by_cases c2 : size_kb ≤ 0
    · rw [if_pos c2]; exact h
    · rw [if_neg c2]
      simp only []
      by_cases c3 : space_check_fails cfg s (num_pages_of cfg size_kb) = true
      · rw [if_pos c3]; exact h
      · rw [if_neg c3]
        by_cases c4 : find_free_slot s = -1
        · rw [if_pos c4]; exact h
        · rw [if_neg c4]
          obtain ⟨s0, s1, snone, _⟩ := find_free_slot_spec s c4
          have sl : find_free_slot s < (s.processes.length : Int) := by
            have := h.proc_len
            have e : MAX_PROCESSES = 50 := rfl
            omega
          have hinit := h.add_empty_proc s0 sl snone
          obtain ⟨a, b, c⟩ := place_pages_inv cfg (find_free_slot s) now
            (num_pages_of cfg size_kb).toNat s [] 0 hinit s0 sl snone
          simp only [List.length_nil, Nat.cast_zero] at a b c
          generalize place_pages cfg (find_free_slot s + 1) now
              (num_pages_of cfg size_kb).toNat 0 s [] 0 = r at a b c ⊢
          cases hok : r.ok with
          | false =>
            simp only [Bool.not_false, if_true]
            exact c hok
          | true =>
            simp only [Bool.not_true, Bool.false_eq_true, if_false]
            obtain ⟨b1, b2⟩ := b hok
            apply Inv.add_log
            have sl2 : find_free_slot s < (r.sys.processes.length : Int) := by
              rw [a]; exact sl
            exact b1.install s0 sl2 _ rfl rfl (by rw [b2]; simp) rfl rfl rfl rfl rfl

/-! ## Initial state, page access, runs -/

theorem getI_replicate {α : Type} (n : Nat) (d : α) (i : Int) :
    getI (List.replicate n d) i d = d := by
  unfold getI
  split
  · rw [List.getD_eq_getElem?_getD, List.getElem?_replicate]
    split <;> rfl
  · rfl

theorem Inv.init (cfg : Config) (now : Int) : Inv cfg (init_system cfg now) := by
  unfold init_system
  apply Inv.add_log
  have hp : ∀ i, getI (List.replicate MAX_PROCESSES.toNat (none : Option PCB)) i none = none :=
    fun i => getI_replicate _ _ i
  exact
    { ram_len := by simp
      swap_len := by simp
      proc_len := by simp
      tlb_len := by simp [init_tlb]
      fifo_ok := by
        refine ⟨rfl, by simp [create_fifo_queue], le_refl _, Or.inr rfl, le_refl _, Or.inr rfl⟩
      pid_slot := by
        intro i p h
        have := hp i
        unfold procAt at h
        rw [this] at h
        cases h
      table_len := by
        intro i p h
        have := hp i
        unfold procAt at h
        rw [this] at h
        cases h
      page_state := by
        intro i p j h
        have := hp i
        unfold procAt at h
        rw [this] at h
        cases h
      ram_own := by
        constructor
        · intro f _ _ hocc
          change (getI (List.replicate _ emptyFrame) f emptyFrame).occupied = true at hocc
          rw [getI_replicate] at hocc
          cases hocc
        · intro i p j h
          have := hp i
          unfold procAt at h
          rw [this] at h
          cases h
      swap_own := by
        constructor
        · intro f _ _ hocc
          change (getI (List.replicate _ emptyFrame) f emptyFrame).occupied = true at hocc
          rw [getI_replicate] at hocc
          cases hocc
        · intro i p j h
          have := hp i
          unfold procAt at h
          rw [this] at h
          cases h }

theorem tlb_lookup_frame (cfg : Config) (s : MemorySystem) (pid pg now : Int) :
    (tlb_lookup cfg s pid pg now).2.ram_frames = s.ram_frames ∧
    (tlb_lookup cfg s pid pg now).2.swap_frames = s.swap_frames ∧
    (tlb_lookup cfg s pid pg now).2.processes = s.processes ∧
    (tlb_lookup cfg s pid pg now).2.fifo_queue = s.fifo_queue ∧
    (tlb_lookup cfg s pid pg now).2.num_processes = s.num_processes ∧
    (tlb_lookup cfg s pid pg now).2.tlb.length = s.tlb.length ∧
    (tlb_lookup cfg s pid pg now).2.total_page_faults = s.total_page_faults ∧
    (tlb_lookup cfg s pid pg now).2.total_swaps = s.total_swaps ∧
    (tlb_lookup cfg s pid pg now).2.total_memory_accesses = s.total_memory_accesses := by
  unfold tlb_lookup
  cases tlb_find cfg s pid pg with
  | none => simp
  | some i => simp [length_setI]

theorem Inv.tlb_lookup {cfg : Config} {s : MemorySystem} (h : Inv cfg s) (pid pg now : Int) :
    Inv cfg (MemSim.tlb_lookup cfg s pid pg now).2 := by
  obtain ⟨a, b, c, d, _, e, _⟩ := tlb_lookup_frame cfg s pid pg now
  exact h.of_eq a b c e (by rw [d]; exact h.fifo_ok)

theorem Inv.tlb_update {cfg : Config} {s : MemorySystem} (h : Inv cfg s)
    (pid pg f now : Int) : Inv cfg (MemSim.tlb_update cfg s pid pg f now) :=
  h.of_eq rfl rfl rfl (tlb_update_tlb_length cfg s pid pg f now) h.fifo_ok

theorem Inv.access {cfg : Config} {s : MemorySystem} (h : Inv cfg s) (pid pg now : Int) :
    Inv cfg (simulate_access cfg s pid pg now).2 := by
  unfold simulate_access
  by_cases c1 : s.num_processes = 0
  · rw [if_pos c1]; exact h
  · rw [if_neg c1]
    cases hf : find_process s pid with
    | none => exact h
    | some p =>
      simp only []
      by_cases c2 : pg < 0 ∨ pg ≥ p.num_pages
      · rw [if_pos c2]; exact h
      · rw [if_neg c2]
        have h1 : Inv cfg { s with total_memory_accesses := s.total_memory_accesses + 1 } :=
          h.of_eq rfl rfl rfl rfl h.fifo_ok
        have h2 := h1.tlb_lookup pid pg now
        by_cases c3 : (MemSim.tlb_lookup cfg
            { s with total_memory_accesses := s.total_memory_accesses + 1 } pid pg now).1 ≠ -1
        · rw [if_pos c3]
          exact h2.add_log _ _
        · rw [if_neg c3]
          by_cases c4 : (pageAt p pg).state = PageState.PAGE_IN_RAM
          · rw [if_pos c4]
            exact (h2.tlb_update _ _ _ _).add_log _ _
          · rw [if_neg c4]
            by_cases c5 : (pageAt p pg).state = PageState.PAGE_IN_SWAP
            · rw [if_pos c5]
              split
              · exact h2.swap_in _ _ _
              · exact h2.swap_in _ _ _
            · rw [if_neg c5]
              exact h2

theorem Inv.after_step {cfg : Config} {s : MemorySystem} (h : Inv cfg s) (op : Op) :
    Inv cfg (MemSim.step cfg s op) := by
  cases op with
  | create name size_kb now => exact h.create name size_kb now
  | terminate pid now => exact h.terminate pid now
  | access pid page now => exact h.access pid page now

theorem Inv.after_run {cfg : Config} {s : MemorySystem} (h : Inv cfg s) (ops : List Op) :
    Inv cfg (MemSim.run cfg s ops) := by
  induction ops generalizing s with
  | nil => exact h
  | cons op ops ih => exact ih (h.after_step op)

/-- Every state reached from the initial state satisfies the invariant. -/
theorem inv_reachable (cfg : Config) (t0 : Int) (ops : List Op) :
    Inv cfg (run cfg (init_system cfg t0) ops) :=
  (Inv.init cfg t0).after_run ops

/-! ## C1: single ownership -/

theorem find_process_some {s : MemorySystem} {pid : Int} {p : PCB}
    (h : find_process s pid = some p) :
    ∃ slot, find_process_slot s pid = some slot ∧ procAt s slot = some p ∧ p.pid = pid := by
  unfold find_process at h
  cases hs : find_process_slot s pid with
  | none => rw [hs] at h; cases h
  | some slot =>
    rw [hs] at h
    obtain ⟨q, hq, hqpid⟩ := find_process_slot_some hs
    simp only [] at h
    rw [hq] at h
    cases h
    exact ⟨slot, rfl, hq, hqpid⟩

theorem Inv.find_process_of_live {cfg : Config} {s : MemorySystem} (h : Inv cfg s)
    {i : Int} {p : PCB} (hp : procAt s i = some p) : find_process s p.pid = some p := by
  unfold find_process
  rw [find_process_slot_of_live h.pid_slot h.proc_len hp]
  exact hp

theorem Inv.page_range {cfg : Config} {s : MemorySystem} (h : Inv cfg s)
    {i : Int} {p : PCB} (hp : procAt s i = some p) (j : Int) (h0 : 0 ≤ j) :
    j < p.num_pages ↔ j < (p.page_table.length : Int) := by
  have := h.table_len _ _ hp
  omega

theorem ramAt_occupied_range {cfg : Config} {s : MemorySystem} (h : Inv cfg s) {f : Int}
    (hocc : (ramAt s f).occupied = true) : 0 ≤ f ∧ f < NUM_RAM_FRAMES cfg := by
  have hr : 0 ≤ f ∧ f < (s.ram_frames.length : Int) := by
    apply getI_ne_default s.ram_frames f emptyFrame
    intro hc
    unfold ramAt at hocc
    rw [hc] at hocc
    cases hocc
  have := h.ram_len
  omega

theorem swapAt_occupied_range {cfg : Config} {s : MemorySystem} (h : Inv cfg s) {f : Int}
    (hocc : (swapAt s f).occupied = true) : 0 ≤ f ∧ f < NUM_SWAP_FRAMES cfg := by
  have hr : 0 ≤ f ∧ f < (s.swap_frames.length : Int) := by
    apply getI_ne_default s.swap_frames f emptyFrame
    intro hc
    unfold swapAt at hocc
    rw [hc] at hocc
    cases hocc
  have := h.swap_len
  omega

theorem Inv.single_ownership {cfg : Config} {s : MemorySystem} (h : Inv cfg s) :
    SingleOwnership cfg s := by
  have pr : ∀ pid p j, find_process s pid = some p → 0 ≤ j → j < p.num_pages →
      (pageAt p j).state = PageState.PAGE_IN_RAM →
      (0 ≤ (pageAt p j).frame_number ∧ (pageAt p j).frame_number < NUM_RAM_FRAMES cfg) ∧
      (ramAt s (pageAt p j).frame_number).occupied = true ∧
      (ramAt s (pageAt p j).frame_number).pid = pid ∧
      (ramAt s (pageAt p j).frame_number).page_number = j := by
    intro pid p j hf j0 j1 hst
    obtain ⟨slot, _, hp, hpid⟩ := find_process_some hf
    obtain ⟨a, b, c, d, e⟩ := h.ram_own.page slot p j hp j0
      ((h.page_range hp j j0).1 j1) hst
    exact ⟨⟨a, b⟩, c, by rw [← hpid]; exact d, e⟩
  have pw : ∀ pid p j, find_process s pid = some p → 0 ≤ j → j < p.num_pages →
      (pageAt p j).state = PageState.PAGE_IN_SWAP →
      (0 ≤ (pageAt p j).swap_position ∧ (pageAt p j).swap_position < NUM_SWAP_FRAMES cfg) ∧
      (swapAt s (pageAt p j).swap_position).occupied = true ∧
      (swapAt s (pageAt p j).swap_position).pid = pid ∧
      (swapAt s (pageAt p j).swap_position).page_number = j := by
    intro pid p j hf j0 j1 hst
    obtain ⟨slot, _, hp, hpid⟩ := find_process_some hf
    obtain ⟨a, b, c, d, e⟩ := h.swap_own.page slot p j hp j0
      ((h.page_range hp j j0).1 j1) hst
    exact ⟨⟨a, b⟩, c, by rw [← hpid]; exact d, e⟩
  refine ⟨?_, ?_, pr, pw, ?_, ?_⟩
  · intro f hocc
    have hr := ramAt_occupied_range h hocc
    refine ⟨hr, ?_⟩
    obtain ⟨i, p, hp, hpid, a, b, c, d⟩ := h.ram_own.owner f hr.1 hr.2 hocc
    refine ⟨p, ?_, ⟨a, (h.page_range hp _ a).2 b⟩, c, d⟩
    rw [← hpid]; exact h.find_process_of_live hp
  · intro f hocc
    have hr := swapAt_occupied_range h hocc
    refine ⟨hr, ?_⟩
    obtain ⟨i, p, hp, hpid, a, b, c, d⟩ := h.swap_own.owner f hr.1 hr.2 hocc
    refine ⟨p, ?_, ⟨a, (h.page_range hp _ a).2 b⟩, c, d⟩
    rw [← hpid]; exact h.find_process_of_live hp
  · intro pid1 p1 j1 pid2 p2 j2 f1 a1 b1 f2 a2 b2 s1 s2 he
    obtain ⟨_, _, c1, d1⟩ := pr pid1 p1 j1 f1 a1 b1 s1
    obtain ⟨_, _, c2, d2⟩ := pr pid2 p2 j2 f2 a2 b2 s2
    rw [he] at c1 d1
    exact ⟨c1.symm.trans c2, d1.symm.trans d2⟩
  · intro pid1 p1 j1 pid2 p2 j2 f1 a1 b1 f2 a2 b2 s1 s2 he
    obtain ⟨_, _, c1, d1⟩ := pw pid1 p1 j1 f1 a1 b1 s1
    obtain ⟨_, _, c2, d2⟩ := pw pid2 p2 j2 f2 a2 b2 s2
    rw [he] at c1 d1
    exact ⟨c1.symm.trans c2, d1.symm.trans d2⟩

/-- C1. In every state reachable from `init_system` by any sequence of `create_process`,
`terminate_process` and simulated page accesses, every occupied RAM frame and every
occupied Swap slot belongs to a live process whose page entry has the matching state and
points back at it, every page entry in RAM or in Swap points at an occupied frame or
slot whose owner is exactly that page, and no frame or slot is referenced by two page
entries. -/
theorem single_ownership_reachable (cfg : Config) (t0 : Int) (ops : List Op) :
    SingleOwnership cfg (run cfg (init_system cfg t0) ops) :=
  (inv_reachable cfg t0 ops).single_ownership

/-! ## C2: TLB consistency -/

/-- C2 fails on the code at this input: the request of `overflow_size` KB passes the
space check by wrap-around, places 7 pages in RAM (with TLB entries) and 16 in Swap, runs
out of room and is rolled back; `create_process` returns -1, no process with pid 2
exists, yet the TLB keeps valid entries of pid 2. -/
theorem tlb_stale_after_rollback :
    space_check_fails defaultConfig
      (run defaultConfig (init_system defaultConfig 100) [Op.create "A" 256 101])
      (num_pages_of defaultConfig overflow_size) = false ∧
    (create_process defaultConfig
      (run defaultConfig (init_system defaultConfig 100) [Op.create "A" 256 101])
      "B" overflow_size 102).1 = -1 ∧
    find_process rollback_state 2 = none ∧
    rollback_state.tlb.map (fun e => (e.valid, e.pid, e.page_number, e.frame_number)) =
      [(true, 2, 6, 7), (true, 2, 0, 1), (true, 2, 1, 2), (true, 2, 2, 3)] := by
  decide

/-! ## C3: the eviction scenario -/

theorem indices_four : indices 4 = [0, 1, 2, 3] := by decide

theorem indices_eight : indices 8 = [0, 1, 2, 3, 4, 5, 6, 7] := by decide

theorem indices_sixteen :
    indices 16 = [0, 1, 2, 3, 4, 5, 6, 7, 8, 9, 10, 11, 12, 13, 14, 15] := by decide

theorem indices_fifty :
    indices 50 = [0, 1, 2, 3, 4, 5, 6, 7, 8, 9, 10, 11, 12, 13, 14, 15, 16, 17, 18, 19, 20, 21,
      22, 23, 24, 25, 26, 27, 28, 29, 30, 31, 32, 33, 34, 35, 36, 37, 38, 39, 40, 41, 42, 43,
      44, 45, 46, 47, 48, 49] := by decide

theorem ram_frames_default : NUM_RAM_FRAMES defaultConfig = 8 := by decide

theorem swap_frames_default : NUM_SWAP_FRAMES defaultConfig = 16 := by decide

theorem page_size_default : defaultConfig.PAGE_SIZE = 256 := rfl

theorem tlb_size_default : defaultConfig.TLB_SIZE = 4 := rfl

theorem max_processes_eq : MAX_PROCESSES = 50 := rfl

theorem max_log_eq : MAX_LOG_ENTRIES = 1000 := rfl

theorem getI_nil {α : Type} (i : Int) (d : α) : getI [] i d = d := by
  unfold getI; split <;> simp

theorem getI_cons_zero {α : Type} (a : α) (l : List α) (d : α) : getI (a :: l) 0 d = a := by
  simp [getI]

theorem getI_cons_pos {α : Type} (a : α) (l : List α) (i : Int) (d : α) (h : 0 < i) :
    getI (a :: l) i d = getI l (i - 1) d := by
  unfold getI
  have h1 : 0 ≤ i := by omega
  have h2 : 0 ≤ i - 1 := by omega
  rw [if_pos h1, if_pos h2]
  have h3 : i.toNat = (i - 1).toNat + 1 := by omega
  rw [h3]; simp

theorem setI_nil {α : Type} (i : Int) (x : α) : setI [] i x = [] := by
  unfold setI; split <;> simp

theorem setI_cons_zero {α : Type} (a : α) (l : List α) (x : α) :
    setI (a :: l) 0 x = x :: l := by
  simp [setI]

theorem setI_cons_pos {α : Type} (a : α) (l : List α) (i : Int) (x : α) (h : 0 < i) :
    setI (a :: l) i x = a :: setI l (i - 1) x := by
  unfold setI
  have h1 : 0 ≤ i := by omega
  have h2 : 0 ≤ i - 1 := by omega
  rw [if_pos h1, if_pos h2]
  have h3 : i.toNat = (i - 1).toNat + 1 := by omega
  rw [h3]; simp

/-- The scenario evaluated from any state that looks like the initial state of the default
configuration, at any clock readings. -/
theorem scenario_eval (s : MemorySystem) (t1 t2 t3 : Int)
    (hr : s.ram_frames = List.replicate 8 emptyFrame)
    (hs : s.swap_frames = List.replicate 16 emptyFrame)
    (hp : s.processes = List.replicate 50 none)
    (hn : s.num_processes = 0)
    (ht : s.tlb = List.replicate 4 emptyTLBEntry)
    (hq : s.fifo_queue = ⟨List.replicate 8 0, 0, -1, 0, 8⟩)
    (hl : s.log_count = 1)
    (hf : s.total_page_faults = 0) :
    ((scenario_A s t1).1 = 1) ∧
    ((find_process (scenario_A s t1).2 1).map PCB.state = some ProcessState.PROC_ACTIVE) ∧
    ((find_process (scenario_A s t1).2 1).map page_summary =
      some [(PageState.PAGE_IN_RAM, 0, -1, true), (PageState.PAGE_IN_RAM, 1, -1, true),
      (PageState.PAGE_IN_RAM, 2, -1, true), (PageState.PAGE_IN_RAM, 3, -1, true),
      (PageState.PAGE_IN_RAM, 4, -1, true), (PageState.PAGE_IN_RAM, 5, -1, true),
      (PageState.PAGE_IN_RAM, 6, -1, true), (PageState.PAGE_IN_RAM, 7, -1, true)]) ∧
    ((scenario_B s t1 t2).1 = 2) ∧
    ((find_process (scenario_B s t1 t2).2 2).map PCB.state =
      some ProcessState.PROC_SWAPPED) ∧
    ((find_process (scenario_B s t1 t2).2 2).map page_summary =
      some [(PageState.PAGE_IN_SWAP, -1, 0, false)]) ∧
    (tlb_find defaultConfig (scenario_B s t1 t2).2 2 0 = none) ∧
    (find_free_ram_frame defaultConfig (scenario_B s t1 t2).2 = -1) ∧
    ((select_victim_page_fifo (scenario_B s t1 t2).2).1 = 0) ∧
    (((ramAt (scenario_B s t1 t2).2 0).occupied, (ramAt (scenario_B s t1 t2).2 0).pid,
      (ramAt (scenario_B s t1 t2).2 0).page_number) = (true, 1, 0)) ∧
    ((scenario_access s t1 t2 t3).1 = AccessOutcome.page_fault_resolved 0) ∧
    ((scenario_access s t1 t2 t3).2.total_page_faults = 1) ∧
    ((find_process (scenario_access s t1 t2 t3).2 2).map page_summary =
      some [(PageState.PAGE_IN_RAM, 0, -1, true)]) ∧
    ((find_process (scenario_access s t1 t2 t3).2 1).map page_summary =
      some [(PageState.PAGE_IN_SWAP, -1, 1, false), (PageState.PAGE_IN_RAM, 1, -1, true),
      (PageState.PAGE_IN_RAM, 2, -1, true), (PageState.PAGE_IN_RAM, 3, -1, true),
      (PageState.PAGE_IN_RAM, 4, -1, true), (PageState.PAGE_IN_RAM, 5, -1, true),
      (PageState.PAGE_IN_RAM, 6, -1, true), (PageState.PAGE_IN_RAM, 7, -1, true)]) ∧
    (((ramAt (scenario_access s t1 t2 t3).2 0).occupied,
      (ramAt (scenario_access s t1 t2 t3).2 0).pid,
      (ramAt (scenario_access s t1 t2 t3).2 0).page_number) = (true, 2, 0)) := by
  simp [scenario_A, scenario_B, scenario_access, page_summary,
    create_process, add_log, ram_frames_default, swap_frames_default,
    max_log_eq, max_processes_eq, space_check_fails, used_space,
    find_free_slot, place_pages, find_free_ram_frame, find_free_swap_frame, indices_eight,
    indices_four, indices_sixteen, indices_fifty, page_size_default, tlb_size_default,
    tlb_update, tlb_victim, tlb_victim_scan, enqueue_fifo, getI_nil, getI_cons_zero, getI_cons_pos,
    setI_nil, setI_cons_zero, setI_cons_pos, ramAt, swapAt, tlbAt, procAt, pageAt, wrap32,
    emptyFrame, emptyTLBEntry, List.replicate, hr, hs, hp, hn, ht, hq, hl, hf,
    find_process, find_process_slot, simulate_access, tlb_lookup, tlb_find, swap_in_page,
    select_victim_page_fifo, is_fifo_empty, dequeue_fifo, swap_out_page, swap_in_finish,
    modify_process, set_page, swapped_out_entry, swapped_in_entry, released_frame, count_fault,
    tlb_invalidate, Int.tmod_eq_emod,
    (by decide : num_pages_of defaultConfig 2048 = 8),
    (by decide : num_pages_of defaultConfig 256 = 1)]

theorem scenario_from (s : MemorySystem) (t1 t2 t3 : Int)
    (hr : s.ram_frames = List.replicate 8 emptyFrame)
    (hs : s.swap_frames = List.replicate 16 emptyFrame)
    (hp : s.processes = List.replicate 50 none)
    (hn : s.num_processes = 0)
    (ht : s.tlb = List.replicate 4 emptyTLBEntry)
    (hq : s.fifo_queue = ⟨List.replicate 8 0, 0, -1, 0, 8⟩)
    (hl : s.log_count = 1)
    (hf : s.total_page_faults = 0) :
    EvictionScenario s t1 t2 t3 := by
  obtain ⟨a0, a1, a2, a3, a4, a5, a6, a7, a8, a9, a10, a11, a12, a13, a14⟩ :=
    scenario_eval s t1 t2 t3 hr hs hp hn ht hq hl hf
  exact ⟨a0, a1, a2, a3, a4, a5, a6, a7, a8, a9, a10, a11, a12, a13, a14⟩

/-- C3. With `RAM_SIZE = 2048`, `PAGE_SIZE = 256` (8 RAM frames) and the default Swap,
from the initial state and whatever the clock reads at the four calls:
`create_process(A, 2048)` returns pid 1 with the 8 pages of A in RAM frames 0..7 and state
`PROC_ACTIVE`; `create_process(B, 256)` returns pid 2 with its single page in Swap and
state `PROC_SWAPPED`; the simulated access of `(B, 0)` then misses the TLB, takes the
page-fault path, evicts the FIFO head, which is RAM frame 0 holding page 0 of A, and ends
with page 0 of B `PAGE_IN_RAM` (valid, in frame 0) and page 0 of A `PAGE_IN_SWAP` (not
valid). -/
theorem eviction_scenario (t0 t1 t2 t3 : Int) :
    NUM_RAM_FRAMES defaultConfig = 8 ∧
    EvictionScenario (init_system defaultConfig t0) t1 t2 t3 :=
  ⟨ram_frames_default,
    scenario_from (init_system defaultConfig t0) t1 t2 t3 rfl rfl rfl rfl rfl rfl rfl rfl⟩

/-! ## C4: creation never evicts -/

theorem find_free_ram_frame_free (cfg : Config) (s : MemorySystem) :
    (ramAt s (find_free_ram_frame cfg s)).occupied = false := by
  by_cases h : find_free_ram_frame cfg s = -1
  · rw [h]; rfl
  · exact (find_free_ram_frame_spec cfg s h).2.2.1

theorem find_free_swap_frame_free (cfg : Config) (s : MemorySystem) :
    (swapAt s (find_free_swap_frame cfg s)).occupied = false := by
  by_cases h : find_free_swap_frame cfg s = -1
  · rw [h]; rfl
  · exact (find_free_swap_frame_spec cfg s h).2.2.1

theorem Untouched.ram_placed {cfg : Config} {s0 s : MemorySystem} {pt : List PageTableEntry}
    (h : Untouched s0 s pt) (pid i now : Int) :
    Untouched s0 (place_ram_state cfg s pid i now) (pt ++ [ram_entry cfg s i now]) := by
  have hfree := find_free_ram_frame_free cfg s
  have hfree0 : (ramAt s0 (find_free_ram_frame cfg s)).occupied = false := by
    cases hc : (ramAt s0 (find_free_ram_frame cfg s)).occupied with
    | false => rfl
    | true =>
      rw [h.ram _ hc, hc] at hfree
      exact hfree
  refine ⟨?_, h.swap, h.procs, ?_, ?_⟩
  · intro f hocc
    have hne : find_free_ram_frame cfg s ≠ f := by
      intro hc
      rw [hc] at hfree0
      rw [hfree0] at hocc
      cases hocc
    have : ramAt (place_ram_state cfg s pid i now) f = ramAt s f :=
      getI_setI_ne _ _ _ _ _ hne
    rw [this]; exact h.ram f hocc
  · intro e he hst
    rcases List.mem_append.1 he with h1 | h1
    · exact h.ram_new e h1 hst
    · simp at h1
      subst h1
      exact hfree0
  · intro e he hst
    rcases List.mem_append.1 he with h1 | h1
    · exact h.swap_new e h1 hst
    · simp at h1
      subst h1
      simp [ram_entry] at hst

theorem Untouched.swap_placed {cfg : Config} {s0 s : MemorySystem} {pt : List PageTableEntry}
    (h : Untouched s0 s pt) (pid i now : Int) :
    Untouched s0 (place_swap_state cfg s pid i now) (pt ++ [swap_entry cfg s i now]) := by
  have hfree := find_free_swap_frame_free cfg s
  have hfree0 : (swapAt s0 (find_free_swap_frame cfg s)).occupied = false := by
    cases hc : (swapAt s0 (find_free_swap_frame cfg s)).occupied with
    | false => rfl
    | true =>
      rw [h.swap _ hc, hc] at hfree
      exact hfree
  refine ⟨h.ram, ?_, h.procs, ?_, ?_⟩
  · intro f hocc
    have hne : find_free_swap_frame cfg s ≠ f := by
      intro hc
      rw [hc] at hfree0
      rw [hfree0] at hocc
      cases hocc
    have : swapAt (place_swap_state cfg s pid i now) f = swapAt s f :=
      getI_setI_ne _ _ _ _ _ hne
    rw [this]; exact h.swap f hocc
  · intro e he hst
    rcases List.mem_append.1 he with h1 | h1
    · exact h.ram_new e h1 hst
    · simp at h1
      subst h1
      simp [swap_entry] at hst
  · intro e he hst
    rcases List.mem_append.1 he with h1 | h1
    · exact h.swap_new e h1 hst
    · simp at h1
      subst h1
      exact hfree0

theorem Untouched.rolled_back {s0 s : MemorySystem} {pt : List PageTableEntry}
    (h : Untouched s0 s pt) : Untouched s0 (rollback_pages s pt) [] := by
  rw [rollback_pages_eq]
  obtain ⟨k1, _⟩ := free_fold_ram rolled_back_frame rolled_back_frame_free pt s
  obtain ⟨w1, _⟩ := free_fold_swap rolled_back_frame rolled_back_frame_free pt s
  refine ⟨?_, ?_, ?_, ?_, ?_⟩
  · intro f hocc
    rcases k1 f with h1 | ⟨⟨e, he, est, eloc⟩, _⟩
    · rw [h1]; exact h.ram f hocc
    · have := h.ram_new e he est
      rw [eloc, hocc] at this
      cases this
  · intro f hocc
    rcases w1 f with h1 | ⟨⟨e, he, est, eloc⟩, _⟩
    · rw [h1]; exact h.swap f hocc
    · have := h.swap_new e he est
      rw [eloc, hocc] at this
      cases this
  · rw [(free_fold_frame rolled_back_frame pt s).1]; exact h.procs
  · intro e he; cases he
  · intro e he; cases he

theorem place_pages_untouched (cfg : Config) (pid now : Int) (s0 : MemorySystem) (todo : Nat) :
    ∀ (i : Int) (s : MemorySystem) (pt : List PageTableEntry) (k : Int),
      Untouched s0 s pt →
      ∃ pt1, Untouched s0 (place_pages cfg pid now todo i s pt k).sys pt1 := by
  induction todo with
  | zero =>
    intro i s pt k h
    exact ⟨pt, h⟩
  | succ n ih =>
    intro i s pt k h
    rw [place_pages_succ]
    by_cases c1 : find_free_ram_frame cfg s ≠ -1
    · rw [if_pos c1]
      exact ih _ _ _ _ (h.ram_placed pid i now)
    · rw [if_neg c1]
      by_cases c2 : find_free_swap_frame cfg s = -1
      · rw [if_pos c2]
        exact ⟨[], h.rolled_back⟩
      · rw [if_neg c2]
        exact ih _ _ _ _ (h.swap_placed pid i now)

/-- C4. For every state (reachable or not) and every call `create_process(name, size)`,
whether it succeeds or fails, every already-existing process record (hence its whole
page table) and every RAM frame and Swap slot that was occupied before the call are
unchanged by the call. -/
theorem creation_never_evicts (cfg : Config) (s : MemorySystem) (name : String)
    (size_kb now : Int) :
    (∀ i p, procAt s i = some p →
      procAt (create_process cfg s name size_kb now).2 i = some p) ∧
    (∀ f, (ramAt s f).occupied = true →
      ramAt (create_process cfg s name size_kb now).2 f = ramAt s f) ∧
    (∀ f, (swapAt s f).occupied = true →
      swapAt (create_process cfg s name size_kb now).2 f = swapAt s f) := by
  have triv : (∀ i p, procAt s i = some p → procAt s i = some p) ∧
      (∀ f, (ramAt s f).occupied = true → ramAt s f = ramAt s f) ∧
      (∀ f, (swapAt s f).occupied = true → swapAt s f = swapAt s f) :=
    ⟨fun _ _ h => h, fun _ _ => rfl, fun _ _ => rfl⟩
  unfold create_process
  by_cases c1 : s.num_processes ≥ MAX_PROCESSES
  · rw [if_pos c1]; exact triv
  · rw [if_neg c1]
    by_cases c2 : size_kb ≤ 0
    · rw [if_pos c2]; exact triv
    · rw [if_neg c2]
      simp only []
      by_cases c3 : space_check_fails cfg s (num_pages_of cfg size_kb) = true
      · rw [if_pos c3]; exact triv
      · rw [if_neg c3]
        by_cases c4 : find_free_slot s = -1
        · rw [if_pos c4]; exact triv
        · rw [if_neg c4]
          obtain ⟨_, _, snone, _⟩ := find_free_slot_spec s c4
          have h0 : Untouched s s [] :=
            ⟨fun _ _ => rfl, fun _ _ => rfl, rfl, fun _ he => absurd he (List.not_mem_nil _),
              fun _ he => absurd he (List.not_mem_nil _)⟩
          obtain ⟨pt1, hu⟩ := place_pages_untouched cfg (find_free_slot s + 1) now s
            (num_pages_of cfg size_kb).toNat 0 s [] 0 h0
          generalize place_pages cfg (find_free_slot s + 1) now
              (num_pages_of cfg size_kb).toNat 0 s [] 0 = r at hu ⊢
          cases hok : r.ok with
          | false =>
            simp only [Bool.not_false, if_true]
            refine ⟨?_, hu.ram, hu.swap⟩
            intro i p hp
            rw [procAt_congr hu.procs]; exact hp
          | true =>
            simp only [Bool.not_true, Bool.false_eq_true, if_false]
            refine ⟨?_, ?_, ?_⟩
            · intro i p hp
              have hne : find_free_slot s ≠ i := by
                intro hc
                rw [hc] at snone
                rw [snone] at hp
                cases hp
              unfold procAt
              rw [(add_log_frame _ _ _).2.2.1]
              show getI (setI r.sys.processes _ _) i none = some p
              rw [getI_setI_ne _ _ _ _ _ hne, hu.procs]
              exact hp
            · intro f hocc
              rw [ramAt_congr (add_log_frame _ _ _).1]
              exact hu.ram f hocc
            · intro f hocc
              rw [swapAt_congr (add_log_frame _ _ _).2.1]
              exact hu.swap f hocc

/-! ## C5: RAM-first placement -/

theorem head_filter_eq_find {α : Type} (p : α → Bool) (l : List α) :
    (l.filter p).head? = l.find? p := by
  induction l with
  | nil => rfl
  | cons a l ih =>
    by_cases h : p a = true
    · simp [List.filter_cons, List.find?_cons, h]
    · simp [List.filter_cons, List.find?_cons, h, ih]

theorem indices_nodup (n : Int) : (indices n).Nodup := by
  unfold indices
  apply List.Nodup.map
  · intro a b h
    exact Int.ofNat.inj h
  · exact List.nodup_range _

theorem find_free_ram_frame_eq_head (cfg : Config) (s : MemorySystem) :
    find_free_ram_frame cfg s = ((free_ram_frames cfg s).head?).getD (-1) := by
  unfold find_free_ram_frame free_ram_frames
  rw [head_filter_eq_find]

theorem find_free_swap_frame_eq_head (cfg : Config) (s : MemorySystem) :
    find_free_swap_frame cfg s = ((free_swap_slots cfg s).head?).getD (-1) := by
  unfold find_free_swap_frame free_swap_slots
  rw [head_filter_eq_find]

/-- Occupying the first free frame of a pool removes it from the list of free frames. -/
theorem filter_free_tail (n : Int) (l l1 : List Frame) (r : Int) (rest : List Int)
    (hl : (indices n).filter (fun i => !(getI l i emptyFrame).occupied) = r :: rest)
    (h1 : ∀ i, i ≠ r → getI l1 i emptyFrame = getI l i emptyFrame)
    (h2 : (getI l1 r emptyFrame).occupied = true) :
    (indices n).filter (fun i => !(getI l1 i emptyFrame).occupied) = rest := by
  have hnd : (r :: rest).Nodup := by
    rw [← hl]; exact (indices_nodup n).filter _
  have hr : r ∉ rest := (List.nodup_cons.1 hnd).1
  have e1 : (indices n).filter (fun i => !(getI l1 i emptyFrame).occupied) =
      ((indices n).filter (fun i => !(getI l i emptyFrame).occupied)).filter
        (fun i => decide (i ≠ r)) := by
    rw [List.filter_filter]
    apply List.filter_congr
    intro i _
    by_cases hi : i = r
    · subst hi; simp [h2]
    · simp [h1 i hi, hi]
  rw [e1, hl, List.filter_cons_of_neg (by simp)]
  rw [List.filter_eq_self]
  intro a ha
  have : a ≠ r := fun hc => hr (hc ▸ ha)
  simpa using this

theorem place_pages_placed (cfg : Config) (pid now : Int) (todo : Nat) :
    ∀ (i : Int) (s : MemorySystem) (pt : List PageTableEntry) (k : Int),
      s.ram_frames.length = (NUM_RAM_FRAMES cfg).toNat →
      s.swap_frames.length = (NUM_SWAP_FRAMES cfg).toNat →
      (place_pages cfg pid now todo i s pt k).ok = true →
      ∃ rest, (place_pages cfg pid now todo i s pt k).page_table = pt ++ rest ∧
        rest.length = todo ∧
        Placed (free_ram_frames cfg s) (free_swap_slots cfg s) rest ∧
        free_ram_frames cfg (place_pages cfg pid now todo i s pt k).sys =
          (free_ram_frames cfg s).drop todo ∧
        (place_pages cfg pid now todo i s pt k).pages_in_ram =
          k + (pages_in_ram_count rest : Int) := by
  induction todo with
  | zero =>
    intro i s pt k _ _ _
    refine ⟨[], by simp [place_pages], rfl, ⟨?_, ?_, ?_⟩, by simp [place_pages], ?_⟩
    · intro j hj; simp at hj
    · intro j hj; simp at hj
    · simp [pages_in_ram_count]
    · simp [place_pages, pages_in_ram_count]
  | succ n ih =>
    intro i s pt k hrl hsl hok
    rw [place_pages_succ] at hok ⊢
    by_cases c1 : find_free_ram_frame cfg s ≠ -1
    · rw [if_pos c1] at hok ⊢
      obtain ⟨r0, r1, rfree, _⟩ := find_free_ram_frame_spec cfg s c1
      have hhead := find_free_ram_frame_eq_head cfg s
      cases hF : free_ram_frames cfg s with
      | nil =>
        rw [hF] at hhead
        exact absurd hhead c1
      | cons r F1 =>
        rw [hF] at hhead
        simp only [List.head?_cons, Option.getD_some] at hhead
        have hrlen : find_free_ram_frame cfg s < (s.ram_frames.length : Int) := by omega
        have hF1 : free_ram_frames cfg (place_ram_state cfg s pid i now) = F1 := by
          unfold free_ram_frames at hF ⊢
          apply filter_free_tail (NUM_RAM_FRAMES cfg) s.ram_frames _ r F1 hF
          · intro j hj
            show getI (setI s.ram_frames _ _) j emptyFrame = _
            rw [hhead]
            exact getI_setI_ne _ _ _ _ _ (fun hc => hj hc.symm)
          · show (getI (setI s.ram_frames _ _) r emptyFrame).occupied = true
            rw [← hhead, getI_setI_self _ _ _ _ r0 hrlen]
        have hG1 : free_swap_slots cfg (place_ram_state cfg s pid i now) =
            free_swap_slots cfg s := rfl
        obtain ⟨rest, e1, e2, e3, e4, e5⟩ := ih (i + 1) (place_ram_state cfg s pid i now)
          (pt ++ [ram_entry cfg s i now]) (k + 1)
          (by show (setI s.ram_frames _ _).length = _; rw [length_setI]; exact hrl)
          hsl hok
        rw [hF1] at e3 e4
        rw [hG1] at e3
        refine ⟨ram_entry cfg s i now :: rest, by rw [e1]; simp, by simp [e2], ⟨?_, ?_, ?_⟩,
          by rw [e4]; simp, ?_⟩
        · intro j hj hjf
          cases j with
          | zero =>
            simp only [List.getD_cons_zero]
            exact ⟨rfl, hhead, rfl⟩
          | succ j =>
            simp only [List.getD_cons_succ]
            apply e3.in_ram j
            · simpa using hj
            · simpa using hjf
        · intro j hj hjf
          cases j with
          | zero => simp at hjf
          | succ j =>
            simp only [List.getD_cons_succ]
            have := e3.in_swap j (by simpa using hj) (by simpa using hjf)
            simpa using this
        · have := e3.count
          unfold pages_in_ram_count at this ⊢
          simp [ram_entry, this]
          omega
        · rw [e5]
          unfold pages_in_ram_count
          simp [ram_entry]
          omega
    · rw [if_neg c1] at hok ⊢
      by_cases c2 : find_free_swap_frame cfg s = -1
      · rw [if_pos c2] at hok
        cases hok
      · rw [if_neg c2] at hok ⊢
        have c1' : find_free_ram_frame cfg s = -1 := by
          by_contra hc; exact c1 hc
        obtain ⟨r0, r1, rfree, _⟩ := find_free_swap_frame_spec cfg s c2
        have hF : free_ram_frames cfg s = [] := by
          unfold free_ram_frames
          rw [List.filter_eq_nil_iff]
          intro a ha
          have := find_free_ram_frame_none cfg s c1' a ((mem_indices _ _).1 ha).1
            ((mem_indices _ _).1 ha).2
          simp [this]
        have hhead := find_free_swap_frame_eq_head cfg s
        cases hG : free_swap_slots cfg s with
        | nil =>
          rw [hG] at hhead
          exact absurd hhead c2
        | cons g G1 =>
          rw [hG] at hhead
          simp only [List.head?_cons, Option.getD_some] at hhead
          rw [hF]
          have hrlen : find_free_swap_frame cfg s < (s.swap_frames.length : Int) := by omega
          have hG1 : free_swap_slots cfg (place_swap_state cfg s pid i now) = G1 := by
            unfold free_swap_slots at hG ⊢
            apply filter_free_tail (NUM_SWAP_FRAMES cfg) s.swap_frames _ g G1 hG
            · intro j hj
              show getI (setI s.swap_frames _ _) j emptyFrame = _
              rw [hhead]
              exact getI_setI_ne _ _ _ _ _ (fun hc => hj hc.symm)
            · show (getI (setI s.swap_frames _ _) g emptyFrame).occupied = true
              rw [← hhead, getI_setI_self _ _ _ _ r0 hrlen]
          have hF1 : free_ram_frames cfg (place_swap_state cfg s pid i now) =
              free_ram_frames cfg s := rfl
          obtain ⟨rest, e1, e2, e3, e4, e5⟩ := ih (i + 1) (place_swap_state cfg s pid i now)
            (pt ++ [swap_entry cfg s i now]) k hrl
            (by show (setI s.swap_frames _ _).length = _; rw [length_setI]; exact hsl)
            hok
          rw [hF1, hF] at e3 e4
          rw [hG1] at e3
          refine ⟨swap_entry cfg s i now :: rest, by rw [e1]; simp, by simp [e2],
            ⟨?_, ?_, ?_⟩, by rw [e4]; simp, ?_⟩
          · intro j _ hjf
            simp at hjf
          · intro j hj _
            cases j with
            | zero =>
              simp only [List.getD_cons_zero]
              exact ⟨rfl, by simp, by simpa using hhead, rfl⟩
            | succ j =>
              simp only [List.getD_cons_succ]
              have := e3.in_swap j (by simpa using hj) (by simp)
              simpa using this
          · have := e3.count
            unfold pages_in_ram_count at this ⊢
            simp [swap_entry, this]
          · rw [e5]
            unfold pages_in_ram_count
            simp [swap_entry]

theorem pageAt_nat (p : PCB) (j : Nat) :
    pageAt p (j : Int) = p.page_table.getD j emptyPageEntry := by
  unfold pageAt getI
  simp

theorem free_ram_frames_congr (cfg : Config) {s s1 : MemorySystem}
    (h : s1.ram_frames = s.ram_frames) : free_ram_frames cfg s1 = free_ram_frames cfg s := by
  unfold free_ram_frames
  rw [ramAt_congr h]

/-- Everything a successful `create_process` does outside the placement loop. -/
theorem create_process_success {cfg : Config} {s : MemorySystem} {name : String}
    {size_kb now : Int} (hres : (create_process cfg s name size_kb now).1 ≠ -1) :
    ¬ s.num_processes ≥ MAX_PROCESSES ∧ 0 < size_kb ∧
    space_check_fails cfg s (num_pages_of cfg size_kb) = false ∧
    find_free_slot s ≠ -1 ∧
    (place_pages cfg (find_free_slot s + 1) now (num_pages_of cfg size_kb).toNat 0 s [] 0).ok
      = true ∧
    (create_process cfg s name size_kb now).1 = find_free_slot s + 1 ∧
    (∃ q, (create_process cfg s name size_kb now).2.processes =
        setI (place_pages cfg (find_free_slot s + 1) now (num_pages_of cfg size_kb).toNat
          0 s [] 0).sys.processes (find_free_slot s) (some q) ∧
      q.pid = find_free_slot s + 1 ∧
      q.page_table = (place_pages cfg (find_free_slot s + 1) now
        (num_pages_of cfg size_kb).toNat 0 s [] 0).page_table ∧
      q.num_pages = num_pages_of cfg size_kb ∧ q.page_faults = 0 ∧ q.size = size_kb) ∧
    (create_process cfg s name size_kb now).2.ram_frames =
      (place_pages cfg (find_free_slot s + 1) now (num_pages_of cfg size_kb).toNat
        0 s [] 0).sys.ram_frames ∧
    (create_process cfg s name size_kb now).2.swap_frames =
      (place_pages cfg (find_free_slot s + 1) now (num_pages_of cfg size_kb).toNat
        0 s [] 0).sys.swap_frames ∧
    (create_process cfg s name size_kb now).2.tlb =
      (place_pages cfg (find_free_slot s + 1) now (num_pages_of cfg size_kb).toNat
        0 s [] 0).sys.tlb ∧
    (create_process cfg s name size_kb now).2.fifo_queue =
      (place_pages cfg (find_free_slot s + 1) now (num_pages_of cfg size_kb).toNat
        0 s [] 0).sys.fifo_queue ∧
    (create_process cfg s name size_kb now).2.num_processes =
      (place_pages cfg (find_free_slot s + 1) now (num_pages_of cfg size_kb).toNat
        0 s [] 0).sys.num_processes + 1 := by
  revert hres
  unfold create_process
  by_cases c1 : s.num_processes ≥ MAX_PROCESSES
  · rw [if_pos c1]; intro hres; exact absurd rfl hres
  · rw [if_neg c1]
    by_cases c2 : size_kb ≤ 0
    · rw [if_pos c2]; intro hres; exact absurd rfl hres
    · rw [if_neg c2]
      simp only []
      by_cases c3 : space_check_fails cfg s (num_pages_of cfg size_kb) = true
      · rw [if_pos c3]; intro hres; exact absurd rfl hres
      · rw [if_neg c3]
        by_cases c4 : find_free_slot s = -1
        · rw [if_pos c4]; intro hres; exact absurd rfl hres
        · rw [if_neg c4]
          generalize place_pages cfg (find_free_slot s + 1) now
              (num_pages_of cfg size_kb).toNat 0 s [] 0 = r
          cases hok : r.ok with
          | false =>
            simp only [Bool.not_false, if_true]
            intro hres; exact absurd rfl hres
          | true =>
            simp only [Bool.not_true, Bool.false_eq_true, if_false]
            intro _
            refine ⟨c1, by omega, by simpa using c3, c4, trivial, trivial,
              ⟨_, (add_log_frame _ _ _).2.2.1.trans rfl, rfl, rfl, rfl, rfl, rfl⟩,
              (add_log_frame _ _ _).1.trans rfl, (add_log_frame _ _ _).2.1.trans rfl,
              (add_log_frame _ _ _).2.2.2.2.1.trans rfl,
              (add_log_frame _ _ _).2.2.2.2.2.1.trans rfl,
              (add_log_frame _ _ _).2.2.2.1.trans rfl⟩

theorem Inv.create_placement {cfg : Config} {s : MemorySystem} (h : Inv cfg s)
    (name : String) (size_kb now : Int)
    (hres : (create_process cfg s name size_kb now).1 ≠ -1) :
    ∃ p, find_process (create_process cfg s name size_kb now).2
        (create_process cfg s name size_kb now).1 = some p ∧
      RamFirstPlacement cfg s (create_process cfg s name size_kb now).2 p := by
  have hinv := h.create name size_kb now
  obtain ⟨_, _, _, c4, hok, hpid, ⟨q, hq, qpid, qpt, qnum, _⟩, hram, _⟩ :=
    create_process_success hres
  obtain ⟨s0, s1, snone, _⟩ := find_free_slot_spec s c4
  have sl : find_free_slot s < (s.processes.length : Int) := by
    have := h.proc_len
    have e : MAX_PROCESSES = 50 := rfl
    omega
  obtain ⟨rest, e1, e2, e3, e4, _⟩ := place_pages_placed cfg (find_free_slot s + 1) now
    (num_pages_of cfg size_kb).toNat 0 s [] 0 h.ram_len h.swap_len hok
  obtain ⟨hprocs, _, _⟩ := place_pages_inv cfg (find_free_slot s) now
    (num_pages_of cfg size_kb).toNat s [] 0 (h.add_empty_proc s0 sl snone) s0 sl snone
  simp only [List.length_nil, Nat.cast_zero] at hprocs
  simp only [List.nil_append] at e1
  have hp1 : procAt (create_process cfg s name size_kb now).2 (find_free_slot s) = some q := by
    unfold procAt
    rw [hq]
    apply getI_setI_self _ _ _ _ s0
    rw [hprocs]; exact sl
  have hqpt : q.page_table = rest := by rw [qpt, e1]
  refine ⟨q, ?_, ?_, ?_, ?_, ?_, ?_⟩
  · rw [hpid, ← qpid]
    exact hinv.find_process_of_live hp1
  · rw [hqpt, qnum]; exact e2
  · intro j hj hjf
    rw [pageAt_nat, hqpt]
    rw [hqpt] at hj
    exact e3.in_ram j hj hjf
  · intro j hj hjf
    rw [pageAt_nat, hqpt]
    rw [hqpt] at hj
    exact e3.in_swap j hj hjf
  · rw [hqpt]; exact e3.count
  · rw [free_ram_frames_congr cfg hram, e4, hqpt, e2]

/-- C5. In every reachable state with `k` free RAM frames, a successful `create_process`
of a process with `n` pages leaves exactly `min n k` of its pages `PAGE_IN_RAM`, namely
pages `0 .. min n k - 1`, placed in the free RAM frames in ascending index order, and the
remaining pages `PAGE_IN_SWAP` in the previously free Swap slots in ascending index
order; so a page is in Swap only when all `k` free RAM frames had been taken by the pages
before it. -/
theorem ram_first_placement (cfg : Config) (t0 : Int) (ops : List Op) (name : String)
    (size_kb now : Int)
    (h : (create_process cfg (run cfg (init_system cfg t0) ops) name size_kb now).1 ≠ -1) :
    ∃ p, find_process (create_process cfg (run cfg (init_system cfg t0) ops) name size_kb now).2
        (create_process cfg (run cfg (init_system cfg t0) ops) name size_kb now).1 = some p ∧
      RamFirstPlacement cfg (run cfg (init_system cfg t0) ops)
        (create_process cfg (run cfg (init_system cfg t0) ops) name size_kb now).2 p :=
  (inv_reachable cfg t0 ops).create_placement name size_kb now h

/-- Instance of C5: with seven RAM frames taken, a process of three pages gets the last
RAM frame and two Swap slots. -/
theorem ram_first_placement_witness :
    ∃ p, find_process (create_process defaultConfig
          (run defaultConfig (init_system defaultConfig 100) [Op.create "A" 1792 101])
          "B" 768 102).2
        (create_process defaultConfig
          (run defaultConfig (init_system defaultConfig 100) [Op.create "A" 1792 101])
          "B" 768 102).1 = some p ∧
      RamFirstPlacement defaultConfig
        (run defaultConfig (init_system defaultConfig 100) [Op.create "A" 1792 101])
        (create_process defaultConfig
          (run defaultConfig (init_system defaultConfig 100) [Op.create "A" 1792 101])
          "B" 768 102).2 p :=
  ram_first_placement defaultConfig 100 [Op.create "A" 1792 101] "B" 768 102 (by decide)

/-! ## C6: conservation -/

/-- C6 fails on the code at this input: a request of 2147483647 KB makes
`size_kb + PAGE_SIZE - 1` wrap around, `num_pages` comes out as -8388607, the space check
passes, and a live process with that `num_pages` and no page entry is created, so
`count(InRAM) + count(InSwap) = 0` is not `num_pages`. -/
theorem conservation_fails_on_overflow :
    (create_process defaultConfig (init_system defaultConfig 100) "X" 2147483647 101).1 = 1 ∧
    (find_process
        (run defaultConfig (init_system defaultConfig 100) [Op.create "X" 2147483647 101]) 1).map
      (fun p => (p.num_pages, pages_in_ram_count p.page_table,
        pages_in_swap_count p.page_table)) = some (-8388607, 0, 0) := by
  decide

/-! ## C7: postcondition of a successful `swap_in_page` -/

theorem enqueue_fifo_rear (cfg : Config) (q : FIFOQueue) (x : Int) (h : FifoOK cfg q)
    (hroom : q.size < q.capacity) :
    getI (enqueue_fifo q x).queue (enqueue_fifo q x).rear 0 = x := by
  obtain ⟨h1, h2, h3, h4, h5, h6⟩ := h
  unfold enqueue_fifo
  have hc : ¬ q.size ≥ q.capacity := by omega
  simp only [hc, if_false]
  have hcap : 0 < q.capacity := by omega
  have hr0 : 0 ≤ q.rear + 1 := by omega
  have hm0 : 0 ≤ Int.tmod (q.rear + 1) q.capacity := Int.tmod_nonneg _ hr0
  have hm1 : Int.tmod (q.rear + 1) q.capacity < q.capacity := Int.tmod_lt_of_pos _ hcap
  apply getI_setI_self _ _ _ _ hm0
  omega

theorem Inv.swap_in_post {cfg : Config} {s : MemorySystem} (h : Inv cfg s) {pid pg now : Int}
    (hres : (swap_in_page cfg s pid pg now).1 = true) :
    ∃ p p1, SwapInPost cfg s pid pg (swap_in_page cfg s pid pg now).2 p p1 := by
  have h1 := h.swap_in pid pg now
  obtain ⟨slot, p, sm, pm, r, hslot, hp, hpid, pg0, pgn, pg1, pgst, hsm, hpm, hpmpid, hlen,
    hpg, hpf, r0, r1, rfree, htpf, hcase, heq⟩ := swap_in_page_success h hres
  obtain ⟨hram, hswap, hproc, htlb, hfifo, _, _, htot, _⟩ :=
    swap_in_finish_shape cfg sm slot pid pg (pageAt p pg).swap_position r now pm hpm
  rw [← heq] at hram hswap hproc htlb hfifo htot
  have hr := procAt_range hpm
  have pgm : pg < (pm.page_table.length : Int) := by rw [hlen]; exact pg1
  have hp1 : procAt (swap_in_page cfg s pid pg now).2 slot =
      some (count_fault (set_page pm pg (swapped_in_entry (pageAt pm pg) r now))) := by
    unfold procAt
    rw [hproc]
    exact getI_setI_self _ _ _ _ hr.1 hr.2
  have hself : pageAt (count_fault (set_page pm pg (swapped_in_entry (pageAt pm pg) r now))) pg =
      swapped_in_entry (pageAt pm pg) r now := by
    rw [pageAt_count_fault]; exact pageAt_set_page_self pm pg _ pg0 pgm
  have hfr : (pageAt (count_fault (set_page pm pg (swapped_in_entry (pageAt pm pg) r now)))
      pg).frame_number = r := by rw [hself]; rfl
  have hramr : ramAt (swap_in_page cfg s pid pg now).2 r = ⟨pid, pg, true, now⟩ := by
    unfold ramAt
    rw [hram]
    apply getI_setI_self _ _ _ _ r0
    have := hsm.ram_len
    omega
  refine ⟨p, count_fault (set_page pm pg (swapped_in_entry (pageAt pm pg) r now)),
    ⟨?_, ⟨pg0, pgn⟩, pgst⟩, ⟨?_, ?_, ?_, ?_⟩, ?_, ?_, ?_, ?_, ?_⟩
  · rw [← hpid]; exact h.find_process_of_live hp
  · have := h1.find_process_of_live hp1
    have e : (count_fault (set_page pm pg (swapped_in_entry (pageAt pm pg) r now))).pid = pid :=
      hpmpid
    rw [e] at this
    exact this
  · rw [hself]; rfl
  · rw [hself]; rfl
  · rw [hself]; rfl
  · rw [hfr, hramr]
    exact ⟨⟨r0, r1⟩, rfl, rfl, rfl⟩
  · have hsp := hsm.swap_own.page slot pm pg hpm pg0 pgm (by rw [hpg]; exact pgst)
    rw [hpg] at hsp
    unfold swapAt
    rw [hswap]
    rw [getI_setI_self _ _ _ _ hsp.1 (by
      have := hsm.swap_len
      have := hsp.2.1
      omega)]
    rfl
  · intro hT
    obtain ⟨v0, v1⟩ := tlb_victim_range cfg sm hT
    refine ⟨tlb_victim cfg sm, ⟨v0, v1⟩, ?_⟩
    have : tlbAt (swap_in_page cfg s pid pg now).2 (tlb_victim cfg sm) =
        ⟨pid, pg, r, true, now⟩ := by
      unfold tlbAt
      rw [htlb]
      show getI (setI sm.tlb (tlb_victim cfg sm) _) _ _ = _
      apply getI_setI_self _ _ _ _ v0
      have := hsm.tlb_len
      omega
    rw [this, hfr]
    exact ⟨rfl, rfl, rfl, rfl⟩
  · intro hq
    rw [hfr, hfifo]
    apply enqueue_fifo_rear cfg _ _ hsm.fifo_ok
    rcases hcase with ⟨c4, hs, _⟩ | ⟨c4, hne, _, _, _, hqm⟩
    · rw [hs]
      rcases hq with hq | hq
      · exact hq
      · exact absurd hq c4
    · rw [hqm]
      obtain ⟨_, _, k3, k4, _⟩ := h.fifo_ok
      unfold dequeue_fifo
      simp only [hne, if_false]
      show s.fifo_queue.size - 1 < s.fifo_queue.capacity
      omega
  · refine ⟨?_, ?_⟩
    · show pm.page_faults + 1 = p.page_faults + 1
      rw [hpf]
    · rw [htot, htpf]

/-- What a successful `swap_in_page` guarantees in every reachable state. When
`swap_in_page(pid, page)` returns true, afterwards the page entry is `PAGE_IN_RAM` with
`valid = true`, `swap_position = -1` and `frame_number = r`, RAM frame `r` is occupied and
owned by `(pid, page)`, the Swap slot the page occupied before is free, the TLB (of at
least one slot, where `tlb_update` is defined) holds a valid entry mapping `(pid, page)`
to `r`, the process's `page_faults` and `total_page_faults` have each increased by
exactly 1, and `r` is the element at the rear of the FIFO queue provided the queue was not
full at the call or a victim was evicted. -/
theorem swap_in_success_postcondition (cfg : Config) (t0 : Int) (ops : List Op)
    (pid pg now : Int)
    (h : (swap_in_page cfg (run cfg (init_system cfg t0) ops) pid pg now).1 = true) :
    ∃ p p1, SwapInPost cfg (run cfg (init_system cfg t0) ops) pid pg
      (swap_in_page cfg (run cfg (init_system cfg t0) ops) pid pg now).2 p p1 :=
  (inv_reachable cfg t0 ops).swap_in_post h

/-- Instance: A fills RAM, B sits in Swap, page 0 of B is swapped in (with eviction). -/
theorem swap_in_success_postcondition_witness :
    ∃ p p1, SwapInPost defaultConfig
      (run defaultConfig (init_system defaultConfig 100)
        [Op.create "A" 2048 101, Op.create "B" 256 102]) 2 0
      (swap_in_page defaultConfig
        (run defaultConfig (init_system defaultConfig 100)
          [Op.create "A" 2048 101, Op.create "B" 256 102]) 2 0 103).2 p p1 :=
  swap_in_success_postcondition defaultConfig 100
    [Op.create "A" 2048 101, Op.create "B" 256 102] 2 0 103 (by decide)

/-- C7 evaluated on the code: in `after_terminate_state` every RAM frame is free and the
queue is still full of the eight frames of the terminated process. `swap_in_page(2, 0)`
returns true and puts the page in RAM frame 0 without evicting; its `enqueue_fifo` finds
the queue full and drops the frame, so the queue is unchanged and the element at its rear,
the most recently enqueued one, is frame 7 and not frame 0. -/
theorem swap_in_frame_not_enqueued :
    find_free_ram_frame defaultConfig after_terminate_state = 0 ∧
    after_terminate_state.fifo_queue.size = 8 ∧
    after_terminate_state.fifo_queue.capacity = 8 ∧
    (swap_in_page defaultConfig after_terminate_state 2 0 104).1 = true ∧
    (find_process (swap_in_page defaultConfig after_terminate_state 2 0 104).2 2).map
      (fun p => ((pageAt p 0).state, (pageAt p 0).frame_number)) =
        some (PageState.PAGE_IN_RAM, 0) ∧
    (swap_in_page defaultConfig after_terminate_state 2 0 104).2.fifo_queue =
      after_terminate_state.fifo_queue ∧
    getI (swap_in_page defaultConfig after_terminate_state 2 0 104).2.fifo_queue.queue
      (swap_in_page defaultConfig after_terminate_state 2 0 104).2.fifo_queue.rear 0 = 7 := by
  decide

/-! ## The FIFO queue as a list -/

theorem queue_list_length (q : FIFOQueue) : (queue_list q).length = q.size.toNat := by
  unfold queue_list; simp

theorem ring_create (capacity : Int) : RingOK (create_fifo_queue capacity) := by
  unfold create_fifo_queue
  refine ⟨by simp, by simp, Or.inr rfl, by simp, ?_, ?_, by simp⟩
  · by_cases h : 0 < capacity
    · exact Or.inl h
    · exact Or.inr (by simpa using h)
  · simp

theorem queue_list_create (capacity : Int) : queue_list (create_fifo_queue capacity) = [] := by
  unfold queue_list create_fifo_queue; simp

/-- A full queue ignores `enqueue_fifo`. -/
theorem enqueue_fifo_full (q : FIFOQueue) (x : Int) (h : q.size ≥ q.capacity) :
    enqueue_fifo q x = q := by
  unfold enqueue_fifo; rw [if_pos h]

/-- On a queue that is not full, `enqueue_fifo` appends at the tail. -/
theorem enqueue_fifo_list (q : FIFOQueue) (x : Int) (hq : RingOK q) (h : q.size < q.capacity) :
    queue_list (enqueue_fifo q x) = queue_list q ++ [x] ∧ RingOK (enqueue_fifo q x) ∧
    (enqueue_fifo q x).size = q.size + 1 ∧ (enqueue_fifo q x).capacity = q.capacity := by
  have hs := hq.size_nonneg
  have hc : 0 < q.capacity := by omega
  have hf := hq.front_nonneg
  have hfl : q.front < q.capacity := by
    rcases hq.front_lt with h1 | h1
    · exact h1
    · omega
  have hj0 : 0 ≤ (q.front + q.size) % q.capacity := Int.emod_nonneg _ (by omega)
  have hj1 : (q.front + q.size) % q.capacity < q.capacity := Int.emod_lt_of_pos _ hc
  have hnot : ¬ q.size ≥ q.capacity := by omega
  have e : enqueue_fifo q x =
      { q with rear := (q.front + q.size) % q.capacity,
               queue := setI q.queue ((q.front + q.size) % q.capacity) x,
               size := q.size + 1 } := by
    unfold enqueue_fifo
    rw [if_neg hnot]
    simp only [hq.rear]
  rw [e]
  refine ⟨?_, ?_, rfl, rfl⟩
  · unfold queue_list
    simp only
    have hsz : (q.size + 1).toNat = q.size.toNat + 1 := by omega
    rw [hsz, List.range_succ, List.map_append]
    congr 1
    · apply List.map_congr_left
      intro k hk
      have hk1 : (k : Int) < q.size := by
        have := List.mem_range.1 hk
        omega
      rw [getI_setI_ne]
      intro hc2
      have h3 : (q.front + (k : Int)) % q.capacity = (q.front + q.size) % q.capacity := hc2.symm
      have h4 := Int.emod_emod_of_dvd (q.front + (k : Int)) (dvd_refl q.capacity)
      have h5 : (q.size - (k : Int)) % q.capacity = 0 := by
        have := Int.emod_eq_emod_iff_emod_sub_eq_zero.1 h3.symm
        have e2 : q.front + q.size - (q.front + (k : Int)) = q.size - (k : Int) := by ring
        rw [e2] at this
        exact this
      have h6 : (q.size - (k : Int)) % q.capacity = q.size - (k : Int) :=
        Int.emod_eq_of_lt (by omega) (by omega)
      omega
    · simp only [List.map_cons, List.map_nil]
      have : ((q.size.toNat : Nat) : Int) = q.size := by omega
      rw [this, getI_setI_self]
      · exact hj0
      · rw [hq.len]; omega
  · refine ⟨?_, ?_, ?_, hf, Or.inl hfl, ?_, ?_⟩
    · simp only [length_setI]; exact hq.len
    · simp only; omega
    · simp only; left; omega
    · simp only
      rw [Int.tmod_eq_emod (by omega) (by omega)]
      rw [Int.emod_add_emod]
      congr 1
      ring
    · simp only; omega

/-- On a queue that is not empty, `dequeue_fifo` returns and removes the head. -/
theorem dequeue_fifo_list (q : FIFOQueue) (hq : RingOK q) (h : q.size ≠ 0) :
    queue_list q = (dequeue_fifo q).1 :: queue_list (dequeue_fifo q).2 ∧
    RingOK (dequeue_fifo q).2 ∧ (dequeue_fifo q).2.size = q.size - 1 ∧
    (dequeue_fifo q).2.capacity = q.capacity := by
  have hs := hq.size_nonneg
  have hsc : q.size ≤ q.capacity := by
    rcases hq.size_le with h1 | h1
    · exact h1
    · exact absurd h1 h
  have hc : 0 < q.capacity := by omega
  have hf := hq.front_nonneg
  have hfl : q.front < q.capacity := by
    rcases hq.front_lt with h1 | h1
    · exact h1
    · omega
  have e : dequeue_fifo q = (getI q.queue q.front 0,
      { q with front := (q.front + 1) % q.capacity, size := q.size - 1 }) := by
    unfold dequeue_fifo
    rw [if_neg h]
    simp only [Int.tmod_eq_emod (show 0 ≤ q.front + 1 by omega) (show 0 ≤ q.capacity by omega)]
  rw [e]
  refine ⟨?_, ?_, rfl, rfl⟩
  · unfold queue_list
    simp only
    have hsz : q.size.toNat = (q.size - 1).toNat + 1 := by omega
    rw [hsz, List.range_succ_eq_map, List.map_cons, List.map_map]
    congr 1
    · simp only [Nat.cast_zero, add_zero]
      rw [Int.emod_eq_of_lt hf hfl]
    · apply List.map_congr_left
      intro k _
      simp only [Function.comp, Nat.succ_eq_add_one, Nat.cast_add, Nat.cast_one]
      congr 1
      rw [Int.emod_add_emod]
      congr 1
      ring
  · refine ⟨hq.len, ?_, ?_, ?_, ?_, ?_, hq.rear_ge⟩
    · simp only; omega
    · simp only; left; omega
    · simp only; exact Int.emod_nonneg _ (by omega)
    · simp only; left; exact Int.emod_lt_of_pos _ hc
    · simp only
      rw [hq.rear, Int.emod_add_emod]
      congr 1
      ring

/-- An empty queue gives no victim and is left as it is. -/
theorem dequeue_fifo_empty (q : FIFOQueue) (h : q.size = 0) : dequeue_fifo q = (-1, q) := by
  unfold dequeue_fifo; rw [if_pos h]

/-! ## C8: FIFO fairness -/

theorem free_ram_frames_mem (cfg : Config) (s : MemorySystem) (x : Int)
    (h : x ∈ free_ram_frames cfg s) :
    0 ≤ x ∧ x < NUM_RAM_FRAMES cfg ∧ (ramAt s x).occupied = false := by
  unfold free_ram_frames at h
  rw [List.mem_filter, mem_indices] at h
  exact ⟨h.1.1, h.1.2, by simpa using h.2⟩

theorem free_ram_frames_cons (cfg : Config) (s : MemorySystem)
    (h : find_free_ram_frame cfg s ≠ -1) :
    ∃ rest, free_ram_frames cfg s = find_free_ram_frame cfg s :: rest := by
  rw [find_free_ram_frame_eq_head] at h ⊢
  cases hl : free_ram_frames cfg s with
  | nil => rw [hl] at h; simp at h
  | cons a l => exact ⟨l, by simp⟩

theorem free_ram_frames_nil (cfg : Config) (s : MemorySystem)
    (h : find_free_ram_frame cfg s = -1) : free_ram_frames cfg s = [] := by
  cases hl : free_ram_frames cfg s with
  | nil => rfl
  | cons a l =>
    have hm := free_ram_frames_mem cfg s a (by rw [hl]; simp)
    rw [find_free_ram_frame_eq_head, hl] at h
    simp at h
    omega

theorem find_free_ram_frame_of_nil (cfg : Config) (s : MemorySystem)
    (h : free_ram_frames cfg s = []) : find_free_ram_frame cfg s = -1 := by
  rw [find_free_ram_frame_eq_head, h]; rfl

/-- Occupying the lowest free RAM frame removes it from the free list. -/
theorem free_ram_frames_fill (cfg : Config) (s s1 : MemorySystem) (r : Int) (rest : List Int)
    (hlen : s.ram_frames.length = (NUM_RAM_FRAMES cfg).toNat)
    (hl : free_ram_frames cfg s = r :: rest) (fr : Frame) (hfr : fr.occupied = true)
    (h1 : s1.ram_frames = setI s.ram_frames r fr) : free_ram_frames cfg s1 = rest := by
  have hm := free_ram_frames_mem cfg s r (by rw [hl]; simp)
  unfold free_ram_frames ramAt at hl ⊢
  apply filter_free_tail (NUM_RAM_FRAMES cfg) s.ram_frames s1.ram_frames r rest hl
  · intro i hi
    rw [h1, getI_setI_ne _ _ _ _ _ (Ne.symm hi)]
  · rw [h1, getI_setI_self _ _ _ _ hm.1 (by rw [hlen]; omega)]
    exact hfr

theorem find_free_ram_frame_congr (cfg : Config) {s s1 : MemorySystem}
    (h : s1.ram_frames = s.ram_frames) : find_free_ram_frame cfg s1 = find_free_ram_frame cfg s := by
  unfold find_free_ram_frame
  rw [ramAt_congr h]

theorem find_free_swap_frame_congr (cfg : Config) {s s1 : MemorySystem}
    (h : s1.swap_frames = s.swap_frames) :
    find_free_swap_frame cfg s1 = find_free_swap_frame cfg s := by
  unfold find_free_swap_frame
  rw [swapAt_congr h]

/-- Only the RAM frames, the Swap slots and the queue matter. -/
theorem FairAt.congr {cfg : Config} {s s1 : MemorySystem} {L R S : List Int}
    (h : FairAt cfg s L R S) (hram : s1.ram_frames = s.ram_frames)
    (hswap : s1.swap_frames = s.swap_frames) (hq : s1.fifo_queue = s.fifo_queue) :
    FairAt cfg s1 L R S :=
  { ring := by rw [hq]; exact h.ring
    cap := by rw [hq]; exact h.cap
    ram_len := by rw [hram]; exact h.ram_len
    queue := by rw [hq]; exact h.queue
    stale := by rw [free_ram_frames_congr cfg hram]; exact h.stale
    full := by rw [hq]; exact h.full
    count := by rw [free_ram_frames_congr cfg hram]; exact h.count
    frozen := by
      rw [find_free_ram_frame_congr cfg hram, find_free_swap_frame_congr cfg hswap]
      exact h.frozen
    range := h.range }

/-- While no victim has been lost, the Swap slots do not matter either. -/
theorem FairAt.congr_ram {cfg : Config} {s s1 : MemorySystem} {R S : List Int}
    (h : FairAt cfg s [] R S) (hram : s1.ram_frames = s.ram_frames)
    (hq : s1.fifo_queue = s.fifo_queue) : FairAt cfg s1 [] R S :=
  { ring := by rw [hq]; exact h.ring
    cap := by rw [hq]; exact h.cap
    ram_len := by rw [hram]; exact h.ram_len
    queue := by rw [hq]; exact h.queue
    stale := by rw [free_ram_frames_congr cfg hram]; exact h.stale
    full := by rw [hq]; exact h.full
    count := by rw [free_ram_frames_congr cfg hram]; exact h.count
    frozen := fun hc => absurd rfl hc
    range := h.range }

theorem FairAt.size_eq {cfg : Config} {s : MemorySystem} {L R S : List Int}
    (h : FairAt cfg s L R S) : s.fifo_queue.size.toNat = R.length + S.length := by
  rw [← queue_list_length, h.queue, List.length_append]

/-- Filling the lowest free RAM frame and enqueuing it: the frame joins the waiting
frames, whether the enqueue takes place or the queue already holds it as a stale cell. -/
theorem FairAt.fill {cfg : Config} {s s1 : MemorySystem} {R S : List Int}
    (h : FairAt cfg s [] R S) (hr : find_free_ram_frame cfg s ≠ -1)
    (fr : Frame) (hfr : fr.occupied = true)
    (h1 : s1.ram_frames = setI s.ram_frames (find_free_ram_frame cfg s) fr)
    (h2 : s1.fifo_queue = enqueue_fifo s.fifo_queue (find_free_ram_frame cfg s)) :
    FairAt cfg s1 [] (R ++ [find_free_ram_frame cfg s]) S.tail := by
  obtain ⟨rest, hl⟩ := free_ram_frames_cons cfg s hr
  have hmem := free_ram_frames_mem cfg s (find_free_ram_frame cfg s) (by rw [hl]; simp)
  have hfree1 : free_ram_frames cfg s1 = rest :=
    free_ram_frames_fill cfg s s1 _ rest h.ram_len hl fr hfr h1
  have hsize := h.size_eq
  have hcount := h.count
  rw [hl] at hcount
  simp only [List.length_nil, List.length_cons, zero_add] at hcount
  have hs0 := h.ring.size_nonneg
  have hrange : ∀ x ∈ R ++ [find_free_ram_frame cfg s], 0 ≤ x ∧ x < NUM_RAM_FRAMES cfg := by
    intro x hx
    rcases List.mem_append.1 hx with hx | hx
    · exact h.range x hx
    · rw [List.mem_singleton] at hx
      rw [hx]
      exact ⟨hmem.1, hmem.2.1⟩
  cases S with
  | nil =>
    simp only [List.length_nil, add_zero] at hsize
    have hlt : s.fifo_queue.size < s.fifo_queue.capacity := by
      rw [h.cap]; omega
    obtain ⟨e1, e2, _, e4⟩ := enqueue_fifo_list s.fifo_queue (find_free_ram_frame cfg s) h.ring hlt
    exact
      { ring := by rw [h2]; exact e2
        cap := by rw [h2, e4]; exact h.cap
        ram_len := by rw [h1, length_setI]; exact h.ram_len
        queue := by rw [h2, e1, h.queue]; simp
        stale := by simp
        full := fun hc => absurd rfl hc
        count := by rw [hfree1]; simp only [List.length_nil, List.length_append,
          List.length_singleton, zero_add]; omega
        frozen := fun hc => absurd rfl hc
        range := hrange }
  | cons x S1 =>
    have hst := h.stale
    rw [hl] at hst
    obtain ⟨hx, hS1⟩ := List.cons_prefix_cons.1 hst
    have hfull := h.full (by simp)
    have e : enqueue_fifo s.fifo_queue (find_free_ram_frame cfg s) = s.fifo_queue :=
      enqueue_fifo_full _ _ (by omega)
    exact
      { ring := by rw [h2, e]; exact h.ring
        cap := by rw [h2, e]; exact h.cap
        ram_len := by rw [h1, length_setI]; exact h.ram_len
        queue := by rw [h2, e, h.queue, hx]; simp
        stale := by rw [hfree1]; exact hS1
        full := fun _ => by rw [h2, e]; exact hfull
        count := by rw [hfree1]; simp only [List.length_nil, List.length_append,
          List.length_singleton, zero_add]; omega
        frozen := fun hc => absurd rfl hc
        range := hrange }

theorem ram_frames_of_ram (cfg : Config) (s : MemorySystem) (i now : Int)
    (pt : List PageTableEntry) :
    ram_frames_of (pt ++ [ram_entry cfg s i now]) =
      ram_frames_of pt ++ [find_free_ram_frame cfg s] := by
  simp [ram_frames_of, ram_entry, List.filter_append]

theorem ram_frames_of_swap (cfg : Config) (s : MemorySystem) (i now : Int)
    (pt : List PageTableEntry) :
    ram_frames_of (pt ++ [swap_entry cfg s i now]) = ram_frames_of pt := by
  simp [ram_frames_of, swap_entry, List.filter_append]

theorem mem_ram_frames_of (pt : List PageTableEntry) (x : Int) :
    x ∈ ram_frames_of pt ↔ ∃ e ∈ pt, e.state = PageState.PAGE_IN_RAM ∧ e.frame_number = x := by
  unfold ram_frames_of
  simp only [List.mem_map, List.mem_filter, decide_eq_true_eq]
  constructor
  · rintro ⟨e, ⟨h1, h2⟩, h3⟩; exact ⟨e, h1, h2, h3⟩
  · rintro ⟨e, h1, h2, h3⟩; exact ⟨e, ⟨h1, h2⟩, h3⟩

/-- The placement loop and the queue: every page placed in RAM joins the waiting frames,
in placement order; `sf` is the state the loop stopped in. -/
theorem place_pages_fair (cfg : Config) (pid now : Int) (R0 S0 free0 : List Int) (todo : Nat) :
    ∀ (i : Int) (s : MemorySystem) (pt : List PageTableEntry) (k : Int),
      FairAt cfg s [] (R0 ++ ram_frames_of pt) (S0.drop (ram_frames_of pt).length) →
      ram_frames_of pt ++ free_ram_frames cfg s = free0 →
      ∃ sf,
        FairAt cfg sf [] (R0 ++ ram_frames_of (place_pages cfg pid now todo i s pt k).page_table)
          (S0.drop (ram_frames_of (place_pages cfg pid now todo i s pt k).page_table).length) ∧
        ram_frames_of (place_pages cfg pid now todo i s pt k).page_table ++
          free_ram_frames cfg sf = free0 ∧
        ((place_pages cfg pid now todo i s pt k).ok = true →
          (place_pages cfg pid now todo i s pt k).sys = sf) ∧
        ((place_pages cfg pid now todo i s pt k).ok = false →
          (place_pages cfg pid now todo i s pt k).sys =
            rollback_pages sf (place_pages cfg pid now todo i s pt k).page_table ∧
          find_free_ram_frame cfg sf = -1) := by
  induction todo with
  | zero =>
    intro i s pt k h hf
    refine ⟨s, h, hf, fun _ => rfl, ?_⟩
    intro hc
    simp [place_pages] at hc
  | succ n ih =>
    intro i s pt k h hf
    rw [place_pages_succ]
    by_cases c1 : find_free_ram_frame cfg s ≠ -1
    · rw [if_pos c1]
      apply ih
      · have hfill := h.fill c1 ⟨pid, i, true, now⟩ rfl
          (show (place_ram_state cfg s pid i now).ram_frames = _ from rfl)
          (show (place_ram_state cfg s pid i now).fifo_queue = _ from rfl)
        rw [ram_frames_of_ram, List.length_append, List.length_singleton, ← List.append_assoc,
          ← List.tail_drop]
        exact hfill
      · obtain ⟨rest, hl⟩ := free_ram_frames_cons cfg s c1
        have hfree1 : free_ram_frames cfg (place_ram_state cfg s pid i now) = rest :=
          free_ram_frames_fill cfg s _ _ rest h.ram_len hl ⟨pid, i, true, now⟩ rfl rfl
        rw [ram_frames_of_ram, hfree1, List.append_assoc, List.singleton_append, ← hl]
        exact hf
    · rw [if_neg c1]
      by_cases c2 : find_free_swap_frame cfg s = -1
      · rw [if_pos c2]
        refine ⟨s, h, hf, ?_, ?_⟩
        · intro hc; cases hc
        · intro _
          exact ⟨rfl, by simpa using c1⟩
      · rw [if_neg c2]
        apply ih
        · rw [ram_frames_of_swap]
          exact h.congr_ram rfl rfl
        · rw [ram_frames_of_swap]
          exact hf

/-- The rollback frees the RAM frames the loop filled: the free list is the one before
the loop, and the queue cells of those frames are stale. -/
theorem FairAt.after_rollback {cfg : Config} {s0 sf : MemorySystem} {pt : List PageTableEntry}
    {R0 S0 : List Int} (h0 : FairAt cfg s0 [] R0 S0)
    (h : FairAt cfg sf [] (R0 ++ ram_frames_of pt) (S0.drop (ram_frames_of pt).length))
    (hfree : ram_frames_of pt ++ free_ram_frames cfg sf = free_ram_frames cfg s0)
    (hfull : find_free_ram_frame cfg sf = -1) :
    FairAt cfg (rollback_pages sf pt) [] R0 (free_ram_frames cfg s0) := by
  have hnil := free_ram_frames_nil cfg sf hfull
  rw [hnil, List.append_nil] at hfree
  obtain ⟨k1, k2⟩ := free_fold_ram rolled_back_frame rolled_back_frame_free pt sf
  obtain ⟨_, _, kq, _, klen, _⟩ := free_fold_frame rolled_back_frame pt sf
  have hroll : rollback_pages sf pt = pt.foldl (free_step rolled_back_frame) sf := by
    unfold rollback_pages; rw [rollback_page_eq]
  rw [hroll]
  have hdrop : S0.drop (ram_frames_of pt).length = [] := by
    apply List.drop_eq_nil_of_le
    rw [hfree]
    exact h0.stale.length_le
  have hfreeR : free_ram_frames cfg (pt.foldl (free_step rolled_back_frame) sf) =
      free_ram_frames cfg s0 := by
    have e1 : free_ram_frames cfg (pt.foldl (free_step rolled_back_frame) sf) =
        (indices (NUM_RAM_FRAMES cfg)).filter (fun i => decide (i ∈ ram_frames_of pt)) := by
      unfold free_ram_frames
      apply List.filter_congr
      intro i hi
      have hir := (mem_indices _ _).1 hi
      by_cases hm : i ∈ ram_frames_of pt
      · obtain ⟨e, he, hst, hfr⟩ := (mem_ram_frames_of pt i).1 hm
        have := k2 e he hst (by rw [hfr]; exact hir.1)
          (by rw [hfr, h.ram_len]; omega)
        rw [hfr] at this
        simp [this, hm]
      · rcases k1 i with hk | ⟨⟨e, he, hst, hfr⟩, _⟩
        · rw [hk]
          have hocc : (ramAt sf i).occupied = true :=
            find_free_ram_frame_none cfg sf hfull i hir.1 hir.2
          simp [hocc, hm]
        · exact absurd ((mem_ram_frames_of pt i).2 ⟨e, he, hst, hfr⟩) hm
    rw [e1, hfree]
    unfold free_ram_frames
    apply List.filter_congr
    intro i hi
    simp [List.mem_filter, hi]
  have hsize := h.size_eq
  rw [hdrop, List.length_nil, add_zero, List.length_append] at hsize
  have hc0 := h0.count
  have hcf := h.count
  rw [hnil] at hcf
  simp only [List.length_nil, List.length_append, zero_add, add_zero] at hc0 hcf
  exact
    { ring := by rw [kq]; exact h.ring
      cap := by rw [kq]; exact h.cap
      ram_len := by rw [klen]; exact h.ram_len
      queue := by rw [kq, h.queue, hdrop, List.append_nil, hfree]
      stale := by rw [hfreeR]
      full := by
        intro hne
        rw [kq, h.cap]
        have hpos : 0 < (free_ram_frames cfg s0).length := List.length_pos.2 hne
        have := h.ring.size_nonneg
        omega
      count := by
        rw [hfreeR]
        simp only [List.length_nil, zero_add]
        exact hc0
      frozen := fun hc => absurd rfl hc
      range := h0.range }

theorem fills_append (a b : List Event) : fills (a ++ b) = fills a ++ fills b := by
  induction a with
  | nil => rfl
  | cons e a ih =>
    cases e with
    | fill f => simp [fills, ih]
    | evict f => simp [fills, ih]

theorem evictions_append (a b : List Event) :
    evictions (a ++ b) = evictions a ++ evictions b := by
  induction a with
  | nil => rfl
  | cons e a ih =>
    cases e with
    | fill f => simp [evictions, ih]
    | evict f => simp [evictions, ih]

theorem fills_map_fill (l : List Int) : fills (l.map Event.fill) = l := by
  induction l with
  | nil => rfl
  | cons a l ih => simp [fills, ih]

theorem evictions_map_fill (l : List Int) : evictions (l.map Event.fill) = [] := by
  induction l with
  | nil => rfl
  | cons a l ih => simp [evictions, ih]

/-- A `create_process` call that returns -1 leaves the state as it was or as the rollback
of the placement loop left it. -/
theorem create_process_failure {cfg : Config} {s : MemorySystem} {name : String}
    {size_kb now : Int} (hres : (create_process cfg s name size_kb now).1 = -1) :
    (create_process cfg s name size_kb now).2 = s ∨
    ((place_pages cfg (find_free_slot s + 1) now (num_pages_of cfg size_kb).toNat 0 s [] 0).ok
        = false ∧
      (create_process cfg s name size_kb now).2 =
        (place_pages cfg (find_free_slot s + 1) now (num_pages_of cfg size_kb).toNat
          0 s [] 0).sys) := by
  revert hres
  unfold create_process
  by_cases c1 : s.num_processes ≥ MAX_PROCESSES
  · rw [if_pos c1]; intro _; exact Or.inl rfl
  · rw [if_neg c1]
    by_cases c2 : size_kb ≤ 0
    · rw [if_pos c2]; intro _; exact Or.inl rfl
    · rw [if_neg c2]
      simp only []
      by_cases c3 : space_check_fails cfg s (num_pages_of cfg size_kb) = true
      · rw [if_pos c3]; intro _; exact Or.inl rfl
      · rw [if_neg c3]
        by_cases c4 : find_free_slot s = -1
        · rw [if_pos c4]; intro _; exact Or.inl rfl
        · rw [if_neg c4]
          generalize place_pages cfg (find_free_slot s + 1) now
              (num_pages_of cfg size_kb).toNat 0 s [] 0 = r
          cases hok : r.ok with
          | false =>
            simp only [Bool.not_false, if_true]
            intro _; exact Or.inr ⟨trivial, trivial⟩
          | true =>
            simp only [Bool.not_true, Bool.false_eq_true, if_false]
            intro hres
            have := (find_free_slot_spec s c4).1
            omega

/-- The process a successful `create_process` installs carries the page table built by
the placement loop. -/
theorem Inv.create_new_process {cfg : Config} {s : MemorySystem} (h : Inv cfg s)
    (name : String) (size_kb now : Int)
    (hres : (create_process cfg s name size_kb now).1 ≠ -1) :
    ∃ q, find_process (create_process cfg s name size_kb now).2
        (create_process cfg s name size_kb now).1 = some q ∧
      q.page_table = (place_pages cfg (find_free_slot s + 1) now
        (num_pages_of cfg size_kb).toNat 0 s [] 0).page_table := by
  have hinv := h.create name size_kb now
  obtain ⟨_, _, _, c4, _, hpid, ⟨q, hq, qpid, qpt, _, _⟩, _, _⟩ :=
    create_process_success hres
  obtain ⟨s0, _, snone, _⟩ := find_free_slot_spec s c4
  have sl : find_free_slot s < (s.processes.length : Int) := by
    have := h.proc_len
    have e : MAX_PROCESSES = 50 := rfl
    have := (find_free_slot_spec s c4).2.1
    omega
  obtain ⟨hprocs, _, _⟩ := place_pages_inv cfg (find_free_slot s) now
    (num_pages_of cfg size_kb).toNat s [] 0 (h.add_empty_proc s0 sl snone) s0 sl snone
  simp only [List.length_nil, Nat.cast_zero] at hprocs
  have hp1 : procAt (create_process cfg s name size_kb now).2 (find_free_slot s) = some q := by
    unfold procAt
    rw [hq]
    apply getI_setI_self _ _ _ _ s0
    rw [hprocs]; exact sl
  refine ⟨q, ?_, qpt⟩
  rw [hpid, ← qpid]
  exact hinv.find_process_of_live hp1

/-- With RAM and Swap both full the placement loop places nothing. -/
theorem place_pages_full (cfg : Config) (pid now : Int) (todo : Nat) (s : MemorySystem)
    (h1 : find_free_ram_frame cfg s = -1) (h2 : find_free_swap_frame cfg s = -1) :
    (place_pages cfg pid now todo 0 s [] 0).sys = s ∧
    (place_pages cfg pid now todo 0 s [] 0).page_table = [] := by
  cases todo with
  | zero => exact ⟨rfl, rfl⟩
  | succ n =>
    rw [place_pages_succ, if_neg (by simpa using h1), if_pos h2]
    exact ⟨rfl, rfl⟩

/-- The events of a `create_process` call that gets past the four checks. -/
theorem create_events_placed {cfg : Config} {s : MemorySystem} {size_kb now : Int}
    (c1 : ¬ s.num_processes ≥ MAX_PROCESSES) (c2 : 0 < size_kb)
    (c3 : space_check_fails cfg s (num_pages_of cfg size_kb) = false)
    (c4 : find_free_slot s ≠ -1) :
    create_events cfg s size_kb now =
      (ram_frames_of (place_pages cfg (find_free_slot s + 1) now
        (num_pages_of cfg size_kb).toNat 0 s [] 0).page_table).map Event.fill := by
  unfold create_events
  rw [if_neg c1, if_neg (by omega), if_neg (by rw [c3]; exact Bool.false_ne_true), if_neg c4]

/-- Process creation keeps the queue invariant when it is not rolled back after assigning
RAM frames; the frames it fills join the frames waiting in the queue. -/
theorem Fair.of_create {cfg : Config} {s : MemorySystem} {F E : List Int}
    (h : Fair cfg s F E) (name : String) (size_kb now : Int)
    (hkeep : rolled_back cfg s (Op.create name size_kb now) = false) :
    Fair cfg (create_process cfg s name size_kb now).2
      (F ++ fills (create_events cfg s size_kb now))
      (E ++ evictions (create_events cfg s size_kb now)) := by
  obtain ⟨L, R, S, hF, hA⟩ := h
  by_cases hres : (create_process cfg s name size_kb now).1 = -1
  · -- the call fails: it has assigned no RAM frame
    have hev : create_events cfg s size_kb now = [] := by
      by_contra hne
      have : rolled_back cfg s (Op.create name size_kb now) = true := by
        simp only [rolled_back, Bool.and_eq_true, decide_eq_true_eq]
        exact ⟨hres, hne⟩
      rw [hkeep] at this
      exact Bool.false_ne_true this
    rw [hev]
    simp only [fills, evictions, List.append_nil]
    rcases create_process_failure hres with hs | ⟨hok, hs⟩
    · rw [hs]; exact ⟨L, R, S, hF, hA⟩
    · rw [hs]
      by_cases hL : L = []
      · subst hL
        obtain ⟨sf, a1, a2, _, a4⟩ := place_pages_fair cfg (find_free_slot s + 1) now R S
          (free_ram_frames cfg s) (num_pages_of cfg size_kb).toNat 0 s [] 0
          (by simpa [ram_frames_of] using hA) (by simp [ram_frames_of])
        obtain ⟨a5, a6⟩ := a4 hok
        rw [a5]
        exact ⟨[], R, free_ram_frames cfg s, hF, hA.after_rollback a1 a2 a6⟩
      · obtain ⟨f1, f2⟩ := hA.frozen hL
        rw [(place_pages_full cfg _ now _ s f1 f2).1]
        exact ⟨L, R, S, hF, hA⟩
  · -- the call succeeds: the RAM frames of the new process are filled
    obtain ⟨c1, c2, c3, c4, hok, _, _, hram, hswap, _, hfifo, _⟩ := create_process_success hres
    rw [create_events_placed c1 c2 c3 c4, fills_map_fill, evictions_map_fill,
      List.append_nil]
    by_cases hL : L = []
    · subst hL
      obtain ⟨sf, a1, _, a3, _⟩ := place_pages_fair cfg (find_free_slot s + 1) now R S
        (free_ram_frames cfg s) (num_pages_of cfg size_kb).toNat 0 s [] 0
        (by simpa [ram_frames_of] using hA) (by simp [ram_frames_of])
      rw [← a3 hok] at a1
      refine ⟨[], _, _, ?_, a1.congr_ram hram hfifo⟩
      rw [hF]; simp
    · obtain ⟨f1, f2⟩ := hA.frozen hL
      obtain ⟨g1, g2⟩ := place_pages_full cfg (find_free_slot s + 1) now
        (num_pages_of cfg size_kb).toNat s f1 f2
      rw [g2]
      rw [g1] at hram hswap hfifo
      refine ⟨L, R, S, ?_, hA.congr hram hswap hfifo⟩
      rw [hF]; simp [ram_frames_of]

/-- A successful `swap_in_page` loads the page into a frame `r` of the state `sm` in which
its tail runs: the lowest free RAM frame, or the victim that was taken from the queue
and swapped out. -/
theorem swap_in_page_loaded {cfg : Config} {s : MemorySystem} (h : Inv cfg s)
    {pid pg now : Int} (hres : (swap_in_page cfg s pid pg now).1 = true) :
    ∃ sm r,
      ((find_free_ram_frame cfg s ≠ -1 ∧ sm = s ∧ r = find_free_ram_frame cfg s) ∨
        (find_free_ram_frame cfg s = -1 ∧ s.fifo_queue.size ≠ 0 ∧
          r = (dequeue_fifo s.fifo_queue).1 ∧
          sm = (swap_out_page cfg (select_victim_page_fifo s).2 r now).2 ∧
          (swap_out_page cfg (select_victim_page_fifo s).2 r now).1 = true ∧
          sm.fifo_queue = (dequeue_fifo s.fifo_queue).2)) ∧
      (swap_in_page cfg s pid pg now).2.ram_frames =
        setI sm.ram_frames r ⟨pid, pg, true, now⟩ ∧
      (swap_in_page cfg s pid pg now).2.fifo_queue = enqueue_fifo sm.fifo_queue r ∧
      loaded_frame (swap_in_page cfg s pid pg now).2 pid pg = r := by
  have h1 := h.swap_in pid pg now
  obtain ⟨slot, p, sm, pm, r, _, _, _, pg0, _, pg1, _, _, hpm, hpmpid, hlen,
    _, _, _, _, _, _, hcase, heq⟩ := swap_in_page_success h hres
  obtain ⟨hram, _, hproc, _, hfifo, _⟩ :=
    swap_in_finish_shape cfg sm slot pid pg (pageAt p pg).swap_position r now pm hpm
  rw [← heq] at hram hproc hfifo
  have hr := procAt_range hpm
  have pgm : pg < (pm.page_table.length : Int) := by rw [hlen]; exact pg1
  have hp1 : procAt (swap_in_page cfg s pid pg now).2 slot =
      some (count_fault (set_page pm pg (swapped_in_entry (pageAt pm pg) r now))) := by
    unfold procAt
    rw [hproc]
    exact getI_setI_self _ _ _ _ hr.1 hr.2
  have hself : pageAt (count_fault (set_page pm pg (swapped_in_entry (pageAt pm pg) r now))) pg =
      swapped_in_entry (pageAt pm pg) r now := by
    rw [pageAt_count_fault]; exact pageAt_set_page_self pm pg _ pg0 pgm
  have hfind := h1.find_process_of_live hp1
  have e : (count_fault (set_page pm pg (swapped_in_entry (pageAt pm pg) r now))).pid = pid :=
    hpmpid
  rw [e] at hfind
  refine ⟨sm, r, hcase, hram, hfifo, ?_⟩
  unfold loaded_frame
  rw [hfind]
  simp only [hself]
  rfl

theorem select_victim_fifo (s : MemorySystem) (h : s.fifo_queue.size ≠ 0) :
    (select_victim_page_fifo s).1 = (dequeue_fifo s.fifo_queue).1 ∧
    (select_victim_page_fifo s).2.fifo_queue = (dequeue_fifo s.fifo_queue).2 := by
  unfold select_victim_page_fifo is_fifo_empty
  simp [h]

theorem select_victim_empty (s : MemorySystem) (h : s.fifo_queue.size = 0) :
    select_victim_page_fifo s = (-1, s) := by
  unfold select_victim_page_fifo is_fifo_empty
  simp [h]

/-- A failed `swap_in_page` leaves RAM and Swap as they were; the queue is as it was, or
has lost the victim that was dequeued and then could not be swapped out. -/
theorem swap_in_page_failure {cfg : Config} {s : MemorySystem} {pid pg now : Int}
    (hres : (swap_in_page cfg s pid pg now).1 = false) :
    (swap_in_page cfg s pid pg now).2.ram_frames = s.ram_frames ∧
    (swap_in_page cfg s pid pg now).2.swap_frames = s.swap_frames ∧
    ((swap_in_page cfg s pid pg now).2.fifo_queue = s.fifo_queue ∨
      (find_free_ram_frame cfg s = -1 ∧ s.fifo_queue.size ≠ 0 ∧
        (swap_in_page cfg s pid pg now).2.fifo_queue = (dequeue_fifo s.fifo_queue).2 ∧
        ((dequeue_fifo s.fifo_queue).1 = -1 ∨
          (swap_out_page cfg (select_victim_page_fifo s).2 (dequeue_fifo s.fifo_queue).1
            now).1 = false))) := by
  revert hres
  unfold swap_in_page
  cases hslot : find_process_slot s pid with
  | none => intro _; exact ⟨rfl, rfl, Or.inl rfl⟩
  | some slot =>
    simp only []
    cases hp : procAt s slot with
    | none => intro _; exact ⟨rfl, rfl, Or.inl rfl⟩
    | some p =>
      simp only []
      by_cases c1 : pg < 0 ∨ pg ≥ p.num_pages
      · rw [if_pos c1]; intro _; exact ⟨rfl, rfl, Or.inl rfl⟩
      · rw [if_neg c1]
        by_cases c2 : (pageAt p pg).state ≠ PageState.PAGE_IN_SWAP
        · rw [if_pos c2]; intro _; exact ⟨rfl, rfl, Or.inl rfl⟩
        · rw [if_neg c2]
          by_cases c3 : (pageAt p pg).swap_position < 0 ∨
              (pageAt p pg).swap_position ≥ NUM_SWAP_FRAMES cfg
          · rw [if_pos c3]; intro _; exact ⟨rfl, rfl, Or.inl rfl⟩
          · rw [if_neg c3]
            by_cases c4 : find_free_ram_frame cfg s = -1
            · simp only [c4, if_true]
              obtain ⟨v1, v2, _⟩ := select_victim_frame s
              by_cases hq : s.fifo_queue.size = 0
              · rw [select_victim_empty s hq]
                simp only [if_true]
                intro _
                exact ⟨(add_log_frame _ _ _).1, (add_log_frame _ _ _).2.1,
                  Or.inl (add_log_frame _ _ _).2.2.2.2.2.1⟩
              · obtain ⟨w1, w2⟩ := select_victim_fifo s hq
                by_cases c5 : (select_victim_page_fifo s).1 = -1
                · rw [if_pos c5]
                  intro _
                  refine ⟨(add_log_frame _ _ _).1.trans v1, (add_log_frame _ _ _).2.1.trans v2,
                    Or.inr ⟨trivial, hq, (add_log_frame _ _ _).2.2.2.2.2.1.trans w2, Or.inl ?_⟩⟩
                  rw [← w1]; exact c5
                · rw [if_neg c5]
                  cases c6 : (swap_out_page cfg (select_victim_page_fifo s).2
                      (select_victim_page_fifo s).1 now).1 with
                  | true => simp
                  | false =>
                    simp only [Bool.not_false, if_true]
                    intro _
                    obtain ⟨u1, u2, _, _, _, u6, _⟩ :=
                      swap_out_failure_unchanged cfg _ _ now c6
                    refine ⟨u1.trans v1, u2.trans v2,
                      Or.inr ⟨trivial, hq, u6.trans w2, Or.inr ?_⟩⟩
                    rw [← w1]; exact c6
            · rw [if_neg c4]
              intro hc
              simp at hc

theorem select_victim_congr {s s1 : MemorySystem} (h : s1.fifo_queue = s.fifo_queue) :
    (select_victim_page_fifo s1).1 = (select_victim_page_fifo s).1 := by
  unfold select_victim_page_fifo
  rw [h]
  split <;> rfl

/-- With every RAM frame occupied the free list is empty. -/
theorem free_ram_frames_all_occupied (cfg : Config) (s : MemorySystem)
    (h : ∀ i, 0 ≤ i → i < NUM_RAM_FRAMES cfg → (ramAt s i).occupied = true) :
    free_ram_frames cfg s = [] := by
  unfold free_ram_frames
  rw [List.filter_eq_nil_iff]
  intro i hi
  have := (mem_indices _ _).1 hi
  simp [h i this.1 this.2]

/-- A successful `swap_in_page` keeps the queue invariant: the frame it loads joins the
waiting frames, and the victim it evicted, if any, was the oldest of them. -/
theorem Fair.swap_in_success {cfg : Config} {s : MemorySystem} {F E : List Int}
    (h : Fair cfg s F E) (hinv : Inv cfg s) {pid pg now : Int}
    (hres : (swap_in_page cfg s pid pg now).1 = true) :
    Fair cfg (swap_in_page cfg s pid pg now).2
      (F ++ [loaded_frame (swap_in_page cfg s pid pg now).2 pid pg])
      (E ++ (if find_free_ram_frame cfg s = -1 then [(select_victim_page_fifo s).1] else [])) := by
  obtain ⟨L, R, S, hF, hA⟩ := h
  obtain ⟨sm, r, hcase, hram, hfifo, hload⟩ := swap_in_page_loaded hinv hres
  rw [hload]
  rcases hcase with ⟨c, hsm, hr⟩ | ⟨c, hq, hr, hsm, hso, hsmq⟩
  · rw [if_neg c, List.append_nil]
    have hL : L = [] := by
      by_contra hL
      exact c (hA.frozen hL).1
    subst hL
    rw [hsm, hr] at hram hfifo
    rw [hr]
    refine ⟨[], _, _, ?_, hA.fill c ⟨pid, pg, true, now⟩ rfl hram hfifo⟩
    rw [hF]; simp
  · rw [if_pos c]
    obtain ⟨w1, _⟩ := select_victim_fifo s hq
    obtain ⟨v1, v2, _⟩ := select_victim_frame s
    obtain ⟨_, _, r0, r1, _, _, _, _, hsf, oram, _⟩ := swap_out_page_success hso
    rw [← hsm] at oram
    have hswapfree : find_free_swap_frame cfg s ≠ -1 := by
      rw [← find_free_swap_frame_congr cfg v2]; exact hsf
    have hL : L = [] := by
      by_contra hL
      exact hswapfree (hA.frozen hL).2
    subst hL
    have hnil := free_ram_frames_nil cfg s c
    have hS : S = [] := by
      have := hA.stale
      rw [hnil] at this
      exact List.prefix_nil.1 this
    subst hS
    obtain ⟨d1, d2, d3, d4⟩ := dequeue_fifo_list s.fifo_queue hA.ring hq
    have hR : R = r :: queue_list (dequeue_fifo s.fifo_queue).2 := by
      rw [hr, ← d1, hA.queue, List.append_nil]
    have hs0 := hA.ring.size_nonneg
    have hsc : s.fifo_queue.size ≤ s.fifo_queue.capacity := by
      rcases hA.ring.size_le with h1 | h1
      · exact h1
      · exact absurd h1 hq
    obtain ⟨e1, e2, _, e4⟩ := enqueue_fifo_list (dequeue_fifo s.fifo_queue).2 r d2
      (by rw [d3, d4]; omega)
    rw [hsmq] at hfifo
    have hlen : (swap_in_page cfg s pid pg now).2.ram_frames.length =
        (NUM_RAM_FRAMES cfg).toNat := by
      rw [hram, length_setI, oram, length_setI, v1]; exact hA.ram_len
    have hfull : free_ram_frames cfg (swap_in_page cfg s pid pg now).2 = [] := by
      apply free_ram_frames_all_occupied
      intro i i0 i1
      unfold ramAt
      rw [hram]
      by_cases hi : r = i
      · rw [← hi, getI_setI_self _ _ _ _ r0 (by
          rw [oram, length_setI, v1, hA.ram_len]; omega)]
      · rw [getI_setI_ne _ _ _ _ _ hi, oram, getI_setI_ne _ _ _ _ _ hi, v1]
        exact find_free_ram_frame_none cfg s c i i0 i1
    have hcount := hA.count
    rw [hnil, hR] at hcount
    simp only [List.length_nil, List.length_cons, zero_add, add_zero] at hcount
    refine ⟨[], queue_list (dequeue_fifo s.fifo_queue).2 ++ [r], [], ?_, ?_⟩
    · rw [hF, hR, w1, ← hr]; simp
    · exact
        { ring := by rw [hfifo]; exact e2
          cap := by rw [hfifo, e4, d4]; exact hA.cap
          ram_len := hlen
          queue := by rw [hfifo, e1, List.append_nil]
          stale := by simp
          full := fun hc => absurd rfl hc
          count := by
            rw [hfull]
            simp only [List.length_nil, List.length_append, List.length_singleton, zero_add,
              add_zero]
            exact hcount
          frozen := fun hc => absurd rfl hc
          range := by
            intro x hx
            apply hA.range
            rw [hR]
            rcases List.mem_append.1 hx with hx | hx
            · exact List.mem_cons_of_mem _ hx
            · rw [List.mem_singleton] at hx
              rw [hx]; exact List.mem_cons_self _ _ }

/-- A failed `swap_in_page` keeps the queue invariant: a victim that was dequeued and
could not be swapped out is lost, and then RAM and Swap are both full. -/
theorem Fair.swap_in_failure {cfg : Config} {s : MemorySystem} {F E : List Int}
    (h : Fair cfg s F E) (hinv : Inv cfg s) {pid pg now : Int}
    (hres : (swap_in_page cfg s pid pg now).1 = false) :
    Fair cfg (swap_in_page cfg s pid pg now).2 F E := by
  obtain ⟨L, R, S, hF, hA⟩ := h
  obtain ⟨hram, hswap, hq⟩ := swap_in_page_failure hres
  rcases hq with hq | ⟨c, hsz, hfifo, hcause⟩
  · exact ⟨L, R, S, hF, hA.congr hram hswap hq⟩
  · obtain ⟨v1, v2, v3, _⟩ := select_victim_frame s
    have hnil := free_ram_frames_nil cfg s c
    have hS : S = [] := by
      have := hA.stale
      rw [hnil] at this
      exact List.prefix_nil.1 this
    subst hS
    obtain ⟨d1, d2, _, d4⟩ := dequeue_fifo_list s.fifo_queue hA.ring hsz
    have hR : R = (dequeue_fifo s.fifo_queue).1 :: queue_list (dequeue_fifo s.fifo_queue).2 := by
      rw [← d1, hA.queue, List.append_nil]
    have hv := hA.range (dequeue_fifo s.fifo_queue).1 (by rw [hR]; exact List.mem_cons_self _ _)
    have hocc : (ramAt s (dequeue_fifo s.fifo_queue).1).occupied = true :=
      find_free_ram_frame_none cfg s c _ hv.1 hv.2
    have hswapfull : find_free_swap_frame cfg s = -1 := by
      rcases hcause with hc | hc
      · omega
      · rcases swap_out_failure_cause hc with k | k | k | k
        · omega
        · rw [ramAt_congr v1, hocc] at k
          cases k
        · rw [ramAt_congr v1, find_process_slot_congr v3] at k
          obtain ⟨i, p, hp, hpid, _⟩ := hinv.ram_own.owner _ hv.1 hv.2 hocc
          have := find_process_slot_of_live hinv.pid_slot hinv.proc_len hp
          rw [hpid, k] at this
          cases this
        · rw [← find_free_swap_frame_congr cfg v2]; exact k
    have hcount := hA.count
    rw [hnil, hR] at hcount
    simp only [List.length_nil, List.length_cons, add_zero] at hcount
    refine ⟨L ++ [(dequeue_fifo s.fifo_queue).1], queue_list (dequeue_fifo s.fifo_queue).2, [],
      ?_, ?_⟩
    · rw [hF, hR]; simp
    · exact
        { ring := by rw [hfifo]; exact d2
          cap := by rw [hfifo, d4]; exact hA.cap
          ram_len := by rw [hram]; exact hA.ram_len
          queue := by rw [hfifo, List.append_nil]
          stale := by simp
          full := fun hc => absurd rfl hc
          count := by
            rw [free_ram_frames_congr cfg hram, hnil]
            simp only [List.length_nil, List.length_append, List.length_singleton, add_zero]
            omega
          frozen := fun _ => by
            rw [find_free_ram_frame_congr cfg hram, find_free_swap_frame_congr cfg hswap]
            exact ⟨c, hswapfull⟩
          range := by
            intro x hx
            apply hA.range
            rw [hR]
            exact List.mem_cons_of_mem _ hx }

theorem indices_length (n : Int) : (indices n).length = n.toNat := by
  unfold indices; simp

/-- The initial state satisfies the queue invariant, with nothing filled or evicted. -/
theorem Fair.of_init (cfg : Config) (t0 : Int) : Fair cfg (init_system cfg t0) [] [] := by
  have hq : (init_system cfg t0).fifo_queue = create_fifo_queue (NUM_RAM_FRAMES cfg) := by
    unfold init_system
    exact (add_log_frame _ _ _).2.2.2.2.2.1.trans rfl
  have hr : (init_system cfg t0).ram_frames =
      List.replicate (NUM_RAM_FRAMES cfg).toNat emptyFrame := by
    unfold init_system
    exact (add_log_frame _ _ _).1.trans rfl
  have hfree : free_ram_frames cfg (init_system cfg t0) = indices (NUM_RAM_FRAMES cfg) := by
    unfold free_ram_frames
    rw [List.filter_eq_self]
    intro i _
    unfold ramAt
    rw [hr, getI_replicate]
    rfl
  refine ⟨[], [], [], rfl, ?_⟩
  exact
    { ring := by rw [hq]; exact ring_create _
      cap := by rw [hq]; rfl
      ram_len := by rw [hr]; simp
      queue := by rw [hq, queue_list_create]; rfl
      stale := by simp
      full := fun hc => absurd rfl hc
      count := by rw [hfree, indices_length]; simp
      frozen := fun hc => absurd rfl hc
      range := fun x hx => absurd hx (List.not_mem_nil _) }

theorem fills_resolved (c : Prop) [Decidable c] (v r : Int) :
    fills ((if c then [Event.evict v] else []) ++ [Event.fill r]) = [r] := by
  by_cases h : c
  · rw [if_pos h]; rfl
  · rw [if_neg h]; rfl

theorem evictions_resolved (c : Prop) [Decidable c] (v r : Int) :
    evictions ((if c then [Event.evict v] else []) ++ [Event.fill r]) =
      if c then [v] else [] := by
  by_cases h : c
  · rw [if_pos h, if_pos h]; rfl
  · rw [if_neg h, if_neg h]; rfl

/-- A simulated access keeps the queue invariant. -/
theorem Fair.of_access {cfg : Config} {s : MemorySystem} {F E : List Int}
    (h : Fair cfg s F E) (hinv : Inv cfg s) (pid pg now : Int) :
    Fair cfg (simulate_access cfg s pid pg now).2
      (F ++ fills (access_events cfg s pid pg now))
      (E ++ evictions (access_events cfg s pid pg now)) := by
  have keep : ∀ s1 : MemorySystem, s1.ram_frames = s.ram_frames →
      s1.swap_frames = s.swap_frames → s1.fifo_queue = s.fifo_queue → Fair cfg s1 F E := by
    intro s1 a b c
    obtain ⟨L, R, S, hF, hA⟩ := h
    exact ⟨L, R, S, hF, hA.congr a b c⟩
  unfold access_events simulate_access
  by_cases c1 : s.num_processes = 0
  · simp only [c1, if_true, fills, evictions, List.append_nil]; exact h
  · simp only [c1, if_false]
    cases hf : find_process s pid with
    | none => simp only [fills, evictions, List.append_nil]; exact h
    | some p =>
      simp only []
      by_cases c2 : pg < 0 ∨ pg ≥ p.num_pages
      · simp only [c2, if_true, fills, evictions, List.append_nil]; exact h
      · simp only [c2, if_false]
        have h1 : Inv cfg { s with total_memory_accesses := s.total_memory_accesses + 1 } :=
          hinv.of_eq rfl rfl rfl rfl hinv.fifo_ok
        have h2 := h1.tlb_lookup pid pg now
        obtain ⟨t1, t2, _, t4, _⟩ := tlb_lookup_frame cfg
          { s with total_memory_accesses := s.total_memory_accesses + 1 } pid pg now
        have t1s : (MemSim.tlb_lookup cfg
            { s with total_memory_accesses := s.total_memory_accesses + 1 } pid pg now).2.ram_frames
            = s.ram_frames := t1
        have t2s : (MemSim.tlb_lookup cfg
            { s with total_memory_accesses := s.total_memory_accesses + 1 } pid pg now).2.swap_frames
            = s.swap_frames := t2
        have t4s : (MemSim.tlb_lookup cfg
            { s with total_memory_accesses := s.total_memory_accesses + 1 } pid pg now).2.fifo_queue
            = s.fifo_queue := t4
        by_cases c3 : (MemSim.tlb_lookup cfg
            { s with total_memory_accesses := s.total_memory_accesses + 1 } pid pg now).1 ≠ -1
        · simp only [c3, if_true, fills, evictions, List.append_nil, ne_eq, not_false_eq_true]
          exact keep _ ((add_log_frame _ _ _).1.trans t1s) ((add_log_frame _ _ _).2.1.trans t2s)
            ((add_log_frame _ _ _).2.2.2.2.2.1.trans t4s)
        · simp only [c3, if_false]
          by_cases c4 : (pageAt p pg).state = PageState.PAGE_IN_RAM
          · simp only [c4, if_true, fills, evictions, List.append_nil]
            exact keep _ ((add_log_frame _ _ _).1.trans t1s)
              ((add_log_frame _ _ _).2.1.trans t2s)
              ((add_log_frame _ _ _).2.2.2.2.2.1.trans t4s)
          · simp only [c4, if_false]
            by_cases c5 : (pageAt p pg).state = PageState.PAGE_IN_SWAP
            · simp only [c5, if_true]
              have hfair2 := keep _ t1s t2s t4s
              cases hres : (swap_in_page cfg (MemSim.tlb_lookup cfg
                  { s with total_memory_accesses := s.total_memory_accesses + 1 }
                  pid pg now).2 pid pg now).1 with
              | true =>
                simp only [if_true]
                rw [fills_resolved, evictions_resolved]
                have := hfair2.swap_in_success h2 hres
                rw [find_free_ram_frame_congr cfg t1s, select_victim_congr t4s] at this
                exact this
              | false =>
                simp only [Bool.false_eq_true, if_false, fills, evictions, List.append_nil]
                exact hfair2.swap_in_failure h2 hres
            · simp only [c5, if_false, fills, evictions, List.append_nil]
              exact keep _ t1s t2s t4s

/-- Every operation other than a termination and a rolled-back creation keeps the queue
invariant. -/
theorem Fair.of_step {cfg : Config} {s : MemorySystem} {F E : List Int}
    (h : Fair cfg s F E) (hinv : Inv cfg s) (op : Op) (ops : List Op)
    (hop : no_termination (op :: ops) = true) (hkeep : rolled_back cfg s op = false) :
    Fair cfg (step cfg s op) (F ++ fills (step_events cfg s op))
      (E ++ evictions (step_events cfg s op)) := by
  cases op with
  | create name size_kb now => exact h.of_create name size_kb now hkeep
  | terminate pid now => simp [no_termination] at hop
  | access pid page now => exact h.of_access hinv pid page now

theorem no_termination_tail (op : Op) (ops : List Op)
    (h : no_termination (op :: ops) = true) : no_termination ops = true := by
  cases op with
  | create name size_kb now => exact h
  | terminate pid now => simp [no_termination] at h
  | access pid page now => exact h

theorem no_rollback_cons (cfg : Config) (s : MemorySystem) (op : Op) (ops : List Op)
    (h : no_rollback cfg s (op :: ops) = true) :
    rolled_back cfg s op = false ∧ no_rollback cfg (step cfg s op) ops = true := by
  simp only [no_rollback, Bool.and_eq_true, Bool.not_eq_true'] at h
  exact h

theorem Fair.of_run {cfg : Config} (ops : List Op) :
    ∀ (s : MemorySystem) (F E : List Int), Fair cfg s F E → Inv cfg s →
      no_termination ops = true → no_rollback cfg s ops = true →
      Fair cfg (run cfg s ops) (F ++ fills (run_events cfg s ops))
        (E ++ evictions (run_events cfg s ops)) := by
  induction ops with
  | nil =>
    intro s F E h _ _ _
    simpa [run, run_events, fills, evictions] using h
  | cons op ops ih =>
    intro s F E h hinv hno hkeep
    obtain ⟨k1, k2⟩ := no_rollback_cons cfg s op ops hkeep
    have h1 := h.of_step hinv op ops hno k1
    have h2 := ih (step cfg s op) _ _ h1 (hinv.after_step op) (no_termination_tail op ops hno)
      k2
    have e : run cfg s (op :: ops) = run cfg (step cfg s op) ops := rfl
    rw [e]
    simp only [run_events, fills_append, evictions_append]
    rw [← List.append_assoc, ← List.append_assoc]
    exact h2

/-- In a run without terminations in which no creation is rolled back after assigning RAM
frames, the frames evicted are, in order, the first frames filled. -/
theorem evictions_prefix_fills (cfg : Config) (t0 : Int) (ops : List Op)
    (h : no_termination ops = true) (hkeep : no_rollback cfg (init_system cfg t0) ops = true) :
    evictions (run_events cfg (init_system cfg t0) ops) <+:
      fills (run_events cfg (init_system cfg t0) ops) := by
  obtain ⟨L, R, S, hF, _⟩ := Fair.of_run ops (init_system cfg t0) [] []
    (Fair.of_init cfg t0) (Inv.init cfg t0) h hkeep
  simp only [List.nil_append] at hF
  rw [hF, List.append_assoc]
  exact List.prefix_append _ _

/-! ## C8: FIFO fairness -/

/-- FIFO fairness where no creation is rolled back: in every run from the initial state
made only of process creations and simulated page accesses, none of the creations giving
up RAM frames in a rollback, the `n`-th eviction performed by `swap_in_page` selects the
RAM frame that was the `n`-th to be filled, counting every RAM-frame assignment (at
creation or at swap-in) in the order it happened (`n` counts from 0 here). -/
theorem fifo_fairness_without_rollback (cfg : Config) (t0 : Int) (ops : List Op)
    (h : no_termination ops = true)
    (hkeep : no_rollback cfg (init_system cfg t0) ops = true) (n : Nat)
    (hn : n < (evictions (run_events cfg (init_system cfg t0) ops)).length) :
    n < (fills (run_events cfg (init_system cfg t0) ops)).length ∧
    (evictions (run_events cfg (init_system cfg t0) ops))[n]? =
      (fills (run_events cfg (init_system cfg t0) ops))[n]? := by
  obtain ⟨rest, hrest⟩ := evictions_prefix_fills cfg t0 ops h hkeep
  rw [← hrest]
  refine ⟨?_, ?_⟩
  · rw [List.length_append]; omega
  · rw [List.getElem?_append_left hn]

/-- Instance: in `eviction_run` the second eviction selects frame 1, the second frame
filled. -/
theorem fifo_fairness_without_rollback_witness :
    (1 < (fills (run_events defaultConfig (init_system defaultConfig 100) eviction_run)).length ∧
      (evictions (run_events defaultConfig (init_system defaultConfig 100) eviction_run))[1]? =
        (fills (run_events defaultConfig (init_system defaultConfig 100) eviction_run))[1]?) ∧
    (evictions (run_events defaultConfig (init_system defaultConfig 100) eviction_run))[1]? =
      some 1 :=
  ⟨fifo_fairness_without_rollback defaultConfig 100 eviction_run (by decide) (by decide) 1
    (by decide), by decide⟩

/-- C8 evaluated on the code: `rollback_run` has no termination. The RAM-frame
assignments, in the order they happened, are frames 0 to 6 (A), frame 7 (B, given up in
the rollback, which leaves it in the queue), frame 7 (C, whose enqueue is dropped because
the queue is full), then the frames of the nine swap-ins. The evictions select frames 0
to 7 and then frame 0: the ninth eviction selects frame 0, while the ninth frame filled
is frame 7. -/
theorem fifo_order_broken_after_rollback :
    no_termination rollback_run = true ∧
    (create_process defaultConfig
      (run defaultConfig (init_system defaultConfig 100) [Op.create "A" 1792 101])
      "B" overflow_size 102).1 = -1 ∧
    create_events defaultConfig
      (run defaultConfig (init_system defaultConfig 100) [Op.create "A" 1792 101])
      overflow_size 102 = [Event.fill 7] ∧
    fills (run_events defaultConfig (init_system defaultConfig 100) rollback_run) =
      [0, 1, 2, 3, 4, 5, 6, 7, 7, 0, 1, 2, 3, 4, 5, 6, 7, 0] ∧
    evictions (run_events defaultConfig (init_system defaultConfig 100) rollback_run) =
      [0, 1, 2, 3, 4, 5, 6, 7, 0] ∧
    (evictions (run_events defaultConfig (init_system defaultConfig 100) rollback_run))[8]? =
      some 0 ∧
    (fills (run_events defaultConfig (init_system defaultConfig 100) rollback_run))[8]? =
      some 7 := by
  decide

/-! ## C9: postcondition of a successful `swap_out_page` -/

theorem tlbAt_congr {s s1 : MemorySystem} (h : s1.tlb = s.tlb) : tlbAt s1 = tlbAt s := by
  funext i; unfold tlbAt; rw [h]

theorem Inv.swap_out_post {cfg : Config} {s : MemorySystem} (h : Inv cfg s) {f now : Int}
    (hres : (swap_out_page cfg s f now).1 = true) :
    SwapOutPost cfg s f (swap_out_page cfg s f now).2 := by
  have h1 := h.swap_out f now
  obtain ⟨slot, p, f0, f1, hocc, hslot, hp, hpid, hsf, hram, hswap, hproc, htlb, _, _, hsw, _⟩ :=
    swap_out_page_success hres
  obtain ⟨pg0, pg1, _, _⟩ := h.ram_frame_page f0 f1 hocc hp hpid
  obtain ⟨sf0, sf1, sffree, sflow⟩ := find_free_swap_frame_spec cfg s hsf
  have hr := procAt_range hp
  have hp1 : procAt (swap_out_page cfg s f now).2 slot =
      some (set_page p (ramAt s f).page_number
        (swapped_out_entry (pageAt p (ramAt s f).page_number) (find_free_swap_frame cfg s))) := by
    unfold procAt
    rw [hproc]
    exact getI_setI_self _ _ _ _ hr.1 hr.2
  have hself := pageAt_set_page_self p (ramAt s f).page_number
    (swapped_out_entry (pageAt p (ramAt s f).page_number) (find_free_swap_frame cfg s)) pg0 pg1
  refine ⟨⟨⟨f0, f1⟩, hocc⟩, ⟨⟨sf0, sf1⟩, sffree, sflow⟩, ?_, ?_, ?_, ?_, hsw⟩
  · have : swapAt (swap_out_page cfg s f now).2 (find_free_swap_frame cfg s) =
        ⟨(ramAt s f).pid, (ramAt s f).page_number, true, now⟩ := by
      unfold swapAt
      rw [hswap]
      apply getI_setI_self _ _ _ _ sf0
      have := h.swap_len
      omega
    rw [this]
    exact ⟨rfl, rfl, rfl⟩
  · refine ⟨set_page p (ramAt s f).page_number
      (swapped_out_entry (pageAt p (ramAt s f).page_number) (find_free_swap_frame cfg s)),
      ?_, ⟨pg0, ?_⟩, ?_, ?_, ?_, ?_⟩
    · have := h1.find_process_of_live hp1
      rw [← hpid]
      exact this
    · have := (h1.page_range hp1 _ pg0).2 (by rw [set_page_length]; exact pg1)
      exact this
    · rw [hself]; rfl
    · rw [hself]; rfl
    · rw [hself]; rfl
    · rw [hself]; rfl
  · have : ramAt (swap_out_page cfg s f now).2 f = released_frame (ramAt s f) :=
      (swap_out_page_frees_frame h hres).2.2
    rw [this]
    exact ⟨rfl, rfl, rfl⟩
  · intro i
    rw [tlbAt_congr htlb]
    by_cases hi : 0 ≤ i ∧ i < cfg.TLB_SIZE
    · exact tlb_invalidate_no_pid cfg s _ i hi.1 hi.2
    · rw [tlb_invalidate_get, if_neg (fun hc => hi hc.1)]
      have : tlbAt s i = emptyTLBEntry := by
        unfold tlbAt
        apply getI_out
        have := h.tlb_len
        omega
      rw [this]
      simp [emptyTLBEntry]

/-- C9. In every reachable state, when `swap_out_page(f)` returns true, where `f` was
owned by `(pid, page)` and `sl` is the lowest-index free Swap slot before the call:
afterwards slot `sl` is occupied and owned by `(pid, page)`, the page entry is
`PAGE_IN_SWAP` with `swap_position = sl`, `frame_number = -1` and `valid = false`, RAM
frame `f` is free with owner cleared, no valid TLB entry has `pid`, and `total_swaps` has
increased by exactly 1. -/
theorem swap_out_success_postcondition (cfg : Config) (t0 : Int) (ops : List Op)
    (f now : Int)
    (h : (swap_out_page cfg (run cfg (init_system cfg t0) ops) f now).1 = true) :
    SwapOutPost cfg (run cfg (init_system cfg t0) ops) f
      (swap_out_page cfg (run cfg (init_system cfg t0) ops) f now).2 :=
  (inv_reachable cfg t0 ops).swap_out_post h

/-- Instance of C9: process A fills the eight RAM frames, B sits in Swap slot 0, and
frame 0 is swapped out. -/
theorem swap_out_success_postcondition_witness :
    SwapOutPost defaultConfig
      (run defaultConfig (init_system defaultConfig 100)
        [Op.create "A" 2048 101, Op.create "B" 256 102]) 0
      (swap_out_page defaultConfig
        (run defaultConfig (init_system defaultConfig 100)
          [Op.create "A" 2048 101, Op.create "B" 256 102]) 0 103).2 :=
  swap_out_success_postcondition defaultConfig 100
    [Op.create "A" 2048 101, Op.create "B" 256 102] 0 103 (by decide)

/-! ## C10: a failed `swap_out_page` is non-destructive -/

/-- The log after `add_log`: unchanged when full, otherwise one entry longer. -/
theorem add_log_logs (s : MemorySystem) (now : Int) (m : String) :
    (add_log s now m).logs = s.logs ∨ ∃ e, (add_log s now m).logs = s.logs ++ [e] := by
  unfold add_log
  by_cases c : s.log_count ≥ MAX_LOG_ENTRIES
  · rw [if_pos c]; exact Or.inl rfl
  · rw [if_neg c]; exact Or.inr ⟨_, rfl⟩

/-- The log after a failed `swap_out_page`: unchanged, or one entry longer (the error
entry written when no Swap slot is free). -/
theorem swap_out_failure_log (cfg : Config) (s : MemorySystem) (f now : Int)
    (h : (swap_out_page cfg s f now).1 = false) :
    (swap_out_page cfg s f now).2.logs = s.logs ∨
      ∃ e, (swap_out_page cfg s f now).2.logs = s.logs ++ [e] := by
  unfold swap_out_page at h ⊢
  by_cases h1 : f < 0 ∨ f ≥ NUM_RAM_FRAMES cfg
  · simp [h1]
  · by_cases h2 : (!(ramAt s f).occupied) = true
    · simp [h1, h2]
    · cases h3 : find_process_slot s (ramAt s f).pid with
      | none => simp [h1, h2, h3]
      | some slot =>
        by_cases h4 : find_free_swap_frame cfg s = -1
        · simp only [h1, h2, h3, h4, if_true, if_false]
          exact add_log_logs s now _
        · simp [h1, h2, h3, h4] at h

/-- C10. For every state and every frame index `f`, if `swap_out_page(f)` returns false
then one of the four causes holds (`f` out of range, frame not occupied, owning process
not found, no free Swap slot) and every RAM frame, every Swap slot, every page table, the
TLB and the five statistics counters are exactly as before the call (so are the FIFO queue
and the process count); in particular RAM frame `f` keeps its occupied flag and owner.
The event log is as before or has received one entry. -/
theorem swap_out_failure_non_destructive (cfg : Config) (s : MemorySystem) (f now : Int)
    (h : (swap_out_page cfg s f now).1 = false) :
    ((f < 0 ∨ f ≥ NUM_RAM_FRAMES cfg) ∨ (ramAt s f).occupied = false ∨
      find_process_slot s (ramAt s f).pid = none ∨ find_free_swap_frame cfg s = -1) ∧
    (swap_out_page cfg s f now).2.ram_frames = s.ram_frames ∧
    (swap_out_page cfg s f now).2.swap_frames = s.swap_frames ∧
    (swap_out_page cfg s f now).2.processes = s.processes ∧
    (swap_out_page cfg s f now).2.tlb = s.tlb ∧
    (swap_out_page cfg s f now).2.total_page_faults = s.total_page_faults ∧
    (swap_out_page cfg s f now).2.total_swaps = s.total_swaps ∧
    (swap_out_page cfg s f now).2.total_tlb_hits = s.total_tlb_hits ∧
    (swap_out_page cfg s f now).2.total_tlb_misses = s.total_tlb_misses ∧
    (swap_out_page cfg s f now).2.total_memory_accesses = s.total_memory_accesses ∧
    (swap_out_page cfg s f now).2.fifo_queue = s.fifo_queue ∧
    (swap_out_page cfg s f now).2.num_processes = s.num_processes ∧
    ramAt (swap_out_page cfg s f now).2 f = ramAt s f ∧
    ((swap_out_page cfg s f now).2.logs = s.logs ∨
      ∃ e, (swap_out_page cfg s f now).2.logs = s.logs ++ [e]) := by
  obtain ⟨a1, a2, a3, a4, a5, a6, a7, a8, a9, a10, a11⟩ :=
    swap_out_failure_unchanged cfg s f now h
  exact ⟨swap_out_failure_cause h, a1, a2, a3, a5, a7, a8, a9, a10, a11, a6, a4,
    congrFun (ramAt_congr a1) f, swap_out_failure_log cfg s f now h⟩

/-- Instance of C10: with RAM and Swap full, swapping out frame 0 fails for lack of a
Swap slot and leaves frame 0 with page 0 of process 1. -/
theorem swap_out_failure_non_destructive_witness :
    (swap_out_page defaultConfig full_state 0 103).1 = false ∧
    find_free_swap_frame defaultConfig full_state = -1 ∧
    ramAt (swap_out_page defaultConfig full_state 0 103).2 0 = ⟨1, 0, true, 101⟩ :=
  ⟨by decide, by decide,
    ((swap_out_failure_non_destructive defaultConfig full_state 0 103
      (by decide)).2.2.2.2.2.2.2.2.2.2.2.2.1).trans (by decide)⟩

/-! ## C11: `swap_in_page` rejects inconsistent requests -/

theorem find_process_none {s : MemorySystem} {pid : Int} (h : find_process s pid = none) :
    find_process_slot s pid = none := by
  unfold find_process at h
  cases hs : find_process_slot s pid with
  | none => rfl
  | some slot =>
    obtain ⟨p, hp, _⟩ := find_process_slot_some hs
    rw [hs] at h
    simp [hp] at h

/-- C11. For every state, when `pid` is not a live process, or `page` is outside
`[0, num_pages)`, or the page entry's state is not `PAGE_IN_SWAP`, `swap_in_page(pid, page)`
returns false and the state after the call is the state before it (no frame, slot, page
table, TLB entry, queue element or counter has changed). -/
theorem swap_in_rejects (cfg : Config) (s : MemorySystem) (pid page now : Int)
    (h : inconsistent_request s pid page = true) :
    swap_in_page cfg s pid page now = (false, s) := by
  unfold inconsistent_request at h
  cases hf : find_process s pid with
  | none =>
    unfold swap_in_page
    rw [find_process_none hf]
  | some p =>
    rw [hf] at h
    simp only [decide_eq_true_eq] at h
    obtain ⟨slot, hslot, hp, _⟩ := find_process_some hf
    unfold swap_in_page
    simp only [hslot, hp]
    by_cases c1 : page < 0 ∨ page ≥ p.num_pages
    · rw [if_pos c1]
    · rw [if_neg c1]
      have c2 : (pageAt p page).state ≠ PageState.PAGE_IN_SWAP := by
        rcases h with h | h | h
        · exact absurd (Or.inl h) c1
        · exact absurd (Or.inr h) c1
        · exact h
      rw [if_pos c2]

/-- Instance of C11: in the state where A holds the eight RAM frames, a swap-in of page 0
of A (already in RAM), of page 8 of A (out of range) and of a page of process 5 (not
live) are all rejected. -/
theorem swap_in_rejects_witness :
    swap_in_page defaultConfig
        (run defaultConfig (init_system defaultConfig 100) [Op.create "A" 2048 101]) 1 0 102 =
      (false, run defaultConfig (init_system defaultConfig 100) [Op.create "A" 2048 101]) ∧
    swap_in_page defaultConfig
        (run defaultConfig (init_system defaultConfig 100) [Op.create "A" 2048 101]) 1 8 102 =
      (false, run defaultConfig (init_system defaultConfig 100) [Op.create "A" 2048 101]) ∧
    swap_in_page defaultConfig
        (run defaultConfig (init_system defaultConfig 100) [Op.create "A" 2048 101]) 5 0 102 =
      (false, run defaultConfig (init_system defaultConfig 100) [Op.create "A" 2048 101]) :=
  ⟨swap_in_rejects defaultConfig _ 1 0 102 (by decide),
    swap_in_rejects defaultConfig _ 1 8 102 (by decide),
    swap_in_rejects defaultConfig _ 5 0 102 (by decide)⟩

/-! ## C12: round trip -/

/-- With a free RAM frame, a swap-in of a page that is in Swap succeeds. -/
theorem swap_in_page_free_frame {cfg : Config} {s : MemorySystem} {pid pg : Int} {p : PCB}
    (now : Int) (hf : find_process s pid = some p) (h0 : 0 ≤ pg) (h1 : pg < p.num_pages)
    (hst : (pageAt p pg).state = PageState.PAGE_IN_SWAP)
    (hsp : 0 ≤ (pageAt p pg).swap_position ∧
      (pageAt p pg).swap_position < NUM_SWAP_FRAMES cfg)
    (hfree : find_free_ram_frame cfg s ≠ -1) :
    (swap_in_page cfg s pid pg now).1 = true := by
  obtain ⟨slot, hslot, hp, _⟩ := find_process_some hf
  unfold swap_in_page
  simp only [hslot, hp]
  rw [if_neg (by omega), if_neg (by simp [hst]), if_neg (by omega)]
  simp only [hfree, if_false]

theorem Inv.swap_out_then_in {cfg : Config} {s : MemorySystem} (h : Inv cfg s) {f : Int}
    (now now2 : Int) (hout : (swap_out_page cfg s f now).1 = true) :
    (swap_in_page cfg (swap_out_page cfg s f now).2 (ramAt s f).pid (ramAt s f).page_number
      now2).1 = true ∧
    RoundTrip cfg s f (swap_out_page cfg s f now).2
      (swap_in_page cfg (swap_out_page cfg s f now).2 (ramAt s f).pid (ramAt s f).page_number
        now2).2 := by
  have h1 := h.swap_out f now
  have post := h.swap_out_post hout
  obtain ⟨p1, hf1, ⟨pg0, pg1⟩, hst, hsp, _, _⟩ := post.page_entry
  obtain ⟨⟨f0, fN⟩, _⟩ := post.owned_before
  obtain ⟨⟨sl0, slN⟩, slfree, _⟩ := post.lowest_free
  have hfree : find_free_ram_frame cfg (swap_out_page cfg s f now).2 ≠ -1 := by
    intro hc
    have := find_free_ram_frame_none cfg _ hc f f0 fN
    rw [post.frame_free.1] at this
    cases this
  have hres := swap_in_page_free_frame now2 hf1 pg0 pg1 hst (by rw [hsp]; exact ⟨sl0, slN⟩)
    hfree
  obtain ⟨q, q1, hq⟩ := h1.swap_in_post hres
  obtain ⟨sm, r, hcase, hram, hfifo, hload⟩ := swap_in_page_loaded h1 hres
  obtain ⟨slot, p, sm2, pm, r2, hslot, hp, _, _, _, _, _, _, hpm, _, _, _, _, _, _, _, _, hcase2,
    heq⟩ := swap_in_page_success h1 hres
  have hr : r = find_free_ram_frame cfg (swap_out_page cfg s f now).2 ∧
      sm = (swap_out_page cfg s f now).2 := by
    rcases hcase with ⟨_, a, b⟩ | ⟨c, _⟩
    · exact ⟨b, a⟩
    · exact absurd c hfree
  have hr2 : sm2 = (swap_out_page cfg s f now).2 := by
    rcases hcase2 with ⟨_, a, _⟩ | ⟨c, _⟩
    · exact a
    · exact absurd c hfree
  obtain ⟨hr, hsm⟩ := hr
  subst hsm
  subst hr2
  rw [hr] at hram hfifo hload
  have hpp : p = p1 := by
    have : find_process (swap_out_page cfg s f now).2 (ramAt s f).pid = some p := by
      unfold find_process; rw [hslot]; exact hp
    rw [hf1] at this
    cases this
    rfl
  subst hpp
  obtain ⟨_, hswap2, _⟩ := swap_in_finish_shape cfg (swap_out_page cfg s f now).2 slot
    (ramAt s f).pid (ramAt s f).page_number
    (pageAt p (ramAt s f).page_number).swap_position r2 now2 pm hpm
  rw [← heq, hsp] at hswap2
  obtain ⟨_, _, _, _, _, _, _, _, _, _, oswap, _⟩ := swap_out_page_success hout
  obtain ⟨r0, rN, rfree, rlow⟩ := find_free_ram_frame_spec cfg _ hfree
  refine ⟨hres, ?_⟩
  exact
    { free_frame := hfree
      lowest := ⟨⟨r0, rN⟩, rfree, rlow⟩
      kept := by
        refine ⟨?_, hfifo⟩
        intro g hg
        show getI _ g emptyFrame = getI _ g emptyFrame
        rw [hram]
        apply getI_setI_ne
        intro hc
        rw [← hc] at hg
        rw [rfree] at hg
        cases hg
      page := by
        refine ⟨q1, hq.page_entry.1, hq.page_entry.2.1, hq.page_entry.2.2.1, ?_⟩
        unfold loaded_frame at hload
        rw [hq.page_entry.1] at hload
        exact hload
      frame_owned := by
        have e : (pageAt q1 (ramAt s f).page_number).frame_number =
            find_free_ram_frame cfg (swap_out_page cfg s f now).2 := by
          unfold loaded_frame at hload
          rw [hq.page_entry.1] at hload
          exact hload
        have := hq.frame_owned.2
        rw [e] at this
        exact this
      swap_same := by
        intro x
        show (getI _ x emptyFrame).occupied = (getI _ x emptyFrame).occupied
        rw [hswap2, oswap]
        by_cases hx : find_free_swap_frame cfg s = x
        · subst hx
          have l1 := h.swap_len
          rw [getI_setI_self _ _ _ _ sl0 (by rw [length_setI]; omega)]
          exact slfree.symm
        · rw [getI_setI_ne _ _ _ _ _ hx, getI_setI_ne _ _ _ _ _ hx] }

/-- C12. In every reachable state, for every occupied RAM frame `f` owned by `(pid, page)`,
if `swap_out_page(f)` succeeds then the immediately following `swap_in_page(pid, page)`
succeeds without evicting anything, and afterwards the page is again `PAGE_IN_RAM` with
`valid = true` in the lowest-index free RAM frame, and the set of occupied Swap slots is
the same as before the swap-out. -/
theorem round_trip (cfg : Config) (t0 : Int) (ops : List Op) (f now now2 : Int)
    (h : (swap_out_page cfg (run cfg (init_system cfg t0) ops) f now).1 = true) :
    (swap_in_page cfg (swap_out_page cfg (run cfg (init_system cfg t0) ops) f now).2
      (ramAt (run cfg (init_system cfg t0) ops) f).pid
      (ramAt (run cfg (init_system cfg t0) ops) f).page_number now2).1 = true ∧
    RoundTrip cfg (run cfg (init_system cfg t0) ops) f
      (swap_out_page cfg (run cfg (init_system cfg t0) ops) f now).2
      (swap_in_page cfg (swap_out_page cfg (run cfg (init_system cfg t0) ops) f now).2
        (ramAt (run cfg (init_system cfg t0) ops) f).pid
        (ramAt (run cfg (init_system cfg t0) ops) f).page_number now2).2 :=
  (inv_reachable cfg t0 ops).swap_out_then_in now now2 h

/-- Instance of C12: A holds the eight RAM frames; frame 3 is swapped out and its page
swapped in again. -/
theorem round_trip_witness :
    (swap_in_page defaultConfig
      (swap_out_page defaultConfig (run defaultConfig (init_system defaultConfig 100)
        [Op.create "A" 2048 101]) 3 102).2
      (ramAt (run defaultConfig (init_system defaultConfig 100) [Op.create "A" 2048 101]) 3).pid
      (ramAt (run defaultConfig (init_system defaultConfig 100)
        [Op.create "A" 2048 101]) 3).page_number 103).1 = true ∧
    RoundTrip defaultConfig (run defaultConfig (init_system defaultConfig 100)
        [Op.create "A" 2048 101]) 3
      (swap_out_page defaultConfig (run defaultConfig (init_system defaultConfig 100)
        [Op.create "A" 2048 101]) 3 102).2
      (swap_in_page defaultConfig
        (swap_out_page defaultConfig (run defaultConfig (init_system defaultConfig 100)
          [Op.create "A" 2048 101]) 3 102).2
        (ramAt (run defaultConfig (init_system defaultConfig 100)
          [Op.create "A" 2048 101]) 3).pid
        (ramAt (run defaultConfig (init_system defaultConfig 100)
          [Op.create "A" 2048 101]) 3).page_number 103).2 :=
  round_trip defaultConfig 100 [Op.create "A" 2048 101] 3 102 103 (by decide)

/-! ## C13: postcondition of `terminate_process` -/

theorem ramAt_out (s : MemorySystem) (f : Int)
    (h : f < 0 ∨ (s.ram_frames.length : Int) ≤ f) : ramAt s f = emptyFrame :=
  getI_out _ _ _ h

theorem swapAt_out (s : MemorySystem) (f : Int)
    (h : f < 0 ∨ (s.swap_frames.length : Int) ≤ f) : swapAt s f = emptyFrame :=
  getI_out _ _ _ h

theorem Inv.terminate_post {cfg : Config} {s : MemorySystem} (h : Inv cfg s) {pid : Int}
    {p : PCB} (now : Int) (hf : find_process s pid = some p) :
    (terminate_process cfg s pid now).1 = true ∧
    TerminatePost cfg s pid p (terminate_process cfg s pid now).2 := by
  obtain ⟨slot, hslot, hp, hpid⟩ := find_process_some hf
  have hinv1 := h.terminate pid now
  obtain ⟨hret, hram, hswap, hproc, htlb, _, hnum⟩ := terminate_process_shape h now hslot hp
  obtain ⟨r1, r2⟩ := h.frees_ram hp released_frame released_frame_free rfl
  obtain ⟨w1, w2⟩ := h.frees_swap hp released_frame released_frame_free rfl
  rw [← ramAt_congr hram] at r1 r2
  rw [← swapAt_congr hswap] at w1 w2
  rw [hpid] at r1 r2 w1 w2
  have hr := procAt_range hp
  have hview : procAt (terminate_process cfg s pid now).2 =
      Function.update (procAt s) slot none := by
    unfold procAt
    rw [hproc]
    exact procAt_set s slot none hr.1 hr.2
  have e_ram : ∀ f, ¬ ((ramAt s f).occupied = true ∧ (ramAt s f).pid = pid) →
      ramAt (terminate_process cfg s pid now).2 f = ramAt s f := by
    intro f hno
    by_cases hin : 0 ≤ f ∧ f < NUM_RAM_FRAMES cfg
    · exact r2 f hin.1 hin.2 hno
    · have l0 := h.ram_len
      have l1 := hinv1.ram_len
      rw [ramAt_out _ f (by omega), ramAt_out _ f (by omega)]
  have e_swap : ∀ f, ¬ ((swapAt s f).occupied = true ∧ (swapAt s f).pid = pid) →
      swapAt (terminate_process cfg s pid now).2 f = swapAt s f := by
    intro f hno
    by_cases hin : 0 ≤ f ∧ f < NUM_SWAP_FRAMES cfg
    · exact w2 f hin.1 hin.2 hno
    · have l0 := h.swap_len
      have l1 := hinv1.swap_len
      rw [swapAt_out _ f (by omega), swapAt_out _ f (by omega)]
  refine ⟨hret, ?_⟩
  exact
    { ram_not_owned := by
        intro f hocc hc
        have hin := ramAt_occupied_range hinv1 hocc
        by_cases hown : (ramAt s f).occupied = true ∧ (ramAt s f).pid = pid
        · rw [r1 f hin.1 hin.2 hown.1 hown.2] at hocc
          cases hocc
        · rw [e_ram f hown] at hocc hc
          exact hown ⟨hocc, hc⟩
      swap_not_owned := by
        intro f hocc hc
        have hin := swapAt_occupied_range hinv1 hocc
        by_cases hown : (swapAt s f).occupied = true ∧ (swapAt s f).pid = pid
        · rw [w1 f hin.1 hin.2 hown.1 hown.2] at hocc
          cases hocc
        · rw [e_swap f hown] at hocc hc
          exact hown ⟨hocc, hc⟩
      ram_released := by
        intro j j0 j1 hst
        have jl : j < (p.page_table.length : Int) := (h.page_range hp j j0).1 j1
        obtain ⟨a, b, c, d, _⟩ := h.ram_own.page slot p j hp j0 jl hst
        exact r1 _ a b c (d.trans hpid)
      swap_released := by
        intro j j0 j1 hst
        have jl : j < (p.page_table.length : Int) := (h.page_range hp j j0).1 j1
        obtain ⟨a, b, c, d, _⟩ := h.swap_own.page slot p j hp j0 jl hst
        exact w1 _ a b c (d.trans hpid)
      tlb_clean := by
        intro i
        rw [tlbAt_congr htlb]
        by_cases hin : 0 ≤ i ∧ i < cfg.TLB_SIZE
        · exact tlb_invalidate_no_pid cfg s pid i hin.1 hin.2
        · have l0 := h.tlb_len
          have l1 := tlb_invalidate_tlb_length cfg s pid
          have : tlbAt (tlb_invalidate cfg s pid) i = emptyTLBEntry :=
            getI_out _ _ _ (by omega)
          rw [this]
          intro hc
          cases hc.1
      gone := by
        cases hg : find_process (terminate_process cfg s pid now).2 pid with
        | none => rfl
        | some q =>
          exfalso
          obtain ⟨k, _, hq, hqpid⟩ := find_process_some hg
          rw [hview] at hq
          by_cases hk : k = slot
          · subst hk; simp at hq
          · simp [Function.update, hk] at hq
            have e1 := h.pid_slot _ _ hq
            have e2 := h.pid_slot _ _ hp
            omega
      count := hnum
      others := by
        intro i q hq hne
        rw [hview]
        by_cases hi : i = slot
        · subst hi
          rw [hp] at hq
          cases hq
          exact absurd hpid hne
        · simp [Function.update, hi]
          exact hq
      other_ram := e_ram
      other_swap := e_swap }

/-- C13. In every reachable state, for every live pid, `terminate_process(pid)` returns
true and afterwards no RAM frame and no Swap slot is owned by `pid` (each frame and slot
its pages held is free), no valid TLB entry has `pid`, `find_process(pid)` finds nothing,
`num_processes` has decreased by exactly 1, and the page tables and the frames and slots
of every other process are unchanged. -/
theorem terminate_postcondition (cfg : Config) (t0 : Int) (ops : List Op) (pid now : Int)
    (p : PCB) (h : find_process (run cfg (init_system cfg t0) ops) pid = some p) :
    (terminate_process cfg (run cfg (init_system cfg t0) ops) pid now).1 = true ∧
    TerminatePost cfg (run cfg (init_system cfg t0) ops) pid p
      (terminate_process cfg (run cfg (init_system cfg t0) ops) pid now).2 :=
  (inv_reachable cfg t0 ops).terminate_post now h

/-- Instance of C13: A holds the eight RAM frames, B a Swap slot, and A is terminated. -/
theorem terminate_postcondition_witness :
    ∃ p, find_process (run defaultConfig (init_system defaultConfig 100)
        [Op.create "A" 2048 101, Op.create "B" 256 102]) 1 = some p ∧
      (terminate_process defaultConfig (run defaultConfig (init_system defaultConfig 100)
        [Op.create "A" 2048 101, Op.create "B" 256 102]) 1 103).1 = true ∧
      TerminatePost defaultConfig (run defaultConfig (init_system defaultConfig 100)
        [Op.create "A" 2048 101, Op.create "B" 256 102]) 1 p
        (terminate_process defaultConfig (run defaultConfig (init_system defaultConfig 100)
          [Op.create "A" 2048 101, Op.create "B" 256 102]) 1 103).2 := by
  cases h : find_process (run defaultConfig (init_system defaultConfig 100)
      [Op.create "A" 2048 101, Op.create "B" 256 102]) 1 with
  | none => exact absurd h (by decide)
  | some p =>
    exact ⟨p, rfl, terminate_postcondition defaultConfig 100
      [Op.create "A" 2048 101, Op.create "B" 256 102] 1 103 p h⟩

/-! ## C14: idempotent termination -/

/-- C14. For every state and every pid that is not a live process, `terminate_process(pid)`
returns false and the state after the call is the state before it (every RAM frame, Swap
slot, TLB entry, queue element, directory slot and counter unchanged); and in every
reachable state, a `terminate_process(pid)` that returns true is followed by one that
returns false and changes nothing. -/
theorem idempotent_termination (cfg : Config) (pid : Int) :
    (∀ (s : MemorySystem) (now : Int), find_process s pid = none →
      terminate_process cfg s pid now = (false, s)) ∧
    (∀ (t0 : Int) (ops : List Op) (now now2 : Int),
      (terminate_process cfg (run cfg (init_system cfg t0) ops) pid now).1 = true →
      terminate_process cfg (terminate_process cfg (run cfg (init_system cfg t0) ops)
          pid now).2 pid now2 =
        (false, (terminate_process cfg (run cfg (init_system cfg t0) ops) pid now).2)) := by
  have first : ∀ (s : MemorySystem) (now : Int), find_process s pid = none →
      terminate_process cfg s pid now = (false, s) := by
    intro s now h
    unfold terminate_process
    rw [h]
  refine ⟨first, ?_⟩
  intro t0 ops now now2 hres
  cases hf : find_process (run cfg (init_system cfg t0) ops) pid with
  | none =>
    rw [first _ now hf] at hres
    cases hres
  | some p =>
    exact first _ now2 ((inv_reachable cfg t0 ops).terminate_post now hf).2.gone

/-- Instance of C14: process 7 was never created; process 1 is terminated twice. -/
theorem idempotent_termination_witness :
    terminate_process defaultConfig (run defaultConfig (init_system defaultConfig 100)
        [Op.create "A" 2048 101]) 7 102 =
      (false, run defaultConfig (init_system defaultConfig 100) [Op.create "A" 2048 101]) ∧
    terminate_process defaultConfig (terminate_process defaultConfig
        (run defaultConfig (init_system defaultConfig 100) [Op.create "A" 2048 101]) 1 102).2
        1 103 =
      (false, (terminate_process defaultConfig
        (run defaultConfig (init_system defaultConfig 100) [Op.create "A" 2048 101]) 1 102).2) :=
  ⟨(idempotent_termination defaultConfig 7).1 _ 102 (by decide),
    (idempotent_termination defaultConfig 1).2 100 [Op.create "A" 2048 101] 102 103
      (by decide)⟩

/-! ## C15: transactional creation -/

/-- C15 fails on the code at this input: with one 256 KB process alive, a request of
`overflow_size` KB passes the space check by wrap-around, places 7 pages in RAM and 16 in
Swap, runs out of room and is rolled back. `create_process` returns -1, the RAM frames and
Swap slots are free again and the directory is as before, but the TLB has been overwritten
with entries of the failed pid, the queue has grown from 1 to 8 elements, and the freed
RAM frames keep the page numbers and load times the failed call wrote. -/
theorem creation_not_transactional :
    (create_process defaultConfig
      (run defaultConfig (init_system defaultConfig 100) [Op.create "A" 256 101])
      "B" overflow_size 102).1 = -1 ∧
    (run defaultConfig (init_system defaultConfig 100) [Op.create "A" 256 101]).tlb.map
        (fun e => (e.valid, e.pid, e.page_number, e.frame_number)) =
      [(true, 1, 0, 0), (false, -1, -1, -1), (false, -1, -1, -1), (false, -1, -1, -1)] ∧
    rollback_state.tlb.map (fun e => (e.valid, e.pid, e.page_number, e.frame_number)) =
      [(true, 2, 6, 7), (true, 2, 0, 1), (true, 2, 1, 2), (true, 2, 2, 3)] ∧
    (run defaultConfig (init_system defaultConfig 100)
        [Op.create "A" 256 101]).fifo_queue.size = 1 ∧
    rollback_state.fifo_queue.size = 8 ∧
    rollback_state.fifo_queue.queue = [0, 1, 2, 3, 4, 5, 6, 7] ∧
    (run defaultConfig (init_system defaultConfig 100) [Op.create "A" 256 101]).ram_frames.map
        (fun x => (x.occupied, x.pid, x.page_number, x.load_time)) =
      [(true, 1, 0, 101), (false, -1, -1, 0), (false, -1, -1, 0), (false, -1, -1, 0),
        (false, -1, -1, 0), (false, -1, -1, 0), (false, -1, -1, 0), (false, -1, -1, 0)] ∧
    rollback_state.ram_frames.map (fun x => (x.occupied, x.pid, x.page_number, x.load_time)) =
      [(true, 1, 0, 101), (false, -1, 0, 102), (false, -1, 1, 102), (false, -1, 2, 102),
        (false, -1, 3, 102), (false, -1, 4, 102), (false, -1, 5, 102), (false, -1, 6, 102)] ∧
    rollback_state.processes =
      (run defaultConfig (init_system defaultConfig 100) [Op.create "A" 256 101]).processes ∧
    rollback_state.num_processes = 1 := by
  refine ⟨by decide, by decide, by decide, by decide, by decide, by decide, by decide,
    by decide, ?_, by decide⟩
  set_option maxRecDepth 100000 in decide

/-! ## C17: page count -/

/-- Without overflow the page count is the rounded-up quotient and the product of the
space check is exact. -/
theorem num_pages_of_exact (cfg : Config) (size_kb : Int) (hp : 1 ≤ cfg.PAGE_SIZE)
    (hs : 0 < size_kb) (hb : size_kb + cfg.PAGE_SIZE - 1 ≤ 2147483647) :
    num_pages_of cfg size_kb = (size_kb + cfg.PAGE_SIZE - 1) / cfg.PAGE_SIZE ∧
    1 ≤ num_pages_of cfg size_kb ∧
    (num_pages_of cfg size_kb - 1) * cfg.PAGE_SIZE < size_kb ∧
    size_kb ≤ num_pages_of cfg size_kb * cfg.PAGE_SIZE ∧
    wrap32 (num_pages_of cfg size_kb * cfg.PAGE_SIZE) =
      num_pages_of cfg size_kb * cfg.PAGE_SIZE := by
  have w : ∀ x : Int, -2147483648 ≤ x → x ≤ 2147483647 → wrap32 x = x := by
    intro x h0 h1
    unfold wrap32
    rw [Int.emod_eq_of_lt (by omega) (by omega)]
    omega
  have e : num_pages_of cfg size_kb = (size_kb + cfg.PAGE_SIZE - 1) / cfg.PAGE_SIZE := by
    have e1 : wrap32 (wrap32 (size_kb + cfg.PAGE_SIZE) - 1) = size_kb + cfg.PAGE_SIZE - 1 := by
      unfold wrap32
      omega
    unfold num_pages_of
    rw [e1]
    exact Int.tdiv_eq_ediv (by omega) (by omega)
  have hpos : 0 < cfg.PAGE_SIZE := by omega
  have d1 := Int.emod_add_ediv (size_kb + cfg.PAGE_SIZE - 1) cfg.PAGE_SIZE
  have d2 := Int.emod_nonneg (size_kb + cfg.PAGE_SIZE - 1) (by omega : cfg.PAGE_SIZE ≠ 0)
  have d3 := Int.emod_lt_of_pos (size_kb + cfg.PAGE_SIZE - 1) hpos
  rw [e]
  generalize (size_kb + cfg.PAGE_SIZE - 1) / cfg.PAGE_SIZE = n at *
  generalize (size_kb + cfg.PAGE_SIZE - 1) % cfg.PAGE_SIZE = m at *
  have c : cfg.PAGE_SIZE * n = n * cfg.PAGE_SIZE := mul_comm _ _
  have n1 : 1 ≤ n := by
    by_contra hc
    have : n ≤ 0 := by omega
    have : cfg.PAGE_SIZE * n ≤ 0 := by nlinarith
    omega
  have e2 : (n - 1) * cfg.PAGE_SIZE = n * cfg.PAGE_SIZE - cfg.PAGE_SIZE := by ring
  refine ⟨rfl, n1, by omega, by omega, ?_⟩
  apply w
  · nlinarith
  · omega

/-- C17 fails on the code at this input: for `size_kb = 2147483647` KB and the default
page size 256 the sum `size_kb + PAGE_SIZE - 1` wraps around and `create_process` computes
`num_pages = -8388607`, while the rounded-up quotient is 8388608 (the least `n` with
`size_kb ≤ n * 256`). -/
theorem page_count_overflows :
    num_pages_of defaultConfig 2147483647 = -8388607 ∧
    (8388608 - 1) * defaultConfig.PAGE_SIZE < 2147483647 ∧
    (2147483647 : Int) ≤ 8388608 * defaultConfig.PAGE_SIZE ∧
    (create_process defaultConfig (init_system defaultConfig 100) "X" 2147483647 101).1 = 1 := by
  decide

/-! ## C18: lifecycle state at creation -/

/-- The directory after a successful `create_process`: the new PCB, with the state the
code computes from the counter `pages_in_ram` of the placement loop. -/
theorem create_process_installed {cfg : Config} {s : MemorySystem} {name : String}
    {size_kb now : Int} (hres : (create_process cfg s name size_kb now).1 ≠ -1) :
    (create_process cfg s name size_kb now).2.processes =
      setI (place_pages cfg (find_free_slot s + 1) now (num_pages_of cfg size_kb).toNat
          0 s [] 0).sys.processes (find_free_slot s)
        (some
          { pid := find_free_slot s + 1, name := name.take 31, size := size_kb,
            num_pages := num_pages_of cfg size_kb,
            state :=
              if (place_pages cfg (find_free_slot s + 1) now (num_pages_of cfg size_kb).toNat
                    0 s [] 0).pages_in_ram = 0 ∨
                  ((place_pages cfg (find_free_slot s + 1) now (num_pages_of cfg size_kb).toNat
                    0 s [] 0).pages_in_ram > 0 ∧
                   (place_pages cfg (find_free_slot s + 1) now (num_pages_of cfg size_kb).toNat
                    0 s [] 0).pages_in_ram < num_pages_of cfg size_kb)
              then ProcessState.PROC_SWAPPED else ProcessState.PROC_ACTIVE,
            page_table := (place_pages cfg (find_free_slot s + 1) now
              (num_pages_of cfg size_kb).toNat 0 s [] 0).page_table,
            creation_time := now, page_faults := 0 }) := by
  revert hres
  unfold create_process
  by_cases c1 : s.num_processes ≥ MAX_PROCESSES
  · rw [if_pos c1]; intro hres; exact absurd rfl hres
  · rw [if_neg c1]
    by_cases c2 : size_kb ≤ 0
    · rw [if_pos c2]; intro hres; exact absurd rfl hres
    · rw [if_neg c2]
      simp only []
      by_cases c3 : space_check_fails cfg s (num_pages_of cfg size_kb) = true
      · rw [if_pos c3]; intro hres; exact absurd rfl hres
      · rw [if_neg c3]
        by_cases c4 : find_free_slot s = -1
        · rw [if_pos c4]; intro hres; exact absurd rfl hres
        · rw [if_neg c4]
          generalize place_pages cfg (find_free_slot s + 1) now
              (num_pages_of cfg size_kb).toNat 0 s [] 0 = r
          cases hok : r.ok with
          | false =>
            simp only [Bool.not_false, if_true]
            intro hres; exact absurd rfl hres
          | true =>
            simp only [Bool.not_true, Bool.false_eq_true, if_false]
            intro _
            exact (add_log_frame _ _ _).2.2.1.trans rfl

theorem pages_in_ram_count_le (pt : List PageTableEntry) :
    pages_in_ram_count pt ≤ pt.length :=
  List.length_filter_le _ _

/-- Every entry of the table is in RAM exactly when the count of RAM entries is the
length of the table. -/
theorem pages_in_ram_count_all (p : PCB) :
    pages_in_ram_count p.page_table = p.page_table.length ↔
      ∀ i, 0 ≤ i → i < (p.page_table.length : Int) →
        (pageAt p i).state = PageState.PAGE_IN_RAM := by
  unfold pages_in_ram_count
  rw [List.filter_length_eq_length]
  constructor
  · intro h i i0 i1
    have := h _ (getI_mem p.page_table i emptyPageEntry i0 i1)
    simpa using this
  · intro h e he
    obtain ⟨i, i0, i1, hi⟩ := mem_getI p.page_table e emptyPageEntry he
    have := h i i0 i1
    unfold pageAt at this
    rw [hi] at this
    simpa using this

/-- No entry of the table is in RAM exactly when the count of RAM entries is zero. -/
theorem pages_in_ram_count_none (p : PCB) :
    pages_in_ram_count p.page_table = 0 ↔
      ∀ i, 0 ≤ i → i < (p.page_table.length : Int) →
        (pageAt p i).state ≠ PageState.PAGE_IN_RAM := by
  unfold pages_in_ram_count
  rw [List.length_eq_zero, List.filter_eq_nil_iff]
  constructor
  · intro h i i0 i1
    have := h _ (getI_mem p.page_table i emptyPageEntry i0 i1)
    simpa using this
  · intro h e he
    obtain ⟨i, i0, i1, hi⟩ := mem_getI p.page_table e emptyPageEntry he
    have := h i i0 i1
    unfold pageAt at this
    rw [hi] at this
    simpa using this

/-- The new process of a successful `create_process`: its state as computed from the
number of its page entries that are in RAM. -/
theorem Inv.create_state {cfg : Config} {s : MemorySystem} (h : Inv cfg s)
    (name : String) (size_kb now : Int)
    (hres : (create_process cfg s name size_kb now).1 ≠ -1) :
    ∃ p, find_process (create_process cfg s name size_kb now).2
        (create_process cfg s name size_kb now).1 = some p ∧
      p.page_table.length = p.num_pages.toNat ∧
      p.state =
        if (pages_in_ram_count p.page_table : Int) = 0 ∨
            ((pages_in_ram_count p.page_table : Int) > 0 ∧
              (pages_in_ram_count p.page_table : Int) < p.num_pages)
        then ProcessState.PROC_SWAPPED else ProcessState.PROC_ACTIVE := by
  have hinv := h.create name size_kb now
  obtain ⟨_, _, _, c4, hok, hpid, _, _⟩ := create_process_success hres
  have hq := create_process_installed hres
  obtain ⟨s0, s1, snone, _⟩ := find_free_slot_spec s c4
  have sl : find_free_slot s < (s.processes.length : Int) := by
    have := h.proc_len
    have e : MAX_PROCESSES = 50 := rfl
    omega
  obtain ⟨rest, e1, e2, _, _, e5⟩ := place_pages_placed cfg (find_free_slot s + 1) now
    (num_pages_of cfg size_kb).toNat 0 s [] 0 h.ram_len h.swap_len hok
  obtain ⟨hprocs, _, _⟩ := place_pages_inv cfg (find_free_slot s) now
    (num_pages_of cfg size_kb).toNat s [] 0 (h.add_empty_proc s0 sl snone) s0 sl snone
  simp only [List.length_nil, Nat.cast_zero] at hprocs
  simp only [List.nil_append] at e1
  simp only [zero_add] at e5
  rw [e1, e5] at hq
  have key : ∀ X : PCB, (create_process cfg s name size_kb now).2.processes =
      setI (place_pages cfg (find_free_slot s + 1) now (num_pages_of cfg size_kb).toNat
        0 s [] 0).sys.processes (find_free_slot s) (some X) →
      procAt (create_process cfg s name size_kb now).2 (find_free_slot s) = some X := by
    intro X hX
    unfold procAt
    rw [hX]
    apply getI_setI_self _ _ _ _ s0
    rw [hprocs]; exact sl
  have hp1 := hinv.find_process_of_live (key _ hq)
  rw [hpid]
  exact ⟨_, hp1, e2, rfl⟩

/-- The state the code gives at creation. For every successful `create_process` in a
reachable state, the new process is `PROC_ACTIVE` if and only if it has at least one page
and all of its pages were placed in RAM, and `PROC_SWAPPED` in every other case. -/
theorem creation_state (cfg : Config) (t0 : Int) (ops : List Op) (name : String)
    (size_kb now : Int)
    (h : (create_process cfg (run cfg (init_system cfg t0) ops) name size_kb now).1 ≠ -1) :
    ∃ p, find_process (create_process cfg (run cfg (init_system cfg t0) ops) name size_kb now).2
        (create_process cfg (run cfg (init_system cfg t0) ops) name size_kb now).1 = some p ∧
      (p.state = ProcessState.PROC_ACTIVE ↔
        (1 ≤ p.num_pages ∧
          ∀ i, 0 ≤ i → i < p.num_pages → (pageAt p i).state = PageState.PAGE_IN_RAM)) ∧
      (p.state ≠ ProcessState.PROC_ACTIVE → p.state = ProcessState.PROC_SWAPPED) := by
  obtain ⟨p, hp, hlen, hst⟩ := (inv_reachable cfg t0 ops).create_state name size_kb now h
  have hle := pages_in_ram_count_le p.page_table
  have hall := pages_in_ram_count_all p
  refine ⟨p, hp, ?_, ?_⟩
  · constructor
    · intro ha
      rw [ha] at hst
      by_cases c : (pages_in_ram_count p.page_table : Int) = 0 ∨
          ((pages_in_ram_count p.page_table : Int) > 0 ∧
            (pages_in_ram_count p.page_table : Int) < p.num_pages)
      · rw [if_pos c] at hst; cases hst
      · have e : pages_in_ram_count p.page_table = p.page_table.length := by omega
        refine ⟨by omega, ?_⟩
        intro i i0 i1
        exact hall.1 e i i0 (by omega)
    · rintro ⟨h1, h2⟩
      have e : pages_in_ram_count p.page_table = p.page_table.length :=
        hall.2 (fun i i0 i1 => h2 i i0 (by omega))
      rw [hst, if_neg (by omega)]
  · intro hna
    by_cases c : (pages_in_ram_count p.page_table : Int) = 0 ∨
        ((pages_in_ram_count p.page_table : Int) > 0 ∧
          (pages_in_ram_count p.page_table : Int) < p.num_pages)
    · rw [hst, if_pos c]
    · rw [hst, if_neg c] at hna
      exact absurd rfl hna

/-- Instance: with seven RAM frames taken, a process of one page is placed in RAM and is
active. -/
theorem creation_state_witness :
    ∃ p, find_process (create_process defaultConfig
          (run defaultConfig (init_system defaultConfig 100) [Op.create "A" 1792 101])
          "B" 256 102).2
        (create_process defaultConfig
          (run defaultConfig (init_system defaultConfig 100) [Op.create "A" 1792 101])
          "B" 256 102).1 = some p ∧
      (p.state = ProcessState.PROC_ACTIVE ↔
        (1 ≤ p.num_pages ∧
          ∀ i, 0 ≤ i → i < p.num_pages → (pageAt p i).state = PageState.PAGE_IN_RAM)) ∧
      (p.state ≠ ProcessState.PROC_ACTIVE → p.state = ProcessState.PROC_SWAPPED) :=
  creation_state defaultConfig 100 [Op.create "A" 1792 101] "B" 256 102 (by decide)

/-- The process a successful `create_process` installs carries the page count computed
from the size. -/
theorem Inv.create_num_pages {cfg : Config} {s : MemorySystem} (h : Inv cfg s)
    (name : String) (size_kb now : Int)
    (hres : (create_process cfg s name size_kb now).1 ≠ -1) :
    ∃ q, find_process (create_process cfg s name size_kb now).2
        (create_process cfg s name size_kb now).1 = some q ∧
      q.num_pages = num_pages_of cfg size_kb := by
  have hinv := h.create name size_kb now
  obtain ⟨_, _, _, c4, _, hpid, ⟨q, hq, qpid, _, qnp, _⟩, _, _⟩ :=
    create_process_success hres
  obtain ⟨s0, _, snone, _⟩ := find_free_slot_spec s c4
  have sl : find_free_slot s < (s.processes.length : Int) := by
    have := h.proc_len
    have e : MAX_PROCESSES = 50 := rfl
    have := (find_free_slot_spec s c4).2.1
    omega
  obtain ⟨hprocs, _, _⟩ := place_pages_inv cfg (find_free_slot s) now
    (num_pages_of cfg size_kb).toNat s [] 0 (h.add_empty_proc s0 sl snone) s0 sl snone
  simp only [List.length_nil, Nat.cast_zero] at hprocs
  have hp1 : procAt (create_process cfg s name size_kb now).2 (find_free_slot s) = some q := by
    unfold procAt
    rw [hq]
    apply getI_setI_self _ _ _ _ s0
    rw [hprocs]; exact sl
  refine ⟨q, ?_, qnp⟩
  rw [hpid, ← qpid]
  exact hinv.find_process_of_live hp1

/-- Where the page arithmetic is exact (`1 ≤ PAGE_SIZE` and
`size_kb + PAGE_SIZE - 1 ≤ INT_MAX`), the new process of a successful `create_process` in
a reachable state has at least one page, is `PROC_ACTIVE` if and only if all of its pages
were placed in RAM, and is `PROC_SWAPPED` in every other case. -/
theorem creation_state_exact (cfg : Config) (t0 : Int) (ops : List Op) (name : String)
    (size_kb now : Int) (hp : 1 ≤ cfg.PAGE_SIZE)
    (hb : size_kb + cfg.PAGE_SIZE - 1 ≤ 2147483647)
    (h : (create_process cfg (run cfg (init_system cfg t0) ops) name size_kb now).1 ≠ -1) :
    ∃ p, find_process (create_process cfg (run cfg (init_system cfg t0) ops) name size_kb now).2
        (create_process cfg (run cfg (init_system cfg t0) ops) name size_kb now).1 = some p ∧
      1 ≤ p.num_pages ∧
      (p.state = ProcessState.PROC_ACTIVE ↔
        ∀ i, 0 ≤ i → i < p.num_pages → (pageAt p i).state = PageState.PAGE_IN_RAM) ∧
      (p.state ≠ ProcessState.PROC_ACTIVE → p.state = ProcessState.PROC_SWAPPED) := by
  obtain ⟨p, hp1, hiff, hother⟩ := creation_state cfg t0 ops name size_kb now h
  obtain ⟨q, hq1, hq2⟩ := (inv_reachable cfg t0 ops).create_num_pages name size_kb now h
  have hpq : q = p := by
    rw [hp1] at hq1
    exact (Option.some.inj hq1).symm
  subst hpq
  obtain ⟨_, hsz, _⟩ := create_process_success h
  obtain ⟨_, n1, _⟩ := num_pages_of_exact cfg size_kb hp hsz hb
  have hn : 1 ≤ q.num_pages := by rw [hq2]; exact n1
  refine ⟨q, hp1, hn, ?_, hother⟩
  constructor
  · intro ha
    exact (hiff.1 ha).2
  · intro hall
    exact hiff.2 ⟨hn, hall⟩

/-- Instance: with seven RAM frames taken, a process of two pages has one page in Swap and
is `PROC_SWAPPED`. -/
theorem creation_state_exact_witness :
    ∃ p, find_process (create_process defaultConfig
          (run defaultConfig (init_system defaultConfig 100) [Op.create "A" 1792 101])
          "B" 512 102).2
        (create_process defaultConfig
          (run defaultConfig (init_system defaultConfig 100) [Op.create "A" 1792 101])
          "B" 512 102).1 = some p ∧
      1 ≤ p.num_pages ∧
      (p.state = ProcessState.PROC_ACTIVE ↔
        ∀ i, 0 ≤ i → i < p.num_pages → (pageAt p i).state = PageState.PAGE_IN_RAM) ∧
      (p.state ≠ ProcessState.PROC_ACTIVE → p.state = ProcessState.PROC_SWAPPED) :=
  creation_state_exact defaultConfig 100 [Op.create "A" 1792 101] "B" 512 102 (by decide)
    (by decide) (by decide)

/-- C18 evaluated on the code: `create_process("X", 2147483647)` in the initial state of
the default configuration returns pid 1. The page count wraps to `-8388607`, the placement
loop does not run and the new process has no page entry: all of its pages (there is none)
were placed in RAM and none in Swap, yet the code, which tests `pages_in_ram == 0` first,
gives it the state `PROC_SWAPPED` and not `PROC_ACTIVE`. -/
theorem pageless_process_swapped :
    (create_process defaultConfig (init_system defaultConfig 100) "X" 2147483647 101).1 = 1 ∧
    ∃ p, find_process
        (create_process defaultConfig (init_system defaultConfig 100) "X" 2147483647 101).2
        1 = some p ∧
      p.num_pages = -8388607 ∧ p.page_table = [] ∧
      (∀ i, 0 ≤ i → i < p.num_pages → (pageAt p i).state = PageState.PAGE_IN_RAM) ∧
      p.state = ProcessState.PROC_SWAPPED ∧ p.state ≠ ProcessState.PROC_ACTIVE := by
  refine ⟨by decide, ?_⟩
  cases h : find_process
      (create_process defaultConfig (init_system defaultConfig 100) "X" 2147483647 101).2
      1 with
  | none => exact absurd h (by decide)
  | some p =>
    have e : (find_process
        (create_process defaultConfig (init_system defaultConfig 100) "X" 2147483647 101).2
        1).map (fun q => (q.num_pages, q.page_table, q.state)) =
        some (-8388607, [], ProcessState.PROC_SWAPPED) := by decide
    rw [h] at e
    simp only [Option.map_some', Option.some.injEq, Prod.mk.injEq] at e
    obtain ⟨e1, e2, e3⟩ := e
    refine ⟨p, rfl, e1, e2, ?_, e3, ?_⟩
    · intro i i0 i1
      rw [e1] at i1
      omega
    · rw [e3]
      decide

/-! ## C19: PartiallySwapped condition -/

/-- C19 as stated fails: with the eight RAM frames taken by A, a new one-page process B is
placed entirely in Swap; `create_process` succeeds and B is `PROC_SWAPPED` although none
of its pages was placed in RAM. -/
theorem swapped_without_ram_page :
    (create_process defaultConfig
      (run defaultConfig (init_system defaultConfig 100) [Op.create "A" 2048 101])
      "B" 256 102).1 = 2 ∧
    (find_process (create_process defaultConfig
      (run defaultConfig (init_system defaultConfig 100) [Op.create "A" 2048 101])
      "B" 256 102).2 2).map (fun p => p.state) = some ProcessState.PROC_SWAPPED ∧
    (find_process (create_process defaultConfig
      (run defaultConfig (init_system defaultConfig 100) [Op.create "A" 2048 101])
      "B" 256 102).2 2).map (fun p => (p.num_pages, pages_in_ram_count p.page_table)) =
        some (1, 0) ∧
    (find_process (create_process defaultConfig
      (run defaultConfig (init_system defaultConfig 100) [Op.create "A" 2048 101])
      "B" 256 102).2 2).map (fun p => (pageAt p 0).state) = some PageState.PAGE_IN_SWAP := by
  refine ⟨by decide, by decide, by decide, by decide⟩

/-- C19, amended. For every successful `create_process` in a reachable state, the new
process is `PROC_SWAPPED` if and only if none of its pages, or at least one but not all of
its pages, were placed in RAM at creation time. -/
theorem swapped_condition (cfg : Config) (t0 : Int) (ops : List Op) (name : String)
    (size_kb now : Int)
    (h : (create_process cfg (run cfg (init_system cfg t0) ops) name size_kb now).1 ≠ -1) :
    ∃ p, find_process (create_process cfg (run cfg (init_system cfg t0) ops) name size_kb now).2
        (create_process cfg (run cfg (init_system cfg t0) ops) name size_kb now).1 = some p ∧
      (p.state = ProcessState.PROC_SWAPPED ↔
        ((∀ i, 0 ≤ i → i < p.num_pages → (pageAt p i).state ≠ PageState.PAGE_IN_RAM) ∨
          ((∃ i, 0 ≤ i ∧ i < p.num_pages ∧ (pageAt p i).state = PageState.PAGE_IN_RAM) ∧
            ∃ i, 0 ≤ i ∧ i < p.num_pages ∧ (pageAt p i).state ≠ PageState.PAGE_IN_RAM))) := by
  obtain ⟨p, hp, hlen, hst⟩ := (inv_reachable cfg t0 ops).create_state name size_kb now h
  have hle := pages_in_ram_count_le p.page_table
  have hall := pages_in_ram_count_all p
  have hnone := pages_in_ram_count_none p
  refine ⟨p, hp, ?_⟩
  constructor
  · intro hs
    rw [hs] at hst
    by_cases c : (pages_in_ram_count p.page_table : Int) = 0 ∨
        ((pages_in_ram_count p.page_table : Int) > 0 ∧
          (pages_in_ram_count p.page_table : Int) < p.num_pages)
    · rcases c with c | ⟨c1, c2⟩
      · left
        intro i i0 i1
        exact hnone.1 (by omega) i i0 (by omega)
      · right
        constructor
        · by_contra hc
          have : pages_in_ram_count p.page_table = 0 := by
            apply hnone.2
            intro i i0 i1 hi
            exact hc ⟨i, i0, by omega, hi⟩
          omega
        · by_contra hc
          have : pages_in_ram_count p.page_table = p.page_table.length := by
            apply hall.2
            intro i i0 i1
            by_contra hi
            exact hc ⟨i, i0, by omega, hi⟩
          omega
    · rw [if_neg c] at hst; cases hst
  · intro hc
    rw [hst]
    apply if_pos
    rcases hc with hc | ⟨⟨i, i0, i1, hi⟩, ⟨j, j0, j1, hj⟩⟩
    · left
      have : pages_in_ram_count p.page_table = 0 :=
        hnone.2 (fun i i0 i1 => hc i i0 (by omega))
      omega
    · right
      have n0 : pages_in_ram_count p.page_table ≠ 0 := by
        intro e
        exact hnone.1 e i i0 (by omega) hi
      have n1 : pages_in_ram_count p.page_table ≠ p.page_table.length := by
        intro e
        exact hj (hall.1 e j j0 (by omega))
      omega

/-- Instance of the amended C19: with seven RAM frames taken, a process of three pages
gets one page in RAM and two in Swap. -/
theorem swapped_condition_witness :
    ∃ p, find_process (create_process defaultConfig
          (run defaultConfig (init_system defaultConfig 100) [Op.create "A" 1792 101])
          "B" 768 102).2
        (create_process defaultConfig
          (run defaultConfig (init_system defaultConfig 100) [Op.create "A" 1792 101])
          "B" 768 102).1 = some p ∧
      (p.state = ProcessState.PROC_SWAPPED ↔
        ((∀ i, 0 ≤ i → i < p.num_pages → (pageAt p i).state ≠ PageState.PAGE_IN_RAM) ∨
          ((∃ i, 0 ≤ i ∧ i < p.num_pages ∧ (pageAt p i).state = PageState.PAGE_IN_RAM) ∧
            ∃ i, 0 ≤ i ∧ i < p.num_pages ∧ (pageAt p i).state ≠ PageState.PAGE_IN_RAM))) :=
  swapped_condition defaultConfig 100 [Op.create "A" 1792 101] "B" 768 102 (by decide)

/-! ## C20: TLB replacement rule -/

/-- The loop indices are in increasing order. -/
theorem indices_sorted (n : Int) : (indices n).Pairwise (fun a b => a < b) := by
  unfold indices
  rw [List.pairwise_map]
  refine (List.pairwise_lt_range n.toNat).imp ?_
  intro a b hab
  show (a : Int) < (b : Int)
  exact_mod_cast hab

/-- In a loop over `0 .. n-1`, the iterations before iteration `r` are those of the
smaller indices. -/
theorem indices_split {n r : Int} {pre post : List Int} (h : indices n = pre ++ r :: post) :
    (0 ≤ r ∧ r < n) ∧ ∀ j, 0 ≤ j → j < r → j ∈ pre := by
  have hr : r ∈ indices n := by rw [h]; simp
  have hr2 := (mem_indices n r).1 hr
  refine ⟨hr2, ?_⟩
  intro j j0 jr
  have hj : j ∈ indices n := (mem_indices n j).2 ⟨j0, by omega⟩
  rw [h] at hj
  rcases List.mem_append.1 hj with hj | hj
  · exact hj
  · exfalso
    have hs := indices_sorted n
    rw [h, List.pairwise_append] at hs
    rcases List.mem_cons.1 hj with hj | hj
    · omega
    · have := (List.pairwise_cons.1 hs.2.1).1 j hj
      omega

/-- The scan of `tlb_update` stops at the first invalid slot it meets. -/
theorem tlb_victim_scan_invalid (tlb : List TLBEntry) (l : List Int) (v t : Int)
    (h : ∃ i ∈ l, (getI tlb i emptyTLBEntry).valid = false) :
    ∃ pre post, l = pre ++ tlb_victim_scan tlb l v t :: post ∧
      (getI tlb (tlb_victim_scan tlb l v t) emptyTLBEntry).valid = false ∧
      ∀ i ∈ pre, (getI tlb i emptyTLBEntry).valid = true := by
  induction l generalizing v t with
  | nil => obtain ⟨i, hi, _⟩ := h; cases hi
  | cons a l ih =>
    unfold tlb_victim_scan
    by_cases ha : (getI tlb a emptyTLBEntry).valid = true
    · have hl : ∃ i ∈ l, (getI tlb i emptyTLBEntry).valid = false := by
        obtain ⟨i, hi, hv⟩ := h
        rcases List.mem_cons.1 hi with hi | hi
        · subst hi; rw [ha] at hv; cases hv
        · exact ⟨i, hi, hv⟩
      simp only [ha, Bool.not_true, Bool.false_eq_true, if_false]
      split
      · obtain ⟨pre, post, e, r1, r2⟩ := ih a (getI tlb a emptyTLBEntry).last_access hl
        refine ⟨a :: pre, post, by rw [List.cons_append, ← e], r1, ?_⟩
        intro i hi
        rcases List.mem_cons.1 hi with hi | hi
        · subst hi; exact ha
        · exact r2 i hi
      · obtain ⟨pre, post, e, r1, r2⟩ := ih v t hl
        refine ⟨a :: pre, post, by rw [List.cons_append, ← e], r1, ?_⟩
        intro i hi
        rcases List.mem_cons.1 hi with hi | hi
        · subst hi; exact ha
        · exact r2 i hi
    · have ha2 : (getI tlb a emptyTLBEntry).valid = false := by
        cases hx : (getI tlb a emptyTLBEntry).valid
        · rfl
        · exact absurd hx ha
      have c : (!(getI tlb a emptyTLBEntry).valid) = true := by rw [ha2]; rfl
      rw [if_pos c]
      exact ⟨[], l, rfl, ha2, fun i hi => absurd hi (List.not_mem_nil i)⟩

/-- Over valid slots the scan keeps the first slot with the smallest `last_access`. -/
theorem tlb_victim_scan_valid (tlb : List TLBEntry) (l : List Int) (v t : Int)
    (h : ∀ i ∈ l, (getI tlb i emptyTLBEntry).valid = true) :
    (tlb_victim_scan tlb l v t = v ∧ ∀ i ∈ l, t ≤ (getI tlb i emptyTLBEntry).last_access) ∨
    ∃ pre post, l = pre ++ tlb_victim_scan tlb l v t :: post ∧
      (getI tlb (tlb_victim_scan tlb l v t) emptyTLBEntry).last_access < t ∧
      (∀ i ∈ pre, (getI tlb (tlb_victim_scan tlb l v t) emptyTLBEntry).last_access <
        (getI tlb i emptyTLBEntry).last_access) ∧
      ∀ i ∈ post, (getI tlb (tlb_victim_scan tlb l v t) emptyTLBEntry).last_access ≤
        (getI tlb i emptyTLBEntry).last_access := by
  induction l generalizing v t with
  | nil =>
    left
    exact ⟨rfl, by intro i hi; cases hi⟩
  | cons a l ih =>
    have ha := h a (List.mem_cons_self _ _)
    have hl : ∀ i ∈ l, (getI tlb i emptyTLBEntry).valid = true :=
      fun i hi => h i (List.mem_cons_of_mem _ hi)
    unfold tlb_victim_scan
    simp only [ha, Bool.not_true, Bool.false_eq_true, if_false]
    by_cases hc : (getI tlb a emptyTLBEntry).last_access < t
    · rw [if_pos hc]
      right
      rcases ih a (getI tlb a emptyTLBEntry).last_access hl with ⟨e, r⟩ | ⟨pre, post, e, r1, r2, r3⟩
      · rw [e]
        exact ⟨[], l, rfl, hc, fun i hi => absurd hi (List.not_mem_nil i), r⟩
      · refine ⟨a :: pre, post, by rw [List.cons_append, ← e], by omega, ?_, r3⟩
        intro i hi
        rcases List.mem_cons.1 hi with hi | hi
        · subst hi; exact r1
        · exact r2 i hi
    · rw [if_neg hc]
      rcases ih v t hl with ⟨e, r⟩ | ⟨pre, post, e, r1, r2, r3⟩
      · left
        refine ⟨e, ?_⟩
        intro i hi
        rcases List.mem_cons.1 hi with hi | hi
        · subst hi; omega
        · exact r i hi
      · right
        refine ⟨a :: pre, post, by rw [List.cons_append, ← e], r1, ?_, r3⟩
        intro i hi
        rcases List.mem_cons.1 hi with hi | hi
        · subst hi; omega
        · exact r2 i hi

/-- The slot `tlb_update` writes: the first invalid slot, or with every slot valid the
first slot with the smallest `last_access`. -/
theorem tlb_victim_rule (cfg : Config) (s : MemorySystem) (h : 1 ≤ cfg.TLB_SIZE) :
    (0 ≤ tlb_victim cfg s ∧ tlb_victim cfg s < cfg.TLB_SIZE) ∧
    ((∃ i, 0 ≤ i ∧ i < cfg.TLB_SIZE ∧ (tlbAt s i).valid = false) →
      (tlbAt s (tlb_victim cfg s)).valid = false ∧
      ∀ j, 0 ≤ j → j < tlb_victim cfg s → (tlbAt s j).valid = true) ∧
    ((∀ i, 0 ≤ i → i < cfg.TLB_SIZE → (tlbAt s i).valid = true) →
      (∀ j, 0 ≤ j → j < cfg.TLB_SIZE →
        (tlbAt s (tlb_victim cfg s)).last_access ≤ (tlbAt s j).last_access) ∧
      ∀ j, 0 ≤ j → j < tlb_victim cfg s →
        (tlbAt s (tlb_victim cfg s)).last_access < (tlbAt s j).last_access) := by
  refine ⟨tlb_victim_range cfg s h, ?_, ?_⟩
  · rintro ⟨i, i0, i1, hi⟩
    obtain ⟨pre, post, e, r1, r2⟩ := tlb_victim_scan_invalid s.tlb (indices cfg.TLB_SIZE) 0
      (tlbAt s 0).last_access ⟨i, (mem_indices _ _).2 ⟨i0, i1⟩, hi⟩
    refine ⟨r1, ?_⟩
    intro j j0 j1
    exact r2 j ((indices_split e).2 j j0 j1)
  · intro hall
    have hv : ∀ i ∈ indices cfg.TLB_SIZE, (getI s.tlb i emptyTLBEntry).valid = true :=
      fun i hi => hall i ((mem_indices _ _).1 hi).1 ((mem_indices _ _).1 hi).2
    rcases tlb_victim_scan_valid s.tlb (indices cfg.TLB_SIZE) 0 (tlbAt s 0).last_access hv with
      ⟨e, r⟩ | ⟨pre, post, e, r1, r2, r3⟩
    · have e2 : tlb_victim cfg s = 0 := e
      rw [e2]
      refine ⟨?_, ?_⟩
      · intro j j0 j1
        exact r j ((mem_indices _ _).2 ⟨j0, j1⟩)
      · intro j j0 j1
        omega
    · have hsplit := indices_split e
      refine ⟨?_, ?_⟩
      · intro j j0 j1
        have hj : j ∈ indices cfg.TLB_SIZE := (mem_indices _ _).2 ⟨j0, j1⟩
        rw [e] at hj
        rcases List.mem_append.1 hj with hj | hj
        · exact le_of_lt (r2 j hj)
        · rcases List.mem_cons.1 hj with hj | hj
          · rw [hj]
            exact le_refl _
          · exact r3 j hj
      · intro j j0 j1
        exact r2 j (hsplit.2 j j0 j1)

/-- C20. For every TLB of capacity `TLB_SIZE ≥ 1` and every call
`tlb_update(pid, page, frame)`, the slot written is the lowest-index invalid slot if any
slot is invalid, and otherwise the slot with the smallest `last_access`, the lowest index
among equal smallest values; that slot becomes the valid entry `(pid, page, frame)`, every
other slot is unchanged, and nothing but the TLB changes. -/
theorem tlb_replacement_rule (cfg : Config) (s : MemorySystem) (pid page frame now : Int)
    (h : 1 ≤ cfg.TLB_SIZE) (hlen : s.tlb.length = cfg.TLB_SIZE.toNat) :
    (0 ≤ tlb_victim cfg s ∧ tlb_victim cfg s < cfg.TLB_SIZE) ∧
    ((∃ i, 0 ≤ i ∧ i < cfg.TLB_SIZE ∧ (tlbAt s i).valid = false) →
      (tlbAt s (tlb_victim cfg s)).valid = false ∧
      ∀ j, 0 ≤ j → j < tlb_victim cfg s → (tlbAt s j).valid = true) ∧
    ((∀ i, 0 ≤ i → i < cfg.TLB_SIZE → (tlbAt s i).valid = true) →
      (∀ j, 0 ≤ j → j < cfg.TLB_SIZE →
        (tlbAt s (tlb_victim cfg s)).last_access ≤ (tlbAt s j).last_access) ∧
      ∀ j, 0 ≤ j → j < tlb_victim cfg s →
        (tlbAt s (tlb_victim cfg s)).last_access < (tlbAt s j).last_access) ∧
    tlbAt (tlb_update cfg s pid page frame now) (tlb_victim cfg s) =
      ⟨pid, page, frame, true, now⟩ ∧
    (∀ j, j ≠ tlb_victim cfg s → tlbAt (tlb_update cfg s pid page frame now) j = tlbAt s j) ∧
    tlb_update cfg s pid page frame now =
      { s with tlb := (tlb_update cfg s pid page frame now).tlb } := by
  obtain ⟨hr, hi, hv⟩ := tlb_victim_rule cfg s h
  refine ⟨hr, hi, hv, ?_, ?_, rfl⟩
  · show getI (setI s.tlb _ _) _ _ = _
    apply getI_setI_self _ _ _ _ hr.1
    rw [hlen]
    omega
  · intro j hj
    show getI (setI s.tlb _ _) _ _ = _
    exact getI_setI_ne _ _ _ _ _ (fun hc => hj hc.symm)

/-- Instance of C20: with the four slots valid and last used at times 5, 3, 3, 7, a fifth
distinct update `(3, 0, 4)` replaces slot 1, the first of the two oldest, and only it. -/
theorem tlb_replacement_rule_witness :
    tlb_victim defaultConfig full_tlb_state = 1 ∧
    (tlb_update defaultConfig full_tlb_state 3 0 4 9).tlb =
      [⟨1, 0, 0, true, 5⟩, ⟨3, 0, 4, true, 9⟩, ⟨2, 0, 2, true, 3⟩, ⟨2, 1, 3, true, 7⟩] ∧
    tlbAt (tlb_update defaultConfig full_tlb_state 3 0 4 9)
      (tlb_victim defaultConfig full_tlb_state) = ⟨3, 0, 4, true, 9⟩ :=
  ⟨by decide, by decide,
    (tlb_replacement_rule defaultConfig full_tlb_state 3 0 4 9 (by decide) (by decide)).2.2.2.1⟩

/-! ## C26: bounded append-only log -/

theorem LogOK.of_same_log {s s1 : MemorySystem} (h : LogOK s) (h1 : s1.logs = s.logs)
    (h2 : s1.log_count = s.log_count) : LogOK s1 := by
  unfold LogOK
  rw [h1, h2]
  exact h

theorem LogOK.log_added {s : MemorySystem} (h : LogOK s) (now : Int) (m : String) :
    LogOK (add_log s now m) := by
  unfold add_log
  by_cases c : s.log_count ≥ MAX_LOG_ENTRIES
  · rw [if_pos c]; exact h
  · rw [if_neg c]
    obtain ⟨h1, h2⟩ := h
    constructor
    · show s.log_count + 1 = ((s.logs ++ [_]).length : Int)
      rw [List.length_append, List.length_singleton, h1]
      push_cast
      rfl
    · show s.log_count + 1 ≤ MAX_LOG_ENTRIES
      omega

theorem modify_process_logs (s : MemorySystem) (slot : Int) (f : PCB → PCB) :
    (modify_process s slot f).logs = s.logs ∧
    (modify_process s slot f).log_count = s.log_count := by
  unfold modify_process
  cases procAt s slot with
  | none => exact ⟨rfl, rfl⟩
  | some p => exact ⟨rfl, rfl⟩

theorem LogOK.swapped_out {s : MemorySystem} (h : LogOK s) (cfg : Config) (f now : Int) :
    LogOK (swap_out_page cfg s f now).2 := by
  unfold swap_out_page
  by_cases h1 : f < 0 ∨ f ≥ NUM_RAM_FRAMES cfg
  · rw [if_pos h1]; exact h
  · rw [if_neg h1]
    by_cases h2 : (!(ramAt s f).occupied) = true
    · rw [if_pos h2]; exact h
    · rw [if_neg h2]
      cases h3 : find_process_slot s (ramAt s f).pid with
      | none => exact h
      | some slot =>
        simp only []
        by_cases h4 : find_free_swap_frame cfg s = -1
        · rw [if_pos h4]; exact h.log_added _ _
        · rw [if_neg h4]
          apply LogOK.log_added
          apply h.of_same_log
          · exact (modify_process_logs _ _ _).1
          · exact (modify_process_logs _ _ _).2

theorem LogOK.victim_selected {s : MemorySystem} (h : LogOK s) :
    LogOK (select_victim_page_fifo s).2 := by
  unfold select_victim_page_fifo
  split
  · exact h
  · exact h.of_same_log rfl rfl

theorem LogOK.swap_in_finished {s : MemorySystem} (h : LogOK s) (cfg : Config)
    (slot pid pg sp r now : Int) : LogOK (swap_in_finish cfg s slot pid pg sp r now) := by
  unfold swap_in_finish
  apply LogOK.log_added
  apply h.of_same_log
  · show (modify_process _ _ _).logs = _
    rw [(modify_process_logs _ _ _).1]
    show (modify_process _ _ _).logs = _
    rw [(modify_process_logs _ _ _).1]
  · show (modify_process _ _ _).log_count = _
    rw [(modify_process_logs _ _ _).2]
    show (modify_process _ _ _).log_count = _
    rw [(modify_process_logs _ _ _).2]

theorem LogOK.swapped_in {s : MemorySystem} (h : LogOK s) (cfg : Config) (pid pg now : Int) :
    LogOK (swap_in_page cfg s pid pg now).2 := by
  unfold swap_in_page
  cases hslot : find_process_slot s pid with
  | none => exact h
  | some slot =>
    simp only []
    cases hp : procAt s slot with
    | none => exact h
    | some p =>
      simp only []
      split
      · exact h
      · split
        · exact h
        · split
          · exact h
          · split
            · split
              · exact h.victim_selected.log_added _ _
              · split
                · exact h.victim_selected.swapped_out _ _ _
                · exact (h.victim_selected.swapped_out _ _ _).swap_in_finished _ _ _ _ _ _ _
            · exact h.swap_in_finished _ _ _ _ _ _ _

theorem place_pages_logs (cfg : Config) (pid now : Int) (todo : Nat) :
    ∀ (i : Int) (s : MemorySystem) (pt : List PageTableEntry) (k : Int),
      (place_pages cfg pid now todo i s pt k).sys.logs = s.logs ∧
      (place_pages cfg pid now todo i s pt k).sys.log_count = s.log_count := by
  induction todo with
  | zero => intro i s pt k; exact ⟨rfl, rfl⟩
  | succ n ih =>
    intro i s pt k
    rw [place_pages_succ]
    split
    · exact ih _ _ _ _
    · split
      · obtain ⟨_, _, _, _, _, _, a7, a8, _⟩ := free_fold_frame rolled_back_frame pt s
        exact ⟨a7, a8⟩
      · exact ih _ _ _ _

theorem LogOK.created {s : MemorySystem} (h : LogOK s) (cfg : Config) (name : String)
    (size_kb now : Int) : LogOK (create_process cfg s name size_kb now).2 := by
  unfold create_process
  split
  · exact h
  · split
    · exact h
    · simp only []
      split
      · exact h
      · split
        · exact h
        · split
          · exact h.of_same_log (place_pages_logs _ _ _ _ _ _ _ _).1 (place_pages_logs _ _ _ _ _ _ _ _).2
          · apply LogOK.log_added
            exact h.of_same_log (place_pages_logs _ _ _ _ _ _ _ _).1
              (place_pages_logs _ _ _ _ _ _ _ _).2

theorem LogOK.terminated {s : MemorySystem} (h : LogOK s) (cfg : Config) (pid now : Int) :
    LogOK (terminate_process cfg s pid now).2 := by
  unfold terminate_process
  cases hf : find_process s pid with
  | none => exact h
  | some p =>
    simp only []
    obtain ⟨_, _, _, _, _, _, a7, a8, _⟩ := free_fold_frame released_frame
      ((indices p.num_pages).map (fun i => pageAt p i)) s
    have h3 : ∀ m, LogOK (add_log (tlb_invalidate cfg
        (((indices p.num_pages).map (fun i => pageAt p i)).foldl release_page s) pid) now m) := by
      intro m
      apply LogOK.log_added
      exact h.of_same_log a7 a8
    split
    · exact (h3 _).of_same_log rfl rfl
    · exact h3 _

theorem LogOK.looked_up {s : MemorySystem} (h : LogOK s) (cfg : Config) (pid pg now : Int) :
    LogOK (tlb_lookup cfg s pid pg now).2 := by
  unfold tlb_lookup
  split
  · exact h.of_same_log rfl rfl
  · exact h.of_same_log rfl rfl

theorem LogOK.accessed {s : MemorySystem} (h : LogOK s) (cfg : Config) (pid pg now : Int) :
    LogOK (simulate_access cfg s pid pg now).2 := by
  unfold simulate_access
  split
  · exact h
  · cases hf : find_process s pid with
    | none => exact h
    | some p =>
      simp only []
      have h1 : LogOK { s with total_memory_accesses := s.total_memory_accesses + 1 } :=
        h.of_same_log rfl rfl
      have h2 := h1.looked_up cfg pid pg now
      split
      · exact h
      · split
        · exact h2.log_added _ _
        · split
          · apply LogOK.log_added
            exact h2.of_same_log rfl rfl
          · split
            · split
              · exact h2.swapped_in _ _ _ _
              · exact h2.swapped_in _ _ _ _
            · exact h2

theorem LogOK.of_init_system (cfg : Config) (now : Int) : LogOK (init_system cfg now) := by
  unfold init_system
  apply LogOK.log_added
  constructor
  · rfl
  · show (0 : Int) ≤ MAX_LOG_ENTRIES
    decide

theorem log_ok_reachable (cfg : Config) (t0 : Int) (ops : List Op) :
    LogOK (run cfg (init_system cfg t0) ops) := by
  have key : ∀ (ops : List Op) (s : MemorySystem), LogOK s → LogOK (run cfg s ops) := by
    intro ops
    induction ops with
    | nil => intro s h; exact h
    | cons op ops ih =>
      intro s h
      apply ih
      cases op with
      | create name size_kb now => exact h.created cfg name size_kb now
      | terminate pid now => exact h.terminated cfg pid now
      | access pid page now => exact h.accessed cfg pid page now
  exact key ops _ (LogOK.of_init_system cfg t0)

/-- C26. In every reachable state `log_count ≤ MAX_LOG_ENTRIES` (1000) and `log_count`
entries are written; every `add_log` with `log_count < 1000` appends exactly one entry, at
index `log_count`, holding the message truncated to at most 255 characters, and leaves all
earlier entries unchanged; every `add_log` with `log_count = 1000` leaves the state
unchanged. -/
theorem bounded_log (cfg : Config) (t0 : Int) (ops : List Op) :
    MAX_LOG_ENTRIES = 1000 ∧
    (run cfg (init_system cfg t0) ops).log_count ≤ MAX_LOG_ENTRIES ∧
    (run cfg (init_system cfg t0) ops).log_count =
      ((run cfg (init_system cfg t0) ops).logs.length : Int) ∧
    (∀ (now : Int) (m : String),
      (run cfg (init_system cfg t0) ops).log_count < MAX_LOG_ENTRIES →
        (add_log (run cfg (init_system cfg t0) ops) now m).log_count =
          (run cfg (init_system cfg t0) ops).log_count + 1 ∧
        (add_log (run cfg (init_system cfg t0) ops) now m).logs =
          (run cfg (init_system cfg t0) ops).logs ++ [⟨now, m.take 255⟩] ∧
        getI (add_log (run cfg (init_system cfg t0) ops) now m).logs
          (run cfg (init_system cfg t0) ops).log_count ⟨0, ""⟩ = ⟨now, m.take 255⟩ ∧
        (m.take 255).length ≤ 255 ∧
        ∀ i, 0 ≤ i → i < (run cfg (init_system cfg t0) ops).log_count →
          getI (add_log (run cfg (init_system cfg t0) ops) now m).logs i ⟨0, ""⟩ =
            getI (run cfg (init_system cfg t0) ops).logs i ⟨0, ""⟩) ∧
    (∀ (now : Int) (m : String),
      (run cfg (init_system cfg t0) ops).log_count = MAX_LOG_ENTRIES →
        add_log (run cfg (init_system cfg t0) ops) now m = run cfg (init_system cfg t0) ops) := by
  obtain ⟨h1, h2⟩ := log_ok_reachable cfg t0 ops
  generalize run cfg (init_system cfg t0) ops = s at h1 h2
  refine ⟨rfl, h2, h1, ?_, ?_⟩
  · intro now m hlt
    have e : add_log s now m =
        { s with logs := s.logs ++ [⟨now, m.take 255⟩], log_count := s.log_count + 1 } := by
      unfold add_log
      rw [if_neg (by omega)]
    rw [e]
    refine ⟨rfl, rfl, ?_, ?_, ?_⟩
    · show getI (s.logs ++ [_]) s.log_count _ = _
      unfold getI
      rw [if_pos (by omega), h1]
      simp
    · rw [String.take_eq]
      exact List.length_take_le _ _
    · intro i i0 i1
      show getI (s.logs ++ [_]) i _ = getI s.logs i _
      unfold getI
      rw [if_pos i0, if_pos i0]
      have : i.toNat < s.logs.length := by omega
      simp [List.getD_eq_getElem?_getD, List.getElem?_append_left this]
  · intro now m he
    unfold add_log
    rw [if_pos (by omega)]

/-! ## Directory and page-entry invariant -/

/-- Changing a predicate at one point of a duplicate-free list changes the number of
elements that satisfy it by at most one. -/
theorem filter_length_update (L : List Int) (hL : L.Nodup) (f g : Int → Bool) (r : Int)
    (hr : r ∈ L) (hfg : ∀ i ∈ L, i ≠ r → g i = f i) :
    ((L.filter g).length : Int) + (if f r = true then 1 else 0) =
      ((L.filter f).length : Int) + (if g r = true then 1 else 0) := by
  induction L with
  | nil => cases hr
  | cons a L ih =>
    obtain ⟨ha, hL2⟩ := List.nodup_cons.1 hL
    by_cases har : a = r
    · subst har
      have e : L.filter g = L.filter f := by
        apply List.filter_congr
        intro i hi
        exact hfg i (List.mem_cons_of_mem _ hi) (fun hc => ha (hc ▸ hi))
      cases hf : f a <;> cases hg : g a <;> simp [List.filter_cons, hf, hg, e]
    · have hr2 : r ∈ L := by
        rcases List.mem_cons.1 hr with h | h
        · exact absurd h.symm har
        · exact h
      have ih2 := ih hL2 hr2 (fun i hi hne => hfg i (List.mem_cons_of_mem _ hi) hne)
      have e := hfg a (List.mem_cons_self _ _) har
      cases hf : f a
      · rw [hf] at e
        simp only [List.filter_cons, hf, e]
        exact ih2
      · rw [hf] at e
        simp only [List.filter_cons, hf, e, if_true, List.length_cons]
        push_cast
        omega

theorem live_count_congr {s s1 : MemorySystem} (h : s1.processes = s.processes) :
    live_count s1 = live_count s := by
  unfold live_count
  rw [procAt_congr h]

/-- The count of live slots after the directory write `processes[slot] = x`. -/
theorem live_count_set {s s1 : MemorySystem} {slot : Int} (x : Option PCB)
    (h0 : 0 ≤ slot) (h1 : slot < MAX_PROCESSES) (hlen : s.processes.length = MAX_PROCESSES.toNat)
    (h : s1.processes = setI s.processes slot x) :
    (live_count s1 : Int) + (if (procAt s slot).isSome = true then 1 else 0) =
      (live_count s : Int) + (if x.isSome = true then 1 else 0) := by
  have hl : slot < (s.processes.length : Int) := by
    rw [hlen]
    have : MAX_PROCESSES = 50 := rfl
    omega
  have e := filter_length_update (indices MAX_PROCESSES) (indices_nodup _)
    (fun i => (procAt s i).isSome) (fun i => (procAt s1 i).isSome) slot
    ((mem_indices _ _).2 ⟨h0, h1⟩) (by
      intro i _ hne
      show (getI s1.processes i none).isSome = _
      rw [h, getI_setI_ne _ _ _ _ _ (fun hc => hne hc.symm)]
      rfl)
  have e2 : procAt s1 slot = x := by
    unfold procAt
    rw [h]
    exact getI_setI_self _ _ _ _ h0 hl
  simp only [e2] at e
  exact e

theorem DirInv.of_same_directory {cfg : Config} {s s1 : MemorySystem} (h : DirInv cfg s)
    (hp : s1.processes = s.processes) (hn : s1.num_processes = s.num_processes) :
    DirInv cfg s1 := by
  constructor
  · rw [hn, live_count_congr hp]; exact h.count
  · intro slot p i hs
    rw [procAt_congr hp] at hs
    exact h.entries slot p i hs

/-- The invariant after one process record has been rewritten in place. -/
theorem DirInv.rewrite {cfg : Config} {s s1 : MemorySystem} (h : DirInv cfg s)
    (hlen : s.processes.length = MAX_PROCESSES.toNat)
    {slot : Int} {p q : PCB} (hp : procAt s slot = some p)
    (hs : s1.processes = setI s.processes slot (some q))
    (hn : s1.num_processes = s.num_processes)
    (hq : ∀ i, 0 ≤ i → i < q.num_pages → entry_ok cfg (pageAt q i) i) : DirInv cfg s1 := by
  have hr := procAt_range hp
  have hmax : slot < MAX_PROCESSES := by
    have : MAX_PROCESSES = 50 := rfl
    rw [hlen] at hr
    omega
  constructor
  · have e := live_count_set (some q) hr.1 hmax hlen hs
    rw [hp] at e
    simp only [Option.isSome_some, if_true] at e
    rw [hn, h.count]
    omega
  · intro sl p1 i hs1
    unfold procAt at hs1
    rw [hs, getI_setI] at hs1
    by_cases c : slot = sl ∧ 0 ≤ slot ∧ slot < (s.processes.length : Int)
    · rw [if_pos c] at hs1
      cases hs1
      exact hq i
    · rw [if_neg c] at hs1
      exact h.entries sl p1 i hs1

theorem entry_ok_swapped_out {cfg : Config} {e : PageTableEntry} {i sf : Int}
    (h : entry_ok cfg e i) (h0 : 0 ≤ sf) (h1 : sf < NUM_SWAP_FRAMES cfg) :
    entry_ok cfg (swapped_out_entry e sf) i := by
  refine ⟨?_, ?_, ?_, ?_, ?_, h.2.2.2.2.2⟩
  · constructor
    · intro hc; cases hc
    · intro hc; cases hc
  · intro hc; cases hc
  · intro _; rfl
  · intro _; exact ⟨h0, h1⟩
  · intro hc; exact absurd rfl hc

theorem entry_ok_swapped_in {cfg : Config} {e : PageTableEntry} {i r : Int} (now : Int)
    (h : entry_ok cfg e i) (h0 : 0 ≤ r) (h1 : r < NUM_RAM_FRAMES cfg) :
    entry_ok cfg (swapped_in_entry e r now) i := by
  refine ⟨?_, ?_, ?_, ?_, ?_, h.2.2.2.2.2⟩
  · constructor
    · intro _; rfl
    · intro _; rfl
  · intro _; exact ⟨h0, h1⟩
  · intro hc; exact absurd rfl hc
  · intro hc; cases hc
  · intro _; rfl

theorem DirInv.swap_out_kept {cfg : Config} {s : MemorySystem} (d : DirInv cfg s)
    (h : Inv cfg s) (f now : Int) : DirInv cfg (swap_out_page cfg s f now).2 := by
  cases hres : (swap_out_page cfg s f now).1 with
  | false =>
    obtain ⟨_, _, a, b, _⟩ := swap_out_failure_unchanged cfg s f now hres
    exact d.of_same_directory a b
  | true =>
    obtain ⟨slot, p, _, _, _, _, hp, _, hsf, _, _, hproc, _, _, hnum, _⟩ :=
      swap_out_page_success hres
    obtain ⟨sf0, sf1, _⟩ := find_free_swap_frame_spec cfg s hsf
    apply d.rewrite h.proc_len hp hproc hnum
    intro i i0 i1
    have hi := d.entries slot p i hp i0 i1
    rw [pageAt_set_page]
    split
    · rename_i c
      rw [← c.1]
      rw [← c.1] at hi
      exact entry_ok_swapped_out hi sf0 sf1
    · exact hi

theorem DirInv.swap_in_finish_kept {cfg : Config} {s : MemorySystem} (d : DirInv cfg s)
    (h : Inv cfg s) {slot : Int} {p : PCB} (hp : procAt s slot = some p)
    (pid pg sp now : Int) {r : Int} (r0 : 0 ≤ r) (r1 : r < NUM_RAM_FRAMES cfg) :
    DirInv cfg (swap_in_finish cfg s slot pid pg sp r now) := by
  obtain ⟨_, _, hproc, _, _, hnum, _⟩ := swap_in_finish_shape cfg s slot pid pg sp r now p hp
  apply d.rewrite h.proc_len hp hproc hnum
  intro i i0 i1
  have hi := d.entries slot p i hp i0 i1
  show entry_ok cfg (pageAt (set_page p pg _) i) i
  rw [pageAt_set_page]
  split
  · rename_i c
    rw [← c.1]
    rw [← c.1] at hi
    exact entry_ok_swapped_in now hi r0 r1
  · exact hi

theorem DirInv.victim_kept {cfg : Config} {s : MemorySystem} (d : DirInv cfg s) :
    DirInv cfg (select_victim_page_fifo s).2 :=
  d.of_same_directory (select_victim_frame s).2.2.1 (select_victim_frame s).2.2.2.2.1

theorem DirInv.log_kept {cfg : Config} {s : MemorySystem} (d : DirInv cfg s) (now : Int)
    (m : String) : DirInv cfg (add_log s now m) :=
  d.of_same_directory (add_log_frame s now m).2.2.1 (add_log_frame s now m).2.2.2.1

theorem DirInv.swap_in_kept {cfg : Config} {s : MemorySystem} (d : DirInv cfg s)
    (h : Inv cfg s) (pid pg now : Int) : DirInv cfg (swap_in_page cfg s pid pg now).2 := by
  cases hres : (swap_in_page cfg s pid pg now).1 with
  | true =>
    obtain ⟨slot, p, sm, pm, r, _, _, _, _, _, _, _, hsm, hpm, _, _, _, _,
      r0, r1, _, _, hcase, heq⟩ := swap_in_page_success h hres
    rw [heq]
    have dsm : DirInv cfg sm := by
      rcases hcase with ⟨_, e, _⟩ | ⟨_, _, _, e, _⟩
      · rw [e]; exact d
      · rw [e]; exact d.victim_kept.swap_out_kept h.select_victim _ _
    exact dsm.swap_in_finish_kept hsm hpm _ _ _ _ r0 r1
  | false =>
    unfold swap_in_page at hres ⊢
    cases hslot : find_process_slot s pid with
    | none => simpa [hslot] using d
    | some slot =>
      obtain ⟨p, hp, hpid⟩ := find_process_slot_some hslot
      simp only [hslot, hp] at hres ⊢
      by_cases c1 : pg < 0 ∨ pg ≥ p.num_pages
      · simpa [c1] using d
      · rw [if_neg c1] at hres ⊢
        by_cases c2 : (pageAt p pg).state ≠ PageState.PAGE_IN_SWAP
        · simpa [c2] using d
        · rw [if_neg c2] at hres ⊢
          by_cases c3 : (pageAt p pg).swap_position < 0 ∨
              (pageAt p pg).swap_position ≥ NUM_SWAP_FRAMES cfg
          · simpa [c3] using d
          · simp only [c3, if_false] at hres ⊢
            by_cases c4 : find_free_ram_frame cfg s = -1
            · simp only [c4, if_true] at hres ⊢
              by_cases c5 : (select_victim_page_fifo s).1 = -1
              · simp only [c5, if_true]
                exact d.victim_kept.log_kept _ _
              · simp only [c5, if_false] at hres ⊢
                by_cases c6 : (swap_out_page cfg (select_victim_page_fifo s).2
                    (select_victim_page_fifo s).1 now).1 = true
                · simp [c6] at hres
                · have : (swap_out_page cfg (select_victim_page_fifo s).2
                    (select_victim_page_fifo s).1 now).1 = false := by
                    simpa using c6
                  simp only [this, Bool.not_false, if_true]
                  exact d.victim_kept.swap_out_kept h.select_victim _ _
            · simp [c4] at hres

/-- The placement loop leaves the directory alone. -/
theorem place_pages_directory (cfg : Config) (pid now : Int) (todo : Nat) :
    ∀ (i : Int) (s : MemorySystem) (pt : List PageTableEntry) (k : Int),
      (place_pages cfg pid now todo i s pt k).sys.processes = s.processes ∧
      (place_pages cfg pid now todo i s pt k).sys.num_processes = s.num_processes := by
  induction todo with
  | zero => intro i s pt k; exact ⟨rfl, rfl⟩
  | succ n ih =>
    intro i s pt k
    rw [place_pages_succ]
    split
    · exact ih _ _ _ _
    · split
      · obtain ⟨a1, _, _, a4, _⟩ := free_fold_frame rolled_back_frame pt s
        exact ⟨a1, a4⟩
      · exact ih _ _ _ _

theorem getI_append_one {α : Type} (l : List α) (x d : α) (j : Int) (h0 : 0 ≤ j)
    (h1 : j < ((l ++ [x]).length : Int)) :
    getI (l ++ [x]) j d = if j < (l.length : Int) then getI l j d else x := by
  unfold getI
  rw [if_pos h0, if_pos h0]
  simp only [List.length_append, List.length_singleton] at h1
  by_cases c : j < (l.length : Int)
  · rw [if_pos c]
    have : j.toNat < l.length := by omega
    simp [List.getD_eq_getElem?_getD, List.getElem?_append_left this]
  · rw [if_neg c]
    have e : j.toNat = l.length := by push_cast at h1; omega
    simp [List.getD_eq_getElem?_getD, e]

/-- Every entry the placement loop writes is well formed. -/
theorem place_pages_entries (cfg : Config) (pid now : Int) (todo : Nat) :
    ∀ (i : Int) (s : MemorySystem) (pt : List PageTableEntry) (k : Int),
      (pt.length : Int) = i →
      (∀ j, 0 ≤ j → j < (pt.length : Int) → entry_ok cfg (getI pt j emptyPageEntry) j) →
      ∀ j, 0 ≤ j → j < ((place_pages cfg pid now todo i s pt k).page_table.length : Int) →
        entry_ok cfg (getI (place_pages cfg pid now todo i s pt k).page_table j emptyPageEntry)
          j := by
  induction todo with
  | zero => intro i s pt k _ h; exact h
  | succ n ih =>
    intro i s pt k hi h
    rw [place_pages_succ]
    by_cases c1 : find_free_ram_frame cfg s ≠ -1
    · rw [if_pos c1]
      obtain ⟨r0, r1, _⟩ := find_free_ram_frame_spec cfg s c1
      apply ih
      · simp only [List.length_append, List.length_singleton]; push_cast; omega
      · intro j j0 j1
        rw [getI_append_one _ _ _ _ j0 j1]
        split
        · rename_i c; exact h j j0 c
        · rename_i c
          simp only [List.length_append, List.length_singleton] at j1
          push_cast at j1
          have e : i = j := by omega
          refine ⟨?_, ?_, ?_, ?_, ?_, e⟩
          · exact ⟨fun _ => rfl, fun _ => rfl⟩
          · intro _; exact ⟨r0, r1⟩
          · intro hc; exact absurd rfl hc
          · intro hc; cases hc
          · intro _; rfl
    · rw [if_neg c1]
      by_cases c2 : find_free_swap_frame cfg s = -1
      · rw [if_pos c2]; exact h
      · rw [if_neg c2]
        obtain ⟨r0, r1, _⟩ := find_free_swap_frame_spec cfg s c2
        apply ih
        · simp only [List.length_append, List.length_singleton]; push_cast; omega
        · intro j j0 j1
          rw [getI_append_one _ _ _ _ j0 j1]
          split
          · rename_i c; exact h j j0 c
          · rename_i c
            simp only [List.length_append, List.length_singleton] at j1
            push_cast at j1
            have e : i = j := by omega
            refine ⟨?_, ?_, ?_, ?_, ?_, e⟩
            · constructor
              · intro hc; cases hc
              · intro hc; cases hc
            · intro hc; cases hc
            · intro _; rfl
            · intro _; exact ⟨r0, r1⟩
            · intro hc; exact absurd rfl hc

theorem DirInv.create_kept {cfg : Config} {s : MemorySystem} (d : DirInv cfg s)
    (h : Inv cfg s) (name : String) (size_kb now : Int) :
    DirInv cfg (create_process cfg s name size_kb now).2 := by
  by_cases hres : (create_process cfg s name size_kb now).1 = -1
  · rcases create_process_failure hres with e | ⟨_, e⟩
    · rw [e]; exact d
    · rw [e]
      exact d.of_same_directory (place_pages_directory _ _ _ _ _ _ _ _).1
        (place_pages_directory _ _ _ _ _ _ _ _).2
  · obtain ⟨_, _, _, c4, hok, hpid, ⟨q, hq, qpid, qpt, qnum, _⟩, _, _, _, _, hnum⟩ :=
      create_process_success hres
    obtain ⟨s0, s1, snone, _⟩ := find_free_slot_spec s c4
    have hinv := h.create name size_kb now
    obtain ⟨hprocs, hnp⟩ := place_pages_directory cfg (find_free_slot s + 1) now
      (num_pages_of cfg size_kb).toNat 0 s [] 0
    rw [hprocs] at hq
    rw [hnp] at hnum
    have sl : find_free_slot s < (s.processes.length : Int) := by
      have := h.proc_len
      have e : MAX_PROCESSES = 50 := rfl
      omega
    have hq1 : procAt (create_process cfg s name size_kb now).2 (find_free_slot s) = some q := by
      unfold procAt
      rw [hq]
      exact getI_setI_self _ _ _ _ s0 sl
    constructor
    · have e := live_count_set (some q) s0 s1 h.proc_len hq
      rw [snone] at e
      simp only [Option.isSome_some, Option.isSome_none, if_true, Bool.false_eq_true,
        if_false] at e
      rw [hnum, d.count]
      omega
    · intro sl2 p1 i hs1 i0 i1
      have hs2 := hs1
      unfold procAt at hs1
      rw [hq, getI_setI] at hs1
      by_cases c : find_free_slot s = sl2 ∧ 0 ≤ find_free_slot s ∧
          find_free_slot s < (s.processes.length : Int)
      · rw [if_pos c] at hs1
        cases hs1
        have hlen := hinv.table_len _ _ hs2
        unfold pageAt
        rw [qpt]
        apply place_pages_entries cfg (find_free_slot s + 1) now
          (num_pages_of cfg size_kb).toNat 0 s [] 0 rfl
        · intro j j0 j1
          simp at j1
          omega
        · exact i0
        · rw [← qpt, hlen]
          omega
      · rw [if_neg c] at hs1
        exact d.entries sl2 p1 i hs1 i0 i1

theorem DirInv.terminate_kept {cfg : Config} {s : MemorySystem} (d : DirInv cfg s)
    (h : Inv cfg s) (pid now : Int) : DirInv cfg (terminate_process cfg s pid now).2 := by
  cases hf : find_process s pid with
  | none =>
    have e : terminate_process cfg s pid now = (false, s) := by
      unfold terminate_process
      rw [hf]
    rw [e]
    exact d
  | some p =>
    obtain ⟨slot, hslot, hp, _⟩ := find_process_some hf
    obtain ⟨_, _, _, hproc, _, _, hnum⟩ := terminate_process_shape h now hslot hp
    have hr := procAt_range hp
    have hmax : slot < MAX_PROCESSES := by
      have : MAX_PROCESSES = 50 := rfl
      have := h.proc_len
      omega
    constructor
    · have e := live_count_set none hr.1 hmax h.proc_len hproc
      rw [hp] at e
      simp only [Option.isSome_some, Option.isSome_none, if_true, Bool.false_eq_true,
        if_false] at e
      rw [hnum, d.count]
      omega
    · intro sl p1 i hs1
      unfold procAt at hs1
      rw [hproc, getI_setI] at hs1
      by_cases c : slot = sl ∧ 0 ≤ slot ∧ slot < (s.processes.length : Int)
      · rw [if_pos c] at hs1
        cases hs1
      · rw [if_neg c] at hs1
        exact d.entries sl p1 i hs1

theorem DirInv.access_kept {cfg : Config} {s : MemorySystem} (d : DirInv cfg s)
    (h : Inv cfg s) (pid pg now : Int) : DirInv cfg (simulate_access cfg s pid pg now).2 := by
  unfold simulate_access
  by_cases c1 : s.num_processes = 0
  · rw [if_pos c1]; exact d
  · rw [if_neg c1]
    cases hf : find_process s pid with
    | none => exact d
    | some p =>
      simp only []
      by_cases c2 : pg < 0 ∨ pg ≥ p.num_pages
      · rw [if_pos c2]; exact d
      · rw [if_neg c2]
        have h1 : Inv cfg { s with total_memory_accesses := s.total_memory_accesses + 1 } :=
          h.of_eq rfl rfl rfl rfl h.fifo_ok
        have d1 : DirInv cfg { s with total_memory_accesses := s.total_memory_accesses + 1 } :=
          d.of_same_directory rfl rfl
        have h2 := h1.tlb_lookup pid pg now
        obtain ⟨_, _, a, _, b, _⟩ := tlb_lookup_frame cfg
          { s with total_memory_accesses := s.total_memory_accesses + 1 } pid pg now
        have d2 := d1.of_same_directory a b
        split
        · exact d2.log_kept _ _
        · split
          · apply DirInv.log_kept
            exact d2.of_same_directory rfl rfl
          · split
            · split
              · exact d2.swap_in_kept h2 _ _ _
              · exact d2.swap_in_kept h2 _ _ _
            · exact d2

theorem DirInv.of_init_state (cfg : Config) (now : Int) : DirInv cfg (init_system cfg now) := by
  have hp : ∀ i, procAt (init_system cfg now) i = none := by
    intro i
    show getI (add_log _ _ _).processes i none = none
    rw [(add_log_frame _ _ _).2.2.1]
    exact getI_replicate _ _ _
  constructor
  · have e0 : (init_system cfg now).num_processes = 0 := by
      show (add_log _ _ _).num_processes = 0
      rw [(add_log_frame _ _ _).2.2.2.1]
    rw [e0]
    unfold live_count
    have : (indices MAX_PROCESSES).filter (fun i => (procAt (init_system cfg now) i).isSome) =
        [] := by
      rw [List.filter_eq_nil_iff]
      intro i _
      rw [hp]
      simp
    rw [this]
    rfl
  · intro slot p i hs
    rw [hp] at hs
    cases hs

/-- Every state reached from the initial state has a consistent directory and well-formed
page entries. -/
theorem dir_inv_reachable (cfg : Config) (t0 : Int) (ops : List Op) :
    DirInv cfg (run cfg (init_system cfg t0) ops) := by
  have key : ∀ (ops : List Op) (s : MemorySystem), Inv cfg s → DirInv cfg s →
      DirInv cfg (run cfg s ops) := by
    intro ops
    induction ops with
    | nil => intro s _ d; exact d
    | cons op ops ih =>
      intro s h d
      apply ih _ (h.after_step op)
      cases op with
      | create name size_kb now => exact d.create_kept h name size_kb now
      | terminate pid now => exact d.terminate_kept h pid now
      | access pid page now => exact d.access_kept h pid page now
  exact key ops _ (Inv.init cfg t0) (DirInv.of_init_state cfg t0)

/-! ## C27: process directory invariant -/

theorem live_count_le (s : MemorySystem) : (live_count s : Int) ≤ MAX_PROCESSES := by
  unfold live_count
  have h1 := List.length_filter_le (fun i => (procAt s i).isSome) (indices MAX_PROCESSES)
  have h2 : (indices MAX_PROCESSES).length = 50 := by
    unfold indices
    simp
    rfl
  have h3 : MAX_PROCESSES = 50 := rfl
  omega

/-- C27. In every state reachable from `init_system` by `create_process`,
`terminate_process` and simulated page accesses, `num_processes` equals the number of
non-null directory slots and is at most `MAX_PROCESSES` (50), the process in slot `i` has
pid `i + 1` so live pids are pairwise distinct, `create_process` returns -1 without
changing the state when 50 processes are live, and a successful `create_process` uses the
lowest-index empty slot. -/
theorem directory_invariant (cfg : Config) (t0 : Int) (ops : List Op) :
    MAX_PROCESSES = 50 ∧
    (run cfg (init_system cfg t0) ops).num_processes =
      (live_count (run cfg (init_system cfg t0) ops) : Int) ∧
    (run cfg (init_system cfg t0) ops).num_processes ≤ MAX_PROCESSES ∧
    (∀ i p, procAt (run cfg (init_system cfg t0) ops) i = some p → p.pid = i + 1) ∧
    (∀ i j p q, procAt (run cfg (init_system cfg t0) ops) i = some p →
      procAt (run cfg (init_system cfg t0) ops) j = some q → p.pid = q.pid → i = j) ∧
    (∀ (name : String) (size_kb now : Int),
      (run cfg (init_system cfg t0) ops).num_processes = MAX_PROCESSES →
        create_process cfg (run cfg (init_system cfg t0) ops) name size_kb now =
          (-1, run cfg (init_system cfg t0) ops)) ∧
    (∀ (name : String) (size_kb now : Int),
      (create_process cfg (run cfg (init_system cfg t0) ops) name size_kb now).1 ≠ -1 →
        (0 ≤ find_free_slot (run cfg (init_system cfg t0) ops) ∧
          find_free_slot (run cfg (init_system cfg t0) ops) < MAX_PROCESSES) ∧
        procAt (run cfg (init_system cfg t0) ops)
          (find_free_slot (run cfg (init_system cfg t0) ops)) = none ∧
        (∀ j, 0 ≤ j → j < find_free_slot (run cfg (init_system cfg t0) ops) →
          procAt (run cfg (init_system cfg t0) ops) j ≠ none) ∧
        (create_process cfg (run cfg (init_system cfg t0) ops) name size_kb now).1 =
          find_free_slot (run cfg (init_system cfg t0) ops) + 1 ∧
        (∃ q, procAt (create_process cfg (run cfg (init_system cfg t0) ops) name size_kb now).2
            (find_free_slot (run cfg (init_system cfg t0) ops)) = some q ∧
          q.pid = find_free_slot (run cfg (init_system cfg t0) ops) + 1) ∧
        ∀ j, j ≠ find_free_slot (run cfg (init_system cfg t0) ops) →
          procAt (create_process cfg (run cfg (init_system cfg t0) ops) name size_kb now).2 j =
            procAt (run cfg (init_system cfg t0) ops) j) := by
  have h := inv_reachable cfg t0 ops
  have d := dir_inv_reachable cfg t0 ops
  generalize run cfg (init_system cfg t0) ops = s at h d
  refine ⟨rfl, d.count, ?_, h.pid_slot, ?_, ?_, ?_⟩
  · rw [d.count]; exact live_count_le s
  · intro i j p q hp hq he
    have e1 := h.pid_slot i p hp
    have e2 := h.pid_slot j q hq
    omega
  · intro name size_kb now hfull
    unfold create_process
    rw [if_pos (by omega)]
  · intro name size_kb now hres
    obtain ⟨_, _, _, c4, _, hpid, ⟨q, hq, qpid, _⟩, _⟩ := create_process_success hres
    obtain ⟨s0, s1, snone, slow⟩ := find_free_slot_spec s c4
    obtain ⟨hprocs, _⟩ := place_pages_directory cfg (find_free_slot s + 1) now
      (num_pages_of cfg size_kb).toNat 0 s [] 0
    rw [hprocs] at hq
    have sl : find_free_slot s < (s.processes.length : Int) := by
      have := h.proc_len
      have e : MAX_PROCESSES = 50 := rfl
      omega
    refine ⟨⟨s0, s1⟩, snone, slow, hpid, ⟨q, ?_, qpid⟩, ?_⟩
    · unfold procAt
      rw [hq]
      exact getI_setI_self _ _ _ _ s0 sl
    · intro j hj
      unfold procAt
      rw [hq]
      exact getI_setI_ne _ _ _ _ _ (fun hc => hj hc.symm)

/-! ## C28: page-entry well-formedness -/

/-- C28. In every state reachable from `init_system` by `create_process`,
`terminate_process` and simulated page accesses, every page entry of every live process
satisfies `valid = true` if and only if `state = PAGE_IN_RAM`, `frame_number` is in
`[0, NUM_RAM_FRAMES)` if `state = PAGE_IN_RAM` and -1 otherwise, `swap_position` is in
`[0, NUM_SWAP_FRAMES)` if `state = PAGE_IN_SWAP` and -1 otherwise, and `page_number`
equals the entry's index. -/
theorem page_entries_well_formed (cfg : Config) (t0 : Int) (ops : List Op) (pid : Int) (p : PCB)
    (i : Int) (hp : find_process (run cfg (init_system cfg t0) ops) pid = some p)
    (h0 : 0 ≤ i) (h1 : i < p.num_pages) :
    ((pageAt p i).valid = true ↔ (pageAt p i).state = PageState.PAGE_IN_RAM) ∧
    ((pageAt p i).state = PageState.PAGE_IN_RAM →
      0 ≤ (pageAt p i).frame_number ∧ (pageAt p i).frame_number < NUM_RAM_FRAMES cfg) ∧
    ((pageAt p i).state ≠ PageState.PAGE_IN_RAM → (pageAt p i).frame_number = -1) ∧
    ((pageAt p i).state = PageState.PAGE_IN_SWAP →
      0 ≤ (pageAt p i).swap_position ∧ (pageAt p i).swap_position < NUM_SWAP_FRAMES cfg) ∧
    ((pageAt p i).state ≠ PageState.PAGE_IN_SWAP → (pageAt p i).swap_position = -1) ∧
    (pageAt p i).page_number = i := by
  obtain ⟨slot, _, hs, _⟩ := find_process_some hp
  exact (dir_inv_reachable cfg t0 ops).entries slot p i hs h0 h1

/-- Instance of C28: page 9 of a twelve-page process, eight of whose pages are in RAM. -/
theorem page_entries_well_formed_witness :
    ∃ p, find_process (run defaultConfig (init_system defaultConfig 100)
        [Op.create "A" 3072 101]) 1 = some p ∧
      ((pageAt p 9).valid = true ↔ (pageAt p 9).state = PageState.PAGE_IN_RAM) ∧
      ((pageAt p 9).state = PageState.PAGE_IN_RAM →
        0 ≤ (pageAt p 9).frame_number ∧
          (pageAt p 9).frame_number < NUM_RAM_FRAMES defaultConfig) ∧
      ((pageAt p 9).state ≠ PageState.PAGE_IN_RAM → (pageAt p 9).frame_number = -1) ∧
      ((pageAt p 9).state = PageState.PAGE_IN_SWAP →
        0 ≤ (pageAt p 9).swap_position ∧
          (pageAt p 9).swap_position < NUM_SWAP_FRAMES defaultConfig) ∧
      ((pageAt p 9).state ≠ PageState.PAGE_IN_SWAP → (pageAt p 9).swap_position = -1) ∧
      (pageAt p 9).page_number = 9 := by
  cases h : find_process (run defaultConfig (init_system defaultConfig 100)
      [Op.create "A" 3072 101]) 1 with
  | none => exact absurd h (by decide)
  | some p =>
    have hn : p.num_pages = 12 := by
      have e : (find_process (run defaultConfig (init_system defaultConfig 100)
          [Op.create "A" 3072 101]) 1).map (fun q => q.num_pages) = some 12 := by decide
      rw [h] at e
      simpa using e
    exact ⟨p, rfl, page_entries_well_formed defaultConfig 100 [Op.create "A" 3072 101] 1 p 9 h
      (by decide) (by rw [hn]; decide)⟩

/-! ## How the operations change the TLB -/

theorem tlb_kept_same (a : TLBEntry) : tlb_kept a a := fun h => ⟨h, rfl, rfl, rfl⟩

theorem tlb_kept_of_eq {a b : TLBEntry} (h : b = a) : tlb_kept a b := by
  rw [h]; exact tlb_kept_same a

theorem tlb_kept_chain {a b c : TLBEntry} (h1 : tlb_kept a b) (h2 : tlb_kept b c) :
    tlb_kept a c := by
  intro hc
  obtain ⟨v, e1, e2, e3⟩ := h2 hc
  obtain ⟨w, f1, f2, f3⟩ := h1 v
  exact ⟨w, f1.trans e1, f2.trans e2, f3.trans e3⟩

theorem tlb_update_get (cfg : Config) (s : MemorySystem) (pid pg f now j : Int) :
    tlbAt (tlb_update cfg s pid pg f now) j = tlbAt s j ∨
      tlbAt (tlb_update cfg s pid pg f now) j = ⟨pid, pg, f, true, now⟩ := by
  show getI (setI s.tlb _ _) j _ = _ ∨ getI (setI s.tlb _ _) j _ = _
  rw [getI_setI]
  split
  · right; rfl
  · left; rfl

theorem tlb_invalidate_kept (cfg : Config) (s : MemorySystem) (pid j : Int) :
    tlb_kept (tlbAt s j) (tlbAt (tlb_invalidate cfg s pid) j) := by
  rw [tlb_invalidate_get]
  split
  · intro hc; cases hc
  · exact tlb_kept_same _

theorem tlb_lookup_kept (cfg : Config) (s : MemorySystem) (pid pg now j : Int) :
    tlb_kept (tlbAt s j) (tlbAt (tlb_lookup cfg s pid pg now).2 j) := by
  unfold tlb_lookup
  cases tlb_find cfg s pid pg with
  | none => exact tlb_kept_same _
  | some i =>
    show tlb_kept _ (getI (setI s.tlb _ _) j _)
    rw [getI_setI]
    split
    · rename_i c
      rw [c.1]
      intro hv
      exact ⟨hv, rfl, rfl, rfl⟩
    · exact tlb_kept_same _

theorem swap_out_page_kept (cfg : Config) (s : MemorySystem) (f now j : Int) :
    tlb_kept (tlbAt s j) (tlbAt (swap_out_page cfg s f now).2 j) := by
  cases hres : (swap_out_page cfg s f now).1 with
  | false =>
    obtain ⟨_, _, _, _, a, _⟩ := swap_out_failure_unchanged cfg s f now hres
    rw [tlbAt_congr a]
    exact tlb_kept_same _
  | true =>
    obtain ⟨_, _, _, _, _, _, _, _, _, _, _, _, a, _⟩ := swap_out_page_success hres
    rw [tlbAt_congr a]
    exact tlb_invalidate_kept _ _ _ _

/-- A failed `swap_in_page` leaves the TLB as it was. -/
theorem swap_in_page_failure_tlb {cfg : Config} {s : MemorySystem} {pid pg now : Int}
    (hres : (swap_in_page cfg s pid pg now).1 = false) :
    (swap_in_page cfg s pid pg now).2.tlb = s.tlb := by
  revert hres
  unfold swap_in_page
  cases hslot : find_process_slot s pid with
  | none => intro _; rfl
  | some slot =>
    simp only []
    cases hp : procAt s slot with
    | none => intro _; rfl
    | some p =>
      simp only []
      by_cases c1 : pg < 0 ∨ pg ≥ p.num_pages
      · rw [if_pos c1]; intro _; rfl
      · rw [if_neg c1]
        by_cases c2 : (pageAt p pg).state ≠ PageState.PAGE_IN_SWAP
        · rw [if_pos c2]; intro _; rfl
        · rw [if_neg c2]
          by_cases c3 : (pageAt p pg).swap_position < 0 ∨
              (pageAt p pg).swap_position ≥ NUM_SWAP_FRAMES cfg
          · rw [if_pos c3]; intro _; rfl
          · rw [if_neg c3]
            by_cases c4 : find_free_ram_frame cfg s = -1
            · simp only [c4, if_true]
              by_cases c5 : (select_victim_page_fifo s).1 = -1
              · rw [if_pos c5]
                intro _
                exact (add_log_frame _ _ _).2.2.2.2.1.trans (select_victim_frame s).2.2.2.1
              · rw [if_neg c5]
                cases c6 : (swap_out_page cfg (select_victim_page_fifo s).2
                    (select_victim_page_fifo s).1 now).1 with
                | true => simp
                | false =>
                  simp only [Bool.not_false, if_true]
                  intro _
                  exact (swap_out_failure_unchanged cfg _ _ now c6).2.2.2.2.1.trans
                    (select_victim_frame s).2.2.2.1
            · simp only [c4, if_false]
              intro hc
              cases hc

/-- After `swap_in_page` a TLB slot holds no new translation, unless the call succeeded
and the slot holds the translation of the page to the frame it was loaded into. -/
theorem swap_in_page_tlb {cfg : Config} {s : MemorySystem} (h : Inv cfg s)
    (pid pg now j : Int) :
    tlb_kept (tlbAt s j) (tlbAt (swap_in_page cfg s pid pg now).2 j) ∨
    ((swap_in_page cfg s pid pg now).1 = true ∧
      (0 ≤ loaded_frame (swap_in_page cfg s pid pg now).2 pid pg ∧
        loaded_frame (swap_in_page cfg s pid pg now).2 pid pg < NUM_RAM_FRAMES cfg) ∧
      tlbAt (swap_in_page cfg s pid pg now).2 j =
        ⟨pid, pg, loaded_frame (swap_in_page cfg s pid pg now).2 pid pg, true, now⟩) := by
  cases hres : (swap_in_page cfg s pid pg now).1 with
  | false =>
    left
    rw [tlbAt_congr (swap_in_page_failure_tlb hres)]
    exact tlb_kept_same _
  | true =>
    obtain ⟨slot, p, sm, pm, r, _, _, _, _, _, _, _, _, hpm, _, _, _, _,
      r0, r1, _, _, hcase, heq⟩ := swap_in_page_success h hres
    obtain ⟨sm2, r2, hcase2, _, _, hload⟩ := swap_in_page_loaded h hres
    have hr : r2 = r := by
      rcases hcase with ⟨c, _, e⟩ | ⟨c, _, e, _⟩
      · rcases hcase2 with ⟨_, _, e2⟩ | ⟨c2, _⟩
        · rw [e, e2]
        · exact absurd c2 c
      · rcases hcase2 with ⟨c2, _⟩ | ⟨_, _, e2, _⟩
        · exact absurd c c2
        · rw [e, e2]
    rw [hr] at hload
    obtain ⟨_, _, _, htlb, _⟩ :=
      swap_in_finish_shape cfg sm slot pid pg (pageAt p pg).swap_position r now pm hpm
    rw [← heq] at htlb
    have hsm : ∀ j, tlb_kept (tlbAt s j) (tlbAt sm j) := by
      intro j
      rcases hcase with ⟨_, e, _⟩ | ⟨_, _, _, e, _⟩
      · rw [e]; exact tlb_kept_same _
      · rw [e]
        refine tlb_kept_chain ?_ (swap_out_page_kept _ _ _ _ _)
        rw [tlbAt_congr (select_victim_frame s).2.2.2.1]
        exact tlb_kept_same _
    rw [tlbAt_congr htlb, hload]
    rcases tlb_update_get cfg sm pid pg r now j with e | e
    · left
      rw [e]
      exact hsm j
    · right
      exact ⟨rfl, ⟨r0, r1⟩, e⟩

theorem terminate_process_kept {cfg : Config} {s : MemorySystem} (h : Inv cfg s)
    (pid now j : Int) :
    tlb_kept (tlbAt s j) (tlbAt (terminate_process cfg s pid now).2 j) := by
  cases hf : find_process s pid with
  | none =>
    have e : terminate_process cfg s pid now = (false, s) := by
      unfold terminate_process
      rw [hf]
    rw [e]
    exact tlb_kept_same _
  | some p =>
    obtain ⟨slot, hslot, hp, _⟩ := find_process_some hf
    obtain ⟨_, _, _, _, htlb, _⟩ := terminate_process_shape h now hslot hp
    rw [tlbAt_congr htlb]
    exact tlb_invalidate_kept _ _ _ _

/-- The page table under construction only grows. -/
theorem place_pages_extends (cfg : Config) (pid now : Int) (todo : Nat) :
    ∀ (i : Int) (s : MemorySystem) (pt : List PageTableEntry) (k : Int),
      ∃ rest, (place_pages cfg pid now todo i s pt k).page_table = pt ++ rest := by
  induction todo with
  | zero => intro i s pt k; exact ⟨[], by simp [place_pages]⟩
  | succ n ih =>
    intro i s pt k
    rw [place_pages_succ]
    split
    · obtain ⟨rest, e⟩ := ih (i + 1) (place_ram_state cfg s pid i now)
        (pt ++ [ram_entry cfg s i now]) (k + 1)
      exact ⟨ram_entry cfg s i now :: rest, by rw [e]; simp⟩
    · split
      · exact ⟨[], by simp⟩
      · obtain ⟨rest, e⟩ := ih (i + 1) (place_swap_state cfg s pid i now)
          (pt ++ [swap_entry cfg s i now]) k
        exact ⟨swap_entry cfg s i now :: rest, by rw [e]; simp⟩

/-- After the placement loop a TLB slot holds no new translation, or it holds the
translation of a page the loop placed in RAM. -/
theorem place_pages_tlb (cfg : Config) (pid now : Int) (todo : Nat) :
    ∀ (i : Int) (s : MemorySystem) (pt : List PageTableEntry) (k : Int) (j : Int),
      (pt.length : Int) = i →
      tlbAt (place_pages cfg pid now todo i s pt k).sys j = tlbAt s j ∨
      ∃ n, (pt.length : Int) ≤ n ∧
        n < ((place_pages cfg pid now todo i s pt k).page_table.length : Int) ∧
        (getI (place_pages cfg pid now todo i s pt k).page_table n emptyPageEntry).state =
          PageState.PAGE_IN_RAM ∧
        (0 ≤ (getI (place_pages cfg pid now todo i s pt k).page_table n
            emptyPageEntry).frame_number ∧
          (getI (place_pages cfg pid now todo i s pt k).page_table n
            emptyPageEntry).frame_number < NUM_RAM_FRAMES cfg) ∧
        tlbAt (place_pages cfg pid now todo i s pt k).sys j =
          ⟨pid, n, (getI (place_pages cfg pid now todo i s pt k).page_table n
            emptyPageEntry).frame_number, true, now⟩ := by
  induction todo with
  | zero => intro i s pt k j _; left; rfl
  | succ n ih =>
    intro i s pt k j hi
    rw [place_pages_succ]
    by_cases c1 : find_free_ram_frame cfg s ≠ -1
    · rw [if_pos c1]
      obtain ⟨r0, r1, _⟩ := find_free_ram_frame_spec cfg s c1
      have hlen : (((pt ++ [ram_entry cfg s i now]).length : Nat) : Int) = i + 1 := by
        simp only [List.length_append, List.length_singleton]; push_cast; omega
      obtain ⟨rest, hrest⟩ := place_pages_extends cfg pid now n (i + 1)
        (place_ram_state cfg s pid i now) (pt ++ [ram_entry cfg s i now]) (k + 1)
      rcases ih (i + 1) (place_ram_state cfg s pid i now) (pt ++ [ram_entry cfg s i now])
        (k + 1) j hlen with e | ⟨m, m0, m1, m2, m3, m4⟩
      · rcases tlb_update_get cfg
          { s with
            ram_frames := setI s.ram_frames (find_free_ram_frame cfg s) ⟨pid, i, true, now⟩,
            fifo_queue := enqueue_fifo s.fifo_queue (find_free_ram_frame cfg s) }
          pid i (find_free_ram_frame cfg s) now j with e2 | e2
        · left
          rw [e]
          exact e2
        · right
          have hget : getI (place_pages cfg pid now n (i + 1) (place_ram_state cfg s pid i now)
              (pt ++ [ram_entry cfg s i now]) (k + 1)).page_table i emptyPageEntry =
              ram_entry cfg s i now := by
            rw [hrest, List.append_assoc]
            unfold getI
            rw [if_pos (by omega)]
            have e3 : i.toNat = pt.length := by omega
            rw [List.getD_eq_getElem?_getD, e3, List.getElem?_append_right (le_refl _)]
            simp
          refine ⟨i, by omega, ?_, ?_, ?_, ?_⟩
          · rw [hrest]
            simp only [List.length_append, List.length_singleton]
            push_cast
            omega
          · rw [hget]; rfl
          · rw [hget]; exact ⟨r0, r1⟩
          · rw [hget, e]
            exact e2
      · right
        exact ⟨m, by omega, m1, m2, m3, m4⟩
    · rw [if_neg c1]
      by_cases c2 : find_free_swap_frame cfg s = -1
      · rw [if_pos c2]
        left
        obtain ⟨_, a2, _⟩ := free_fold_frame rolled_back_frame pt s
        exact congrFun (tlbAt_congr a2) j
      · rw [if_neg c2]
        have hlen : (((pt ++ [swap_entry cfg s i now]).length : Nat) : Int) = i + 1 := by
          simp only [List.length_append, List.length_singleton]; push_cast; omega
        rcases ih (i + 1) (place_swap_state cfg s pid i now) (pt ++ [swap_entry cfg s i now])
          k j hlen with e | ⟨m, m0, m1, m2, m3, m4⟩
        · left
          rw [e]
          rfl
        · right
          exact ⟨m, by omega, m1, m2, m3, m4⟩

/-- With no free RAM frame the placement loop leaves the TLB as it was. -/
theorem place_pages_tlb_full (cfg : Config) (pid now : Int) (todo : Nat) :
    ∀ (i : Int) (s : MemorySystem) (pt : List PageTableEntry) (k : Int),
      find_free_ram_frame cfg s = -1 →
      (place_pages cfg pid now todo i s pt k).sys.tlb = s.tlb := by
  induction todo with
  | zero => intro i s pt k _; rfl
  | succ n ih =>
    intro i s pt k hfull
    rw [place_pages_succ, if_neg (by simpa using hfull)]
    split
    · exact (free_fold_frame rolled_back_frame pt s).2.1
    · rw [ih]
      · rfl
      · rw [find_free_ram_frame_congr cfg (s := s)]
        · exact hfull
        · rfl

/-- After a successful `create_process` a TLB slot is as before, or it holds the
translation of a page of the new process that was placed in RAM. -/
theorem create_process_tlb {cfg : Config} {s : MemorySystem} (h : Inv cfg s)
    (name : String) (size_kb now : Int)
    (hres : (create_process cfg s name size_kb now).1 ≠ -1) (j : Int) :
    tlbAt (create_process cfg s name size_kb now).2 j = tlbAt s j ∨
    ∃ p i, find_process (create_process cfg s name size_kb now).2
        (create_process cfg s name size_kb now).1 = some p ∧
      (0 ≤ i ∧ i < p.num_pages) ∧ (pageAt p i).state = PageState.PAGE_IN_RAM ∧
      (0 ≤ (pageAt p i).frame_number ∧ (pageAt p i).frame_number < NUM_RAM_FRAMES cfg) ∧
      tlbAt (create_process cfg s name size_kb now).2 j =
        ⟨(create_process cfg s name size_kb now).1, i, (pageAt p i).frame_number, true, now⟩ := by
  have hinv := h.create name size_kb now
  obtain ⟨q, hq, qpt⟩ := h.create_new_process name size_kb now hres
  obtain ⟨_, _, _, _, _, hpid, _, _, _, htlb, _⟩ := create_process_success hres
  obtain ⟨slot, _, hslot, _⟩ := find_process_some hq
  have hlen := hinv.table_len _ _ hslot
  rw [tlbAt_congr htlb]
  rcases place_pages_tlb cfg (find_free_slot s + 1) now (num_pages_of cfg size_kb).toNat 0 s []
    0 j rfl with e | ⟨n, n0, n1, n2, n3, n4⟩
  · left; exact e
  · right
    simp only [List.length_nil, Nat.cast_zero] at n0
    rw [← qpt] at n1 n2 n3 n4
    refine ⟨q, n, hq, ⟨n0, by omega⟩, n2, n3, ?_⟩
    rw [hpid]
    exact n4

/-- After any `create_process` a TLB slot is as before or names a RAM frame. -/
theorem create_process_tlb_frames (cfg : Config) (s : MemorySystem) (name : String)
    (size_kb now j : Int) :
    tlbAt (create_process cfg s name size_kb now).2 j = tlbAt s j ∨
    (0 ≤ (tlbAt (create_process cfg s name size_kb now).2 j).frame_number ∧
      (tlbAt (create_process cfg s name size_kb now).2 j).frame_number < NUM_RAM_FRAMES cfg) := by
  have key : tlbAt (place_pages cfg (find_free_slot s + 1) now (num_pages_of cfg size_kb).toNat
      0 s [] 0).sys j = tlbAt s j ∨
      (0 ≤ (tlbAt (place_pages cfg (find_free_slot s + 1) now (num_pages_of cfg size_kb).toNat
          0 s [] 0).sys j).frame_number ∧
        (tlbAt (place_pages cfg (find_free_slot s + 1) now (num_pages_of cfg size_kb).toNat
          0 s [] 0).sys j).frame_number < NUM_RAM_FRAMES cfg) := by
    rcases place_pages_tlb cfg (find_free_slot s + 1) now (num_pages_of cfg size_kb).toNat 0 s
      [] 0 j rfl with e | ⟨n, _, _, _, n3, n4⟩
    · left; exact e
    · right
      rw [n4]
      exact n3
  by_cases hres : (create_process cfg s name size_kb now).1 = -1
  · rcases create_process_failure hres with e | ⟨_, e⟩
    · left; rw [e]
    · rw [e]; exact key
  · obtain ⟨_, _, _, _, _, _, _, _, _, htlb, _⟩ := create_process_success hres
    rw [tlbAt_congr htlb]
    exact key

/-- After a simulated access a TLB slot holds no new translation, unless the access was
resolved from the page table or by a swap-in and the slot holds the translation of the
accessed page to the frame that was reported. -/
theorem simulate_access_tlb {cfg : Config} {s : MemorySystem} (h : Inv cfg s)
    (d : DirInv cfg s) (pid page now j : Int) :
    tlb_kept (tlbAt s j) (tlbAt (simulate_access cfg s pid page now).2 j) ∨
    ∃ f, ((simulate_access cfg s pid page now).1 = AccessOutcome.page_in_ram f ∨
        (simulate_access cfg s pid page now).1 = AccessOutcome.page_fault_resolved f) ∧
      (0 ≤ f ∧ f < NUM_RAM_FRAMES cfg) ∧
      tlbAt (simulate_access cfg s pid page now).2 j = ⟨pid, page, f, true, now⟩ := by
  unfold simulate_access
  by_cases c1 : s.num_processes = 0
  · rw [if_pos c1]; left; exact tlb_kept_same _
  · rw [if_neg c1]
    cases hf : find_process s pid with
    | none => left; exact tlb_kept_same _
    | some p =>
      simp only []
      by_cases c2 : page < 0 ∨ page ≥ p.num_pages
      · rw [if_pos c2]; left; exact tlb_kept_same _
      · rw [if_neg c2]
        have h1 : Inv cfg { s with total_memory_accesses := s.total_memory_accesses + 1 } :=
          h.of_eq rfl rfl rfl rfl h.fifo_ok
        have h2 := h1.tlb_lookup pid page now
        have k2 : tlb_kept (tlbAt s j) (tlbAt (tlb_lookup cfg
            { s with total_memory_accesses := s.total_memory_accesses + 1 } pid page now).2 j) :=
          tlb_lookup_kept cfg { s with total_memory_accesses := s.total_memory_accesses + 1 }
            pid page now j
        by_cases c3 : (tlb_lookup cfg
            { s with total_memory_accesses := s.total_memory_accesses + 1 } pid page now).1 ≠ -1
        · rw [if_pos c3]
          left
          rw [tlbAt_congr (add_log_frame _ _ _).2.2.2.2.1]
          exact k2
        · rw [if_neg c3]
          by_cases c4 : (pageAt p page).state = PageState.PAGE_IN_RAM
          · rw [if_pos c4]
            obtain ⟨slot, _, hslot, _⟩ := find_process_some hf
            have hr := (d.entries slot p page hslot (by omega) (by omega)).2.1 c4
            rw [tlbAt_congr (add_log_frame _ _ _).2.2.2.2.1]
            rcases tlb_update_get cfg (tlb_lookup cfg
                { s with total_memory_accesses := s.total_memory_accesses + 1 } pid page now).2
              pid page (pageAt p page).frame_number now j with e | e
            · left
              rw [e]
              exact k2
            · right
              exact ⟨_, Or.inl rfl, hr, e⟩
          · rw [if_neg c4]
            by_cases c5 : (pageAt p page).state = PageState.PAGE_IN_SWAP
            · rw [if_pos c5]
              rcases swap_in_page_tlb h2 pid page now j with e | ⟨e1, e2, e3⟩
              · left
                split
                · exact tlb_kept_chain k2 e
                · exact tlb_kept_chain k2 e
              · right
                rw [if_pos e1]
                exact ⟨_, Or.inr rfl, e2, e3⟩
            · rw [if_neg c5]
              left
              exact k2

theorem TlbOK.next {cfg : Config} {s s1 : MemorySystem} (h : TlbOK cfg s)
    (hstep : ∀ j, tlb_kept (tlbAt s j) (tlbAt s1 j) ∨
      (0 ≤ (tlbAt s1 j).frame_number ∧ (tlbAt s1 j).frame_number < NUM_RAM_FRAMES cfg)) :
    TlbOK cfg s1 := by
  intro j hv
  rcases hstep j with e | e
  · obtain ⟨v, _, _, f⟩ := e hv
    rw [← f]
    exact h j v
  · exact e

/-- In every reachable state every valid TLB entry names a RAM frame. -/
theorem tlb_ok_reachable (cfg : Config) (t0 : Int) (ops : List Op) :
    TlbOK cfg (run cfg (init_system cfg t0) ops) := by
  have key : ∀ (ops : List Op) (s : MemorySystem), Inv cfg s → DirInv cfg s → TlbOK cfg s →
      TlbOK cfg (run cfg s ops) := by
    intro ops
    induction ops with
    | nil => intro s _ _ t; exact t
    | cons op ops ih =>
      intro s h d t
      have d1 : DirInv cfg (step cfg s op) := by
        cases op with
        | create name size_kb now => exact d.create_kept h name size_kb now
        | terminate pid now => exact d.terminate_kept h pid now
        | access pid page now => exact d.access_kept h pid page now
      apply ih _ (h.after_step op) d1
      apply t.next
      intro j
      cases op with
      | create name size_kb now =>
        rcases create_process_tlb_frames cfg s name size_kb now j with e | e
        · left; exact tlb_kept_of_eq e
        · right; exact e
      | terminate pid now =>
        left; exact terminate_process_kept h pid now j
      | access pid page now =>
        rcases simulate_access_tlb h d pid page now j with e | ⟨f, _, e2, e3⟩
        · left; exact e
        · right
          show 0 ≤ (tlbAt (simulate_access cfg s pid page now).2 j).frame_number ∧
            (tlbAt (simulate_access cfg s pid page now).2 j).frame_number < NUM_RAM_FRAMES cfg
          rw [e3]
          exact e2
  apply key ops _ (Inv.init cfg t0) (DirInv.of_init_state cfg t0)
  intro j hv
  exfalso
  have e : tlbAt (init_system cfg t0) j = emptyTLBEntry := by
    show getI (add_log _ _ _).tlb j emptyTLBEntry = _
    rw [(add_log_frame _ _ _).2.2.2.2.1]
    exact getI_replicate _ _ _
  rw [e] at hv
  cases hv

/-! ## C21: TLB-hit fast path -/

theorem live_count_pos {s : MemorySystem} {slot : Int} {p : PCB}
    (hlen : s.processes.length = MAX_PROCESSES.toNat)
    (hp : procAt s slot = some p) : 1 ≤ live_count s := by
  have hr := procAt_range hp
  have hm : slot ∈ (indices MAX_PROCESSES).filter (fun i => (procAt s i).isSome) := by
    rw [List.mem_filter, mem_indices]
    refine ⟨⟨hr.1, ?_⟩, by rw [hp]; rfl⟩
    have : MAX_PROCESSES = 50 := rfl
    omega
  exact List.length_pos_of_mem hm

/-- The scan of `tlb_lookup` finds the first valid slot holding the pair. -/
theorem tlb_find_first (cfg : Config) (s : MemorySystem) (pid page i : Int)
    (hi : 0 ≤ i ∧ i < cfg.TLB_SIZE)
    (hent : (tlbAt s i).valid = true ∧ (tlbAt s i).pid = pid ∧ (tlbAt s i).page_number = page)
    (hfirst : ∀ j, 0 ≤ j → j < i →
      ¬ ((tlbAt s j).valid = true ∧ (tlbAt s j).pid = pid ∧ (tlbAt s j).page_number = page)) :
    tlb_find cfg s pid page = some i := by
  have hpi : ((tlbAt s i).valid && decide ((tlbAt s i).pid = pid) &&
      decide ((tlbAt s i).page_number = page)) = true := by
    simp [hent.1, hent.2.1, hent.2.2]
  obtain ⟨k, hk⟩ := indices_find_exists cfg.TLB_SIZE (fun i =>
    (tlbAt s i).valid && decide ((tlbAt s i).pid = pid) &&
      decide ((tlbAt s i).page_number = page)) i hi.1 hi.2 hpi
  obtain ⟨k0, k1, k2, k3⟩ := indices_find_some _ _ _ hk
  have e : k = i := by
    by_contra hne
    rcases lt_or_gt_of_ne hne with hlt | hgt
    · apply hfirst k k0 hlt
      simp only [Bool.and_eq_true, decide_eq_true_eq] at k2
      exact ⟨k2.1.1, k2.1.2, k2.2⟩
    · have := k3 i hi.1 hgt
      simp only [] at this
      rw [hpi] at this
      cases this
  unfold tlb_find
  rw [hk, e]

theorem access_tlb_hit {cfg : Config} {s : MemorySystem} (h : Inv cfg s) (d : DirInv cfg s)
    (t : TlbOK cfg s) {pid page : Int} (now : Int) {p : PCB} {i : Int}
    (hp : find_process s pid = some p) (hpg : 0 ≤ page ∧ page < p.num_pages)
    (hi : 0 ≤ i ∧ i < cfg.TLB_SIZE)
    (hent : (tlbAt s i).valid = true ∧ (tlbAt s i).pid = pid ∧ (tlbAt s i).page_number = page)
    (hfirst : ∀ j, 0 ≤ j → j < i →
      ¬ ((tlbAt s j).valid = true ∧ (tlbAt s j).pid = pid ∧ (tlbAt s j).page_number = page)) :
    TlbHit s i now (simulate_access cfg s pid page now).1
      (simulate_access cfg s pid page now).2 := by
  obtain ⟨slot, _, hslot, _⟩ := find_process_some hp
  have c1 : ¬ s.num_processes = 0 := by
    have := live_count_pos h.proc_len hslot
    rw [d.count]
    omega
  have hfind : tlb_find cfg { s with total_memory_accesses := s.total_memory_accesses + 1 }
      pid page = some i := tlb_find_first cfg s pid page i hi hent hfirst
  have hfr := t i hent.1
  have hlook : tlb_lookup cfg { s with total_memory_accesses := s.total_memory_accesses + 1 }
      pid page now =
      ((tlbAt s i).frame_number,
        { s with total_memory_accesses := s.total_memory_accesses + 1,
                 tlb := setI s.tlb i { tlbAt s i with last_access := now },
                 total_tlb_hits := s.total_tlb_hits + 1 }) := by
    unfold tlb_lookup
    rw [hfind]
    rfl
  have hil : i < (s.tlb.length : Int) := by
    have := h.tlb_len
    omega
  unfold simulate_access
  rw [if_neg c1]
  simp only [hp]
  rw [if_neg (by omega), hlook]
  simp only []
  rw [if_pos (by omega)]
  simp only []
  obtain ⟨a1, a2, a3, a4, a5, a6, a7, a8, a9, a10, a11⟩ := add_log_frame
    { s with total_memory_accesses := s.total_memory_accesses + 1,
             tlb := setI s.tlb i { tlbAt s i with last_access := now },
             total_tlb_hits := s.total_tlb_hits + 1 } now
    ("Acceso a memoria: Proceso " ++ toString pid ++ ", Página " ++ toString page ++
      " - TLB HIT (Marco " ++ toString (tlbAt s i).frame_number ++ ")")
  exact
    { frame := rfl
      counters := ⟨a11, a9, a10⟩
      refreshed := by
        show getI (add_log _ _ _).tlb i emptyTLBEntry = _
        rw [a5]
        exact getI_setI_self _ _ _ _ hi.1 hil
      others := by
        intro j hj
        show getI (add_log _ _ _).tlb j emptyTLBEntry = _
        rw [a5]
        exact getI_setI_ne _ _ _ _ _ (fun hc => hj hc.symm)
      memory := ⟨a3, a1, a2, a6, a4⟩
      faults := ⟨a7, a8⟩ }

/-- C21. For every reachable state and every live `(pid, page)` for which a valid TLB
entry exists (slot `i` being the first such entry), the simulated access returns that
entry's frame, increments `total_memory_accesses` and `total_tlb_hits` by 1 each and
`total_tlb_misses` by 0, refreshes only that entry's `last_access`, and leaves every page
table, RAM frame, Swap slot, FIFO queue element, fault counter and swap counter
unchanged. -/
theorem tlb_hit_fast_path (cfg : Config) (t0 : Int) (ops : List Op) (pid page now : Int)
    (p : PCB) (i : Int)
    (hp : find_process (run cfg (init_system cfg t0) ops) pid = some p)
    (hpg : 0 ≤ page ∧ page < p.num_pages)
    (hi : 0 ≤ i ∧ i < cfg.TLB_SIZE)
    (hent : (tlbAt (run cfg (init_system cfg t0) ops) i).valid = true ∧
      (tlbAt (run cfg (init_system cfg t0) ops) i).pid = pid ∧
      (tlbAt (run cfg (init_system cfg t0) ops) i).page_number = page)
    (hfirst : ∀ j, 0 ≤ j → j < i →
      ¬ ((tlbAt (run cfg (init_system cfg t0) ops) j).valid = true ∧
        (tlbAt (run cfg (init_system cfg t0) ops) j).pid = pid ∧
        (tlbAt (run cfg (init_system cfg t0) ops) j).page_number = page)) :
    TlbHit (run cfg (init_system cfg t0) ops) i now
      (simulate_access cfg (run cfg (init_system cfg t0) ops) pid page now).1
      (simulate_access cfg (run cfg (init_system cfg t0) ops) pid page now).2 :=
  access_tlb_hit (inv_reachable cfg t0 ops) (dir_inv_reachable cfg t0 ops)
    (tlb_ok_reachable cfg t0 ops) now hp hpg hi hent hfirst

/-- Instance of C21: after creating a two-page process, page 1 is in TLB slot 1. -/
theorem tlb_hit_fast_path_witness :
    ∃ p, find_process (run defaultConfig (init_system defaultConfig 100)
        [Op.create "A" 512 101]) 1 = some p ∧
      TlbHit (run defaultConfig (init_system defaultConfig 100) [Op.create "A" 512 101]) 1 102
        (simulate_access defaultConfig
          (run defaultConfig (init_system defaultConfig 100) [Op.create "A" 512 101]) 1 1 102).1
        (simulate_access defaultConfig
          (run defaultConfig (init_system defaultConfig 100) [Op.create "A" 512 101])
          1 1 102).2 := by
  cases h : find_process (run defaultConfig (init_system defaultConfig 100)
      [Op.create "A" 512 101]) 1 with
  | none => exact absurd h (by decide)
  | some p =>
    have hn : p.num_pages = 2 := by
      have e : (find_process (run defaultConfig (init_system defaultConfig 100)
          [Op.create "A" 512 101]) 1).map (fun q => q.num_pages) = some 2 := by decide
      rw [h] at e
      simpa using e
    refine ⟨p, rfl, tlb_hit_fast_path defaultConfig 100 [Op.create "A" 512 101] 1 1 102 p 1 h
      ⟨by decide, by rw [hn]; decide⟩ ⟨by decide, by decide⟩
      ⟨by decide, by decide, by decide⟩ ?_⟩
    intro j j0 j1
    have e : j = 0 := by omega
    subst e
    decide

/-! ## C22: page-table hit without fault -/

/-- The scan of `tlb_lookup` fails when no valid slot holds the pair. -/
theorem tlb_find_none (cfg : Config) (s : MemorySystem) (pid page : Int)
    (hno : ∀ j, 0 ≤ j → j < cfg.TLB_SIZE →
      ¬ ((tlbAt s j).valid = true ∧ (tlbAt s j).pid = pid ∧ (tlbAt s j).page_number = page)) :
    tlb_find cfg s pid page = none := by
  cases hf : tlb_find cfg s pid page with
  | none => rfl
  | some k =>
    exfalso
    unfold tlb_find at hf
    obtain ⟨k0, k1, k2, _⟩ := indices_find_some _ _ _ hf
    simp only [Bool.and_eq_true, decide_eq_true_eq] at k2
    exact hno k k0 k1 ⟨k2.1.1, k2.1.2, k2.2⟩

theorem access_page_table_hit {cfg : Config} {s : MemorySystem} (h : Inv cfg s)
    (d : DirInv cfg s) (hsize : 1 ≤ cfg.TLB_SIZE) {pid page : Int} (now : Int) {p : PCB}
    (hp : find_process s pid = some p) (hpg : 0 ≤ page ∧ page < p.num_pages)
    (hno : ∀ j, 0 ≤ j → j < cfg.TLB_SIZE →
      ¬ ((tlbAt s j).valid = true ∧ (tlbAt s j).pid = pid ∧ (tlbAt s j).page_number = page))
    (hst : (pageAt p page).state = PageState.PAGE_IN_RAM) :
    PageTableHit cfg s pid page (pageAt p page).frame_number now
      (simulate_access cfg s pid page now).1 (simulate_access cfg s pid page now).2 := by
  obtain ⟨slot, _, hslot, _⟩ := find_process_some hp
  have c1 : ¬ s.num_processes = 0 := by
    have := live_count_pos h.proc_len hslot
    rw [d.count]
    omega
  have hfind : tlb_find cfg { s with total_memory_accesses := s.total_memory_accesses + 1 }
      pid page = none := tlb_find_none cfg s pid page hno
  have hlook : tlb_lookup cfg { s with total_memory_accesses := s.total_memory_accesses + 1 }
      pid page now =
      (-1, { s with total_memory_accesses := s.total_memory_accesses + 1,
                    total_tlb_misses := s.total_tlb_misses + 1 }) := by
    unfold tlb_lookup
    rw [hfind]
  have hv := tlb_victim_range cfg s hsize
  have hvl : tlb_victim cfg s < (s.tlb.length : Int) := by
    have := h.tlb_len
    omega
  unfold simulate_access
  rw [if_neg c1]
  simp only [hp]
  rw [if_neg (by omega), hlook]
  simp only []
  rw [if_neg (by simp), if_pos hst]
  simp only []
  obtain ⟨a1, a2, a3, a4, a5, a6, a7, a8, a9, a10, a11⟩ := add_log_frame
    (tlb_update cfg
      { s with total_memory_accesses := s.total_memory_accesses + 1,
               total_tlb_misses := s.total_tlb_misses + 1 }
      pid page (pageAt p page).frame_number now) now
    ("Acceso a memoria: Proceso " ++ toString pid ++ ", Página " ++ toString page ++
      " - En RAM (Marco " ++ toString (pageAt p page).frame_number ++ ")")
  exact
    { frame := rfl
      counters := ⟨a11, a10, a9⟩
      installed := by
        refine ⟨hv, ?_⟩
        show getI (add_log _ _ _).tlb _ emptyTLBEntry = _
        rw [a5]
        exact getI_setI_self _ _ _ _ hv.1 hvl
      others := by
        intro j hj
        show getI (add_log _ _ _).tlb j emptyTLBEntry = _
        rw [a5]
        exact getI_setI_ne _ _ _ _ _ (fun hc => hj hc.symm)
      memory := ⟨a3, a1, a2, a6, a4⟩
      faults := ⟨a7, a8⟩ }

/-- C22. For every reachable state and every live `(pid, page)` with no valid TLB entry
whose page entry is `PAGE_IN_RAM` at frame `r`, the simulated access increments
`total_tlb_misses` by 1, installs a valid TLB entry `(pid, page, r)`, and leaves
`total_page_faults`, the process's `page_faults`, `total_swaps`, every page table, every
RAM frame, every Swap slot and the FIFO queue unchanged. The TLB has at least one slot
(`1 ≤ TLB_SIZE`): `tlb_update` reads and writes `tlb[0]` without a test, so these are the
configurations on which the C code is defined. -/
theorem page_table_hit (cfg : Config) (t0 : Int) (ops : List Op) (pid page now : Int)
    (p : PCB) (hsize : 1 ≤ cfg.TLB_SIZE)
    (hp : find_process (run cfg (init_system cfg t0) ops) pid = some p)
    (hpg : 0 ≤ page ∧ page < p.num_pages)
    (hno : ∀ j, 0 ≤ j → j < cfg.TLB_SIZE →
      ¬ ((tlbAt (run cfg (init_system cfg t0) ops) j).valid = true ∧
        (tlbAt (run cfg (init_system cfg t0) ops) j).pid = pid ∧
        (tlbAt (run cfg (init_system cfg t0) ops) j).page_number = page))
    (hst : (pageAt p page).state = PageState.PAGE_IN_RAM) :
    PageTableHit cfg (run cfg (init_system cfg t0) ops) pid page (pageAt p page).frame_number now
      (simulate_access cfg (run cfg (init_system cfg t0) ops) pid page now).1
      (simulate_access cfg (run cfg (init_system cfg t0) ops) pid page now).2 :=
  access_page_table_hit (inv_reachable cfg t0 ops) (dir_inv_reachable cfg t0 ops) hsize now
    hp hpg hno hst

/-- Instance of C22: a five-page process fills the four TLB slots with its
pages 4, 1, 2, 3; the access of page 0 misses the TLB and is resolved from the page
table. -/
theorem page_table_hit_witness :
    ∃ p, find_process (run defaultConfig (init_system defaultConfig 100)
        [Op.create "A" 1280 101]) 1 = some p ∧
      PageTableHit defaultConfig
        (run defaultConfig (init_system defaultConfig 100) [Op.create "A" 1280 101]) 1 0
        (pageAt p 0).frame_number 102
        (simulate_access defaultConfig
          (run defaultConfig (init_system defaultConfig 100) [Op.create "A" 1280 101]) 1 0 102).1
        (simulate_access defaultConfig
          (run defaultConfig (init_system defaultConfig 100) [Op.create "A" 1280 101])
          1 0 102).2 := by
  cases h : find_process (run defaultConfig (init_system defaultConfig 100)
      [Op.create "A" 1280 101]) 1 with
  | none => exact absurd h (by decide)
  | some p =>
    have e : (find_process (run defaultConfig (init_system defaultConfig 100)
        [Op.create "A" 1280 101]) 1).map (fun q => (q.num_pages, (pageAt q 0).state)) =
        some (5, PageState.PAGE_IN_RAM) := by decide
    rw [h] at e
    simp only [Option.map_some', Option.some.injEq, Prod.mk.injEq] at e
    refine ⟨p, rfl, page_table_hit defaultConfig 100 [Op.create "A" 1280 101] 1 0 102 p
      (by decide) h ⟨by decide, by rw [e.1]; decide⟩ ?_ e.2⟩
    intro j j0 j1
    have hs : defaultConfig.TLB_SIZE = 4 := rfl
    have hj : j = 0 ∨ j = 1 ∨ j = 2 ∨ j = 3 := by omega
    rcases hj with hj | hj | hj | hj <;> subst hj <;> decide

/-! ## C16: capacity check -/

theorem wrap32_of_range (x : Int) (h0 : -2147483648 ≤ x) (h1 : x ≤ 2147483647) :
    wrap32 x = x := by
  unfold wrap32
  rw [Int.emod_eq_of_lt (by omega) (by omega)]
  omega

/-- The accumulation loops of the space check, when the sum stays in range. -/
theorem used_fold (ps : Int) (f : Int → Bool) (l : List Int) (u : Int) (h0 : 0 ≤ u)
    (hps : 0 ≤ ps) (hb : u + ps * (l.length : Int) ≤ 2147483647) :
    l.foldl (fun u i => if f i = true then wrap32 (u + ps) else u) u =
      u + ps * ((l.filter f).length : Int) := by
  induction l generalizing u with
  | nil => simp
  | cons a l ih =>
    have hl : (((a :: l).length : Nat) : Int) = (l.length : Int) + 1 := by simp
    rw [hl] at hb
    have hm : 0 ≤ ps * (l.length : Int) := mul_nonneg hps (by omega)
    have hd : ps * ((l.length : Int) + 1) = ps * (l.length : Int) + ps := by ring
    rw [List.foldl_cons]
    cases hf : f a
    · simp only [Bool.false_eq_true, if_false, List.filter_cons, hf]
      exact ih u h0 (by omega)
    · simp only [if_true, List.filter_cons, hf, List.length_cons]
      rw [wrap32_of_range (u + ps) (by omega) (by omega), ih (u + ps) (by omega) (by omega)]
      push_cast
      ring

theorem frames_nonneg (a b : Int) (ha : 0 ≤ a) (hb : 1 ≤ b) :
    0 ≤ Int.tdiv a b ∧ Int.tdiv a b * b ≤ a := by
  rw [Int.tdiv_eq_ediv ha (by omega)]
  exact ⟨Int.ediv_nonneg ha (by omega), Int.ediv_mul_le a (by omega)⟩

/-- Without overflow, `used_space` is `PAGE_SIZE` times the number of occupied RAM frames
and Swap slots, and the space check compares exact values. -/
theorem space_check_exact (cfg : Config) (s : MemorySystem) (np : Int)
    (hp : 1 ≤ cfg.PAGE_SIZE) (hr : 0 ≤ cfg.RAM_SIZE) (hs : 0 ≤ cfg.SWAP_SIZE)
    (hn0 : 0 ≤ np)
    (hb : np * cfg.PAGE_SIZE + cfg.RAM_SIZE + cfg.SWAP_SIZE ≤ 2147483647) :
    used_space cfg s =
      cfg.PAGE_SIZE * ((occupied_ram_frames cfg s : Int) + (occupied_swap_slots cfg s : Int)) ∧
    (occupied_ram_frames cfg s : Int) ≤ NUM_RAM_FRAMES cfg ∧
    (occupied_swap_slots cfg s : Int) ≤ NUM_SWAP_FRAMES cfg ∧
    (space_check_fails cfg s np = false ↔
      used_space cfg s + np * cfg.PAGE_SIZE ≤
        (NUM_RAM_FRAMES cfg + NUM_SWAP_FRAMES cfg) * cfg.PAGE_SIZE) := by
  have r0 : 0 ≤ NUM_RAM_FRAMES cfg := (frames_nonneg cfg.RAM_SIZE cfg.PAGE_SIZE hr hp).1
  have r1 : NUM_RAM_FRAMES cfg * cfg.PAGE_SIZE ≤ cfg.RAM_SIZE :=
    (frames_nonneg cfg.RAM_SIZE cfg.PAGE_SIZE hr hp).2
  have w0 : 0 ≤ NUM_SWAP_FRAMES cfg := (frames_nonneg cfg.SWAP_SIZE cfg.PAGE_SIZE hs hp).1
  have w1 : NUM_SWAP_FRAMES cfg * cfg.PAGE_SIZE ≤ cfg.SWAP_SIZE :=
    (frames_nonneg cfg.SWAP_SIZE cfg.PAGE_SIZE hs hp).2
  have hnp : 0 ≤ np * cfg.PAGE_SIZE := mul_nonneg hn0 (by omega)
  have lr : ((indices (NUM_RAM_FRAMES cfg)).length : Int) = NUM_RAM_FRAMES cfg := by
    rw [indices_length]
    exact Int.toNat_of_nonneg r0
  have lw : ((indices (NUM_SWAP_FRAMES cfg)).length : Int) = NUM_SWAP_FRAMES cfg := by
    rw [indices_length]
    exact Int.toNat_of_nonneg w0
  have cr : (occupied_ram_frames cfg s : Int) ≤ NUM_RAM_FRAMES cfg := by
    rw [← lr]
    unfold occupied_ram_frames
    exact_mod_cast List.length_filter_le _ _
  have cw : (occupied_swap_slots cfg s : Int) ≤ NUM_SWAP_FRAMES cfg := by
    rw [← lw]
    unfold occupied_swap_slots
    exact_mod_cast List.length_filter_le _ _
  have c0 : 0 ≤ (occupied_ram_frames cfg s : Int) := by omega
  have mr : cfg.PAGE_SIZE * (occupied_ram_frames cfg s : Int) ≤
      NUM_RAM_FRAMES cfg * cfg.PAGE_SIZE := by
    rw [mul_comm]
    exact mul_le_mul_of_nonneg_right cr (by omega)
  have mw : cfg.PAGE_SIZE * (occupied_swap_slots cfg s : Int) ≤
      NUM_SWAP_FRAMES cfg * cfg.PAGE_SIZE := by
    rw [mul_comm]
    exact mul_le_mul_of_nonneg_right cw (by omega)
  have mr0 : 0 ≤ cfg.PAGE_SIZE * (occupied_ram_frames cfg s : Int) :=
    mul_nonneg (by omega) (by omega)
  have mw0 : 0 ≤ cfg.PAGE_SIZE * (occupied_swap_slots cfg s : Int) :=
    mul_nonneg (by omega) (by omega)
  have e1 : (indices (NUM_RAM_FRAMES cfg)).foldl
      (fun u i => if (ramAt s i).occupied = true then wrap32 (u + cfg.PAGE_SIZE) else u) 0 =
      cfg.PAGE_SIZE * (occupied_ram_frames cfg s : Int) := by
    rw [used_fold cfg.PAGE_SIZE (fun i => (ramAt s i).occupied) _ 0 (le_refl _) (by omega)
      (by rw [lr, mul_comm]; omega)]
    unfold occupied_ram_frames
    ring
  have e2 : used_space cfg s =
      cfg.PAGE_SIZE * ((occupied_ram_frames cfg s : Int) + (occupied_swap_slots cfg s : Int)) := by
    unfold used_space
    rw [e1, used_fold cfg.PAGE_SIZE (fun i => (swapAt s i).occupied) _ _ mr0 (by omega)
      (by rw [lw, mul_comm cfg.PAGE_SIZE (NUM_SWAP_FRAMES cfg)]; omega)]
    unfold occupied_swap_slots
    ring
  have e3 : (NUM_RAM_FRAMES cfg + NUM_SWAP_FRAMES cfg) * cfg.PAGE_SIZE =
      NUM_RAM_FRAMES cfg * cfg.PAGE_SIZE + NUM_SWAP_FRAMES cfg * cfg.PAGE_SIZE := by ring
  have e4 : cfg.PAGE_SIZE * ((occupied_ram_frames cfg s : Int) + (occupied_swap_slots cfg s : Int)) =
      cfg.PAGE_SIZE * (occupied_ram_frames cfg s : Int) +
        cfg.PAGE_SIZE * (occupied_swap_slots cfg s : Int) := by ring
  have t0 : 0 ≤ NUM_RAM_FRAMES cfg * cfg.PAGE_SIZE := mul_nonneg r0 (by omega)
  have t1 : 0 ≤ NUM_SWAP_FRAMES cfg * cfg.PAGE_SIZE := mul_nonneg w0 (by omega)
  have t2 : NUM_RAM_FRAMES cfg ≤ NUM_RAM_FRAMES cfg * cfg.PAGE_SIZE :=
    le_mul_of_one_le_right r0 hp
  have t3 : NUM_SWAP_FRAMES cfg ≤ NUM_SWAP_FRAMES cfg * cfg.PAGE_SIZE :=
    le_mul_of_one_le_right w0 hp
  refine ⟨e2, cr, cw, ?_⟩
  unfold space_check_fails
  rw [e2, e4, wrap32_of_range (np * cfg.PAGE_SIZE) (by omega) (by omega),
    wrap32_of_range (_ + np * cfg.PAGE_SIZE) (by omega) (by omega),
    wrap32_of_range (NUM_RAM_FRAMES cfg + NUM_SWAP_FRAMES cfg) (by omega) (by omega),
    wrap32_of_range ((NUM_RAM_FRAMES cfg + NUM_SWAP_FRAMES cfg) * cfg.PAGE_SIZE)
      (by rw [e3]; omega) (by rw [e3]; omega)]
  simp only [decide_eq_false_iff_not, gt_iff_lt, not_lt]

/-- With as many free frames and slots as pages to place, the placement loop succeeds. -/
theorem place_pages_enough (cfg : Config) (pid now : Int) (todo : Nat) :
    ∀ (i : Int) (s : MemorySystem) (pt : List PageTableEntry) (k : Int),
      s.ram_frames.length = (NUM_RAM_FRAMES cfg).toNat →
      s.swap_frames.length = (NUM_SWAP_FRAMES cfg).toNat →
      todo ≤ (free_ram_frames cfg s).length + (free_swap_slots cfg s).length →
      (place_pages cfg pid now todo i s pt k).ok = true := by
  induction todo with
  | zero => intro i s pt k _ _ _; rfl
  | succ n ih =>
    intro i s pt k hrl hsl hroom
    rw [place_pages_succ]
    by_cases c1 : find_free_ram_frame cfg s ≠ -1
    · rw [if_pos c1]
      obtain ⟨rest, hF⟩ := free_ram_frames_cons cfg s c1
      have hF1 : free_ram_frames cfg (place_ram_state cfg s pid i now) = rest :=
        free_ram_frames_fill cfg s _ _ rest hrl hF ⟨pid, i, true, now⟩ rfl rfl
      have hG1 : free_swap_slots cfg (place_ram_state cfg s pid i now) =
          free_swap_slots cfg s := rfl
      apply ih
      · show (setI s.ram_frames _ _).length = _
        rw [length_setI]; exact hrl
      · exact hsl
      · rw [hF1, hG1]
        rw [hF] at hroom
        simp only [List.length_cons] at hroom
        omega
    · rw [if_neg c1]
      have c1' : find_free_ram_frame cfg s = -1 := by
        by_contra hc; exact c1 hc
      have hF := free_ram_frames_nil cfg s c1'
      rw [hF] at hroom
      simp only [List.length_nil, zero_add] at hroom
      have hhead := find_free_swap_frame_eq_head cfg s
      cases hG : free_swap_slots cfg s with
      | nil =>
        rw [hG] at hroom
        simp at hroom
      | cons g G1 =>
        rw [hG] at hhead hroom
        simp only [List.head?_cons, Option.getD_some] at hhead
        have hg : g ∈ free_swap_slots cfg s := by rw [hG]; simp
        unfold free_swap_slots at hg
        rw [List.mem_filter, mem_indices] at hg
        have c2 : find_free_swap_frame cfg s ≠ -1 := by
          rw [hhead]
          omega
        rw [if_neg c2]
        have hrlen : find_free_swap_frame cfg s < (s.swap_frames.length : Int) := by
          rw [hhead, hsl]
          omega
        have hG1 : free_swap_slots cfg (place_swap_state cfg s pid i now) = G1 := by
          unfold free_swap_slots at hG ⊢
          apply filter_free_tail (NUM_SWAP_FRAMES cfg) s.swap_frames _ g G1 hG
          · intro j hj
            show getI (setI s.swap_frames _ _) j emptyFrame = _
            rw [hhead]
            exact getI_setI_ne _ _ _ _ _ (fun hc => hj hc.symm)
          · show (getI (setI s.swap_frames _ _) g emptyFrame).occupied = true
            rw [← hhead, getI_setI_self _ _ _ _ (by rw [hhead]; exact hg.1.1) hrlen]
        have hF1 : free_ram_frames cfg (place_swap_state cfg s pid i now) =
            free_ram_frames cfg s := rfl
        apply ih
        · exact hrl
        · show (setI s.swap_frames _ _).length = _
          rw [length_setI]; exact hsl
        · rw [hF1, hG1, hF]
          simp only [List.length_cons] at hroom
          simp only [List.length_nil, zero_add]
          omega

/-- The free and the occupied frames of a pool together are the pool. -/
theorem free_plus_occupied (cfg : Config) (s : MemorySystem) :
    (free_ram_frames cfg s).length + occupied_ram_frames cfg s = (NUM_RAM_FRAMES cfg).toNat ∧
    (free_swap_slots cfg s).length + occupied_swap_slots cfg s =
      (NUM_SWAP_FRAMES cfg).toNat := by
  unfold free_ram_frames free_swap_slots occupied_ram_frames occupied_swap_slots
  have a := List.length_eq_length_filter_add (l := indices (NUM_RAM_FRAMES cfg))
    (fun i => (ramAt s i).occupied)
  have b := List.length_eq_length_filter_add (l := indices (NUM_SWAP_FRAMES cfg))
    (fun i => (swapAt s i).occupied)
  rw [indices_length] at a b
  omega

/-- With a free directory slot, a request that passes the space check without overflow is
placed completely and gets the pid of the lowest free slot. -/
theorem create_process_passes {cfg : Config} {s : MemorySystem} (h : Inv cfg s)
    (d : DirInv cfg s) (name : String) (size_kb now : Int)
    (hp : 1 ≤ cfg.PAGE_SIZE) (hr : 0 ≤ cfg.RAM_SIZE) (hs : 0 ≤ cfg.SWAP_SIZE)
    (hsz : 0 < size_kb)
    (hb : size_kb + cfg.PAGE_SIZE - 1 + cfg.RAM_SIZE + cfg.SWAP_SIZE ≤ 2147483647)
    (hslot : find_free_slot s ≠ -1)
    (hfit : used_space cfg s + num_pages_of cfg size_kb * cfg.PAGE_SIZE ≤
      (NUM_RAM_FRAMES cfg + NUM_SWAP_FRAMES cfg) * cfg.PAGE_SIZE) :
    (create_process cfg s name size_kb now).1 = find_free_slot s + 1 ∧
    (create_process cfg s name size_kb now).1 ≠ -1 ∧
    (place_pages cfg (find_free_slot s + 1) now (num_pages_of cfg size_kb).toNat 0 s []
      0).ok = true := by
  obtain ⟨_, n1, n2, _, _⟩ := num_pages_of_exact cfg size_kb hp hsz (by omega)
  have n3 : (num_pages_of cfg size_kb - 1) * cfg.PAGE_SIZE =
      num_pages_of cfg size_kb * cfg.PAGE_SIZE - cfg.PAGE_SIZE := by ring
  obtain ⟨e2, _, _, hiff⟩ := space_check_exact cfg s (num_pages_of cfg size_kb) hp hr hs
    (by omega) (by omega)
  have hcheck := hiff.2 hfit
  obtain ⟨s0, s1, snone, _⟩ := find_free_slot_spec s hslot
  have c1 : ¬ s.num_processes ≥ MAX_PROCESSES := by
    have hlt : live_count s < (indices MAX_PROCESSES).length := by
      unfold live_count
      rw [List.length_filter_lt_length_iff_exists]
      exact ⟨find_free_slot s, (mem_indices _ _).2 ⟨s0, s1⟩, by rw [snone]; simp⟩
    rw [indices_length] at hlt
    have e : MAX_PROCESSES = 50 := rfl
    rw [d.count, e]
    rw [e] at hlt
    have : (50 : Int).toNat = 50 := rfl
    omega
  obtain ⟨f1, f2⟩ := free_plus_occupied cfg s
  have r0 : 0 ≤ NUM_RAM_FRAMES cfg := (frames_nonneg cfg.RAM_SIZE cfg.PAGE_SIZE hr hp).1
  have w0 : 0 ≤ NUM_SWAP_FRAMES cfg := (frames_nonneg cfg.SWAP_SIZE cfg.PAGE_SIZE hs hp).1
  have hroom : (num_pages_of cfg size_kb).toNat ≤
      (free_ram_frames cfg s).length + (free_swap_slots cfg s).length := by
    rw [e2] at hfit
    have e3 : cfg.PAGE_SIZE * ((occupied_ram_frames cfg s : Int) +
        (occupied_swap_slots cfg s : Int)) + num_pages_of cfg size_kb * cfg.PAGE_SIZE =
        ((occupied_ram_frames cfg s : Int) + (occupied_swap_slots cfg s : Int) +
          num_pages_of cfg size_kb) * cfg.PAGE_SIZE := by ring
    rw [e3] at hfit
    have := le_of_mul_le_mul_right hfit (by omega : (0 : Int) < cfg.PAGE_SIZE)
    omega
  have hok := place_pages_enough cfg (find_free_slot s + 1) now (num_pages_of cfg size_kb).toNat
    0 s [] 0 h.ram_len h.swap_len hroom
  refine ⟨?_, ?_, hok⟩
  · unfold create_process
    rw [if_neg c1, if_neg (by omega)]
    simp only []
    rw [if_neg (by rw [hcheck]; simp), if_neg hslot]
    simp only [hok, Bool.not_true, Bool.false_eq_true, if_false]
  · unfold create_process
    rw [if_neg c1, if_neg (by omega)]
    simp only []
    rw [if_neg (by rw [hcheck]; simp), if_neg hslot]
    simp only [hok, Bool.not_true, Bool.false_eq_true, if_false]
    omega

/-- C16 as stated fails: with `RAM_SIZE = SWAP_SIZE = 384` and `PAGE_SIZE = 256` there is
one RAM frame and one Swap slot; in the initial state a request of 768 KB (3 pages)
satisfies `used_space + requested_pages * PAGE_SIZE ≤ RAM_SIZE + SWAP_SIZE` (768 ≤ 768),
yet the space check refuses it and `create_process` returns -1, because the code compares
with `(NUM_RAM_FRAMES + NUM_SWAP_FRAMES) * PAGE_SIZE = 512`. -/
theorem capacity_check_rounds_down :
    find_free_slot (init_system uneven_config 100) ≠ -1 ∧
    used_space uneven_config (init_system uneven_config 100) +
        num_pages_of uneven_config 768 * uneven_config.PAGE_SIZE ≤
      uneven_config.RAM_SIZE + uneven_config.SWAP_SIZE ∧
    space_check_fails uneven_config (init_system uneven_config 100)
      (num_pages_of uneven_config 768) = true ∧
    (create_process uneven_config (init_system uneven_config 100) "A" 768 101).1 = -1 ∧
    (NUM_RAM_FRAMES uneven_config + NUM_SWAP_FRAMES uneven_config) * uneven_config.PAGE_SIZE =
      512 := by
  refine ⟨by decide, by decide, by decide, by decide, by decide⟩

/-- C16, amended. For every configuration with `PAGE_SIZE ≥ 1` and non-negative
`RAM_SIZE` and `SWAP_SIZE`, every reachable state with a free directory slot and every
`size_kb > 0` for which `size_kb + PAGE_SIZE - 1 + RAM_SIZE + SWAP_SIZE` fits in an `int`,
`used_space` is `PAGE_SIZE` times the number of occupied RAM frames and Swap slots,
`create_process` passes its space check exactly when
`used_space + requested_pages * PAGE_SIZE ≤ (RAM_SIZE / PAGE_SIZE + SWAP_SIZE / PAGE_SIZE) *
PAGE_SIZE`, it then returns a pid, and it returns -1 leaving the state unchanged exactly
when that inequality is false. -/
theorem capacity_check (cfg : Config) (t0 : Int) (ops : List Op) (name : String)
    (size_kb now : Int)
    (hp : 1 ≤ cfg.PAGE_SIZE) (hr : 0 ≤ cfg.RAM_SIZE) (hs : 0 ≤ cfg.SWAP_SIZE)
    (hsz : 0 < size_kb)
    (hb : size_kb + cfg.PAGE_SIZE - 1 + cfg.RAM_SIZE + cfg.SWAP_SIZE ≤ 2147483647)
    (hslot : find_free_slot (run cfg (init_system cfg t0) ops) ≠ -1) :
    used_space cfg (run cfg (init_system cfg t0) ops) =
      cfg.PAGE_SIZE * ((occupied_ram_frames cfg (run cfg (init_system cfg t0) ops) : Int) +
        (occupied_swap_slots cfg (run cfg (init_system cfg t0) ops) : Int)) ∧
    (space_check_fails cfg (run cfg (init_system cfg t0) ops) (num_pages_of cfg size_kb) =
        false ↔
      used_space cfg (run cfg (init_system cfg t0) ops) +
          num_pages_of cfg size_kb * cfg.PAGE_SIZE ≤
        (NUM_RAM_FRAMES cfg + NUM_SWAP_FRAMES cfg) * cfg.PAGE_SIZE) ∧
    (used_space cfg (run cfg (init_system cfg t0) ops) +
          num_pages_of cfg size_kb * cfg.PAGE_SIZE ≤
        (NUM_RAM_FRAMES cfg + NUM_SWAP_FRAMES cfg) * cfg.PAGE_SIZE →
      (create_process cfg (run cfg (init_system cfg t0) ops) name size_kb now).1 ≠ -1) ∧
    (¬ used_space cfg (run cfg (init_system cfg t0) ops) +
          num_pages_of cfg size_kb * cfg.PAGE_SIZE ≤
        (NUM_RAM_FRAMES cfg + NUM_SWAP_FRAMES cfg) * cfg.PAGE_SIZE →
      create_process cfg (run cfg (init_system cfg t0) ops) name size_kb now =
        (-1, run cfg (init_system cfg t0) ops)) ∧
    NUM_RAM_FRAMES cfg = cfg.RAM_SIZE / cfg.PAGE_SIZE ∧
    NUM_SWAP_FRAMES cfg = cfg.SWAP_SIZE / cfg.PAGE_SIZE := by
  have h := inv_reachable cfg t0 ops
  have d := dir_inv_reachable cfg t0 ops
  generalize run cfg (init_system cfg t0) ops = s at h d hslot
  obtain ⟨_, n1, n2, _, _⟩ := num_pages_of_exact cfg size_kb hp hsz (by omega)
  have n3 : (num_pages_of cfg size_kb - 1) * cfg.PAGE_SIZE =
      num_pages_of cfg size_kb * cfg.PAGE_SIZE - cfg.PAGE_SIZE := by ring
  obtain ⟨e2, _, _, hiff⟩ := space_check_exact cfg s (num_pages_of cfg size_kb) hp hr hs
    (by omega) (by omega)
  refine ⟨e2, hiff, ?_, ?_, Int.tdiv_eq_ediv hr (by omega), Int.tdiv_eq_ediv hs (by omega)⟩
  · intro hfit
    exact (create_process_passes h d name size_kb now hp hr hs hsz hb hslot hfit).2.1
  · intro hno
    have hcheck : space_check_fails cfg s (num_pages_of cfg size_kb) = true := by
      cases hc : space_check_fails cfg s (num_pages_of cfg size_kb)
      · exact absurd (hiff.1 hc) hno
      · rfl
    unfold create_process
    split
    · rfl
    · rw [if_neg (by omega)]
      simp only []
      rw [if_pos hcheck]

/-- Instance of the amended C16: the default configuration with one page in use and a
request of 512 KB. -/
theorem capacity_check_witness :
    (space_check_fails defaultConfig
        (run defaultConfig (init_system defaultConfig 100) [Op.create "A" 256 101])
        (num_pages_of defaultConfig 512) = false ↔
      used_space defaultConfig
          (run defaultConfig (init_system defaultConfig 100) [Op.create "A" 256 101]) +
          num_pages_of defaultConfig 512 * defaultConfig.PAGE_SIZE ≤
        (NUM_RAM_FRAMES defaultConfig + NUM_SWAP_FRAMES defaultConfig) *
          defaultConfig.PAGE_SIZE) :=
  (capacity_check defaultConfig 100 [Op.create "A" 256 101] "B" 512 102 (by decide) (by decide)
    (by decide) (by decide) (by decide) (by decide)).2.1

/-! ## C23: queue length invariant -/

/-- C23 fails on the code at this input: after `create_process("A", 256)` and
`terminate_process(1)` no RAM frame is occupied, but the frame A held is still in the
queue, whose size is 1: `terminate_process` frees the frames without taking them out of
the queue. -/
theorem queue_length_after_terminate :
    (run defaultConfig (init_system defaultConfig 100)
      [Op.create "A" 256 101]).fifo_queue.size = 1 ∧
    occupied_ram_frames defaultConfig (run defaultConfig (init_system defaultConfig 100)
      [Op.create "A" 256 101]) = 1 ∧
    (terminate_process defaultConfig (run defaultConfig (init_system defaultConfig 100)
      [Op.create "A" 256 101]) 1 102).1 = true ∧
    (run defaultConfig (init_system defaultConfig 100)
      [Op.create "A" 256 101, Op.terminate 1 102]).fifo_queue.size = 1 ∧
    occupied_ram_frames defaultConfig (run defaultConfig (init_system defaultConfig 100)
      [Op.create "A" 256 101, Op.terminate 1 102]) = 0 := by
  refine ⟨by decide, by decide, by decide, by decide, by decide⟩

/-! ## C24: where TLB entries come from -/

/-- C24 as stated fails: in the initial state the TLB is empty, and after
`create_process("A", 256)` slot 0 holds the valid entry (pid 1, page 0, frame 0):
`create_process` calls `tlb_update` for every page it places in RAM. -/
theorem creation_fills_tlb :
    (init_system defaultConfig 100).tlb.map
        (fun e => (e.valid, e.pid, e.page_number, e.frame_number)) =
      [(false, -1, -1, -1), (false, -1, -1, -1), (false, -1, -1, -1), (false, -1, -1, -1)] ∧
    (create_process defaultConfig (init_system defaultConfig 100) "A" 256 101).1 = 1 ∧
    (create_process defaultConfig (init_system defaultConfig 100) "A" 256 101).2.tlb.map
        (fun e => (e.valid, e.pid, e.page_number, e.frame_number)) =
      [(true, 1, 0, 0), (false, -1, -1, -1), (false, -1, -1, -1), (false, -1, -1, -1)] := by
  refine ⟨by decide, by decide, by decide⟩

/-- With no free RAM frame `create_process` leaves the TLB as it was. -/
theorem create_process_tlb_full (cfg : Config) (s : MemorySystem) (name : String)
    (size_kb now : Int) (hfull : find_free_ram_frame cfg s = -1) :
    (create_process cfg s name size_kb now).2.tlb = s.tlb := by
  have key := place_pages_tlb_full cfg (find_free_slot s + 1) now
    (num_pages_of cfg size_kb).toNat 0 s [] 0 hfull
  by_cases hres : (create_process cfg s name size_kb now).1 = -1
  · rcases create_process_failure hres with e | ⟨_, e⟩
    · rw [e]
    · rw [e]; exact key
  · obtain ⟨_, _, _, _, _, _, _, _, _, htlb, _⟩ := create_process_success hres
    rw [htlb]
    exact key

/-- A request refused by one of the four checks changes nothing. -/
theorem create_process_refused (cfg : Config) (s : MemorySystem) (name : String)
    (size_kb now : Int)
    (h : s.num_processes ≥ MAX_PROCESSES ∨ size_kb ≤ 0 ∨
      space_check_fails cfg s (num_pages_of cfg size_kb) = true ∨ find_free_slot s = -1) :
    create_process cfg s name size_kb now = (-1, s) := by
  unfold create_process
  split
  · rfl
  · split
    · rfl
    · simp only []
      split
      · rfl
      · split
        · rfl
        · rename_i c1 c2 c3 c4
          rcases h with h | h | h | h
          · exact absurd h c1
          · exact absurd h c2
          · exact absurd h c3
          · exact absurd h c4

/-- C24, amended. A valid TLB entry is created only by `create_process` placing a page of
the new process in a RAM frame, or by the successful resolution of a simulated access
(page-table hit while in RAM, or a resolved page fault); `terminate_process` creates none.
In every reachable state: after `terminate_process` every slot holds no new translation;
after a simulated access a slot holds no new translation unless the access was resolved
and the slot holds the accessed page with the reported frame; after a `create_process`
that returns a pid each slot is as before or holds the entry `(pid, i, f)` of a page `i`
of the new process placed in RAM frame `f`; the TLB is unchanged by `create_process` when
no RAM frame is free; and a request refused by one of the four checks changes nothing. -/
theorem tlb_entry_sources (cfg : Config) (t0 : Int) (ops : List Op) :
    (∀ pid now j, tlb_kept (tlbAt (run cfg (init_system cfg t0) ops) j)
      (tlbAt (terminate_process cfg (run cfg (init_system cfg t0) ops) pid now).2 j)) ∧
    (∀ pid page now j,
      tlb_kept (tlbAt (run cfg (init_system cfg t0) ops) j)
        (tlbAt (simulate_access cfg (run cfg (init_system cfg t0) ops) pid page now).2 j) ∨
      ∃ f, ((simulate_access cfg (run cfg (init_system cfg t0) ops) pid page now).1 =
            AccessOutcome.page_in_ram f ∨
          (simulate_access cfg (run cfg (init_system cfg t0) ops) pid page now).1 =
            AccessOutcome.page_fault_resolved f) ∧
        tlbAt (simulate_access cfg (run cfg (init_system cfg t0) ops) pid page now).2 j =
          ⟨pid, page, f, true, now⟩) ∧
    (∀ name size_kb now j,
      (create_process cfg (run cfg (init_system cfg t0) ops) name size_kb now).1 ≠ -1 →
      tlbAt (create_process cfg (run cfg (init_system cfg t0) ops) name size_kb now).2 j =
        tlbAt (run cfg (init_system cfg t0) ops) j ∨
      ∃ p i, find_process
          (create_process cfg (run cfg (init_system cfg t0) ops) name size_kb now).2
          (create_process cfg (run cfg (init_system cfg t0) ops) name size_kb now).1 = some p ∧
        (0 ≤ i ∧ i < p.num_pages) ∧ (pageAt p i).state = PageState.PAGE_IN_RAM ∧
        tlbAt (create_process cfg (run cfg (init_system cfg t0) ops) name size_kb now).2 j =
          ⟨(create_process cfg (run cfg (init_system cfg t0) ops) name size_kb now).1, i,
            (pageAt p i).frame_number, true, now⟩) ∧
    (∀ name size_kb now, find_free_ram_frame cfg (run cfg (init_system cfg t0) ops) = -1 →
      (create_process cfg (run cfg (init_system cfg t0) ops) name size_kb now).2.tlb =
        (run cfg (init_system cfg t0) ops).tlb) ∧
    (∀ name size_kb now,
      ((run cfg (init_system cfg t0) ops).num_processes ≥ MAX_PROCESSES ∨ size_kb ≤ 0 ∨
        space_check_fails cfg (run cfg (init_system cfg t0) ops) (num_pages_of cfg size_kb) =
          true ∨
        find_free_slot (run cfg (init_system cfg t0) ops) = -1) →
      create_process cfg (run cfg (init_system cfg t0) ops) name size_kb now =
        (-1, run cfg (init_system cfg t0) ops)) := by
  have h := inv_reachable cfg t0 ops
  have d := dir_inv_reachable cfg t0 ops
  generalize run cfg (init_system cfg t0) ops = s at h d
  refine ⟨?_, ?_, ?_, ?_, ?_⟩
  · intro pid now j
    exact terminate_process_kept h pid now j
  · intro pid page now j
    rcases simulate_access_tlb h d pid page now j with e | ⟨f, e1, _, e3⟩
    · left; exact e
    · right; exact ⟨f, e1, e3⟩
  · intro name size_kb now j hres
    rcases create_process_tlb h name size_kb now hres j with e | ⟨p, i, e1, e2, e3, _, e5⟩
    · left; exact e
    · right; exact ⟨p, i, e1, e2, e3, e5⟩
  · intro name size_kb now hfull
    exact create_process_tlb_full cfg s name size_kb now hfull
  · intro name size_kb now hc
    exact create_process_refused cfg s name size_kb now hc

/-! ## C25: direct allocation in RAM -/

theorem allocate_page_in_ram_spec {cfg : Config} {s : MemorySystem} (h : Inv cfg s)
    (pid page now : Int) :
    DirectAllocation cfg s pid page now (allocate_page_in_ram cfg s pid page now).1
      (allocate_page_in_ram cfg s pid page now).2 := by
  unfold allocate_page_in_ram
  by_cases c : find_free_ram_frame cfg s = -1
  · simp only [c, if_true]
    obtain ⟨v1, v2, v3, v4, _⟩ := select_victim_frame s
    by_cases c5 : (select_victim_page_fifo s).1 = -1
    · rw [if_pos c5]
      exact
        { free_case := fun hc => absurd c hc
          full_failure := fun _ _ => ⟨Or.inl c5, v1, v2, v3, v4⟩
          full_success := fun _ hr => absurd rfl hr }
    · rw [if_neg c5]
      cases c6 : (swap_out_page cfg (select_victim_page_fifo s).2
          (select_victim_page_fifo s).1 now).1 with
      | false =>
        simp only [Bool.not_false, if_true]
        obtain ⟨a1, a2, a3, _, a5, _⟩ := swap_out_failure_unchanged cfg _ _ now c6
        exact
          { free_case := fun hc => absurd c hc
            full_failure := fun _ _ =>
              ⟨Or.inr c6, a1.trans v1, a2.trans v2, a3.trans v3, a5.trans v4⟩
            full_success := fun _ hr => absurd rfl hr }
      | true =>
        simp only [Bool.not_true, Bool.false_eq_true, if_false]
        have hsv := h.select_victim
        obtain ⟨_, _, f0, f1, focc, _⟩ := swap_out_page_success c6
        have hne : s.fifo_queue.size ≠ 0 := by
          intro hc
          apply c5
          simp [select_victim_page_fifo, is_fifo_empty, hc]
        have hv1 : (select_victim_page_fifo s).1 = (dequeue_fifo s.fifo_queue).1 := by
          simp [select_victim_page_fifo, is_fifo_empty, hne]
        have hlen := (hsv.swap_out (select_victim_page_fifo s).1 now).ram_len
        exact
          { free_case := fun hc => absurd c hc
            full_failure := fun _ hr => absurd hr c5
            full_success := fun _ _ => by
              refine ⟨hne, hv1, ?_, c6, ?_⟩
              · rw [← congrFun (ramAt_congr v1) _]
                exact focc
              · show getI (setI _ _ _) _ emptyFrame = _
                apply getI_setI_self _ _ _ _ f0
                rw [hlen]
                omega }
  · simp only [c, if_false]
    obtain ⟨r0, r1, rfree, rlow⟩ := find_free_ram_frame_spec cfg s c
    have hlen := h.ram_len
    exact
      { free_case := fun _ => by
          refine ⟨rfl, ⟨⟨r0, r1⟩, rfree, rlow⟩, ?_, ?_, rfl, rfl, rfl⟩
          · show getI (setI _ _ _) _ emptyFrame = _
            apply getI_setI_self _ _ _ _ r0
            rw [hlen]
            omega
          · intro j hj
            show getI (setI _ _ _) _ emptyFrame = _
            exact getI_setI_ne _ _ _ _ _ (fun hc => hj hc.symm)
        full_failure := fun hc => absurd hc c
        full_success := fun hc => absurd hc c }

/-- C25 as stated fails: with the eight RAM frames held by A and Swap free,
`allocate_page_in_ram(2, 0)` does not return -1; it takes frame 0 from the queue, swaps
page 0 of A out to Swap slot 0 and returns frame 0, now occupied by `(2, 0)`. -/
theorem direct_allocation_evicts :
    find_free_ram_frame defaultConfig
      (run defaultConfig (init_system defaultConfig 100) [Op.create "A" 2048 101]) = -1 ∧
    (allocate_page_in_ram defaultConfig
      (run defaultConfig (init_system defaultConfig 100) [Op.create "A" 2048 101])
      2 0 102).1 = 0 ∧
    ramAt (run defaultConfig (init_system defaultConfig 100) [Op.create "A" 2048 101]) 0 =
      ⟨1, 0, true, 101⟩ ∧
    ramAt (allocate_page_in_ram defaultConfig
      (run defaultConfig (init_system defaultConfig 100) [Op.create "A" 2048 101])
      2 0 102).2 0 = ⟨2, 0, true, 102⟩ ∧
    (swapAt (run defaultConfig (init_system defaultConfig 100) [Op.create "A" 2048 101])
      0).occupied = false ∧
    swapAt (allocate_page_in_ram defaultConfig
      (run defaultConfig (init_system defaultConfig 100) [Op.create "A" 2048 101])
      2 0 102).2 0 = ⟨1, 0, true, 102⟩ ∧
    (find_process (allocate_page_in_ram defaultConfig
      (run defaultConfig (init_system defaultConfig 100) [Op.create "A" 2048 101])
      2 0 102).2 1).map (fun p => (pageAt p 0).state) = some PageState.PAGE_IN_SWAP := by
  refine ⟨by decide, by decide, by decide, by decide, by decide, by decide, by decide⟩

/-- C25, amended. For every reachable state, when a RAM frame is free
`allocate_page_in_ram(pid, page)` returns the lowest-index free frame, now occupied by
`(pid, page)`; when no RAM frame is free it takes the frame at the head of the FIFO queue
as victim and swaps its page out: if no victim can be taken or the victim cannot be
swapped out it returns -1 and changes no RAM frame, Swap slot, page table or TLB entry,
and otherwise it returns the victim frame, now occupied by `(pid, page)`. -/
theorem direct_allocation (cfg : Config) (t0 : Int) (ops : List Op) (pid page now : Int) :
    DirectAllocation cfg (run cfg (init_system cfg t0) ops) pid page now
      (allocate_page_in_ram cfg (run cfg (init_system cfg t0) ops) pid page now).1
      (allocate_page_in_ram cfg (run cfg (init_system cfg t0) ops) pid page now).2 :=
  allocate_page_in_ram_spec (inv_reachable cfg t0 ops) pid page now

/-! ## C29: the victim is the oldest load -/

/-- C29 fails on the code at this input: in `stale_queue_state` every RAM frame is occupied
and the pages loaded earliest are those of B (frames 4-7, time 102); the access of page 4
of C has to evict, and the victim taken from the queue is frame 0, whose current page
(page 0 of C) was loaded last, at time 104. The queue still holds the entries of the
frames of A, which `terminate_process` did not remove, and the enqueues of C were dropped
because the queue was full. -/
theorem victim_not_oldest :
    find_free_ram_frame defaultConfig stale_queue_state = -1 ∧
    stale_queue_state.ram_frames.map (fun x => (x.occupied, x.pid, x.page_number, x.load_time)) =
      [(true, 1, 0, 104), (true, 1, 1, 104), (true, 1, 2, 104), (true, 1, 3, 104),
        (true, 2, 0, 102), (true, 2, 1, 102), (true, 2, 2, 102), (true, 2, 3, 102)] ∧
    (select_victim_page_fifo stale_queue_state).1 = 0 ∧
    (simulate_access defaultConfig stale_queue_state 1 4 105).1 =
      AccessOutcome.page_fault_resolved 0 ∧
    (simulate_access defaultConfig stale_queue_state 1 4 105).2.ram_frames.map
        (fun x => (x.occupied, x.pid, x.page_number, x.load_time)) =
      [(true, 1, 4, 105), (true, 1, 1, 104), (true, 1, 2, 104), (true, 1, 3, 104),
        (true, 2, 0, 102), (true, 2, 1, 102), (true, 2, 2, 102), (true, 2, 3, 102)] := by
  refine ⟨by decide, by decide, by decide, ?_, ?_⟩
  · set_option maxRecDepth 100000 in decide
  · set_option maxRecDepth 100000 in decide

/-! ## C30: failed swap-in -/

/-- C30 fails on the code at this input: with RAM and Swap both full, `swap_in_page(1, 8)`
dequeues the victim frame 0, cannot swap it out because no Swap slot is free, and returns
false; the frames, slots, page tables and TLB are as before, but the queue has lost its
head (size 7 instead of 8, front 1 instead of 0), so the next attempt selects frame 1. -/
theorem failed_swap_in_loses_victim :
    (swap_in_page defaultConfig all_full_state 1 8 102).1 = false ∧
    (all_full_state.fifo_queue.queue, all_full_state.fifo_queue.front,
        all_full_state.fifo_queue.size) = ([0, 1, 2, 3, 4, 5, 6, 7], 0, 8) ∧
    ((swap_in_page defaultConfig all_full_state 1 8 102).2.fifo_queue.queue,
      (swap_in_page defaultConfig all_full_state 1 8 102).2.fifo_queue.front,
      (swap_in_page defaultConfig all_full_state 1 8 102).2.fifo_queue.size) =
        ([0, 1, 2, 3, 4, 5, 6, 7], 1, 7) ∧
    (select_victim_page_fifo all_full_state).1 = 0 ∧
    (select_victim_page_fifo (swap_in_page defaultConfig all_full_state 1 8 102).2).1 = 1 ∧
    (swap_in_page defaultConfig all_full_state 1 8 102).2.ram_frames =
      all_full_state.ram_frames ∧
    (swap_in_page defaultConfig all_full_state 1 8 102).2.swap_frames =
      all_full_state.swap_frames ∧
    (swap_in_page defaultConfig all_full_state 1 8 102).2.tlb = all_full_state.tlb := by
  refine ⟨by decide, by decide, by decide, by decide, by decide, by decide, by decide,
    by decide⟩

/-! ## C31: placement cannot fail after the space check -/

/-- A request that passes the space check without overflow in a state with a free directory
slot: the placement loop succeeds, the new process is installed under the returned pid, and
each of its pages is in a frame that was free in RAM or in a slot that was free in Swap. -/
theorem Inv.create_places_all {cfg : Config} {s : MemorySystem} (h : Inv cfg s)
    (d : DirInv cfg s) (name : String) (size_kb now : Int)
    (hp : 1 ≤ cfg.PAGE_SIZE) (hr : 0 ≤ cfg.RAM_SIZE) (hs : 0 ≤ cfg.SWAP_SIZE)
    (hsz : 0 < size_kb)
    (hb : size_kb + cfg.PAGE_SIZE - 1 + cfg.RAM_SIZE + cfg.SWAP_SIZE ≤ 2147483647)
    (hslot : find_free_slot s ≠ -1)
    (hfit : used_space cfg s + num_pages_of cfg size_kb * cfg.PAGE_SIZE ≤
      (NUM_RAM_FRAMES cfg + NUM_SWAP_FRAMES cfg) * cfg.PAGE_SIZE) :
    space_check_fails cfg s (num_pages_of cfg size_kb) = false ∧
    (place_pages cfg (find_free_slot s + 1) now (num_pages_of cfg size_kb).toNat 0 s []
      0).ok = true ∧
    (create_process cfg s name size_kb now).1 = find_free_slot s + 1 ∧
    (create_process cfg s name size_kb now).1 ≠ -1 ∧
    ∃ p, find_process (create_process cfg s name size_kb now).2
        (create_process cfg s name size_kb now).1 = some p ∧
      1 ≤ num_pages_of cfg size_kb ∧
      p.page_table.length = (num_pages_of cfg size_kb).toNat ∧
      ∀ j : Nat, j < p.page_table.length →
        ((pageAt p (j : Int)).state = PageState.PAGE_IN_RAM ∧
          (pageAt p (j : Int)).frame_number ∈ free_ram_frames cfg s) ∨
        ((pageAt p (j : Int)).state = PageState.PAGE_IN_SWAP ∧
          (pageAt p (j : Int)).swap_position ∈ free_swap_slots cfg s) := by
  obtain ⟨e1, e2, e3⟩ := create_process_passes h d name size_kb now hp hr hs hsz hb hslot hfit
  obtain ⟨_, n1, n2, _, _⟩ := num_pages_of_exact cfg size_kb hp hsz (by omega)
  have n3 : (num_pages_of cfg size_kb - 1) * cfg.PAGE_SIZE =
      num_pages_of cfg size_kb * cfg.PAGE_SIZE - cfg.PAGE_SIZE := by ring
  obtain ⟨_, _, _, hiff⟩ := space_check_exact cfg s (num_pages_of cfg size_kb) hp hr hs
    (by omega) (by omega)
  refine ⟨hiff.2 hfit, e3, e1, e2, ?_⟩
  obtain ⟨p, hp1, hp2⟩ := h.create_placement name size_kb now e2
  obtain ⟨q, hq1, hq2⟩ := h.create_new_process name size_kb now e2
  have hpq : q = p := by
    rw [hp1] at hq1
    exact (Option.some.inj hq1).symm
  subst hpq
  obtain ⟨rest, r1, r2, _⟩ := place_pages_placed cfg (find_free_slot s + 1) now
    (num_pages_of cfg size_kb).toNat 0 s [] 0 h.ram_len h.swap_len e3
  refine ⟨q, hp1, n1, ?_, ?_⟩
  · rw [hq2, r1]; simpa using r2
  · intro j hj
    by_cases c : j < (free_ram_frames cfg s).length
    · left
      obtain ⟨a1, a2, _⟩ := hp2.in_ram j hj c
      refine ⟨a1, ?_⟩
      rw [a2, List.getD_eq_getElem _ _ c]
      exact List.getElem_mem c
    · right
      obtain ⟨a1, a2, a3, _⟩ := hp2.in_swap j hj (by omega)
      refine ⟨a1, ?_⟩
      rw [a3, List.getD_eq_getElem _ _ a2]
      exact List.getElem_mem a2

/-- C31. In every reachable state, for every `size_kb > 0` whose arithmetic stays inside
the `int` range (positive page size, non-negative RAM and Swap sizes,
`size_kb + PAGE_SIZE - 1 + RAM_SIZE + SWAP_SIZE ≤ INT_MAX`): if a directory slot is free and
`used_space + num_pages * PAGE_SIZE ≤ (NUM_RAM_FRAMES + NUM_SWAP_FRAMES) * PAGE_SIZE`, then
the check of the code passes, the placement loop ends with `ok = true` (the rollback
branch is not taken),
`create_process` returns the new pid, which is not `-1`, and each of the `num_pages` pages
of the new process is in a RAM frame or a Swap slot that was free before the call. -/
theorem placement_cannot_fail (cfg : Config) (t0 : Int) (ops : List Op) (name : String)
    (size_kb now : Int)
    (hp : 1 ≤ cfg.PAGE_SIZE) (hr : 0 ≤ cfg.RAM_SIZE) (hs : 0 ≤ cfg.SWAP_SIZE)
    (hsz : 0 < size_kb)
    (hb : size_kb + cfg.PAGE_SIZE - 1 + cfg.RAM_SIZE + cfg.SWAP_SIZE ≤ 2147483647)
    (hslot : find_free_slot (run cfg (init_system cfg t0) ops) ≠ -1)
    (hfit : used_space cfg (run cfg (init_system cfg t0) ops) +
        num_pages_of cfg size_kb * cfg.PAGE_SIZE ≤
      (NUM_RAM_FRAMES cfg + NUM_SWAP_FRAMES cfg) * cfg.PAGE_SIZE) :
    space_check_fails cfg (run cfg (init_system cfg t0) ops) (num_pages_of cfg size_kb) =
      false ∧
    (place_pages cfg (find_free_slot (run cfg (init_system cfg t0) ops) + 1) now
      (num_pages_of cfg size_kb).toNat 0 (run cfg (init_system cfg t0) ops) [] 0).ok = true ∧
    (create_process cfg (run cfg (init_system cfg t0) ops) name size_kb now).1 =
      find_free_slot (run cfg (init_system cfg t0) ops) + 1 ∧
    (create_process cfg (run cfg (init_system cfg t0) ops) name size_kb now).1 ≠ -1 ∧
    ∃ p, find_process (create_process cfg (run cfg (init_system cfg t0) ops) name size_kb now).2
        (create_process cfg (run cfg (init_system cfg t0) ops) name size_kb now).1 = some p ∧
      1 ≤ num_pages_of cfg size_kb ∧
      p.page_table.length = (num_pages_of cfg size_kb).toNat ∧
      ∀ j : Nat, j < p.page_table.length →
        ((pageAt p (j : Int)).state = PageState.PAGE_IN_RAM ∧
          (pageAt p (j : Int)).frame_number ∈
            free_ram_frames cfg (run cfg (init_system cfg t0) ops)) ∨
        ((pageAt p (j : Int)).state = PageState.PAGE_IN_SWAP ∧
          (pageAt p (j : Int)).swap_position ∈
            free_swap_slots cfg (run cfg (init_system cfg t0) ops)) :=
  (inv_reachable cfg t0 ops).create_places_all (dir_inv_reachable cfg t0 ops) name size_kb now
    hp hr hs hsz hb hslot hfit

/-- Witness for C31: the default configuration with seven of the eight RAM frames in use
and a request of three pages, which go to the last RAM frame and to two Swap slots. -/
theorem placement_cannot_fail_witness :
    (place_pages defaultConfig
      (find_free_slot
        (run defaultConfig (init_system defaultConfig 100) [Op.create "A" 1792 101]) + 1) 102
      (num_pages_of defaultConfig 768).toNat 0
      (run defaultConfig (init_system defaultConfig 100) [Op.create "A" 1792 101]) [] 0).ok =
        true ∧
    (create_process defaultConfig
      (run defaultConfig (init_system defaultConfig 100) [Op.create "A" 1792 101])
      "B" 768 102).1 = 2 :=
  ⟨(placement_cannot_fail defaultConfig 100 [Op.create "A" 1792 101] "B" 768 102 (by decide)
      (by decide) (by decide) (by decide) (by decide) (by decide) (by decide)).2.1,
    (placement_cannot_fail defaultConfig 100 [Op.create "A" 1792 101] "B" 768 102 (by decide)
      (by decide) (by decide) (by decide) (by decide) (by decide) (by decide)).2.2.1.trans
      (by decide)⟩

/-! ## C8: FIFO fairness where the arithmetic of `create_process` is exact -/

/-- In a reachable state a creation whose arithmetic is exact is not rolled back: when it
passes the four checks the placement loop succeeds. -/
theorem Inv.not_rolled_back {cfg : Config} {s : MemorySystem} (h : Inv cfg s)
    (d : DirInv cfg s) (hp : 1 ≤ cfg.PAGE_SIZE) (hr : 0 ≤ cfg.RAM_SIZE)
    (hs : 0 ≤ cfg.SWAP_SIZE) (op : Op) (hop : exact_size cfg op = true) :
    rolled_back cfg s op = false := by
  cases op with
  | terminate pid now => rfl
  | access pid page now => rfl
  | create name size_kb now =>
    simp only [exact_size, decide_eq_true_eq] at hop
    by_cases hres : (create_process cfg s name size_kb now).1 = -1
    · have hev : create_events cfg s size_kb now = [] := by
        unfold create_events
        by_cases c1 : s.num_processes ≥ MAX_PROCESSES
        · rw [if_pos c1]
        · rw [if_neg c1]
          by_cases c2 : size_kb ≤ 0
          · rw [if_pos c2]
          · rw [if_neg c2]
            by_cases c3 : space_check_fails cfg s (num_pages_of cfg size_kb) = true
            · rw [if_pos c3]
            · rw [if_neg c3]
              by_cases c4 : find_free_slot s = -1
              · rw [if_pos c4]
              · exfalso
                have hsz : 0 < size_kb := by omega
                obtain ⟨_, n1, n2, _, _⟩ := num_pages_of_exact cfg size_kb hp hsz (by omega)
                have n3 : (num_pages_of cfg size_kb - 1) * cfg.PAGE_SIZE =
                    num_pages_of cfg size_kb * cfg.PAGE_SIZE - cfg.PAGE_SIZE := by ring
                obtain ⟨_, _, _, hiff⟩ := space_check_exact cfg s (num_pages_of cfg size_kb)
                  hp hr hs (by omega) (by omega)
                have hfit := hiff.1 (by simpa using c3)
                exact (create_process_passes h d name size_kb now hp hr hs hsz hop c4
                  hfit).2.1 hres
      simp only [rolled_back, hev, ne_eq, not_true_eq_false, decide_False, Bool.and_false]
    · simp only [rolled_back, hres, decide_False, Bool.false_and]

/-- From a reachable state, a run of operations whose arithmetic is exact has no
rollback. -/
theorem no_rollback_exact_sizes (cfg : Config) (hp : 1 ≤ cfg.PAGE_SIZE)
    (hr : 0 ≤ cfg.RAM_SIZE) (hs : 0 ≤ cfg.SWAP_SIZE) (ops : List Op) :
    ∀ s : MemorySystem, Inv cfg s → DirInv cfg s → ops.all (exact_size cfg) = true →
      no_rollback cfg s ops = true := by
  induction ops with
  | nil => intro _ _ _ _; rfl
  | cons op ops ih =>
    intro s h d hx
    simp only [List.all_cons, Bool.and_eq_true] at hx
    have d1 : DirInv cfg (step cfg s op) := by
      cases op with
      | create name size_kb now => exact d.create_kept h name size_kb now
      | terminate pid now => exact d.terminate_kept h pid now
      | access pid page now => exact d.access_kept h pid page now
    simp only [no_rollback, Bool.and_eq_true, Bool.not_eq_true']
    exact ⟨h.not_rolled_back d hp hr hs op hx.1, ih _ (h.after_step op) d1 hx.2⟩

/-- FIFO fairness where the arithmetic is exact: with a positive page size and
non-negative RAM and Swap sizes, in every run from the initial state made only of process
creations with `size_kb + PAGE_SIZE - 1 + RAM_SIZE + SWAP_SIZE ≤ INT_MAX` and simulated
page accesses, the `n`-th eviction performed by `swap_in_page` selects the RAM frame that
was the `n`-th to be filled, counting every RAM-frame assignment (at creation or at
swap-in) in the order it happened (`n` counts from 0 here). -/
theorem fifo_fairness_exact_sizes (cfg : Config) (t0 : Int) (ops : List Op)
    (hp : 1 ≤ cfg.PAGE_SIZE) (hr : 0 ≤ cfg.RAM_SIZE) (hs : 0 ≤ cfg.SWAP_SIZE)
    (h : no_termination ops = true) (hx : ops.all (exact_size cfg) = true) (n : Nat)
    (hn : n < (evictions (run_events cfg (init_system cfg t0) ops)).length) :
    n < (fills (run_events cfg (init_system cfg t0) ops)).length ∧
    (evictions (run_events cfg (init_system cfg t0) ops))[n]? =
      (fills (run_events cfg (init_system cfg t0) ops))[n]? := by
  obtain ⟨rest, hrest⟩ := evictions_prefix_fills cfg t0 ops h
    (no_rollback_exact_sizes cfg hp hr hs ops _ (Inv.init cfg t0) (DirInv.of_init_state cfg t0)
      hx)
  rw [← hrest]
  refine ⟨?_, ?_⟩
  · rw [List.length_append]; omega
  · rw [List.getElem?_append_left hn]

/-- Instance: in `eviction_run` the first eviction selects frame 0, the first frame
filled. -/
theorem fifo_fairness_exact_sizes_witness :
    (0 < (fills (run_events defaultConfig (init_system defaultConfig 100) eviction_run)).length ∧
      (evictions (run_events defaultConfig (init_system defaultConfig 100) eviction_run))[0]? =
        (fills (run_events defaultConfig (init_system defaultConfig 100) eviction_run))[0]?) ∧
    (evictions (run_events defaultConfig (init_system defaultConfig 100) eviction_run))[0]? =
      some 0 :=
  ⟨fifo_fairness_exact_sizes defaultConfig 100 eviction_run (by decide) (by decide)
    (by decide) (by decide) (by decide) 0 (by decide), by decide⟩

/-! ## C32: a repeated access hits the TLB -/

/-- C32 evaluated on the code: in `stale_tlb_state` page 0 of the live process 2 is in
frame 2 by its page-table entry, and frame 1 holds page 1 of process 1. An access of
`(2, 0)` completes as a TLB hit on the entry left by the rolled-back request and returns
frame 1; the immediately following access of `(2, 0)` is again a TLB hit and again returns
frame 1, not the frame 2 recorded in the page-table entry. -/
theorem repeated_access_wrong_frame :
    wide_tlb_config.TLB_SIZE = 16 ∧
    (find_process stale_tlb_state 2).map (fun p => (pageAt p 0).state) =
      some PageState.PAGE_IN_RAM ∧
    (find_process stale_tlb_state 2).map (fun p => (pageAt p 0).frame_number) = some 2 ∧
    (ramAt stale_tlb_state 1).pid = 1 ∧ (ramAt stale_tlb_state 1).occupied = true ∧
    (simulate_access wide_tlb_config stale_tlb_state 2 0 106).1 = AccessOutcome.tlb_hit 1 ∧
    (simulate_access wide_tlb_config
      (simulate_access wide_tlb_config stale_tlb_state 2 0 106).2 2 0 107).1 =
        AccessOutcome.tlb_hit 1 ∧
    (find_process (simulate_access wide_tlb_config
      (simulate_access wide_tlb_config stale_tlb_state 2 0 106).2 2 0 107).2 2).map
        (fun p => (pageAt p 0).frame_number) = some 2 := by
  set_option maxRecDepth 100000 in decide

/-! ## C33: counter consistency -/

theorem CountOK.of_same_counters {s s1 : MemorySystem} (h : CountOK s)
    (e : counters s1 = counters s) : CountOK s1 := by
  unfold counters at e
  simp only [Prod.mk.injEq] at e
  obtain ⟨e1, e2, e3, e4, e5⟩ := e
  exact ⟨by rw [e3, e4, e5]; exact h.accesses, by rw [e1, e2]; exact h.faults_le,
    by rw [e1, e2]; exact h.swaps_le⟩

theorem counters_add_log (s : MemorySystem) (now : Int) (m : String) :
    counters (add_log s now m) = counters s := by
  obtain ⟨_, _, _, _, _, _, a, b, c, d, e⟩ := add_log_frame s now m
  unfold counters
  rw [a, b, c, d, e]

theorem counters_select_victim (s : MemorySystem) :
    counters (select_victim_page_fifo s).2 = counters s := by
  unfold select_victim_page_fifo
  split <;> rfl

theorem counters_swap_out_failure (cfg : Config) (s : MemorySystem) (f now : Int)
    (h : (swap_out_page cfg s f now).1 = false) :
    counters (swap_out_page cfg s f now).2 = counters s := by
  obtain ⟨_, _, _, _, _, _, a, b, c, d, e⟩ := swap_out_failure_unchanged cfg s f now h
  unfold counters
  rw [a, b, c, d, e]

theorem counters_free_fold (g : Frame → Frame) (es : List PageTableEntry) (s : MemorySystem) :
    counters (es.foldl (free_step g) s) = counters s := by
  obtain ⟨_, _, _, _, _, _, _, _, a, b, c, d, e⟩ := free_fold_frame g es s
  unfold counters
  rw [a, b, c, d, e]

theorem counters_place_pages (cfg : Config) (pid now : Int) (todo : Nat) :
    ∀ (i : Int) (s : MemorySystem) (pt : List PageTableEntry) (k : Int),
      counters (place_pages cfg pid now todo i s pt k).sys = counters s := by
  induction todo with
  | zero => intro i s pt k; rfl
  | succ n ih =>
    intro i s pt k
    rw [place_pages_succ]
    split
    · exact (ih _ _ _ _).trans rfl
    · split
      · exact counters_free_fold rolled_back_frame pt s
      · exact (ih _ _ _ _).trans rfl

/-- A page fault that is resolved costs one swap, or two when a victim is evicted; a page
fault that is not resolved changes no counter. -/
theorem CountOK.after_swap_in {s : MemorySystem} (h : CountOK s) (cfg : Config)
    (pid pg now : Int) : CountOK (swap_in_page cfg s pid pg now).2 := by
  unfold swap_in_page
  cases hslot : find_process_slot s pid with
  | none => exact h
  | some slot =>
    simp only []
    cases hp : procAt s slot with
    | none => exact h
    | some p =>
      simp only []
      split
      · exact h
      · split
        · exact h
        · split
          · exact h
          · split
            · have hv := counters_select_victim s
              split
              · exact h.of_same_counters ((counters_add_log _ _ _).trans hv)
              · split
                · rename_i hfail
                  have hfail1 : (swap_out_page cfg (select_victim_page_fifo s).2
                      (select_victim_page_fifo s).1 now).1 = false := by
                    simpa using hfail
                  exact h.of_same_counters
                    ((counters_swap_out_failure _ _ _ _ hfail1).trans hv)
                · rename_i hok
                  have hok1 : (swap_out_page cfg (select_victim_page_fifo s).2
                      (select_victim_page_fifo s).1 now).1 = true := by
                    simpa using hok
                  obtain ⟨slot1, p1, _, _, _, _, _, _, _, _, _, hprocs, _, _, _, o1, o2, o3, o4,
                    o5⟩ := swap_out_page_success hok1
                  obtain ⟨_, _, hprocs0, _⟩ := select_victim_frame s
                  have hp2 : ∃ q, procAt (swap_out_page cfg (select_victim_page_fifo s).2
                      (select_victim_page_fifo s).1 now).2 slot = some q := by
                    unfold procAt
                    rw [hprocs, hprocs0]
                    have hr := procAt_range hp
                    by_cases c : slot = slot1
                    · subst c
                      exact ⟨_, procAt_setI_self s _ _ hr.1 hr.2⟩
                    · refine ⟨p, ?_⟩
                      rw [getI_setI_ne _ _ _ _ _ (Ne.symm c)]
                      exact hp
                  obtain ⟨q, hq⟩ := hp2
                  obtain ⟨_, _, _, _, _, _, f1, f2, f3, f4, f5⟩ := swap_in_finish_shape cfg
                    (swap_out_page cfg (select_victim_page_fifo s).2
                      (select_victim_page_fifo s).1 now).2 slot pid pg
                    (pageAt p pg).swap_position (select_victim_page_fifo s).1 now q hq
                  unfold counters at hv
                  simp only [Prod.mk.injEq] at hv
                  obtain ⟨v1, v2, v3, v4, v5⟩ := hv
                  have a := h.accesses
                  have b := h.faults_le
                  have c := h.swaps_le
                  exact ⟨by rw [f3, f4, f5, o3, o4, o5, v3, v4, v5]; exact a,
                    by rw [f1, f2, o1, o2, v1, v2]; omega,
                    by rw [f1, f2, o1, o2, v1, v2]; omega⟩
            · obtain ⟨_, _, _, _, _, _, f1, f2, f3, f4, f5⟩ := swap_in_finish_shape cfg s slot
                pid pg (pageAt p pg).swap_position (find_free_ram_frame cfg s) now p hp
              have a := h.accesses
              have b := h.faults_le
              have c := h.swaps_le
              exact ⟨by rw [f3, f4, f5]; exact a, by rw [f1, f2]; omega,
                by rw [f1, f2]; omega⟩

theorem CountOK.after_create {s : MemorySystem} (h : CountOK s) (cfg : Config)
    (name : String) (size_kb now : Int) : CountOK (create_process cfg s name size_kb now).2 := by
  unfold create_process
  split
  · exact h
  · split
    · exact h
    · simp only []
      split
      · exact h
      · split
        · exact h
        · split
          · exact h.of_same_counters (counters_place_pages _ _ _ _ _ _ _ _)
          · exact h.of_same_counters
              ((counters_add_log _ _ _).trans (counters_place_pages _ _ _ _ _ _ _ _))

theorem CountOK.after_terminate {s : MemorySystem} (h : CountOK s) (cfg : Config)
    (pid now : Int) : CountOK (terminate_process cfg s pid now).2 := by
  unfold terminate_process
  cases hf : find_process s pid with
  | none => exact h
  | some p =>
    simp only []
    have h3 : ∀ m, counters (add_log (tlb_invalidate cfg
        (((indices p.num_pages).map (fun i => pageAt p i)).foldl release_page s) pid) now m) =
        counters s := by
      intro m
      exact (counters_add_log _ _ _).trans
        (counters_free_fold released_frame ((indices p.num_pages).map (fun i => pageAt p i)) s)
    split
    · exact h.of_same_counters (h3 _)
    · exact h.of_same_counters (h3 _)

/-- The lookup of a counted access: one more hit or one more miss. -/
theorem tlb_lookup_counts (cfg : Config) (s : MemorySystem) (pid pg now : Int) :
    (tlb_lookup cfg s pid pg now).2.total_tlb_hits +
        (tlb_lookup cfg s pid pg now).2.total_tlb_misses =
      s.total_tlb_hits + s.total_tlb_misses + 1 ∧
    (tlb_lookup cfg s pid pg now).2.total_page_faults = s.total_page_faults ∧
    (tlb_lookup cfg s pid pg now).2.total_swaps = s.total_swaps ∧
    (tlb_lookup cfg s pid pg now).2.total_memory_accesses = s.total_memory_accesses := by
  unfold tlb_lookup
  cases tlb_find cfg s pid pg with
  | none => exact ⟨by simp only []; ring, rfl, rfl, rfl⟩
  | some i => exact ⟨by simp only []; ring, rfl, rfl, rfl⟩

theorem CountOK.after_access {s : MemorySystem} (h : CountOK s) (cfg : Config)
    (pid pg now : Int) : CountOK (simulate_access cfg s pid pg now).2 := by
  unfold simulate_access
  split
  · exact h
  · cases hf : find_process s pid with
    | none => exact h
    | some p =>
      simp only []
      obtain ⟨l1, l2, l3, l4⟩ := tlb_lookup_counts cfg
        { s with total_memory_accesses := s.total_memory_accesses + 1 } pid pg now
      have h2 : CountOK (tlb_lookup cfg
          { s with total_memory_accesses := s.total_memory_accesses + 1 } pid pg now).2 := by
        have a := h.accesses
        exact ⟨by rw [l1, l4]; show s.total_tlb_hits + s.total_tlb_misses + 1 =
            s.total_memory_accesses + 1; omega,
          by rw [l2, l3]; exact h.faults_le, by rw [l2, l3]; exact h.swaps_le⟩
      split
      · exact h
      · split
        · exact h2.of_same_counters (counters_add_log _ _ _)
        · split
          · exact h2.of_same_counters ((counters_add_log _ _ _).trans rfl)
          · split
            · split
              · exact h2.after_swap_in _ _ _ _
              · exact h2.after_swap_in _ _ _ _
            · exact h2

theorem CountOK.at_start (cfg : Config) (now : Int) : CountOK (init_system cfg now) := by
  have e : counters (init_system cfg now) = (0, 0, 0, 0, 0) := by
    unfold init_system
    rw [counters_add_log]
    rfl
  unfold counters at e
  simp only [Prod.mk.injEq] at e
  obtain ⟨e1, e2, e3, e4, e5⟩ := e
  exact ⟨by rw [e3, e4, e5]; rfl, by rw [e1, e2], by rw [e1, e2]; decide⟩

theorem count_ok_reachable (cfg : Config) (t0 : Int) (ops : List Op) :
    CountOK (run cfg (init_system cfg t0) ops) := by
  have key : ∀ (ops : List Op) (s : MemorySystem), CountOK s → CountOK (run cfg s ops) := by
    intro ops
    induction ops with
    | nil => intro s h; exact h
    | cons op ops ih =>
      intro s h
      apply ih
      cases op with
      | create name size_kb now => exact h.after_create cfg name size_kb now
      | terminate pid now => exact h.after_terminate cfg pid now
      | access pid page now => exact h.after_access cfg pid page now
  exact key ops _ (CountOK.at_start cfg t0)

/-- C33. In every state reachable from `init_system` by `create_process`,
`terminate_process` and simulated page accesses, in every configuration,
`total_tlb_hits + total_tlb_misses = total_memory_accesses` and
`total_page_faults ≤ total_swaps ≤ 2 * total_page_faults`. -/
theorem counter_consistency (cfg : Config) (t0 : Int) (ops : List Op) :
    (run cfg (init_system cfg t0) ops).total_tlb_hits +
        (run cfg (init_system cfg t0) ops).total_tlb_misses =
      (run cfg (init_system cfg t0) ops).total_memory_accesses ∧
    (run cfg (init_system cfg t0) ops).total_page_faults ≤
      (run cfg (init_system cfg t0) ops).total_swaps ∧
    (run cfg (init_system cfg t0) ops).total_swaps ≤
      2 * (run cfg (init_system cfg t0) ops).total_page_faults :=
  ⟨(count_ok_reachable cfg t0 ops).accesses, (count_ok_reachable cfg t0 ops).faults_le,
    (count_ok_reachable cfg t0 ops).swaps_le⟩

/-! ## C34: no duplicate translations -/

/-- C34 evaluated on the code: after the rolled-back request, whose TLB entries stay valid,
the next process gets pid 2 again and its page 0 is entered in slot 0 while slot 1 still
holds the entry of page 0 of the rolled-back pid 2; both slots are valid and hold the pair
`(2, 0)`, so the state has a duplicate translation. -/
theorem duplicate_translation :
    (tlbAt reused_pid_state 0).valid = true ∧ (tlbAt reused_pid_state 1).valid = true ∧
    (tlbAt reused_pid_state 0).pid = 2 ∧ (tlbAt reused_pid_state 1).pid = 2 ∧
    (tlbAt reused_pid_state 0).page_number = 0 ∧ (tlbAt reused_pid_state 1).page_number = 0 ∧
    (tlbAt reused_pid_state 0).last_access = 103 ∧
    (tlbAt reused_pid_state 1).last_access = 102 ∧
    ¬ NoDuplicateTranslations defaultConfig reused_pid_state := by
  have h : (tlbAt reused_pid_state 0).valid = true ∧ (tlbAt reused_pid_state 1).valid = true ∧
      (tlbAt reused_pid_state 0).pid = 2 ∧ (tlbAt reused_pid_state 1).pid = 2 ∧
      (tlbAt reused_pid_state 0).page_number = 0 ∧
      (tlbAt reused_pid_state 1).page_number = 0 ∧
      (tlbAt reused_pid_state 0).last_access = 103 ∧
      (tlbAt reused_pid_state 1).last_access = 102 := by
    set_option maxRecDepth 100000 in decide
  obtain ⟨a1, a2, a3, a4, a5, a6, a7, a8⟩ := h
  refine ⟨a1, a2, a3, a4, a5, a6, a7, a8, ?_⟩
  intro hn
  exact hn 0 1 (by decide) (by decide) (by decide) a1 a2 ⟨a3.trans a4.symm, a5.trans a6.symm⟩

/-! ## C39: the ring buffer against a bounded FIFO list -/

theorem bounded_fifo_of_ring (c : Int) (q : FIFOQueue) (hc : 1 ≤ c) (h : RingOK q)
    (hcap : q.capacity = c) : BoundedFifo c q := by
  have hs := h.size_nonneg
  refine ⟨h, hcap, ?_, ?_, h.front_nonneg, ?_⟩
  · rw [queue_list_length]; omega
  · rcases h.size_le with h1 | h1 <;> omega
  · rcases h.front_lt with h1 | h1 <;> omega

/-- One enqueue on the ring is one enqueue on the list. -/
theorem enqueue_fifo_refines (c : Int) (q : FIFOQueue) (x : Int) (hc : 1 ≤ c)
    (h : BoundedFifo c q) :
    queue_list (enqueue_fifo q x) = list_enqueue c (queue_list q) x ∧
    BoundedFifo c (enqueue_fifo q x) := by
  unfold list_enqueue
  rw [h.length]
  by_cases hs : q.size < c
  · rw [if_pos hs]
    obtain ⟨e1, e2, _, e4⟩ := enqueue_fifo_list q x h.ring (by rw [h.capacity]; exact hs)
    exact ⟨e1, bounded_fifo_of_ring c _ hc e2 (by rw [e4, h.capacity])⟩
  · rw [if_neg hs]
    have e := enqueue_fifo_full q x (by rw [h.capacity]; omega)
    rw [e]
    exact ⟨rfl, h⟩

/-- One dequeue on the ring is one dequeue on the list. -/
theorem dequeue_fifo_refines (c : Int) (q : FIFOQueue) (hc : 1 ≤ c) (h : BoundedFifo c q) :
    (dequeue_fifo q).1 = (list_dequeue (queue_list q)).1 ∧
    queue_list (dequeue_fifo q).2 = (list_dequeue (queue_list q)).2 ∧
    BoundedFifo c (dequeue_fifo q).2 := by
  by_cases hs : q.size = 0
  · have e := dequeue_fifo_empty q hs
    have hl : queue_list q = [] := by
      apply List.eq_nil_of_length_eq_zero
      have := h.length
      omega
    rw [e, hl]
    exact ⟨rfl, rfl, h⟩
  · obtain ⟨e1, e2, _, e4⟩ := dequeue_fifo_list q h.ring hs
    rw [e1]
    exact ⟨rfl, rfl, bounded_fifo_of_ring c _ hc e2 (by rw [e4, h.capacity])⟩

/-- Any sequence of calls gives the same returned values and the same contents on the ring
and on the list. -/
theorem run_queue_refines (c : Int) (hc : 1 ≤ c) (ops : List QueueOp) :
    ∀ q : FIFOQueue, BoundedFifo c q →
      (run_queue q ops).1 = (run_list c (queue_list q) ops).1 ∧
      queue_list (run_queue q ops).2 = (run_list c (queue_list q) ops).2 ∧
      BoundedFifo c (run_queue q ops).2 := by
  induction ops with
  | nil => intro q h; exact ⟨rfl, rfl, h⟩
  | cons op ops ih =>
    intro q h
    cases op with
    | enqueue x =>
      obtain ⟨e1, e2⟩ := enqueue_fifo_refines c q x hc h
      have := ih (enqueue_fifo q x) e2
      rw [e1] at this
      exact this
    | dequeue =>
      obtain ⟨e1, e2, e3⟩ := dequeue_fifo_refines c q hc h
      have := ih (dequeue_fifo q).2 e3
      rw [e2] at this
      show (dequeue_fifo q).1 :: (run_queue (dequeue_fifo q).2 ops).1 =
          (list_dequeue (queue_list q)).1 ::
            (run_list c (list_dequeue (queue_list q)).2 ops).1 ∧ _
      rw [e1, this.1]
      exact ⟨rfl, this.2⟩

theorem bounded_fifo_create (c : Int) (hc : 1 ≤ c) : BoundedFifo c (create_fifo_queue c) :=
  bounded_fifo_of_ring c _ hc (ring_create c) rfl

/-- C39. For every capacity `c ≥ 1` and every sequence of `enqueue_fifo` and `dequeue_fifo`
calls from `create_fifo_queue c`, the ring buffer and the bounded list of the specification
return the same values in the same order and hold the same contents; in the state reached
the contents have length `size ≤ c` and `0 ≤ front < c`; one more `enqueue_fifo` appends at
the tail when `size < c` and leaves the queue as it is when `size = c`; one more
`dequeue_fifo` returns and removes the head when `size > 0` and returns `-1` leaving the
queue as it is when `size = 0`. -/
theorem ring_buffer_refines_list (c : Int) (hc : 1 ≤ c) (ops : List QueueOp) :
    (run_queue (create_fifo_queue c) ops).1 = (run_list c [] ops).1 ∧
    queue_list (run_queue (create_fifo_queue c) ops).2 = (run_list c [] ops).2 ∧
    ((queue_list (run_queue (create_fifo_queue c) ops).2).length : Int) =
      (run_queue (create_fifo_queue c) ops).2.size ∧
    (run_queue (create_fifo_queue c) ops).2.size ≤ c ∧
    0 ≤ (run_queue (create_fifo_queue c) ops).2.front ∧
    (run_queue (create_fifo_queue c) ops).2.front < c ∧
    (∀ x : Int, (run_queue (create_fifo_queue c) ops).2.size < c →
      queue_list (enqueue_fifo (run_queue (create_fifo_queue c) ops).2 x) =
        queue_list (run_queue (create_fifo_queue c) ops).2 ++ [x]) ∧
    (∀ x : Int, (run_queue (create_fifo_queue c) ops).2.size = c →
      enqueue_fifo (run_queue (create_fifo_queue c) ops).2 x =
        (run_queue (create_fifo_queue c) ops).2) ∧
    (0 < (run_queue (create_fifo_queue c) ops).2.size →
      queue_list (run_queue (create_fifo_queue c) ops).2 =
        (dequeue_fifo (run_queue (create_fifo_queue c) ops).2).1 ::
          queue_list (dequeue_fifo (run_queue (create_fifo_queue c) ops).2).2) ∧
    ((run_queue (create_fifo_queue c) ops).2.size = 0 →
      dequeue_fifo (run_queue (create_fifo_queue c) ops).2 =
        (-1, (run_queue (create_fifo_queue c) ops).2)) := by
  obtain ⟨e1, e2, b⟩ := run_queue_refines c hc ops (create_fifo_queue c) (bounded_fifo_create c hc)
  rw [queue_list_create] at e1 e2
  refine ⟨e1, e2, b.length, b.size_le, b.front_nonneg, b.front_lt, ?_, ?_, ?_, ?_⟩
  · intro x hx
    exact (enqueue_fifo_list _ x b.ring (by rw [b.capacity]; exact hx)).1
  · intro x hx
    exact enqueue_fifo_full _ x (by rw [b.capacity]; omega)
  · intro hx
    exact (dequeue_fifo_list _ b.ring (by omega)).1
  · intro hx
    exact dequeue_fifo_empty _ hx

/-- Witness for C39: capacity 2, three values offered (the third is dropped), then three
dequeues: 5, 6 and -1 come back. -/
theorem ring_buffer_refines_list_witness :
    (1 : Int) ≤ 2 ∧
    (run_queue (create_fifo_queue 2)
      [QueueOp.enqueue 5, QueueOp.enqueue 6, QueueOp.enqueue 7, QueueOp.dequeue,
        QueueOp.dequeue, QueueOp.dequeue]).1 = [5, 6, -1] ∧
    (run_queue (create_fifo_queue 2)
      [QueueOp.enqueue 5, QueueOp.enqueue 6, QueueOp.enqueue 7, QueueOp.dequeue,
        QueueOp.dequeue, QueueOp.dequeue]).1 =
      (run_list 2 []
        [QueueOp.enqueue 5, QueueOp.enqueue 6, QueueOp.enqueue 7, QueueOp.dequeue,
          QueueOp.dequeue, QueueOp.dequeue]).1 :=
  ⟨by decide, by decide,
    (ring_buffer_refines_list 2 (by decide)
      [QueueOp.enqueue 5, QueueOp.enqueue 6, QueueOp.enqueue 7, QueueOp.dequeue,
        QueueOp.dequeue, QueueOp.dequeue]).1⟩

end MemSim

namespace ProcSim

open MemSim (getI setI indices wrap32)

/-! ## C38: FCFS selection -/

theorem add_log_keeps (s : System) (pid : Int) (event : String) :
    (add_log s pid event).processes = s.processes ∧
    (add_log s pid event).running_pid = s.running_pid ∧
    (add_log s pid event).process_count = s.process_count ∧
    (add_log s pid event).available = s.available ∧
    (add_log s pid event).total = s.total ∧
    (add_log s pid event).semaphores = s.semaphores ∧
    (add_log s pid event).semaphore_count = s.semaphore_count ∧
    (add_log s pid event).algorithm = s.algorithm := by
  unfold add_log
  split <;> exact ⟨rfl, rfl, rfl, rfl, rfl, rfl, rfl, rfl⟩

theorem procAt_add_log (s : System) (pid : Int) (event : String) (j : Int) :
    procAt (add_log s pid event) j = procAt s j := by
  unfold procAt
  rw [(add_log_keeps s pid event).1]

/-- Reading the process table after an assignment to the fields of one cell. -/
theorem procAt_modify_process (s : System) (idx : Int) (f : PCB → PCB) (j : Int) :
    procAt (modify_process s idx f) j =
      if idx = j ∧ 0 ≤ idx ∧ idx < (s.processes.length : Int) then f (procAt s idx)
      else procAt s j := by
  unfold procAt modify_process
  exact MemSim.getI_setI _ _ _ _ _

theorem fcfs_scan_cons (s : System) (i : Int) (l : List Int) (sel : Int) :
    fcfs_scan s (i :: l) sel =
      fcfs_scan s l
        (if (procAt s i).state = ProcessState.READY then
          if sel = -1 ∨ (procAt s i).arrival_time < (procAt s sel).arrival_time then i else sel
        else sel) := rfl

/-- The scan of the FCFS case, over a part `l` of the table that follows the cells `V`
visited so far: the result is the ready cell with the smallest arrival time among the
visited cells, the first of them by index. -/
theorem fcfs_scan_spec (s : System) (l : List Int) :
    ∀ (sel : Int) (V : Int → Prop),
      (sel = -1 → ∀ j, V j → (procAt s j).state ≠ ProcessState.READY) →
      (sel ≠ -1 → V sel ∧ (procAt s sel).state = ProcessState.READY ∧
        ∀ j, V j → (procAt s j).state = ProcessState.READY →
          (procAt s sel).arrival_time ≤ (procAt s j).arrival_time ∧
          ((procAt s j).arrival_time = (procAt s sel).arrival_time → sel ≤ j)) →
      (∀ i, i ∈ l → 0 ≤ i ∧ ∀ j, V j → j < i) →
      l.Pairwise (fun a b => a < b) →
      (fcfs_scan s l sel = -1 →
        ∀ j, (V j ∨ j ∈ l) → (procAt s j).state ≠ ProcessState.READY) ∧
      (fcfs_scan s l sel ≠ -1 →
        (V (fcfs_scan s l sel) ∨ fcfs_scan s l sel ∈ l) ∧
        (procAt s (fcfs_scan s l sel)).state = ProcessState.READY ∧
        ∀ j, (V j ∨ j ∈ l) → (procAt s j).state = ProcessState.READY →
          (procAt s (fcfs_scan s l sel)).arrival_time ≤ (procAt s j).arrival_time ∧
          ((procAt s j).arrival_time = (procAt s (fcfs_scan s l sel)).arrival_time →
            fcfs_scan s l sel ≤ j)) := by
  induction l with
  | nil =>
    intro sel V h1 h2 _ _
    have e : fcfs_scan s [] sel = sel := rfl
    rw [e]
    constructor
    · intro hs j hj
      rcases hj with hj | hj
      · exact h1 hs j hj
      · cases hj
    · intro hs
      obtain ⟨a, b, c⟩ := h2 hs
      refine ⟨Or.inl a, b, ?_⟩
      intro j hj
      rcases hj with hj | hj
      · exact c j hj
      · cases hj
  | cons i l ih =>
    intro sel V h1 h2 h3 h4
    obtain ⟨hi0, hiV⟩ := h3 i (List.mem_cons_self i l)
    have hp := List.pairwise_cons.1 h4
    have key : ∀ sel1 : Int,
        fcfs_scan s (i :: l) sel = fcfs_scan s l sel1 →
        (sel1 = -1 → ∀ j, (V j ∨ j = i) → (procAt s j).state ≠ ProcessState.READY) →
        (sel1 ≠ -1 → (V sel1 ∨ sel1 = i) ∧ (procAt s sel1).state = ProcessState.READY ∧
          ∀ j, (V j ∨ j = i) → (procAt s j).state = ProcessState.READY →
            (procAt s sel1).arrival_time ≤ (procAt s j).arrival_time ∧
            ((procAt s j).arrival_time = (procAt s sel1).arrival_time → sel1 ≤ j)) →
        (fcfs_scan s (i :: l) sel = -1 →
          ∀ j, (V j ∨ j ∈ i :: l) → (procAt s j).state ≠ ProcessState.READY) ∧
        (fcfs_scan s (i :: l) sel ≠ -1 →
          (V (fcfs_scan s (i :: l) sel) ∨ fcfs_scan s (i :: l) sel ∈ i :: l) ∧
          (procAt s (fcfs_scan s (i :: l) sel)).state = ProcessState.READY ∧
          ∀ j, (V j ∨ j ∈ i :: l) → (procAt s j).state = ProcessState.READY →
            (procAt s (fcfs_scan s (i :: l) sel)).arrival_time ≤ (procAt s j).arrival_time ∧
            ((procAt s j).arrival_time = (procAt s (fcfs_scan s (i :: l) sel)).arrival_time →
              fcfs_scan s (i :: l) sel ≤ j)) := by
      intro sel1 e g1 g2
      rw [e]
      have hV : ∀ j, (V j ∨ j ∈ i :: l) ↔ ((V j ∨ j = i) ∨ j ∈ l) := by
        intro j
        rw [List.mem_cons]
        tauto
      obtain ⟨r1, r2⟩ := ih sel1 (fun j => V j ∨ j = i) g1 g2
        (by
          intro k hk
          refine ⟨(h3 k (List.mem_cons_of_mem i hk)).1, ?_⟩
          intro j hj
          rcases hj with hj | hj
          · exact (h3 k (List.mem_cons_of_mem i hk)).2 j hj
          · rw [hj]; exact hp.1 k hk)
        hp.2
      constructor
      · intro hs j hj
        exact r1 hs j ((hV j).1 hj)
      · intro hs
        obtain ⟨a, b, c⟩ := r2 hs
        exact ⟨(hV _).2 a, b, fun j hj => c j ((hV j).1 hj)⟩
    by_cases hr : (procAt s i).state = ProcessState.READY
    · by_cases hc : sel = -1 ∨ (procAt s i).arrival_time < (procAt s sel).arrival_time
      · apply key i
        · rw [fcfs_scan_cons, if_pos hr, if_pos hc]
        · intro hneg
          omega
        · intro _
          refine ⟨Or.inr rfl, hr, ?_⟩
          intro j hj hjr
          rcases hj with hj | hj
          · rcases hc with hc | hc
            · exact absurd hjr (h1 hc j hj)
            · have hsel : sel ≠ -1 := by
                intro hneg
                exact absurd hjr (h1 hneg j hj)
              have := ((h2 hsel).2.2 j hj hjr).1
              constructor
              · omega
              · intro he; omega
          · rw [hj]
            exact ⟨le_refl _, fun _ => le_refl _⟩
      · have hsel : sel ≠ -1 := fun hneg => hc (Or.inl hneg)
        have harr : (procAt s sel).arrival_time ≤ (procAt s i).arrival_time := by
          have : ¬ (procAt s i).arrival_time < (procAt s sel).arrival_time :=
            fun hlt => hc (Or.inr hlt)
          omega
        apply key sel
        · rw [fcfs_scan_cons, if_pos hr, if_neg hc]
        · intro hneg; exact absurd hneg hsel
        · intro _
          obtain ⟨a, b, c⟩ := h2 hsel
          refine ⟨Or.inl a, b, ?_⟩
          intro j hj hjr
          rcases hj with hj | hj
          · exact c j hj hjr
          · rw [hj]
            exact ⟨harr, fun _ => le_of_lt (hiV sel a)⟩
    · apply key sel
      · rw [fcfs_scan_cons, if_neg hr]
      · intro hneg j hj
        rcases hj with hj | hj
        · exact h1 hneg j hj
        · rw [hj]; exact hr
      · intro hsel
        obtain ⟨a, b, c⟩ := h2 hsel
        refine ⟨Or.inl a, b, ?_⟩
        intro j hj hjr
        rcases hj with hj | hj
        · exact c j hj hjr
        · rw [hj] at hjr
          exact absurd hjr hr

/-- What the FCFS scan of the whole table returns when some process is ready. -/
theorem fcfs_selected (s : System)
    (hready : ∃ j, 0 ≤ j ∧ j < s.process_count ∧ (procAt s j).state = ProcessState.READY) :
    0 ≤ fcfs_scan s (indices s.process_count) (-1) ∧
    fcfs_scan s (indices s.process_count) (-1) < s.process_count ∧
    (procAt s (fcfs_scan s (indices s.process_count) (-1))).state = ProcessState.READY ∧
    ∀ j, 0 ≤ j → j < s.process_count → (procAt s j).state = ProcessState.READY →
      (procAt s (fcfs_scan s (indices s.process_count) (-1))).arrival_time ≤
          (procAt s j).arrival_time ∧
      ((procAt s j).arrival_time =
          (procAt s (fcfs_scan s (indices s.process_count) (-1))).arrival_time →
        fcfs_scan s (indices s.process_count) (-1) ≤ j) := by
  obtain ⟨r1, r2⟩ := fcfs_scan_spec s (indices s.process_count) (-1) (fun _ => False)
    (fun _ j hj => hj.elim) (fun h => absurd rfl h)
    (fun i hi => ⟨((MemSim.mem_indices _ _).1 hi).1, fun j hj => hj.elim⟩)
    (MemSim.indices_sorted _)
  obtain ⟨j0, j1, j2, j3⟩ := hready
  have hne : fcfs_scan s (indices s.process_count) (-1) ≠ -1 := by
    intro hneg
    exact r1 hneg j0 (Or.inr ((MemSim.mem_indices _ _).2 ⟨j1, j2⟩)) j3
  obtain ⟨a, b, c⟩ := r2 hne
  have hm : fcfs_scan s (indices s.process_count) (-1) ∈ indices s.process_count := by
    rcases a with a | a
    · exact a.elim
    · exact a
  have hm2 := (MemSim.mem_indices _ _).1 hm
  exact ⟨hm2.1, hm2.2, b, fun j h0 h1 hr => c j (Or.inr ((MemSim.mem_indices _ _).2 ⟨h0, h1⟩)) hr⟩

/-- A process that is in the table is found by its pid, at its own cell or at an earlier
cell with the same pid. -/
theorem find_process_by_pid_found (s : System) (i : Int) (h0 : 0 ≤ i)
    (h1 : i < s.process_count) :
    0 ≤ find_process_by_pid s (procAt s i).pid ∧
    find_process_by_pid s (procAt s i).pid ≤ i ∧
    (procAt s (find_process_by_pid s (procAt s i).pid)).pid = (procAt s i).pid := by
  unfold find_process_by_pid
  cases hf : (indices s.process_count).find?
      (fun k => decide ((procAt s k).pid = (procAt s i).pid)) with
  | none =>
    have := MemSim.indices_find_none _ _ hf i h0 h1
    simp at this
  | some k =>
    obtain ⟨a, _, c, d⟩ := MemSim.indices_find_some _ _ _ hf
    show 0 ≤ k ∧ k ≤ i ∧ (procAt s k).pid = (procAt s i).pid
    refine ⟨a, ?_, by simpa using c⟩
    by_contra hlt
    have := d i h0 (by omega)
    simp at this

/-- The request is granted exactly when the process is in the table and both components of
the request are within what is available. -/
theorem request_resources_granted_iff (s : System) (pid : Int) (req : Resources) :
    (request_resources s pid req).1 = true ↔
      find_process_by_pid s pid ≠ -1 ∧ req.cpu ≤ s.available.cpu ∧
        req.memory_blocks ≤ s.available.memory_blocks := by
  unfold request_resources check_deadlock_prevention
  by_cases h1 : find_process_by_pid s pid = -1
  · simp [h1]
  · by_cases h2 : req.cpu > s.available.cpu ∨ req.memory_blocks > s.available.memory_blocks
    · simp only [h1, if_false, h2, if_true, Bool.not_false]
      constructor
      · intro h; cases h
      · intro h; omega
    · have h3 : req.cpu ≤ s.available.cpu ∧ req.memory_blocks ≤ s.available.memory_blocks := by
        omega
      simp only [h1, if_false, h2, Bool.not_true, h3, and_self, if_true]
      simp [h1]

/-- A granted request changes the allocation of the requesting process and what is
available; it changes no process state, no pid and not `running_pid`. -/
theorem request_resources_granted (s : System) (pid : Int) (req : Resources)
    (h : (request_resources s pid req).1 = true) :
    (∀ j, (procAt (request_resources s pid req).2 j).state = (procAt s j).state) ∧
    (∀ j, (procAt (request_resources s pid req).2 j).pid = (procAt s j).pid) ∧
    (request_resources s pid req).2.running_pid = s.running_pid ∧
    (request_resources s pid req).2.processes.length = s.processes.length ∧
    (request_resources s pid req).2.available =
      ⟨wrap32 (s.available.cpu - req.cpu),
        wrap32 (s.available.memory_blocks - req.memory_blocks)⟩ := by
  obtain ⟨h1, h2, h3⟩ := (request_resources_granted_iff s pid req).1 h
  have hc : ¬ (req.cpu > s.available.cpu ∨ req.memory_blocks > s.available.memory_blocks) := by
    omega
  have e : (request_resources s pid req).2 =
      add_log
        (modify_process
          { s with available :=
            ⟨wrap32 (s.available.cpu - req.cpu),
              wrap32 (s.available.memory_blocks - req.memory_blocks)⟩ }
          (find_process_by_pid s pid) (fun p =>
            { p with allocated :=
                ⟨wrap32 (p.allocated.cpu + req.cpu),
                  wrap32 (p.allocated.memory_blocks + req.memory_blocks)⟩ })) pid
        ("Recursos asignados a PID " ++ toString pid ++ " (CPU: " ++ toString req.cpu ++
          ", Memoria: " ++ toString req.memory_blocks ++ " bloques = " ++
          toString (wrap32 (req.memory_blocks * MEMORY_BLOCK_SIZE)) ++ "MB)") := by
    unfold request_resources check_deadlock_prevention
    rw [if_neg h1, if_neg hc]
    simp only [Bool.not_true]
    rw [if_neg (by simp), if_pos ⟨h2, h3⟩]
  rw [e]
  refine ⟨?_, ?_, ?_, ?_, ?_⟩
  · intro j
    rw [procAt_add_log, procAt_modify_process]
    split
    · rename_i hj
      rw [← hj.1]
      rfl
    · rfl
  · intro j
    rw [procAt_add_log, procAt_modify_process]
    split
    · rename_i hj
      rw [← hj.1]
      rfl
    · rfl
  · rw [(add_log_keeps _ _ _).2.1]; rfl
  · rw [(add_log_keeps _ _ _).1]
    exact MemSim.length_setI _ _ _
  · rw [(add_log_keeps _ _ _).2.2.2.1]; rfl

/-- A refused request changes no process state except to `WAITING` and leaves
`running_pid` as it is. -/
theorem request_resources_refused (s : System) (pid : Int) (req : Resources)
    (h : (request_resources s pid req).1 = false) :
    (∀ j, (procAt (request_resources s pid req).2 j).state = (procAt s j).state ∨
      (procAt (request_resources s pid req).2 j).state = ProcessState.WAITING) ∧
    (request_resources s pid req).2.running_pid = s.running_pid := by
  have hn := (request_resources_granted_iff s pid req).not.1 (by rw [h]; simp)
  unfold request_resources check_deadlock_prevention
  by_cases h1 : find_process_by_pid s pid = -1
  · rw [if_pos h1]
    exact ⟨fun j => Or.inl rfl, rfl⟩
  · rw [if_neg h1]
    have hc : req.cpu > s.available.cpu ∨ req.memory_blocks > s.available.memory_blocks := by
      by_contra hc
      exact hn ⟨h1, by omega, by omega⟩
    rw [if_pos hc]
    simp only [Bool.not_false, if_true]
    constructor
    · intro j
      rw [procAt_modify_process]
      split
      · right; rfl
      · left; rw [procAt_add_log]
    · show (add_log s pid _).running_pid = _
      exact (add_log_keeps _ _ _).2.1

/-- The assignments that start a process: its cell becomes `RUNNING`, `running_pid`
becomes its pid and nothing else in the table changes. -/
theorem set_running_spec (s : System) (idx pid : Int) (h0 : 0 ≤ idx)
    (h1 : idx < (s.processes.length : Int)) :
    (procAt (set_running s idx pid) idx).state = ProcessState.RUNNING ∧
    (procAt (set_running s idx pid) idx).pid = (procAt s idx).pid ∧
    (set_running s idx pid).running_pid = pid ∧
    ∀ j, j ≠ idx → procAt (set_running s idx pid) j = procAt s j := by
  unfold set_running
  have e : ∀ j, procAt
      (add_log
        { modify_process s idx (fun p => { p with state := ProcessState.RUNNING }) with
          running_pid := pid }
        pid ("Proceso PID " ++ toString pid ++ " ahora en ejecucion")) j =
      procAt (modify_process s idx (fun p => { p with state := ProcessState.RUNNING })) j := by
    intro j
    rw [procAt_add_log]
    rfl
  refine ⟨?_, ?_, ?_, ?_⟩
  · rw [e, procAt_modify_process, if_pos ⟨rfl, h0, h1⟩]
  · rw [e, procAt_modify_process, if_pos ⟨rfl, h0, h1⟩]
  · rw [(add_log_keeps _ _ _).2.1]
  · intro j hj
    rw [e, procAt_modify_process, if_neg (fun h => hj h.1.symm)]

/-- C38. In every state with algorithm FCFS, no running process and at least one ready
process in the table, `select_next_process` selects the ready process with the smallest
`arrival_time`, the one with the lowest table index among equal arrival times. Its request
for its needed resources is granted exactly when both components are available. If the
process holds no CPU and the request is granted, or if it already holds the CPU (then no
request is made), it becomes `RUNNING`, `running_pid` becomes its pid and no other process
changes state. If the request is refused, `running_pid` stays `-1` and a process state
changes only to `WAITING`. -/
theorem fcfs_selection (s : System)
    (hlen : s.process_count ≤ (s.processes.length : Int))
    (halg : s.algorithm = SchedulingAlgorithm.FCFS)
    (hrun : s.running_pid = -1)
    (hready : ∃ j, 0 ≤ j ∧ j < s.process_count ∧ (procAt s j).state = ProcessState.READY) :
    0 ≤ selected_index s ∧ selected_index s < s.process_count ∧
    (procAt s (selected_index s)).state = ProcessState.READY ∧
    (∀ j, 0 ≤ j → j < s.process_count → (procAt s j).state = ProcessState.READY →
      (procAt s (selected_index s)).arrival_time ≤ (procAt s j).arrival_time ∧
      ((procAt s j).arrival_time = (procAt s (selected_index s)).arrival_time →
        selected_index s ≤ j)) ∧
    ((request_resources s (procAt s (selected_index s)).pid
        (procAt s (selected_index s)).needed).1 = true ↔
      (procAt s (selected_index s)).needed.cpu ≤ s.available.cpu ∧
        (procAt s (selected_index s)).needed.memory_blocks ≤ s.available.memory_blocks) ∧
    ((procAt s (selected_index s)).allocated.cpu = 0 →
      (request_resources s (procAt s (selected_index s)).pid
        (procAt s (selected_index s)).needed).1 = true →
      (procAt (select_next_process s) (selected_index s)).state = ProcessState.RUNNING ∧
      (select_next_process s).running_pid = (procAt s (selected_index s)).pid ∧
      (procAt (select_next_process s) (selected_index s)).pid =
        (procAt s (selected_index s)).pid ∧
      ∀ j, j ≠ selected_index s →
        (procAt (select_next_process s) j).state = (procAt s j).state) ∧
    ((procAt s (selected_index s)).allocated.cpu ≠ 0 →
      (procAt (select_next_process s) (selected_index s)).state = ProcessState.RUNNING ∧
      (select_next_process s).running_pid = (procAt s (selected_index s)).pid ∧
      (procAt (select_next_process s) (selected_index s)).pid =
        (procAt s (selected_index s)).pid ∧
      ∀ j, j ≠ selected_index s →
        (procAt (select_next_process s) j).state = (procAt s j).state) ∧
    ((procAt s (selected_index s)).allocated.cpu = 0 →
      (request_resources s (procAt s (selected_index s)).pid
        (procAt s (selected_index s)).needed).1 = false →
      (select_next_process s).running_pid = -1 ∧
      ∀ j, (procAt (select_next_process s) j).state = (procAt s j).state ∨
        (procAt (select_next_process s) j).state = ProcessState.WAITING) := by
  have hsel : selected_index s = fcfs_scan s (indices s.process_count) (-1) := by
    unfold selected_index
    rw [halg]
  obtain ⟨a0, a1, a2, a3⟩ := fcfs_selected s hready
  rw [← hsel] at a0 a1 a2 a3
  have hne : selected_index s ≠ -1 := by omega
  have hfound := find_process_by_pid_found s (selected_index s) a0 a1
  have hiff := request_resources_granted_iff s (procAt s (selected_index s)).pid
    (procAt s (selected_index s)).needed
  have e : select_next_process s =
      if (procAt s (selected_index s)).allocated.cpu = 0 then
        if (request_resources s (procAt s (selected_index s)).pid
            (procAt s (selected_index s)).needed).1 then
          set_running (request_resources s (procAt s (selected_index s)).pid
            (procAt s (selected_index s)).needed).2 (selected_index s)
            (procAt s (selected_index s)).pid
        else (request_resources s (procAt s (selected_index s)).pid
          (procAt s (selected_index s)).needed).2
      else set_running s (selected_index s) (procAt s (selected_index s)).pid := by
    have hc : clear_preempted s = s := by
      unfold clear_preempted
      rw [halg]
    unfold select_next_process
    simp only [hc]
    rw [if_pos hne]
  refine ⟨a0, a1, a2, a3, ?_, ?_, ?_, ?_⟩
  · rw [hiff]
    constructor
    · intro h; exact h.2
    · intro h; exact ⟨by omega, h⟩
  · intro hc hg
    rw [e, if_pos hc, if_pos hg]
    obtain ⟨g1, g2, _, g4, _⟩ := request_resources_granted s _ _ hg
    obtain ⟨r1, r2, r3, r4⟩ := set_running_spec
      (request_resources s (procAt s (selected_index s)).pid
        (procAt s (selected_index s)).needed).2 (selected_index s)
      (procAt s (selected_index s)).pid a0 (by rw [g4]; omega)
    refine ⟨r1, r3, by rw [r2, g2], ?_⟩
    intro j hj
    rw [r4 j hj, g1]
  · intro hc
    rw [e, if_neg hc]
    obtain ⟨r1, r2, r3, r4⟩ := set_running_spec s (selected_index s)
      (procAt s (selected_index s)).pid a0 (by omega)
    refine ⟨r1, r3, r2, ?_⟩
    intro j hj
    rw [r4 j hj]
  · intro hc hg
    rw [e, if_pos hc, if_neg (by rw [hg]; simp)]
    obtain ⟨g1, g2⟩ := request_resources_refused s _ _ hg
    exact ⟨by rw [g2, hrun], g1⟩

/-- Witness for C38: of two ready processes that arrived at time 0 the one in cell 0 is
selected. -/
theorem fcfs_selection_witness :
    fcfs_example.algorithm = SchedulingAlgorithm.FCFS ∧ fcfs_example.running_pid = -1 ∧
    (procAt fcfs_example 1).state = ProcessState.READY ∧
    selected_index fcfs_example = 0 ∧
    (procAt fcfs_example (selected_index fcfs_example)).state = ProcessState.READY :=
  ⟨by decide, by decide, by decide, by decide,
    (fcfs_selection fcfs_example (by decide) (by decide) (by decide)
      ⟨1, by decide, by decide, by decide⟩).2.2.1⟩

/-! ## The scheduler invariant -/

theorem keeps_refl (s : System) : Keeps s s := ⟨rfl, rfl, rfl, fun _ => rfl, rfl, rfl⟩

theorem Keeps.chain {s s1 s2 : System} (a : Keeps s s1) (b : Keeps s1 s2) : Keeps s s2 :=
  ⟨b.count.trans a.count, b.next.trans a.next, b.len.trans a.len,
    fun j => (b.pids j).trans (a.pids j), b.sems.trans a.sems, b.alg.trans a.alg⟩

theorem same_refl (s : System) : Same s s := ⟨keeps_refl s, fun _ => rfl, rfl⟩

theorem Same.chain_same {s s1 s2 : System} (a : Same s s1) (b : Same s1 s2) : Same s s2 :=
  ⟨a.keeps.chain b.keeps, fun j => (b.states j).trans (a.states j),
    b.running.trans a.running⟩

theorem Same.then_stops {s s1 s2 : System} {idx : Int} (a : Same s s1) (b : Stops s1 s2 idx) :
    Stops s s2 idx :=
  ⟨a.keeps.chain b.keeps, b.halted, fun j hj => (b.others j hj).trans (a.states j),
    by rw [b.running, a.states idx, a.running]⟩

theorem Stops.then_same {s s1 s2 : System} {idx : Int} (a : Stops s s1 idx) (b : Same s1 s2) :
    Stops s s2 idx :=
  ⟨a.keeps.chain b.keeps, by rw [b.states idx]; exact a.halted,
    fun j hj => (b.states j).trans (a.others j hj), b.running.trans a.running⟩

theorem Same.then_starts {s s1 s2 : System} {idx : Int} (a : Same s s1)
    (b : Starts s1 s2 idx) : Starts s s2 idx :=
  ⟨a.keeps.chain b.keeps, b.started, fun j hj => (b.others j hj).trans (a.states j),
    by rw [b.running, a.keeps.pids idx]⟩

theorem same_add_log (s : System) (pid : Int) (event : String) :
    Same s (add_log s pid event) := by
  unfold add_log
  split
  · exact ⟨⟨rfl, rfl, rfl, fun _ => rfl, rfl, rfl⟩, fun _ => rfl, rfl⟩
  · exact same_refl s

/-- An assignment to fields of one cell other than `pid` and `state`. -/
theorem same_modify_process (s : System) (idx : Int) (f : PCB → PCB)
    (hpid : ∀ p, (f p).pid = p.pid) (hst : ∀ p, (f p).state = p.state) :
    Same s (modify_process s idx f) := by
  refine ⟨⟨rfl, rfl, ?_, ?_, rfl, rfl⟩, ?_, rfl⟩
  · exact MemSim.length_setI _ _ _
  · intro j
    rw [procAt_modify_process]
    split
    · rename_i h; rw [hpid, h.1]
    · rfl
  · intro j
    rw [procAt_modify_process]
    split
    · rename_i h; rw [hst, h.1]
    · rfl

/-- An assignment of a state other than `RUNNING` to a cell that is not `RUNNING`. -/
theorem stops_modify_process (s : System) (idx : Int) (st : ProcessState)
    (hst : st ≠ ProcessState.RUNNING) (h0 : 0 ≤ idx) (h1 : idx < (s.processes.length : Int))
    (hidle : (procAt s idx).state ≠ ProcessState.RUNNING) :
    Stops s (modify_process s idx (fun p => { p with state := st })) idx := by
  refine ⟨⟨rfl, rfl, ?_, ?_, rfl, rfl⟩, ?_, ?_, ?_⟩
  · exact MemSim.length_setI _ _ _
  · intro j
    rw [procAt_modify_process]
    split
    · rename_i h; rw [← h.1]
    · rfl
  · rw [procAt_modify_process, if_pos ⟨rfl, h0, h1⟩]
    exact hst
  · intro j hj
    rw [procAt_modify_process, if_neg (fun h => hj h.1.symm)]
  · rw [if_neg hidle]
    rfl

/-- Taking the CPU from the process in cell `idx` and giving it a state other than
`RUNNING`, as `suspend_process` and `terminate_process` do. -/
theorem stops_release_cpu (s : System) (idx : Int) (st : ProcessState)
    (hst : st ≠ ProcessState.RUNNING) (h0 : 0 ≤ idx) (h1 : idx < (s.processes.length : Int)) :
    Stops s
      (modify_process
        (if (procAt s idx).state = ProcessState.RUNNING then { s with running_pid := -1 }
          else s)
        idx (fun p => { p with state := st })) idx := by
  have key : ∀ t : System, t.processes = s.processes → t.process_count = s.process_count →
      t.next_pid = s.next_pid → t.semaphore_count = s.semaphore_count →
      t.algorithm = s.algorithm →
      t.running_pid = (if (procAt s idx).state = ProcessState.RUNNING then -1
        else s.running_pid) →
      Stops s (modify_process t idx (fun p => { p with state := st })) idx := by
    intro t e1 e2 e3 e4 e5 e6
    have e : ∀ j, procAt t j = procAt s j := by
      intro j
      unfold procAt
      rw [e1]
    refine ⟨⟨e2, e3, ?_, ?_, e4, e5⟩, ?_, ?_, e6⟩
    · show (setI _ _ _).length = _
      rw [MemSim.length_setI, e1]
    · intro j
      rw [procAt_modify_process]
      split
      · rename_i h; rw [e, ← h.1]
      · exact congrArg PCB.pid (e j)
    · rw [procAt_modify_process, if_pos ⟨rfl, h0, by rw [e1]; exact h1⟩]
      exact hst
    · intro j hj
      rw [procAt_modify_process, if_neg (fun h => hj h.1.symm), e]
  by_cases hrun : (procAt s idx).state = ProcessState.RUNNING
  · rw [if_pos hrun]
    exact key _ rfl rfl rfl rfl rfl (by rw [if_pos hrun])
  · rw [if_neg hrun]
    exact key _ rfl rfl rfl rfl rfl (by rw [if_neg hrun])

theorem SchedOK.of_same {s s1 : System} (h : SchedOK s) (c : Same s s1) : SchedOK s1 := by
  refine ⟨?_, ?_, ?_, ?_, ?_, ?_, ?_⟩
  · rw [c.keeps.count]; exact h.count_nonneg
  · rw [c.keeps.count]; exact h.count_le
  · rw [c.keeps.len]; exact h.len
  · intro i h0 h1
    rw [c.keeps.count] at h1
    rw [c.keeps.pids]
    exact h.pids i h0 h1
  · rw [c.keeps.next, c.keeps.count]; exact h.next
  · intro i h0 h1 hr
    rw [c.keeps.count] at h1
    rw [c.states] at hr
    rw [c.running, c.keeps.pids]
    exact h.running i h0 h1 hr
  · intro hr
    rw [c.running] at hr
    obtain ⟨i, i0, i1, i2, i3⟩ := h.owner hr
    refine ⟨i, i0, by rw [c.keeps.count]; exact i1, ?_, ?_⟩
    · rw [c.keeps.pids, c.running]; exact i2
    · rw [c.states]; exact i3

theorem SchedOK.of_stops {s s1 : System} {idx : Int} (h : SchedOK s) (c : Stops s s1 idx)
    (h0 : 0 ≤ idx) (h1 : idx < s.process_count) : SchedOK s1 := by
  refine ⟨?_, ?_, ?_, ?_, ?_, ?_, ?_⟩
  · rw [c.keeps.count]; exact h.count_nonneg
  · rw [c.keeps.count]; exact h.count_le
  · rw [c.keeps.len]; exact h.len
  · intro i i0 i1
    rw [c.keeps.count] at i1
    rw [c.keeps.pids]
    exact h.pids i i0 i1
  · rw [c.keeps.next, c.keeps.count]; exact h.next
  · intro i i0 i1 hr
    rw [c.keeps.count] at i1
    have hne : i ≠ idx := by
      intro e
      rw [e] at hr
      exact c.halted hr
    rw [c.others i hne] at hr
    have hrun := h.running i i0 i1 hr
    rw [c.running, c.keeps.pids]
    by_cases hidx : (procAt s idx).state = ProcessState.RUNNING
    · have h2 := h.running idx h0 h1 hidx
      have p1 := h.pids i i0 i1
      have p2 := h.pids idx h0 h1
      omega
    · rw [if_neg hidx]; exact hrun
  · intro hr
    rw [c.running] at hr
    by_cases hidx : (procAt s idx).state = ProcessState.RUNNING
    · rw [if_pos hidx] at hr
      exact absurd rfl hr
    · rw [if_neg hidx] at hr
      obtain ⟨i, i0, i1, i2, i3⟩ := h.owner hr
      have hne : i ≠ idx := by
        intro e
        rw [e] at i3
        exact hidx i3
      refine ⟨i, i0, by rw [c.keeps.count]; exact i1, ?_, ?_⟩
      · rw [c.keeps.pids, c.running, if_neg hidx]; exact i2
      · rw [c.others i hne]; exact i3

/-- With `running_pid = -1` no process in the table is `RUNNING`. -/
theorem SchedOK.idle {s : System} (h : SchedOK s) (hfree : s.running_pid = -1) (i : Int)
    (h0 : 0 ≤ i) (h1 : i < s.process_count) : (procAt s i).state ≠ ProcessState.RUNNING := by
  intro hr
  have a := h.running i h0 h1 hr
  have b := h.pids i h0 h1
  omega

theorem SchedOK.of_starts {s s1 : System} {idx : Int} (h : SchedOK s) (c : Starts s s1 idx)
    (h0 : 0 ≤ idx) (h1 : idx < s.process_count) (hfree : s.running_pid = -1) :
    SchedOK s1 := by
  refine ⟨?_, ?_, ?_, ?_, ?_, ?_, ?_⟩
  · rw [c.keeps.count]; exact h.count_nonneg
  · rw [c.keeps.count]; exact h.count_le
  · rw [c.keeps.len]; exact h.len
  · intro i i0 i1
    rw [c.keeps.count] at i1
    rw [c.keeps.pids]
    exact h.pids i i0 i1
  · rw [c.keeps.next, c.keeps.count]; exact h.next
  · intro i i0 i1 hr
    rw [c.keeps.count] at i1
    by_cases hne : i = idx
    · rw [c.running, c.keeps.pids, hne]
    · rw [c.others i hne] at hr
      exact absurd hr (h.idle hfree i i0 i1)
  · intro _
    exact ⟨idx, h0, by rw [c.keeps.count]; exact h1, by rw [c.keeps.pids, c.running],
      c.started⟩

/-- With the CPU free, a change that makes no process `RUNNING` and leaves `running_pid`
at `-1` keeps the invariant. -/
theorem SchedOK.of_idle {s s1 : System} (h : SchedOK s) (hfree : s.running_pid = -1)
    (k : Keeps s s1)
    (hst : ∀ j, (procAt s1 j).state = (procAt s j).state ∨
      (procAt s1 j).state = ProcessState.WAITING)
    (hr : s1.running_pid = s.running_pid) : SchedOK s1 := by
  refine ⟨?_, ?_, ?_, ?_, ?_, ?_, ?_⟩
  · rw [k.count]; exact h.count_nonneg
  · rw [k.count]; exact h.count_le
  · rw [k.len]; exact h.len
  · intro i i0 i1
    rw [k.count] at i1
    rw [k.pids]
    exact h.pids i i0 i1
  · rw [k.next, k.count]; exact h.next
  · intro i i0 i1 hrun
    rw [k.count] at i1
    rcases hst i with e | e
    · rw [e] at hrun
      exact absurd hrun (h.idle hfree i i0 i1)
    · rw [e] at hrun
      cases hrun
  · intro hne
    rw [hr, hfree] at hne
    exact absurd rfl hne

theorem Same.quiet {s s1 : System} (a : Same s s1) : Quiet s s1 := ⟨a.keeps, a.states⟩

theorem Quiet.chain_quiet {s s1 s2 : System} (a : Quiet s s1) (b : Quiet s1 s2) : Quiet s s2 :=
  ⟨a.keeps.chain b.keeps, fun j => (b.states j).trans (a.states j)⟩

theorem Quiet.then_halts {s s1 s2 : System} {idx : Int} (a : Quiet s s1)
    (b : Halts s1 s2 idx) : Halts s s2 idx :=
  ⟨a.keeps.chain b.keeps, b.halted, fun j hj => (b.others j hj).trans (a.states j)⟩

theorem Halts.then_quiet {s s1 s2 : System} {idx : Int} (a : Halts s s1 idx)
    (b : Quiet s1 s2) : Halts s s2 idx :=
  ⟨a.keeps.chain b.keeps, by rw [b.states idx]; exact a.halted,
    fun j hj => (b.states j).trans (a.others j hj)⟩

theorem Halts.stops {s s1 : System} {idx : Int} (a : Halts s s1 idx)
    (hr : s1.running_pid =
      if (procAt s idx).state = ProcessState.RUNNING then -1 else s.running_pid) :
    Stops s s1 idx := ⟨a.keeps, a.halted, a.others, hr⟩

theorem halts_modify_process (s : System) (idx : Int) (f : PCB → PCB)
    (hpid : ∀ p, (f p).pid = p.pid) (hst : ∀ p, (f p).state ≠ ProcessState.RUNNING)
    (h0 : 0 ≤ idx) (h1 : idx < (s.processes.length : Int)) :
    Halts s (modify_process s idx f) idx := by
  refine ⟨⟨rfl, rfl, ?_, ?_, rfl, rfl⟩, ?_, ?_⟩
  · exact MemSim.length_setI _ _ _
  · intro j
    rw [procAt_modify_process]
    split
    · rename_i h; rw [hpid, h.1]
    · rfl
  · rw [procAt_modify_process, if_pos ⟨rfl, h0, h1⟩]
    exact hst _
  · intro j hj
    rw [procAt_modify_process, if_neg (fun h => hj h.1.symm)]

theorem Halts.with_totals {s s1 : System} {idx : Int} (a : Halts s s1 idx) (x y z : Int) :
    Halts s { s1 with total_processes_completed := x, total_waiting_time := y,
                      total_turnaround_time := z } idx :=
  ⟨⟨a.keeps.count, a.keeps.next, a.keeps.len, a.keeps.pids, a.keeps.sems, a.keeps.alg⟩,
    a.halted, a.others⟩

theorem Halts.with_running {s s1 : System} {idx : Int} (a : Halts s s1 idx) (r : Int) :
    Halts s { s1 with running_pid := r } idx :=
  ⟨⟨a.keeps.count, a.keeps.next, a.keeps.len, a.keeps.pids, a.keeps.sems, a.keeps.alg⟩,
    a.halted, a.others⟩

/-- The statement `if (p->state == RUNNING) sys.running_pid = -1;`. -/
theorem quiet_release_cpu (s : System) (idx : Int) :
    Quiet s (if (procAt s idx).state = ProcessState.RUNNING then { s with running_pid := -1 }
      else s) ∧
    (if (procAt s idx).state = ProcessState.RUNNING then { s with running_pid := -1 }
      else s).running_pid =
      (if (procAt s idx).state = ProcessState.RUNNING then -1 else s.running_pid) := by
  by_cases hrun : (procAt s idx).state = ProcessState.RUNNING
  · rw [if_pos hrun, if_pos hrun]
    exact ⟨⟨⟨rfl, rfl, rfl, fun _ => rfl, rfl, rfl⟩, fun _ => rfl⟩, rfl⟩
  · rw [if_neg hrun, if_neg hrun]
    exact ⟨⟨keeps_refl s, fun _ => rfl⟩, rfl⟩

theorem Effect.keeps {s s1 : System} (e : Effect s s1) : Keeps s s1 := by
  rcases e with a | ⟨_, _, _, a⟩ | ⟨_, _, _, _, a⟩ | ⟨_, a, _⟩
  · exact a.keeps
  · exact a.keeps
  · exact a.keeps
  · exact a

theorem SchedOK.of_effect {s s1 : System} (h : SchedOK s) (e : Effect s s1) : SchedOK s1 := by
  rcases e with a | ⟨idx, h0, h1, a⟩ | ⟨idx, h0, h1, hf, a⟩ | ⟨hf, k, hs, hr⟩
  · exact h.of_same a
  · exact h.of_stops a h0 h1
  · exact h.of_starts a h0 h1 hf
  · exact h.of_idle hf k hs hr

theorem find_process_by_pid_spec (s : System) (pid : Int)
    (h : find_process_by_pid s pid ≠ -1) :
    0 ≤ find_process_by_pid s pid ∧ find_process_by_pid s pid < s.process_count ∧
    (procAt s (find_process_by_pid s pid)).pid = pid := by
  unfold find_process_by_pid at h ⊢
  cases hf : (indices s.process_count).find? (fun k => decide ((procAt s k).pid = pid)) with
  | none => rw [hf] at h; exact absurd rfl h
  | some k =>
    obtain ⟨a, b, c, _⟩ := MemSim.indices_find_some _ _ _ hf
    exact ⟨a, b, by simpa using c⟩

theorem find_process_by_pid_congr {s s1 : System} (k : Keeps s s1) (pid : Int) :
    find_process_by_pid s1 pid = find_process_by_pid s pid := by
  unfold find_process_by_pid
  have e : (fun i => decide ((procAt s1 i).pid = pid)) =
      (fun i => decide ((procAt s i).pid = pid)) := by
    funext i
    rw [k.pids]
  rw [k.count, e]

/-- With the pids `1 .. process_count` in cell order, a pid is found in its own cell. -/
theorem SchedOK.find_own {s : System} (h : SchedOK s) (i : Int) (h0 : 0 ≤ i)
    (h1 : i < s.process_count) : find_process_by_pid s (procAt s i).pid = i := by
  obtain ⟨a, b, c⟩ := find_process_by_pid_found s i h0 h1
  have p1 := h.pids i h0 h1
  have p2 := h.pids _ a (by omega)
  omega

theorem release_resources_same (s : System) (pid : Int) :
    Same s (release_resources s pid) := by
  unfold release_resources
  simp only []
  by_cases h : find_process_by_pid s pid = -1
  · rw [if_pos h]; exact same_refl s
  · rw [if_neg h]
    have a : Same s { s with available :=
        ⟨wrap32 (s.available.cpu + (procAt s (find_process_by_pid s pid)).allocated.cpu),
          wrap32 (s.available.memory_blocks +
            (procAt s (find_process_by_pid s pid)).allocated.memory_blocks)⟩ } :=
      ⟨⟨rfl, rfl, rfl, fun _ => rfl, rfl, rfl⟩, fun _ => rfl, rfl⟩
    exact (a.chain_same (same_add_log _ _ _)).chain_same
      (same_modify_process _ _ _ (fun _ => rfl) (fun _ => rfl))

theorem terminate_process_effect (s : System) (pid : Int) (cause : TerminationCause)
    (hlen : s.process_count ≤ (s.processes.length : Int)) :
    Effect s (terminate_process s pid cause) := by
  unfold terminate_process
  simp only []
  by_cases h1 : find_process_by_pid s pid = -1
  · rw [if_pos h1]; exact Or.inl (same_refl s)
  · rw [if_neg h1]
    by_cases h2 : (procAt s (find_process_by_pid s pid)).state = ProcessState.TERMINATED
    · rw [if_pos h2]; exact Or.inl (same_refl s)
    · rw [if_neg h2]
      obtain ⟨i0, i1, _⟩ := find_process_by_pid_spec s pid h1
      obtain ⟨q1, q2⟩ := quiet_release_cpu s (find_process_by_pid s pid)
      have r := release_resources_same
        (if (procAt s (find_process_by_pid s pid)).state = ProcessState.RUNNING then
          { s with running_pid := -1 } else s) pid
      have q3 := q1.chain_quiet r.quiet
      refine Or.inr (Or.inl ⟨_, i0, i1, ?_⟩)
      apply Halts.stops
      · refine Halts.then_quiet ?_ (same_add_log _ _ _).quiet
        apply Halts.with_totals
        apply q3.then_halts
        apply halts_modify_process
        · intro p; rfl
        · intro p; simp
        · exact i0
        · rw [q3.keeps.len]; omega
      · rw [(same_add_log _ _ _).running]
        show (release_resources _ pid).running_pid = _
        rw [r.running, q2]

theorem suspend_process_effect (s : System) (pid : Int)
    (hlen : s.process_count ≤ (s.processes.length : Int)) :
    Effect s (suspend_process s pid) := by
  unfold suspend_process
  simp only []
  by_cases h1 : find_process_by_pid s pid = -1
  · rw [if_pos h1]; exact Or.inl (same_refl s)
  · rw [if_neg h1]
    by_cases h2 : (procAt s (find_process_by_pid s pid)).state = ProcessState.TERMINATED
    · rw [if_pos h2]; exact Or.inl (same_refl s)
    · rw [if_neg h2]
      obtain ⟨i0, i1, _⟩ := find_process_by_pid_spec s pid h1
      exact Or.inr (Or.inl ⟨_, i0, i1,
        (stops_release_cpu s _ ProcessState.WAITING (by decide) i0 (by omega)).then_same
          (same_add_log _ _ _)⟩)

theorem resume_process_effect (s : System) (pid : Int)
    (hlen : s.process_count ≤ (s.processes.length : Int)) :
    Effect s (resume_process s pid) := by
  unfold resume_process
  simp only []
  by_cases h1 : find_process_by_pid s pid = -1
  · rw [if_pos h1]; exact Or.inl (same_refl s)
  · rw [if_neg h1]
    by_cases h2 : (procAt s (find_process_by_pid s pid)).state ≠ ProcessState.WAITING
    · rw [if_pos h2]; exact Or.inl (same_refl s)
    · rw [if_neg h2]
      obtain ⟨i0, i1, _⟩ := find_process_by_pid_spec s pid h1
      have hw : (procAt s (find_process_by_pid s pid)).state = ProcessState.WAITING := by
        by_contra hc
        exact h2 hc
      exact Or.inr (Or.inl ⟨_, i0, i1,
        (stops_modify_process s _ ProcessState.READY (by decide) i0 (by omega)
          (by rw [hw]; decide)).then_same (same_add_log _ _ _)⟩)

theorem keeps_modify_process (s : System) (idx : Int) (f : PCB → PCB)
    (hpid : ∀ p, (f p).pid = p.pid) : Keeps s (modify_process s idx f) := by
  refine ⟨rfl, rfl, ?_, ?_, rfl, rfl⟩
  · exact MemSim.length_setI _ _ _
  · intro j
    rw [procAt_modify_process]
    split
    · rename_i h; rw [hpid, h.1]
    · rfl

theorem request_resources_same (s : System) (pid : Int) (req : Resources)
    (h : (request_resources s pid req).1 = true) :
    Same s (request_resources s pid req).2 := by
  obtain ⟨h1, h2, h3⟩ := (request_resources_granted_iff s pid req).1 h
  have hc : ¬ (req.cpu > s.available.cpu ∨ req.memory_blocks > s.available.memory_blocks) := by
    omega
  unfold request_resources check_deadlock_prevention
  simp only []
  rw [if_neg h1, if_neg hc]
  simp only [Bool.not_true]
  rw [if_neg (by simp), if_pos ⟨h2, h3⟩]
  have a : Same s { s with available :=
      ⟨wrap32 (s.available.cpu - req.cpu),
        wrap32 (s.available.memory_blocks - req.memory_blocks)⟩ } :=
    ⟨⟨rfl, rfl, rfl, fun _ => rfl, rfl, rfl⟩, fun _ => rfl, rfl⟩
  refine Same.chain_same ?_ (same_add_log _ _ _)
  refine Same.chain_same a ?_
  exact same_modify_process _ _ _ (fun _ => rfl) (fun _ => rfl)

theorem request_resources_keeps (s : System) (pid : Int) (req : Resources)
    (h : (request_resources s pid req).1 = false) :
    Keeps s (request_resources s pid req).2 := by
  have hn := (request_resources_granted_iff s pid req).not.1 (by rw [h]; simp)
  unfold request_resources check_deadlock_prevention
  simp only []
  by_cases h1 : find_process_by_pid s pid = -1
  · rw [if_pos h1]
    exact keeps_refl s
  · rw [if_neg h1]
    have hc : req.cpu > s.available.cpu ∨ req.memory_blocks > s.available.memory_blocks := by
      by_contra hc
      exact hn ⟨h1, by omega, by omega⟩
    rw [if_pos hc]
    simp only [Bool.not_false, if_true]
    exact (same_add_log _ _ _).keeps.chain (keeps_modify_process _ _ _ (fun _ => rfl))

theorem starts_set_running (s : System) (idx pid : Int) (h0 : 0 ≤ idx)
    (h1 : idx < (s.processes.length : Int)) (hp : pid = (procAt s idx).pid) :
    Starts s (set_running s idx pid) idx := by
  obtain ⟨r1, r2, r3, r4⟩ := set_running_spec s idx pid h0 h1
  refine ⟨?_, r1, fun j hj => by rw [r4 j hj], by rw [r3, hp]⟩
  unfold set_running
  have k : Keeps s
      { modify_process s idx (fun p => { p with state := ProcessState.RUNNING }) with
        running_pid := pid } := by
    have k0 := keeps_modify_process s idx (fun p => { p with state := ProcessState.RUNNING })
      (fun _ => rfl)
    exact ⟨k0.count, k0.next, k0.len, k0.pids, k0.sems, k0.alg⟩
  exact k.chain (same_add_log _ _ _).keeps

theorem fcfs_scan_range (s : System) (l : List Int) :
    ∀ sel, fcfs_scan s l sel = sel ∨ fcfs_scan s l sel ∈ l := by
  induction l with
  | nil => intro sel; exact Or.inl rfl
  | cons i l ih =>
    intro sel
    rw [fcfs_scan_cons]
    split
    · split
      · rcases ih i with e | e
        · right; rw [e]; exact List.mem_cons_self i l
        · right; exact List.mem_cons_of_mem i e
      · rcases ih sel with e | e
        · left; exact e
        · right; exact List.mem_cons_of_mem i e
    · rcases ih sel with e | e
      · left; exact e
      · right; exact List.mem_cons_of_mem i e

theorem rr_scan_cons (s : System) (i : Int) (l : List Int) (sel : Int) :
    rr_scan s (i :: l) sel =
      rr_scan s l
        (if (procAt s i).state = ProcessState.READY then
          if (procAt s i).pid = s.last_preempted_pid ∧ s.last_preempted_pid ≠ -1 then sel
          else if sel = -1 then i
          else if (procAt s i).pid < (procAt s sel).pid then i
          else sel
        else sel) := rfl

theorem rr_scan_range (s : System) (l : List Int) :
    ∀ sel, rr_scan s l sel = sel ∨ rr_scan s l sel ∈ l := by
  induction l with
  | nil => intro sel; exact Or.inl rfl
  | cons i l ih =>
    intro sel
    rw [rr_scan_cons]
    have hi : rr_scan s l i = sel ∨ rr_scan s l i ∈ i :: l := by
      rcases ih i with e | e
      · right; rw [e]; exact List.mem_cons_self i l
      · right; exact List.mem_cons_of_mem i e
    have hs : rr_scan s l sel = sel ∨ rr_scan s l sel ∈ i :: l := by
      rcases ih sel with e | e
      · left; exact e
      · right; exact List.mem_cons_of_mem i e
    split
    · split
      · exact hs
      · split
        · exact hi
        · split
          · exact hi
          · exact hs
    · exact hs

/-- The index chosen by `select_next_process` is `-1` or a cell of the table. -/
theorem selected_index_range (s : System) :
    selected_index s = -1 ∨ (0 ≤ selected_index s ∧ selected_index s < s.process_count) := by
  unfold selected_index
  cases s.algorithm with
  | FCFS =>
    simp only []
    rcases fcfs_scan_range s (indices s.process_count) (-1) with e | e
    · left; exact e
    · right; exact (MemSim.mem_indices _ _).1 e
  | ROUND_ROBIN =>
    simp only []
    have hr : rr_scan s (indices s.process_count) (-1) = -1 ∨
        (0 ≤ rr_scan s (indices s.process_count) (-1) ∧
          rr_scan s (indices s.process_count) (-1) < s.process_count) := by
      rcases rr_scan_range s (indices s.process_count) (-1) with e | e
      · left; exact e
      · right; exact (MemSim.mem_indices _ _).1 e
    unfold rr_fallback
    split
    · cases hf : (indices s.process_count).find? (fun i =>
          decide ((procAt s i).state = ProcessState.READY) &&
            decide ((procAt s i).pid = s.last_preempted_pid)) with
      | none => exact hr
      | some k =>
        obtain ⟨a, b, _, _⟩ := MemSim.indices_find_some _ _ _ hf
        exact Or.inr ⟨a, b⟩
    · exact hr

theorem same_clear_preempted (s : System) : Same s (clear_preempted s) := by
  unfold clear_preempted
  cases ha : s.algorithm with
  | FCFS => exact same_refl s
  | ROUND_ROBIN => exact ⟨⟨rfl, rfl, rfl, fun _ => rfl, rfl, ha.symm⟩, fun _ => rfl, rfl⟩

theorem select_next_process_effect (s : System)
    (hlen : s.process_count ≤ (s.processes.length : Int)) (hfree : s.running_pid = -1) :
    Effect s (select_next_process s) := by
  have c := same_clear_preempted s
  unfold select_next_process
  simp only []
  generalize clear_preempted s = s0 at c ⊢
  rcases selected_index_range s with hsel | ⟨h0, h1⟩
  · rw [if_neg (by rw [hsel]; simp)]
    exact Or.inl c
  · rw [if_pos (by omega)]
    by_cases ha : (procAt s0 (selected_index s)).allocated.cpu = 0
    · rw [if_pos ha]
      cases hg : (request_resources s0 (procAt s0 (selected_index s)).pid
          (procAt s0 (selected_index s)).needed).1 with
      | true =>
        rw [if_pos rfl]
        have g := request_resources_same _ _ _ hg
        refine Or.inr (Or.inr (Or.inl ⟨_, h0, h1, hfree, ?_⟩))
        apply (c.chain_same g).then_starts
        apply starts_set_running _ _ _ h0
        · rw [(c.chain_same g).keeps.len]; omega
        · rw [g.keeps.pids]
      | false =>
        rw [if_neg (by simp)]
        obtain ⟨g1, g2⟩ := request_resources_refused _ _ _ hg
        have k := request_resources_keeps _ _ _ hg
        refine Or.inr (Or.inr (Or.inr ⟨hfree, c.keeps.chain k, ?_, ?_⟩))
        · intro j
          rcases g1 j with e | e
          · left; rw [e, c.states]
          · right; exact e
        · rw [g2, c.running]
    · rw [if_neg ha]
      refine Or.inr (Or.inr (Or.inl ⟨_, h0, h1, hfree, ?_⟩))
      apply c.then_starts
      apply starts_set_running _ _ _ h0
      · rw [c.keeps.len]; omega
      · rfl

theorem age_waiting_same (s : System) : Same s (age_waiting s) := by
  unfold age_waiting
  generalize indices s.process_count = l
  induction l generalizing s with
  | nil => exact same_refl s
  | cons i l ih =>
    rw [List.foldl_cons]
    refine Same.chain_same ?_ (ih _)
    split
    · exact same_modify_process _ _ _ (fun _ => rfl) (fun _ => rfl)
    · exact same_refl s

theorem tick_process_same (s : System) (idx : Int) : Same s (tick_process s idx) := by
  unfold tick_process
  simp only []
  refine Same.chain_same ?_ (same_add_log _ _ _)
  have a : Same s (modify_process s idx (fun p =>
      { p with remaining_time := wrap32 (p.remaining_time - 1) })) :=
    same_modify_process _ _ _ (fun _ => rfl) (fun _ => rfl)
  have b : Same s { modify_process s idx (fun p =>
      { p with remaining_time := wrap32 (p.remaining_time - 1) }) with
      cpu_busy_time := (modify_process s idx (fun p =>
        { p with remaining_time := wrap32 (p.remaining_time - 1) })).cpu_busy_time + 1 } :=
    ⟨⟨a.keeps.count, a.keeps.next, a.keeps.len, a.keeps.pids, a.keeps.sems, a.keeps.alg⟩,
      a.states, a.running⟩
  split
  · exact b.chain_same (same_modify_process _ _ _ (fun _ => rfl) (fun _ => rfl))
  · exact b

theorem preempt_process_stops (s : System) (idx pid : Int) (h0 : 0 ≤ idx)
    (h1 : idx < (s.processes.length : Int))
    (hrun : (procAt s idx).state = ProcessState.RUNNING) :
    Stops s (preempt_process s idx pid) idx := by
  unfold preempt_process
  simp only []
  have q : Quiet s (release_resources { s with last_preempted_pid := pid } pid) := by
    refine Quiet.chain_quiet ?_ (release_resources_same _ _).quiet
    exact ⟨⟨rfl, rfl, rfl, fun _ => rfl, rfl, rfl⟩, fun _ => rfl⟩
  apply Halts.stops
  · refine Halts.then_quiet ?_ (same_add_log _ _ _).quiet
    refine Halts.then_quiet ?hh (same_modify_process _ _ _ ?hp ?hs).quiet
    case hp => intro p; rfl
    case hs => intro p; rfl
    apply Halts.with_running
    apply q.then_halts
    apply halts_modify_process
    · intro p; rfl
    · intro p; simp
    · exact h0
    · rw [q.keeps.len]; exact h1
  · rw [(same_add_log _ _ _).running, if_pos hrun]
    rfl

theorem terminate_process_stops (s : System) (pid : Int) (cause : TerminationCause)
    (hlen : s.process_count ≤ (s.processes.length : Int))
    (h1 : find_process_by_pid s pid ≠ -1)
    (h2 : (procAt s (find_process_by_pid s pid)).state ≠ ProcessState.TERMINATED) :
    Stops s (terminate_process s pid cause) (find_process_by_pid s pid) := by
  unfold terminate_process
  simp only []
  rw [if_neg h1, if_neg h2]
  obtain ⟨i0, i1, _⟩ := find_process_by_pid_spec s pid h1
  obtain ⟨q1, q2⟩ := quiet_release_cpu s (find_process_by_pid s pid)
  have r := release_resources_same
    (if (procAt s (find_process_by_pid s pid)).state = ProcessState.RUNNING then
      { s with running_pid := -1 } else s) pid
  have q3 := q1.chain_quiet r.quiet
  apply Halts.stops
  · refine Halts.then_quiet ?_ (same_add_log _ _ _).quiet
    apply Halts.with_totals
    apply q3.then_halts
    apply halts_modify_process
    · intro p; rfl
    · intro p; simp
    · exact i0
    · rw [q3.keeps.len]; omega
  · rw [(same_add_log _ _ _).running]
    show (release_resources _ pid).running_pid = _
    rw [r.running, q2]

theorem run_current_effect (s : System)
    (hlen : s.process_count ≤ (s.processes.length : Int)) :
    Effect s (run_current s) := by
  unfold run_current
  simp only []
  by_cases h1 : s.running_pid ≠ -1
  · rw [if_pos h1]
    by_cases h2 : find_process_by_pid s s.running_pid ≠ -1
    · rw [if_pos h2]
      by_cases h3 : (procAt s (find_process_by_pid s s.running_pid)).state =
          ProcessState.RUNNING
      · rw [if_pos h3]
        obtain ⟨i0, i1, i2⟩ := find_process_by_pid_spec s s.running_pid h2
        have t := tick_process_same s (find_process_by_pid s s.running_pid)
        have hpid : (procAt (tick_process s (find_process_by_pid s s.running_pid))
            (find_process_by_pid s s.running_pid)).pid = s.running_pid := by
          rw [t.keeps.pids, i2]
        have hst : (procAt (tick_process s (find_process_by_pid s s.running_pid))
            (find_process_by_pid s s.running_pid)).state = ProcessState.RUNNING := by
          rw [t.states, h3]
        split
        · refine Or.inr (Or.inl ⟨_, i0, i1, ?_⟩)
          apply t.then_stops
          apply preempt_process_stops _ _ _ i0
          · rw [t.keeps.len]; omega
          · exact hst
        · split
          · refine Or.inr (Or.inl ⟨_, i0, i1, ?_⟩)
            apply t.then_stops
            rw [hpid]
            have hf : find_process_by_pid
                (tick_process s (find_process_by_pid s s.running_pid)) s.running_pid =
                find_process_by_pid s s.running_pid := find_process_by_pid_congr t.keeps _
            have st := terminate_process_stops
              (tick_process s (find_process_by_pid s s.running_pid)) s.running_pid
              TerminationCause.NORMAL (by rw [t.keeps.count, t.keeps.len]; exact hlen)
              (by rw [hf]; exact h2) (by rw [hf, hst]; decide)
            rw [hf] at st
            exact ⟨⟨st.keeps.count, st.keeps.next, st.keeps.len, st.keeps.pids, st.keeps.sems,
              st.keeps.alg⟩, st.halted, st.others, by rw [if_pos hst]⟩
          · exact Or.inl t
      · rw [if_neg h3]; exact Or.inl (same_refl s)
    · rw [if_neg h2]; exact Or.inl (same_refl s)
  · rw [if_neg h1]; exact Or.inl (same_refl s)

/-- The layout part of the invariant is all that the later steps of `execute_step` need
from the earlier ones. -/
theorem SchedOK.table_le {s : System} (h : SchedOK s) :
    s.process_count ≤ (s.processes.length : Int) := by
  rw [h.len]; exact h.count_le

theorem execute_step_ok {s : System} (h : SchedOK s) :
    SchedOK (execute_step s) ∧ Keeps s (execute_step s) := by
  unfold execute_step
  simp only []
  have a : Same s { s with current_time := s.current_time + 1 } :=
    ⟨⟨rfl, rfl, rfl, fun _ => rfl, rfl, rfl⟩, fun _ => rfl, rfl⟩
  have ha := h.of_same a
  have b := run_current_effect { s with current_time := s.current_time + 1 } ha.table_le
  have hb := ha.of_effect b
  have c := age_waiting_same (run_current { s with current_time := s.current_time + 1 })
  have hc := hb.of_same c
  have k := (a.keeps.chain b.keeps).chain c.keeps
  split
  · rename_i hfree
    have d := select_next_process_effect _ hc.table_le hfree
    exact ⟨hc.of_effect d, k.chain d.keeps⟩
  · exact ⟨hc, k⟩

theorem procAt_with_count (t : System) (c j : Int) :
    procAt { t with process_count := c } j = procAt t j := rfl

/-- What a successful `create_process` does to the table: one more cell, holding a `READY`
process with the next pid; the other cells, `running_pid` and the semaphores are as
before. -/
theorem create_process_table (s : System) (burst_time priority memory_blocks : Int)
    (h1 : ¬ s.process_count ≥ MAX_PROCESSES) (h2 : ¬ memory_blocks > MAX_MEMORY_BLOCKS)
    (h0 : 0 ≤ s.process_count) (hl : s.process_count < (s.processes.length : Int)) :
    (create_process s burst_time priority memory_blocks).2.process_count =
      s.process_count + 1 ∧
    (create_process s burst_time priority memory_blocks).2.next_pid = s.next_pid + 1 ∧
    (create_process s burst_time priority memory_blocks).2.processes.length =
      s.processes.length ∧
    (create_process s burst_time priority memory_blocks).2.running_pid = s.running_pid ∧
    (create_process s burst_time priority memory_blocks).2.semaphore_count =
      s.semaphore_count ∧
    (∀ j, j ≠ s.process_count →
      procAt (create_process s burst_time priority memory_blocks).2 j = procAt s j) ∧
    (procAt (create_process s burst_time priority memory_blocks).2 s.process_count).pid =
      s.next_pid ∧
    (procAt (create_process s burst_time priority memory_blocks).2 s.process_count).state =
      ProcessState.READY := by
  unfold create_process
  rw [if_neg h1, if_neg h2]
  simp only []
  refine ⟨?_, ?_, ?_, ?_, ?_, ?_, ?_, ?_⟩
  · rw [(same_add_log _ _ _).keeps.count]
    rfl
  · rw [(same_add_log _ _ _).keeps.next]
    rfl
  · rw [(same_add_log _ _ _).keeps.len]
    exact MemSim.length_setI _ _ _
  · rw [(same_add_log _ _ _).running]
    rfl
  · rw [(same_add_log _ _ _).keeps.sems]
    rfl
  · intro j hj
    rw [procAt_add_log]
    rw [procAt_with_count, procAt_modify_process, if_neg (fun c => hj c.1.symm)]
    rfl
  · rw [procAt_add_log]
    rw [procAt_with_count, procAt_modify_process, if_pos ⟨rfl, h0, hl⟩]
  · rw [procAt_add_log]
    rw [procAt_with_count, procAt_modify_process, if_pos ⟨rfl, h0, hl⟩]

theorem create_process_ok {s : System} (h : SchedOK s) (burst_time priority memory_blocks : Int) :
    SchedOK (create_process s burst_time priority memory_blocks).2 ∧
    (create_process s burst_time priority memory_blocks).2.semaphore_count =
      s.semaphore_count := by
  by_cases h1 : s.process_count ≥ MAX_PROCESSES
  · unfold create_process
    rw [if_pos h1]; exact ⟨h, rfl⟩
  · by_cases h2 : memory_blocks > MAX_MEMORY_BLOCKS
    · unfold create_process
      rw [if_neg h1, if_pos h2]; exact ⟨h, rfl⟩
    · have hc0 := h.count_nonneg
      have hlen := h.len
      have hcl : s.process_count < (s.processes.length : Int) := by omega
      obtain ⟨c1, c2, c3, c4, c5, c6, c7, c8⟩ :=
        create_process_table s burst_time priority memory_blocks h1 h2 hc0 hcl
      refine ⟨⟨?_, ?_, ?_, ?_, ?_, ?_, ?_⟩, c5⟩
      · rw [c1]; omega
      · rw [c1]; omega
      · rw [c3]; exact hlen
      · intro i i0 i1
        rw [c1] at i1
        by_cases hj : i = s.process_count
        · rw [hj, c7, h.next]
        · rw [c6 i hj]
          exact h.pids i i0 (by omega)
      · rw [c2, c1, h.next]
      · intro i i0 i1 hr
        rw [c1] at i1
        by_cases hj : i = s.process_count
        · rw [hj, c8] at hr
          cases hr
        · rw [c6 i hj] at hr ⊢
          rw [c4]
          exact h.running i i0 (by omega) hr
      · intro hr
        rw [c4] at hr
        obtain ⟨i, i0, i1, i2, i3⟩ := h.owner hr
        have hj : i ≠ s.process_count := by omega
        refine ⟨i, i0, by rw [c1]; omega, ?_, ?_⟩
        · rw [c6 i hj, c4]; exact i2
        · rw [c6 i hj]; exact i3

theorem wait_semaphore_none (s : System) (sem_id pid : Int) (h : s.semaphore_count = 0) :
    wait_semaphore s sem_id pid = s := by
  unfold wait_semaphore
  rw [if_pos (by omega)]

theorem signal_semaphore_none (s : System) (sem_id : Int) (h : s.semaphore_count = 0) :
    signal_semaphore s sem_id = s := by
  unfold signal_semaphore
  rw [if_pos (by omega)]

theorem start_ok (choice quantum : Int) :
    SchedOK (start choice quantum) ∧ (start choice quantum).semaphore_count = 0 := by
  have h0 : SchedOK init_system ∧ init_system.semaphore_count = 0 := by
    unfold init_system
    refine ⟨SchedOK.of_same ?_ (same_add_log _ _ _), (same_add_log _ _ _).keeps.sems⟩
    refine ⟨by decide, by decide, by decide, ?_, rfl, ?_, ?_⟩
    · intro i i0 i1
      have : i < 0 := i1
      omega
    · intro i i0 i1
      have : i < 0 := i1
      omega
    · intro hr
      exact absurd rfl hr
  have key : ∀ (alg : SchedulingAlgorithm) (q : Int),
      SchedOK { init_system with algorithm := alg, quantum := q } ∧
      ({ init_system with algorithm := alg, quantum := q } : System).semaphore_count = 0 :=
    fun _ _ => ⟨⟨h0.1.count_nonneg, h0.1.count_le, h0.1.len, h0.1.pids, h0.1.next,
      h0.1.running, h0.1.owner⟩, h0.2⟩
  unfold start select_algorithm
  split
  · refine ⟨SchedOK.of_same ?_ (same_add_log _ _ _), ?_⟩
    · exact (key SchedulingAlgorithm.FCFS init_system.quantum).1
    · rw [(same_add_log _ _ _).keeps.sems]
      exact h0.2
  · split
    · refine ⟨SchedOK.of_same ?_ (same_add_log _ _ _), ?_⟩
      · exact (key SchedulingAlgorithm.ROUND_ROBIN quantum).1
      · rw [(same_add_log _ _ _).keeps.sems]
        exact h0.2
    · exact key SchedulingAlgorithm.FCFS init_system.quantum

theorem SchedOK.single_running {s : System} (h : SchedOK s) : SingleRunning s := by
  refine ⟨?_, ?_, ?_⟩
  · intro i j i0 i1 j0 j1 hi hj
    have a := h.running i i0 i1 hi
    have b := h.running j j0 j1 hj
    have c := h.pids i i0 i1
    have d := h.pids j j0 j1
    omega
  · intro hnone
    by_contra hr
    obtain ⟨i, i0, i1, _, i3⟩ := h.owner hr
    exact hnone i i0 i1 i3
  · exact h.running

/-- One operation other than `create_semaphore`, in a state without semaphores, keeps the
scheduler invariant and creates no semaphore. -/
theorem step_ok_without_semaphores {s : System} (h : SchedOK s) (hs : s.semaphore_count = 0)
    (op : Op) (hop : ∀ v, op ≠ Op.new_semaphore v) :
    SchedOK (step s op) ∧ (step s op).semaphore_count = 0 := by
  cases op with
  | create burst_time priority memory_blocks =>
    obtain ⟨a, b⟩ := create_process_ok h burst_time priority memory_blocks
    exact ⟨a, b.trans hs⟩
  | execute =>
    obtain ⟨a, b⟩ := execute_step_ok h
    exact ⟨a, b.sems.trans hs⟩
  | suspend pid =>
    have e := suspend_process_effect s pid h.table_le
    exact ⟨h.of_effect e, e.keeps.sems.trans hs⟩
  | resume pid =>
    have e := resume_process_effect s pid h.table_le
    exact ⟨h.of_effect e, e.keeps.sems.trans hs⟩
  | terminate pid =>
    have e := terminate_process_effect s pid TerminationCause.USER_TERMINATION h.table_le
    exact ⟨h.of_effect e, e.keeps.sems.trans hs⟩
  | new_semaphore v => exact absurd rfl (hop v)
  | wait sem_id pid =>
    show SchedOK (wait_semaphore s sem_id pid) ∧ (wait_semaphore s sem_id pid).semaphore_count = 0
    rw [wait_semaphore_none s sem_id pid hs]
    exact ⟨h, hs⟩
  | signal sem_id =>
    show SchedOK (signal_semaphore s sem_id) ∧ (signal_semaphore s sem_id).semaphore_count = 0
    rw [signal_semaphore_none s sem_id hs]
    exact ⟨h, hs⟩

theorem run_ok_without_semaphores (ops : List Op) :
    ∀ s : System, SchedOK s → s.semaphore_count = 0 →
      (∀ op, op ∈ ops → ∀ v, op ≠ Op.new_semaphore v) →
      SchedOK (run s ops) ∧ (run s ops).semaphore_count = 0 := by
  induction ops with
  | nil => intro s h hs _; exact ⟨h, hs⟩
  | cons op ops ih =>
    intro s h hs hops
    obtain ⟨a, b⟩ := step_ok_without_semaphores h hs op (hops op (List.mem_cons_self op ops))
    exact ih (step s op) a b (fun o ho => hops o (List.mem_cons_of_mem op ho))

/-- In every state reached from `init_system` and `select_algorithm` by `create_process`,
`execute_step`, `suspend_process`, `resume_process`, `terminate_process`, `wait_semaphore`
and `signal_semaphore` alone, no semaphore exists, the two semaphore operations return at
their first check, and at most one process is `RUNNING`, the one named by `running_pid`. -/
theorem single_running_without_semaphores (choice quantum : Int) (ops : List Op)
    (hops : ∀ op, op ∈ ops → ∀ v, op ≠ Op.new_semaphore v) :
    SingleRunning (run (start choice quantum) ops) ∧
    (run (start choice quantum) ops).semaphore_count = 0 := by
  obtain ⟨a, b⟩ := start_ok choice quantum
  obtain ⟨c, d⟩ := run_ok_without_semaphores ops _ a b hops
  exact ⟨c.single_running, d⟩

/-! ## Conservation of the scheduler resources for non-negative requests -/

theorem sum_map_same (l : List Int) (f g : Int → Int) (h : ∀ i, i ∈ l → g i = f i) :
    (l.map g).sum = (l.map f).sum := by
  rw [List.map_congr_left h]

theorem sum_map_nonneg (l : List Int) (f : Int → Int) (h : ∀ i, i ∈ l → 0 ≤ f i) :
    0 ≤ (l.map f).sum := by
  induction l with
  | nil => simp
  | cons a l ih =>
    rw [List.map_cons, List.sum_cons]
    have h1 := h a (List.mem_cons_self a l)
    have h2 := ih (fun i hi => h i (List.mem_cons_of_mem a hi))
    omega

/-- A sum over a list without repetitions, after the summand of one member changes. -/
theorem sum_map_update (l : List Int) (hl : l.Nodup) (f g : Int → Int) (idx : Int)
    (hidx : idx ∈ l) (h : ∀ i, i ∈ l → i ≠ idx → g i = f i) :
    (l.map g).sum = (l.map f).sum + (g idx - f idx) := by
  induction l with
  | nil => cases hidx
  | cons a l ih =>
    rw [List.map_cons, List.sum_cons, List.map_cons, List.sum_cons]
    have hn := List.nodup_cons.1 hl
    by_cases ha : a = idx
    · have e : (l.map g).sum = (l.map f).sum := by
        apply sum_map_same
        intro i hi
        apply h i (List.mem_cons_of_mem a hi)
        intro c
        rw [c, ← ha] at hi
        exact hn.1 hi
      rw [e, ha]
      omega
    · have hm : idx ∈ l := by
        rcases List.mem_cons.1 hidx with c | c
        · exact absurd c.symm ha
        · exact c
      have e := ih hn.2 hm (fun i hi => h i (List.mem_cons_of_mem a hi))
      have e2 := h a (List.mem_cons_self a l) ha
      rw [e, e2]
      omega

theorem indices_succ (n : Int) (h : 0 ≤ n) : indices (n + 1) = indices n ++ [n] := by
  unfold indices
  have e : (n + 1).toNat = n.toNat + 1 := by omega
  rw [e, List.range_succ, List.map_append]
  simp only [List.map_cons, List.map_nil]
  congr 2
  show ((n.toNat : Nat) : Int) = n
  omega

theorem res_frame_refl (s : System) : ResFrame s s :=
  ⟨rfl, rfl, rfl, fun _ => rfl, fun _ => rfl, fun _ => rfl, rfl, rfl⟩

theorem ResFrame.chain_frame {s s1 s2 : System} (a : ResFrame s s1) (b : ResFrame s1 s2) :
    ResFrame s s2 :=
  ⟨b.count.trans a.count, b.next.trans a.next, b.len.trans a.len,
    fun j => (b.pids j).trans (a.pids j), fun j => (b.alloc j).trans (a.alloc j),
    fun j => (b.need j).trans (a.need j), b.avail.trans a.avail, b.total.trans a.total⟩

theorem res_frame_add_log (s : System) (pid : Int) (event : String) :
    ResFrame s (add_log s pid event) := by
  unfold add_log
  split
  · exact ⟨rfl, rfl, rfl, fun _ => rfl, fun _ => rfl, fun _ => rfl, rfl, rfl⟩
  · exact res_frame_refl s

/-- An assignment to fields of one cell other than `pid`, `allocated` and `needed`. -/
theorem res_frame_modify_process (s : System) (idx : Int) (f : PCB → PCB)
    (hpid : ∀ p, (f p).pid = p.pid) (hal : ∀ p, (f p).allocated = p.allocated)
    (hne : ∀ p, (f p).needed = p.needed) : ResFrame s (modify_process s idx f) := by
  refine ⟨rfl, rfl, ?_, ?_, ?_, ?_, rfl, rfl⟩
  · exact MemSim.length_setI _ _ _
  · intro j
    rw [procAt_modify_process]
    split
    · rename_i h; rw [hpid, h.1]
    · rfl
  · intro j
    rw [procAt_modify_process]
    split
    · rename_i h; rw [hal, h.1]
    · rfl
  · intro j
    rw [procAt_modify_process]
    split
    · rename_i h; rw [hne, h.1]
    · rfl

theorem res_frame_modify_semaphore (s : System) (sem_id : Int) (f : Semaphore → Semaphore) :
    ResFrame s (modify_semaphore s sem_id f) :=
  ⟨rfl, rfl, rfl, fun _ => rfl, fun _ => rfl, fun _ => rfl, rfl, rfl⟩

theorem allocated_cpu_frame {s s1 : System} (c : ResFrame s s1) :
    allocated_cpu s1 = allocated_cpu s := by
  unfold allocated_cpu
  rw [c.count]
  apply sum_map_same
  intro i _
  rw [c.alloc]

theorem allocated_memory_frame {s s1 : System} (c : ResFrame s s1) :
    allocated_memory s1 = allocated_memory s := by
  unfold allocated_memory
  rw [c.count]
  apply sum_map_same
  intro i _
  rw [c.alloc]

theorem ResOK.of_frame {s s1 : System} (h : ResOK s) (c : ResFrame s s1) : ResOK s1 := by
  refine ⟨?_, ?_, ?_, ?_, ?_, ?_, ?_, ?_, ?_, ?_, ?_, ?_, ?_⟩
  · rw [c.count]; exact h.count_nonneg
  · rw [c.count]; exact h.count_le
  · rw [c.len]; exact h.len
  · intro i i0 i1
    rw [c.count] at i1
    rw [c.pids]; exact h.pids i i0 i1
  · rw [c.next, c.count]; exact h.next
  · rw [c.total]; exact h.total_cpu
  · rw [c.total]; exact h.total_mem
  · intro i i0 i1
    rw [c.count] at i1
    rw [c.need]; exact h.needed_ok i i0 i1
  · intro i i0 i1
    rw [c.count] at i1
    rw [c.alloc, c.need]; exact h.alloc_ok i i0 i1
  · rw [c.avail]; exact h.avail_cpu
  · rw [c.avail]; exact h.avail_mem
  · rw [c.avail, c.total, allocated_cpu_frame c]; exact h.cpu_sum
  · rw [c.avail, c.total, allocated_memory_frame c]; exact h.mem_sum

theorem ResOK.table_fits {s : System} (h : ResOK s) :
    s.process_count ≤ (s.processes.length : Int) := by
  rw [h.len]; exact h.count_le

theorem ResOK.alloc_nonneg {s : System} (h : ResOK s) (i : Int) (i0 : 0 ≤ i)
    (i1 : i < s.process_count) :
    0 ≤ (procAt s i).allocated.cpu ∧ (procAt s i).allocated.cpu ≤ 1 ∧
    0 ≤ (procAt s i).allocated.memory_blocks ∧
    (procAt s i).allocated.memory_blocks ≤ MAX_MEMORY_BLOCKS := by
  obtain ⟨n1, n2, n3⟩ := h.needed_ok i i0 i1
  have e4 : MAX_MEMORY_BLOCKS = 4 := rfl
  rcases h.alloc_ok i i0 i1 with e | e
  · rw [e]
    refine ⟨by decide, by decide, by decide, by decide⟩
  · rw [e]
    exact ⟨by omega, by omega, n2, n3⟩

/-- With the invariant, what is available is within the totals: the claim's bounds. -/
theorem ResOK.conserved {s : System} (h : ResOK s) : ResourcesConserved s := by
  have a : 0 ≤ allocated_cpu s := by
    unfold allocated_cpu
    apply sum_map_nonneg
    intro i hi
    obtain ⟨i0, i1⟩ := (MemSim.mem_indices _ _).1 hi
    exact (h.alloc_nonneg i i0 i1).1
  have b : 0 ≤ allocated_memory s := by
    unfold allocated_memory
    apply sum_map_nonneg
    intro i hi
    obtain ⟨i0, i1⟩ := (MemSim.mem_indices _ _).1 hi
    exact (h.alloc_nonneg i i0 i1).2.2.1
  have c := h.cpu_sum
  have d := h.mem_sum
  exact ⟨c, d, h.avail_cpu, by omega, h.avail_mem, by omega⟩

/-- With the pids `1 .. process_count` in cell order, a pid is found in its own cell. -/
theorem ResOK.finds_own {s : System} (h : ResOK s) (i : Int) (h0 : 0 ≤ i)
    (h1 : i < s.process_count) : find_process_by_pid s (procAt s i).pid = i := by
  obtain ⟨a, b, c⟩ := find_process_by_pid_found s i h0 h1
  have p1 := h.pids i h0 h1
  have p2 := h.pids _ a (by omega)
  omega

theorem wrap32_small (x : Int) (h0 : -1000 ≤ x) (h1 : x ≤ 1000) : wrap32 x = x := by
  unfold wrap32
  omega

/-- Resources move between what is available and the allocation of the process in cell
`idx`, which ends with nothing or with exactly what it needs. -/
theorem ResOK.move {s s1 : System} (h : ResOK s) (idx : Int) (i0 : 0 ≤ idx)
    (i1 : idx < s.process_count)
    (hcount : s1.process_count = s.process_count) (hnext : s1.next_pid = s.next_pid)
    (hlen : s1.processes.length = s.processes.length)
    (hpids : ∀ j, (procAt s1 j).pid = (procAt s j).pid)
    (hneed : ∀ j, (procAt s1 j).needed = (procAt s j).needed)
    (htotal : s1.total = s.total)
    (hothers : ∀ j, j ≠ idx → (procAt s1 j).allocated = (procAt s j).allocated)
    (halloc : (procAt s1 idx).allocated = ⟨0, 0⟩ ∨
      (procAt s1 idx).allocated = (procAt s idx).needed)
    (hcpu : s1.available.cpu =
      s.available.cpu + (procAt s idx).allocated.cpu - (procAt s1 idx).allocated.cpu)
    (hmem : s1.available.memory_blocks =
      s.available.memory_blocks + (procAt s idx).allocated.memory_blocks -
        (procAt s1 idx).allocated.memory_blocks)
    (hnn : 0 ≤ s1.available.cpu ∧ 0 ≤ s1.available.memory_blocks) : ResOK s1 := by
  have hmemb : idx ∈ indices s.process_count := (MemSim.mem_indices _ _).2 ⟨i0, i1⟩
  refine ⟨?_, ?_, ?_, ?_, ?_, ?_, ?_, ?_, ?_, hnn.1, hnn.2, ?_, ?_⟩
  · rw [hcount]; exact h.count_nonneg
  · rw [hcount]; exact h.count_le
  · rw [hlen]; exact h.len
  · intro i a b
    rw [hcount] at b
    rw [hpids]; exact h.pids i a b
  · rw [hnext, hcount]; exact h.next
  · rw [htotal]; exact h.total_cpu
  · rw [htotal]; exact h.total_mem
  · intro i a b
    rw [hcount] at b
    rw [hneed]; exact h.needed_ok i a b
  · intro i a b
    rw [hcount] at b
    by_cases c : i = idx
    · rw [c, hneed]; exact halloc
    · rw [hothers i c, hneed]; exact h.alloc_ok i a b
  · have e : allocated_cpu s1 = allocated_cpu s +
        ((procAt s1 idx).allocated.cpu - (procAt s idx).allocated.cpu) := by
      unfold allocated_cpu
      rw [hcount]
      exact sum_map_update _ (MemSim.indices_nodup _) _ _ idx hmemb
        (fun i _ hi => by rw [hothers i hi])
    have := h.cpu_sum
    rw [htotal, e, hcpu]
    omega
  · have e : allocated_memory s1 = allocated_memory s +
        ((procAt s1 idx).allocated.memory_blocks -
          (procAt s idx).allocated.memory_blocks) := by
      unfold allocated_memory
      rw [hcount]
      exact sum_map_update _ (MemSim.indices_nodup _) _ _ idx hmemb
        (fun i _ hi => by rw [hothers i hi])
    have := h.mem_sum
    rw [htotal, e, hmem]
    omega

theorem ResOK.released {s : System} (h : ResOK s) (pid : Int) :
    ResOK (release_resources s pid) := by
  unfold release_resources
  simp only []
  by_cases h1 : find_process_by_pid s pid = -1
  · rw [if_pos h1]; exact h
  · rw [if_neg h1]
    obtain ⟨i0, i1, _⟩ := find_process_by_pid_spec s pid h1
    have hl := h.table_fits
    obtain ⟨a0, a1, a2, a3⟩ := h.alloc_nonneg _ i0 i1
    obtain ⟨_, _, _, c4, _, c6⟩ := h.conserved
    have t1 := h.total_cpu
    have t2 := h.total_mem
    have e1 : MAX_CPU = 1 := rfl
    have e4 : MAX_MEMORY_BLOCKS = 4 := rfl
    have hc := h.avail_cpu
    have hm := h.avail_mem
    have e : ∀ j, procAt
        (modify_process
          (add_log
            { s with available :=
              ⟨wrap32 (s.available.cpu +
                  (procAt s (find_process_by_pid s pid)).allocated.cpu),
                wrap32 (s.available.memory_blocks +
                  (procAt s (find_process_by_pid s pid)).allocated.memory_blocks)⟩ }
            pid
            ("Recursos liberados de PID " ++ toString pid ++ " (CPU: " ++
              toString (procAt s (find_process_by_pid s pid)).allocated.cpu ++
              ", Memoria: " ++
              toString (procAt s (find_process_by_pid s pid)).allocated.memory_blocks ++
              " bloques = " ++
              toString (wrap32 ((procAt s (find_process_by_pid s pid)).allocated.memory_blocks *
                MEMORY_BLOCK_SIZE)) ++ "MB)"))
          (find_process_by_pid s pid) (fun q => { q with allocated := ⟨0, 0⟩ })) j =
        if find_process_by_pid s pid = j then
          { procAt s (find_process_by_pid s pid) with allocated := ⟨0, 0⟩ }
        else procAt s j := by
      intro j
      rw [procAt_modify_process]
      by_cases hj : find_process_by_pid s pid = j
      · rw [if_pos ⟨hj, i0, by rw [(same_add_log _ _ _).keeps.len]; exact lt_of_lt_of_le i1 hl⟩,
          if_pos hj, procAt_add_log]
        rfl
      · rw [if_neg (fun c => hj c.1), if_neg hj, procAt_add_log]
        rfl
    have ea : ∀ x : System, (modify_process (add_log x pid
        ("Recursos liberados de PID " ++ toString pid ++ " (CPU: " ++
          toString (procAt s (find_process_by_pid s pid)).allocated.cpu ++
          ", Memoria: " ++
          toString (procAt s (find_process_by_pid s pid)).allocated.memory_blocks ++
          " bloques = " ++
          toString (wrap32 ((procAt s (find_process_by_pid s pid)).allocated.memory_blocks *
            MEMORY_BLOCK_SIZE)) ++ "MB)"))
        (find_process_by_pid s pid) (fun q => { q with allocated := ⟨0, 0⟩ })).available =
        x.available := by
      intro x
      exact (add_log_keeps x _ _).2.2.2.1
    apply h.move (find_process_by_pid s pid) i0 i1
    · exact (same_add_log _ _ _).keeps.count
    · exact (same_add_log _ _ _).keeps.next
    · show (setI _ _ _).length = _
      rw [MemSim.length_setI]
      exact (same_add_log _ _ _).keeps.len
    · intro j
      rw [e]
      split
      · rename_i hj; rw [← hj]
      · rfl
    · intro j
      rw [e]
      split
      · rename_i hj; rw [← hj]
      · rfl
    · exact (add_log_keeps _ _ _).2.2.2.2.1
    · intro j hj
      rw [e, if_neg (fun c => hj c.symm)]
    · left
      rw [e, if_pos rfl]
    · rw [ea, e, if_pos rfl]
      show wrap32 _ = _
      rw [wrap32_small _ (by omega) (by omega)]
      show _ = _ - 0
      omega
    · rw [ea, e, if_pos rfl]
      show wrap32 _ = _
      rw [wrap32_small _ (by omega) (by omega)]
      show _ = _ - 0
      omega
    · rw [ea]
      constructor
      · show 0 ≤ wrap32 _
        rw [wrap32_small _ (by omega) (by omega)]
        omega
      · show 0 ≤ wrap32 _
        rw [wrap32_small _ (by omega) (by omega)]
        omega

theorem ResOK.keep_totals {s : System} (h : ResOK s) (x y z : Int) :
    ResOK { s with total_processes_completed := x, total_waiting_time := y,
                   total_turnaround_time := z } :=
  h.of_frame ⟨rfl, rfl, rfl, fun _ => rfl, fun _ => rfl, fun _ => rfl, rfl, rfl⟩

theorem ResOK.keep_running {s : System} (h : ResOK s) (r : Int) :
    ResOK { s with running_pid := r } :=
  h.of_frame ⟨rfl, rfl, rfl, fun _ => rfl, fun _ => rfl, fun _ => rfl, rfl, rfl⟩

theorem ResOK.with_time {s : System} (h : ResOK s) (t : Int) :
    ResOK { s with current_time := t } :=
  h.of_frame ⟨rfl, rfl, rfl, fun _ => rfl, fun _ => rfl, fun _ => rfl, rfl, rfl⟩

theorem ResOK.with_busy {s : System} (h : ResOK s) (t : Int) :
    ResOK { s with cpu_busy_time := t } :=
  h.of_frame ⟨rfl, rfl, rfl, fun _ => rfl, fun _ => rfl, fun _ => rfl, rfl, rfl⟩

theorem ResOK.with_preempted {s : System} (h : ResOK s) (p : Int) :
    ResOK { s with last_preempted_pid := p } :=
  h.of_frame ⟨rfl, rfl, rfl, fun _ => rfl, fun _ => rfl, fun _ => rfl, rfl, rfl⟩

theorem ResOK.with_semaphores {s : System} (h : ResOK s) (n : Int) :
    ResOK { s with semaphore_count := n } :=
  h.of_frame ⟨rfl, rfl, rfl, fun _ => rfl, fun _ => rfl, fun _ => rfl, rfl, rfl⟩

theorem ResOK.logged {s : System} (h : ResOK s) (pid : Int) (event : String) :
    ResOK (add_log s pid event) := h.of_frame (res_frame_add_log s pid event)

/-- An assignment of a state to one cell. -/
theorem ResOK.with_state {s : System} (h : ResOK s) (idx : Int) (st : ProcessState) :
    ResOK (modify_process s idx (fun p => { p with state := st })) :=
  h.of_frame (res_frame_modify_process s idx _ (fun _ => rfl) (fun _ => rfl) (fun _ => rfl))

theorem ResOK.cpu_released {s : System} (h : ResOK s) (b : Prop) [Decidable b] :
    ResOK (if b then { s with running_pid := -1 } else s) := by
  split
  · exact h.keep_running (-1)
  · exact h

/-- The request that `select_next_process` makes for the process in cell `i`, which holds
no CPU. -/
theorem ResOK.requested {s : System} (h : ResOK s) (i : Int) (i0 : 0 ≤ i)
    (i1 : i < s.process_count) (hz : (procAt s i).allocated.cpu = 0) :
    ResOK (request_resources s (procAt s i).pid (procAt s i).needed).2 := by
  obtain ⟨n1, n2, n3⟩ := h.needed_ok i i0 i1
  have hal : (procAt s i).allocated = ⟨0, 0⟩ := by
    rcases h.alloc_ok i i0 i1 with e | e
    · exact e
    · rw [e, n1] at hz
      exact absurd hz (by decide)
  have hf := h.finds_own i i0 i1
  have hl := h.table_fits
  obtain ⟨_, _, _, c4, _, c6⟩ := h.conserved
  have t1 := h.total_cpu
  have t2 := h.total_mem
  have e1 : MAX_CPU = 1 := rfl
  have e4 : MAX_MEMORY_BLOCKS = 4 := rfl
  have hc := h.avail_cpu
  have hm := h.avail_mem
  unfold request_resources check_deadlock_prevention
  simp only []
  rw [hf, if_neg (by omega)]
  by_cases hd : (procAt s i).needed.cpu > s.available.cpu ∨
      (procAt s i).needed.memory_blocks > s.available.memory_blocks
  · rw [if_pos hd]
    simp only [Bool.not_false, if_true]
    exact (h.logged _ _).with_state i ProcessState.WAITING
  · rw [if_neg hd]
    simp only [Bool.not_true]
    rw [if_neg (by simp)]
    have hg : (procAt s i).needed.cpu ≤ s.available.cpu ∧
        (procAt s i).needed.memory_blocks ≤ s.available.memory_blocks := by omega
    rw [if_pos hg]
    have e : ∀ j, procAt
        (add_log
          (modify_process
            { s with available :=
              ⟨wrap32 (s.available.cpu - (procAt s i).needed.cpu),
                wrap32 (s.available.memory_blocks - (procAt s i).needed.memory_blocks)⟩ }
            i (fun p =>
              { p with allocated :=
                  ⟨wrap32 (p.allocated.cpu + (procAt s i).needed.cpu),
                    wrap32 (p.allocated.memory_blocks +
                      (procAt s i).needed.memory_blocks)⟩ }))
          (procAt s i).pid
          ("Recursos asignados a PID " ++ toString (procAt s i).pid ++ " (CPU: " ++
            toString (procAt s i).needed.cpu ++ ", Memoria: " ++
            toString (procAt s i).needed.memory_blocks ++ " bloques = " ++
            toString (wrap32 ((procAt s i).needed.memory_blocks * MEMORY_BLOCK_SIZE)) ++
            "MB)")) j =
        if i = j then
          { procAt s i with allocated :=
              ⟨wrap32 ((procAt s i).allocated.cpu + (procAt s i).needed.cpu),
                wrap32 ((procAt s i).allocated.memory_blocks +
                  (procAt s i).needed.memory_blocks)⟩ }
        else procAt s j := by
      intro j
      rw [procAt_add_log, procAt_modify_process]
      by_cases hj : i = j
      · rw [if_pos ⟨hj, i0, lt_of_lt_of_le i1 hl⟩, if_pos hj]
        rfl
      · rw [if_neg (fun c => hj c.1), if_neg hj]
        rfl
    have hnew : ({ procAt s i with allocated :=
        ⟨wrap32 ((procAt s i).allocated.cpu + (procAt s i).needed.cpu),
          wrap32 ((procAt s i).allocated.memory_blocks +
            (procAt s i).needed.memory_blocks)⟩ } : PCB).allocated = (procAt s i).needed := by
      show (⟨wrap32 _, wrap32 _⟩ : Resources) = _
      rw [hal]
      show (⟨wrap32 (0 + _), wrap32 (0 + _)⟩ : Resources) = _
      rw [wrap32_small _ (by omega) (by omega), wrap32_small _ (by omega) (by omega)]
      simp
    apply h.move i i0 i1
    · exact (same_add_log _ _ _).keeps.count
    · exact (same_add_log _ _ _).keeps.next
    · rw [(same_add_log _ _ _).keeps.len]
      exact MemSim.length_setI _ _ _
    · intro j
      rw [e]
      split
      · rename_i hj; rw [← hj]
      · rfl
    · intro j
      rw [e]
      split
      · rename_i hj; rw [← hj]
      · rfl
    · exact (add_log_keeps _ _ _).2.2.2.2.1
    · intro j hj
      rw [e, if_neg (fun c => hj c.symm)]
    · right
      rw [e, if_pos rfl]
      exact hnew
    · rw [(add_log_keeps _ _ _).2.2.2.1, e, if_pos rfl, hnew, hal]
      show wrap32 _ = _
      rw [wrap32_small _ (by omega) (by omega)]
      dsimp only
      omega
    · rw [(add_log_keeps _ _ _).2.2.2.1, e, if_pos rfl, hnew, hal]
      show wrap32 _ = _
      rw [wrap32_small _ (by omega) (by omega)]
      dsimp only
      omega
    · rw [(add_log_keeps _ _ _).2.2.2.1]
      constructor
      · show 0 ≤ wrap32 _
        rw [wrap32_small _ (by omega) (by omega)]
        omega
      · show 0 ≤ wrap32 _
        rw [wrap32_small _ (by omega) (by omega)]
        omega

theorem ResOK.suspended {s : System} (h : ResOK s) (pid : Int) :
    ResOK (suspend_process s pid) := by
  unfold suspend_process
  simp only []
  split
  · exact h
  · split
    · exact h
    · exact ((h.cpu_released _).with_state _ _).logged _ _

theorem ResOK.resumed {s : System} (h : ResOK s) (pid : Int) :
    ResOK (resume_process s pid) := by
  unfold resume_process
  simp only []
  split
  · exact h
  · split
    · exact h
    · exact (h.with_state _ _).logged _ _

theorem ResOK.process_terminated {s : System} (h : ResOK s) (pid : Int) (cause : TerminationCause) :
    ResOK (terminate_process s pid cause) := by
  unfold terminate_process
  simp only []
  split
  · exact h
  · split
    · exact h
    · apply ResOK.logged
      apply ResOK.keep_totals
      refine ResOK.of_frame ?_ (res_frame_modify_process _ _ _ ?a ?b ?c)
      case a => intro p; rfl
      case b => intro p; rfl
      case c => intro p; rfl
      exact (h.cpu_released _).released pid

theorem ResOK.ticked {s : System} (h : ResOK s) (idx : Int) :
    ResOK (tick_process s idx) := by
  unfold tick_process
  simp only []
  apply ResOK.logged
  have a : ResOK (modify_process s idx (fun p =>
      { p with remaining_time := wrap32 (p.remaining_time - 1) })) :=
    h.of_frame (res_frame_modify_process s idx _ (fun _ => rfl) (fun _ => rfl) (fun _ => rfl))
  split
  · refine ResOK.of_frame ?_ (res_frame_modify_process _ _ _ ?a ?b ?c)
    case a => intro p; rfl
    case b => intro p; rfl
    case c => intro p; rfl
    exact a.with_busy _
  · exact a.with_busy _

theorem ResOK.preempted {s : System} (h : ResOK s) (idx pid : Int) :
    ResOK (preempt_process s idx pid) := by
  unfold preempt_process
  simp only []
  apply ResOK.logged
  refine ResOK.of_frame ?_ (res_frame_modify_process _ _ _ ?a ?b ?c)
  case a => intro p; rfl
  case b => intro p; rfl
  case c => intro p; rfl
  apply ResOK.keep_running
  apply ResOK.with_state
  exact (h.with_preempted pid).released pid

theorem ResOK.ran {s : System} (h : ResOK s) : ResOK (run_current s) := by
  unfold run_current
  simp only []
  split
  · split
    · split
      · split
        · exact (h.ticked _).preempted _ _
        · split
          · exact ((h.ticked _).process_terminated _ _).keep_running (-1)
          · exact h.ticked _
      · exact h
    · exact h
  · exact h

theorem ResOK.aged {s : System} (h : ResOK s) : ResOK (age_waiting s) := by
  unfold age_waiting
  generalize indices s.process_count = l
  induction l generalizing s with
  | nil => exact h
  | cons i l ih =>
    rw [List.foldl_cons]
    apply ih
    split
    · exact h.of_frame
        (res_frame_modify_process s i _ (fun _ => rfl) (fun _ => rfl) (fun _ => rfl))
    · exact h

theorem ResOK.now_running {s : System} (h : ResOK s) (idx pid : Int) :
    ResOK (set_running s idx pid) := by
  unfold set_running
  apply ResOK.logged
  apply ResOK.keep_running
  exact h.with_state idx ProcessState.RUNNING

theorem res_frame_clear_preempted (s : System) : ResFrame s (clear_preempted s) := by
  unfold clear_preempted
  cases s.algorithm with
  | FCFS => exact res_frame_refl s
  | ROUND_ROBIN =>
    exact ⟨rfl, rfl, rfl, fun _ => rfl, fun _ => rfl, fun _ => rfl, rfl, rfl⟩

theorem ResOK.selected {s : System} (h : ResOK s) : ResOK (select_next_process s) := by
  have c := res_frame_clear_preempted s
  have hc := h.of_frame c
  unfold select_next_process
  simp only []
  generalize clear_preempted s = s0 at c hc ⊢
  rcases selected_index_range s with hsel | ⟨h0, h1⟩
  · rw [if_neg (by rw [hsel]; simp)]
    exact hc
  · rw [if_pos (by omega)]
    have h1' : selected_index s < s0.process_count := by rw [c.count]; exact h1
    split
    · rename_i hz
      have r := hc.requested (selected_index s) h0 h1' hz
      split
      · exact r.now_running _ _
      · exact r
    · exact hc.now_running _ _

theorem ResOK.stepped {s : System} (h : ResOK s) : ResOK (execute_step s) := by
  unfold execute_step
  simp only []
  have a := ((h.with_time (s.current_time + 1)).ran).aged
  split
  · exact a.selected
  · exact a

/-- What a successful `create_process` does to the resource bookkeeping: the new process
holds nothing and needs one CPU and the requested memory blocks. -/
theorem create_process_resources (s : System) (burst_time priority memory_blocks : Int)
    (h1 : ¬ s.process_count ≥ MAX_PROCESSES) (h2 : ¬ memory_blocks > MAX_MEMORY_BLOCKS)
    (h0 : 0 ≤ s.process_count) (hl : s.process_count < (s.processes.length : Int)) :
    (create_process s burst_time priority memory_blocks).2.available = s.available ∧
    (create_process s burst_time priority memory_blocks).2.total = s.total ∧
    (procAt (create_process s burst_time priority memory_blocks).2
      s.process_count).allocated = ⟨0, 0⟩ ∧
    (procAt (create_process s burst_time priority memory_blocks).2 s.process_count).needed =
      ⟨1, memory_blocks⟩ := by
  unfold create_process
  rw [if_neg h1, if_neg h2]
  simp only []
  refine ⟨?_, ?_, ?_, ?_⟩
  · rw [(add_log_keeps _ _ _).2.2.2.1]
    rfl
  · rw [(add_log_keeps _ _ _).2.2.2.2.1]
    rfl
  · rw [procAt_add_log, procAt_with_count, procAt_modify_process, if_pos ⟨rfl, h0, hl⟩]
  · rw [procAt_add_log, procAt_with_count, procAt_modify_process, if_pos ⟨rfl, h0, hl⟩]

theorem ResOK.process_created {s : System} (h : ResOK s) (burst_time priority memory_blocks : Int)
    (hm : 0 ≤ memory_blocks) :
    ResOK (create_process s burst_time priority memory_blocks).2 := by
  by_cases h1 : s.process_count ≥ MAX_PROCESSES
  · unfold create_process
    rw [if_pos h1]; exact h
  · by_cases h2 : memory_blocks > MAX_MEMORY_BLOCKS
    · unfold create_process
      rw [if_neg h1, if_pos h2]; exact h
    · have hc0 := h.count_nonneg
      have hlen := h.len
      have hcl : s.process_count < (s.processes.length : Int) := by omega
      obtain ⟨c1, c2, c3, _, _, c6, c7, _⟩ :=
        create_process_table s burst_time priority memory_blocks h1 h2 hc0 hcl
      obtain ⟨d1, d2, d3, d4⟩ :=
        create_process_resources s burst_time priority memory_blocks h1 h2 hc0 hcl
      have hcpu : allocated_cpu (create_process s burst_time priority memory_blocks).2 =
          allocated_cpu s := by
        unfold allocated_cpu
        rw [c1, indices_succ _ hc0, List.map_append, List.sum_append]
        simp only [List.map_cons, List.map_nil, List.sum_cons, List.sum_nil]
        rw [d3]
        have e := sum_map_same (indices s.process_count)
          (fun i => (procAt s i).allocated.cpu)
          (fun i => (procAt (create_process s burst_time priority memory_blocks).2
            i).allocated.cpu)
          (fun i hi => by
            have := (MemSim.mem_indices _ _).1 hi
            show (procAt _ i).allocated.cpu = _
            rw [c6 i (by omega)])
        rw [e]
        show _ + (0 + 0) = _
        omega
      have hmem : allocated_memory (create_process s burst_time priority memory_blocks).2 =
          allocated_memory s := by
        unfold allocated_memory
        rw [c1, indices_succ _ hc0, List.map_append, List.sum_append]
        simp only [List.map_cons, List.map_nil, List.sum_cons, List.sum_nil]
        rw [d3]
        have e := sum_map_same (indices s.process_count)
          (fun i => (procAt s i).allocated.memory_blocks)
          (fun i => (procAt (create_process s burst_time priority memory_blocks).2
            i).allocated.memory_blocks)
          (fun i hi => by
            have := (MemSim.mem_indices _ _).1 hi
            show (procAt _ i).allocated.memory_blocks = _
            rw [c6 i (by omega)])
        rw [e]
        show _ + (0 + 0) = _
        omega
      refine ⟨?_, ?_, ?_, ?_, ?_, ?_, ?_, ?_, ?_, ?_, ?_, ?_, ?_⟩
      · rw [c1]; omega
      · rw [c1]; omega
      · rw [c3]; exact hlen
      · intro i i0 i1
        rw [c1] at i1
        by_cases hj : i = s.process_count
        · rw [hj, c7, h.next]
        · rw [c6 i hj]
          exact h.pids i i0 (by omega)
      · rw [c2, c1, h.next]
      · rw [d2]; exact h.total_cpu
      · rw [d2]; exact h.total_mem
      · intro i i0 i1
        rw [c1] at i1
        by_cases hj : i = s.process_count
        · rw [hj, d4]
          exact ⟨rfl, hm, not_lt.1 h2⟩
        · rw [c6 i hj]
          exact h.needed_ok i i0 (by omega)
      · intro i i0 i1
        rw [c1] at i1
        by_cases hj : i = s.process_count
        · left; rw [hj, d3]
        · rw [c6 i hj]
          exact h.alloc_ok i i0 (by omega)
      · rw [d1]; exact h.avail_cpu
      · rw [d1]; exact h.avail_mem
      · rw [d1, d2, hcpu]; exact h.cpu_sum
      · rw [d1, d2, hmem]; exact h.mem_sum

theorem ResOK.with_semaphore {s : System} (h : ResOK s) (sem_id : Int)
    (f : Semaphore → Semaphore) : ResOK (modify_semaphore s sem_id f) :=
  h.of_frame (res_frame_modify_semaphore s sem_id f)

theorem ResOK.semaphore_created {s : System} (h : ResOK s) (initial_value : Int) :
    ResOK (create_semaphore s initial_value).2 := by
  unfold create_semaphore
  split
  · exact h
  · simp only []
    apply ResOK.logged
    apply ResOK.with_semaphores
    exact h.with_semaphore _ _

theorem ResOK.waited {s : System} (h : ResOK s) (sem_id pid : Int) :
    ResOK (wait_semaphore s sem_id pid) := by
  unfold wait_semaphore
  simp only []
  have a := (h.with_semaphore sem_id
    (fun m => { m with value := wrap32 (m.value - 1) })).logged pid
      ("PID " ++ toString pid ++ " ejecuta wait en semaforo " ++ toString sem_id ++
        " (valor: " ++ toString (semAt (modify_semaphore s sem_id
          (fun m => { m with value := wrap32 (m.value - 1) })) sem_id).value ++ ")")
  split
  · exact h
  · split
    · split
      · apply ResOK.logged
        apply ResOK.with_semaphore
        exact a.with_state _ _
      · exact a
    · exact a

theorem ResOK.signalled {s : System} (h : ResOK s) (sem_id : Int) :
    ResOK (signal_semaphore s sem_id) := by
  unfold signal_semaphore
  simp only []
  have a := (h.with_semaphore sem_id
    (fun m => { m with value := wrap32 (m.value + 1) })).logged (-1)
      ("Signal ejecutado en semaforo " ++ toString sem_id ++ " (valor: " ++
        toString (semAt (modify_semaphore s sem_id
          (fun m => { m with value := wrap32 (m.value + 1) })) sem_id).value ++ ")")
  split
  · exact h
  · split
    · split
      · apply ResOK.logged
        apply ResOK.with_state
        exact a.with_semaphore _ _
      · exact a.with_semaphore _ _
    · exact a

theorem ResOK.at_menu (choice quantum : Int) : ResOK (start choice quantum) := by
  have h0 : ResOK init_system := by
    unfold init_system
    apply ResOK.logged
    refine ⟨by decide, by decide, by decide, ?_, rfl, rfl, rfl, ?_, ?_, by decide, by decide,
      by decide, by decide⟩
    · intro i i0 i1
      have : i < 0 := i1
      omega
    · intro i i0 i1
      have : i < 0 := i1
      omega
    · intro i i0 i1
      have : i < 0 := i1
      omega
  have key : ∀ (alg : SchedulingAlgorithm) (q : Int),
      ResOK { init_system with algorithm := alg, quantum := q } :=
    fun _ _ => h0.of_frame ⟨rfl, rfl, rfl, fun _ => rfl, fun _ => rfl, fun _ => rfl, rfl, rfl⟩
  unfold start select_algorithm
  split
  · exact (key SchedulingAlgorithm.FCFS init_system.quantum).logged _ _
  · split
    · exact (key SchedulingAlgorithm.ROUND_ROBIN quantum).logged _ _
    · exact key SchedulingAlgorithm.FCFS init_system.quantum

/-- One menu operation keeps the resource invariant, when a creation asks for a
non-negative number of memory blocks. -/
theorem ResOK.after_op {s : System} (h : ResOK s) (op : Op)
    (hop : ∀ b p m, op = Op.create b p m → 0 ≤ m) : ResOK (step s op) := by
  cases op with
  | create burst_time priority memory_blocks =>
    exact h.process_created burst_time priority memory_blocks (hop _ _ _ rfl)
  | execute => exact h.stepped
  | suspend pid => exact h.suspended pid
  | resume pid => exact h.resumed pid
  | terminate pid => exact h.process_terminated pid TerminationCause.USER_TERMINATION
  | new_semaphore v => exact h.semaphore_created v
  | wait sem_id pid => exact h.waited sem_id pid
  | signal sem_id => exact h.signalled sem_id

theorem ResOK.after_ops (ops : List Op) :
    ∀ s : System, ResOK s → (∀ b p m, Op.create b p m ∈ ops → 0 ≤ m) → ResOK (run s ops) := by
  induction ops with
  | nil => intro s h _; exact h
  | cons op ops ih =>
    intro s h hops
    apply ih (step s op)
    · apply h.after_op op
      intro b p m e
      exact hops b p m (by rw [e]; exact List.mem_cons_self _ _)
    · intro b p m hm
      exact hops b p m (List.mem_cons_of_mem op hm)

/-- In every state reached from `init_system` and `select_algorithm` by the menu
operations (semaphore operations included) in which every `create_process` asks for a
non-negative number of memory blocks, what is available and what is allocated add up to
the totals and what is available lies between zero and the total. -/
theorem resources_conserved_nonnegative_requests (choice quantum : Int) (ops : List Op)
    (hops : ∀ b p m, Op.create b p m ∈ ops → 0 ≤ m) :
    ResourcesConserved (run (start choice quantum) ops) :=
  (ResOK.after_ops ops _ (ResOK.at_menu choice quantum) hops).conserved

/-! ## C35: conservation of the scheduler resources -/

/-- C35 evaluated on the code: `create_process` accepts a request of `-3` memory blocks
(it only rejects more than `MAX_MEMORY_BLOCKS`); when the scheduler starts the process,
`request_resources` subtracts `-3` from what is available, so 7 blocks are available out of
a total of 4 and the process holds `-3`. The sums still add up to the totals; the bound
`available.memory_blocks ≤ total.memory_blocks` does not hold. -/
theorem available_memory_above_total :
    (create_process (start 1 0) 5 1 (-3)).1 = 1 ∧
    (procAt negative_request_state 0).state = ProcessState.RUNNING ∧
    negative_request_state.total.memory_blocks = 4 ∧
    negative_request_state.available.memory_blocks = 7 ∧
    (procAt negative_request_state 0).allocated.memory_blocks = -3 ∧
    negative_request_state.available.cpu + allocated_cpu negative_request_state =
      negative_request_state.total.cpu ∧
    negative_request_state.available.memory_blocks + allocated_memory negative_request_state =
      negative_request_state.total.memory_blocks ∧
    ¬ ResourcesConserved negative_request_state := by
  have h : (create_process (start 1 0) 5 1 (-3)).1 = 1 ∧
      (procAt negative_request_state 0).state = ProcessState.RUNNING ∧
      negative_request_state.total.memory_blocks = 4 ∧
      negative_request_state.available.memory_blocks = 7 ∧
      (procAt negative_request_state 0).allocated.memory_blocks = -3 ∧
      negative_request_state.available.cpu + allocated_cpu negative_request_state =
        negative_request_state.total.cpu ∧
      negative_request_state.available.memory_blocks +
          allocated_memory negative_request_state =
        negative_request_state.total.memory_blocks := by
    set_option maxRecDepth 100000 in decide
  obtain ⟨a1, a2, a3, a4, a5, a6, a7⟩ := h
  refine ⟨a1, a2, a3, a4, a5, a6, a7, ?_⟩
  intro hc
  have := hc.2.2.2.2.2
  rw [a3, a4] at this
  exact absurd this (by decide)

/-! ## C36: a single running process -/

/-- The state `init_system` builds satisfies the scheduler invariant and has no
semaphore. -/
theorem init_system_ok : SchedOK init_system ∧ init_system.semaphore_count = 0 := by
  unfold init_system
  refine ⟨SchedOK.of_same ?_ (same_add_log _ _ _), (same_add_log _ _ _).keeps.sems⟩
  refine ⟨by decide, by decide, by decide, ?_, rfl, ?_, ?_⟩
  · intro i i0 i1
    have : i < 0 := i1
    omega
  · intro i i0 i1
    have : i < 0 := i1
    omega
  · intro hr
    exact absurd rfl hr

theorem listed_not_new_semaphore (ops : List Op) (hops : ops.all listed = true) :
    ∀ op, op ∈ ops → ∀ v, op ≠ Op.new_semaphore v := by
  intro op hop v hv
  have h := List.all_eq_true.1 hops op hop
  rw [hv] at h
  exact Bool.noConfusion h

/-- C36. In every state of the process simulator reached from `init_system` (directly, or
through the algorithm menu `select_algorithm` that `main` shows once after it, whatever
the user types there) by `create_process`, `execute_step`, `suspend_process`,
`resume_process`, `terminate_process`, `wait_semaphore` and `signal_semaphore`, at most one
process has state `RUNNING`, and `running_pid` is `-1` when no process is `RUNNING` and
otherwise is the pid of the one `RUNNING` process. -/
theorem single_running_process (choice quantum : Int) (ops : List Op)
    (hops : ops.all listed = true) :
    SingleRunning (run init_system ops) ∧ SingleRunning (run (start choice quantum) ops) := by
  have hl := listed_not_new_semaphore ops hops
  obtain ⟨a, b⟩ := init_system_ok
  obtain ⟨c, d⟩ := start_ok choice quantum
  exact ⟨(run_ok_without_semaphores ops _ a b hl).1.single_running,
    (run_ok_without_semaphores ops _ c d hl).1.single_running⟩

/-- Instance of C36: after `listed_run` under Round Robin with quantum 1, process 2 is the
one `RUNNING` process and `running_pid` is 2. -/
theorem single_running_process_witness :
    (SingleRunning (run init_system listed_run) ∧
      SingleRunning (run (start 2 1) listed_run)) ∧
    (run (start 2 1) listed_run).process_count = 2 ∧
    (procAt (run (start 2 1) listed_run) 0).state = ProcessState.READY ∧
    (procAt (run (start 2 1) listed_run) 1).state = ProcessState.RUNNING ∧
    (run (start 2 1) listed_run).running_pid = 2 :=
  ⟨single_running_process 2 1 listed_run (by decide),
    by set_option maxRecDepth 100000 in decide⟩

/-- Outside the operations of C36: once `create_semaphore` (which `listed` excludes) has
created a semaphore, `wait_semaphore` sets the running process 1 to `WAITING` and leaves
`running_pid` as it is (`suspend_process` sets it to `-1` in the same situation), so the
table has one process, which is not `RUNNING`, while `running_pid` is 1. Two more steps of
the scheduler change neither: the process does not advance and the CPU stays assigned to
it. -/
theorem running_pid_without_running_process :
    (run (start 1 0) [Op.create 5 1 1, Op.execute]).running_pid = 1 ∧
    (procAt (run (start 1 0) [Op.create 5 1 1, Op.execute]) 0).state =
      ProcessState.RUNNING ∧
    blocked_running_state.process_count = 1 ∧
    (procAt blocked_running_state 0).pid = 1 ∧
    (procAt blocked_running_state 0).state = ProcessState.WAITING ∧
    blocked_running_state.running_pid = 1 ∧
    (run blocked_running_state [Op.execute, Op.execute]).running_pid = 1 ∧
    (procAt (run blocked_running_state [Op.execute, Op.execute]) 0).state =
      ProcessState.WAITING ∧
    (procAt (run blocked_running_state [Op.execute, Op.execute]) 0).remaining_time = 5 ∧
    (run blocked_running_state [Op.execute, Op.execute]).available.cpu = 0 ∧
    ¬ SingleRunning blocked_running_state := by
  have h : (run (start 1 0) [Op.create 5 1 1, Op.execute]).running_pid = 1 ∧
      (procAt (run (start 1 0) [Op.create 5 1 1, Op.execute]) 0).state =
        ProcessState.RUNNING ∧
      blocked_running_state.process_count = 1 ∧
      (procAt blocked_running_state 0).pid = 1 ∧
      (procAt blocked_running_state 0).state = ProcessState.WAITING ∧
      blocked_running_state.running_pid = 1 ∧
      (run blocked_running_state [Op.execute, Op.execute]).running_pid = 1 ∧
      (procAt (run blocked_running_state [Op.execute, Op.execute]) 0).state =
        ProcessState.WAITING ∧
      (procAt (run blocked_running_state [Op.execute, Op.execute]) 0).remaining_time = 5 ∧
      (run blocked_running_state [Op.execute, Op.execute]).available.cpu = 0 := by
    set_option maxRecDepth 100000 in decide
  obtain ⟨a1, a2, a3, a4, a5, a6, a7, a8, a9, a10⟩ := h
  refine ⟨a1, a2, a3, a4, a5, a6, a7, a8, a9, a10, ?_⟩
  intro hc
  have hnone : ∀ i, 0 ≤ i → i < blocked_running_state.process_count →
      (procAt blocked_running_state i).state ≠ ProcessState.RUNNING := by
    intro i h0 h1
    rw [a3] at h1
    have hi : i = 0 := by omega
    rw [hi, a5]
    decide
  have := hc.2.1 hnone
  rw [a6] at this
  exact absurd this (by decide)

/-! ## C37: semaphore accounting -/

/-- C37 evaluated on the code: `wait_semaphore` decrements the value before it looks up
the pid, and enters the pid in the waiting list only when the process exists; after a wait
with the unknown pid 99 the value is `-1` and `waiting_count` is 0, not
`max(0, -value) = 1`. The waiting list is not guarded either: after 50 waits of process 1
`waiting_count` is 50, the length of `waiting_pids`, the value is `-50` and process 1 is in
the table, so one more wait takes the branch that writes `waiting_pids[50]`. -/
theorem waiting_count_not_matching_value :
    (create_semaphore (start 1 0) 0).1 = 0 ∧
    unknown_waiter_state.process_count = 0 ∧
    find_process_by_pid (run (start 1 0) [Op.new_semaphore 0]) 99 = -1 ∧
    (semAt unknown_waiter_state 0).value = -1 ∧
    (semAt unknown_waiter_state 0).waiting_count = 0 ∧
    (semAt unknown_waiter_state 0).waiting_count ≠
      max 0 (-(semAt unknown_waiter_state 0).value) ∧
    (semAt full_waiting_list_state 0).value = -50 ∧
    (semAt full_waiting_list_state 0).waiting_count = 50 ∧
    ((semAt full_waiting_list_state 0).waiting_pids.length : Int) = MAX_PROCESSES ∧
    find_process_by_pid full_waiting_list_state 1 ≠ -1 := by
  set_option maxRecDepth 100000 in decide

end ProcSim
